import Mathlib

/-!
# MG-PICOLA particle-mesh core (`auxPM.c`, `readICfromfile.h`): a shallow embedding

The routines `MoveParticles`, `PtoMesh`, `Forces` and `MtoParticles` of
`src/auxPM.c` and the particle-file readers of `src/readICfromfile.h` are
translated into executable Lean definitions and the properties of the
specification are stated and proved about them.

Modelling conventions.

* `double` / `float_kind` values are exact rationals (`ℚ`); rounding is not
  modelled.
* An MPI run of `NTask` processes is a family of per-task values indexed by the
  rank.  The globals that differ between ranks (`LeftTask`, `RightTask`,
  `Local_nx`, `Local_x_start`) are functions of the rank, `MPI_PROC_NULL` is
  `none`, and the replicated tables `Slab_to_task`, `Local_np_table` are total
  functions that the code reads inside their bounds.
* A blocking `MPI_Sendrecv` receives from the named source what that source
  sends in the matching call; a round of `MoveParticles` in which some message has
  no matching peer has no outcome (`Err.protocol`).
* The live part `P[0 .. NumPart)` of the particle array is a list, so `NumPart`
  is its length.
* Flat grid indices are natural numbers: the grids are taken to have fewer than
  `2^32` real elements (the `unsigned int` loop that initialises `density` needs
  it), so the 32-bit index arithmetic does not wrap.  The one `unsigned`
  subtraction that can wrap, `IX -= Local_x_start`, is modelled with its wrap.
* The transforms of FFTW and the function `growth_DLCDM` are outside these
  files; the grids they produce and the function are parameters.  An `int`
  product that can overflow (`Nmesh*Nmesh*Nmesh`) wraps as in two's complement.
* The content of a particle file is the list of the stored coordinates; the
  read buffer is a function of the element index.
-/

namespace PICOLA

/-! ## Data model (`vars.h`) -/

/-- Three `float_kind` components. -/
abbrev Vec3 := ℚ × ℚ × ℚ

/-- Particle record `struct part_data`; `Pos[0]` is `Pos.1`, `Pos[1]` is `Pos.2.1`,
`Pos[2]` is `Pos.2.2`. -/
structure part_data where
  ID : Nat
  Dz : Vec3
  D2 : Vec3
  Pos : Vec3
  Vel : Vec3
deriving DecidableEq

/-- Global simulation variables of `vars.h`.  Variables whose value depends on the
rank are functions of the rank. -/
structure Config where
  NTask : Nat
  Nmesh : Nat
  Nsample : Nat
  Box : ℚ
  Buffer : ℚ
  Slab_to_task : Nat → Nat
  Local_np_table : Nat → Nat
  Local_nx : Nat → Nat
  Local_x_start : Nat → Nat
  LeftTask : Nat → Option Nat
  RightTask : Nat → Option Nat
  modified_gravity_active : Bool

/-- The number of particle-grid slices of a rank: `Local_np` is the rank's own entry of
`Local_np_table` (documented so in `vars.h`). -/
def Local_np (c : Config) (T : Nat) : Nat := c.Local_np_table T

/-- The factor `scaleBox = (double)Nmesh/Box`. -/
def scaleBox (c : Config) : ℚ := (c.Nmesh : ℚ) / c.Box

/-- The cast `(int)x` of a double: truncation toward zero. -/
def toInt (x : ℚ) : Int := if 0 ≤ x then ⌊x⌋ else ⌈x⌉

/-- The cast `(unsigned int)x` of a non-negative double (a negative argument is undefined
in C and gives `0` here). -/
def toUInt (x : ℚ) : Nat := Int.toNat ⌊x⌋

/-- Modelled from the spec: `alloc_slice`, the number of complex elements in one X slice of
a grid, `Nmesh` rows of `Nmesh/2+1` complex values (it is set in `main.c`). -/
def alloc_slice (c : Config) : Nat := c.Nmesh * (c.Nmesh / 2 + 1)

/-- Modelled from the spec: `last_slice`, the complex offset of the halo slice, which is
stored right after the `Local_nx` owned slices (it is set in `main.c`). -/
def last_slice (c : Config) (T : Nat) : Nat := c.Local_nx T * alloc_slice c

/-- Modelled from the spec: `Total_size`, the complex size of a local grid, the owned
slices and one extra halo slice (it is set in `main.c`, where FFTW may ask for more). -/
def Total_size (c : Config) (T : Nat) : Nat := (c.Local_nx T + 1) * alloc_slice c

/-! ## `MoveParticles` -/

/-- Ways in which a run of `MoveParticles` fails to produce a result. -/
inductive Err where
  | sendLeftOverflow (task : Nat)
  | sendRightOverflow (task : Nat)
  | recvOverflow (task : Nat)
  | diverges
  | protocol
deriving DecidableEq

deriving instance DecidableEq for Except

/-- One step to the left on the ring: `neighbour--; if (neighbour < 0) neighbour += NTask;`. -/
def stepLeft (c : Config) (neighbour : Nat) : Nat :=
  if neighbour = 0 then c.NTask - 1 else neighbour - 1

/-- One step to the right on the ring:
`neighbour++; if (neighbour >= NTask) neighbour -= NTask;`. -/
def stepRight (c : Config) (neighbour : Nat) : Nat :=
  if neighbour + 1 ≥ c.NTask then neighbour + 1 - c.NTask else neighbour + 1

/-- The `do … while (Slab_to_task[X] != neighbour)` loop that counts `procdiff_left`;
`none` when the loop has not stopped after `fuel` iterations. -/
def hopLoopLeft (c : Config) (dest : Nat) : Nat → Nat → Nat → Option Nat
  | 0, _, _ => none
  | fuel + 1, neighbour, procdiff =>
    let procdiff1 := procdiff + 1
    let neighbour1 := stepLeft c neighbour
    let procdiff2 := if c.Local_np_table neighbour1 = 0 then procdiff1 - 1 else procdiff1
    if dest ≠ neighbour1 then hopLoopLeft c dest fuel neighbour1 procdiff2
    else some procdiff2

/-- The `do … while (Slab_to_task[X] != neighbour)` loop that counts `procdiff_right`. -/
def hopLoopRight (c : Config) (dest : Nat) : Nat → Nat → Nat → Option Nat
  | 0, _, _ => none
  | fuel + 1, neighbour, procdiff =>
    let procdiff1 := procdiff + 1
    let neighbour1 := stepRight c neighbour
    let procdiff2 := if c.Local_np_table neighbour1 = 0 then procdiff1 - 1 else procdiff1
    if dest ≠ neighbour1 then hopLoopRight c dest fuel neighbour1 procdiff2
    else some procdiff2

/-- The value of `procdiff_left` for a particle on rank `T` bound for `dest`.  The walk
comes back to its start after `NTask` steps, so `NTask` iterations decide whether the loop
of the source stops; `none` stands for a loop that does not. -/
def procdiff_left (c : Config) (T dest : Nat) : Option Nat :=
  hopLoopLeft c dest c.NTask T 0

/-- The value of `procdiff_right` for a particle on rank `T` bound for `dest`. -/
def procdiff_right (c : Config) (T dest : Nat) : Option Nat :=
  hopLoopRight c dest c.NTask T 0

/-- The `do … while (neighbour_count != j)` loop that finds `neighbour_left` in a round
`j > 1`; `none` when the loop has not stopped after `fuel` iterations. -/
def nbrLoopLeft (c : Config) (j : Nat) : Nat → Nat → Nat → Option Nat
  | 0, _, _ => none
  | fuel + 1, neighbour, count =>
    let neighbour1 := stepLeft c neighbour
    let count1 := count + 1
    let count2 := if c.Local_np_table neighbour1 = 0 then count1 - 1 else count1
    if count2 ≠ j then nbrLoopLeft c j fuel neighbour1 count2
    else some neighbour1

/-- The `do … while (neighbour_count != j)` loop that finds `neighbour_right`. -/
def nbrLoopRight (c : Config) (j : Nat) : Nat → Nat → Nat → Option Nat
  | 0, _, _ => none
  | fuel + 1, neighbour, count =>
    let neighbour1 := stepRight c neighbour
    let count1 := count + 1
    let count2 := if c.Local_np_table neighbour1 = 0 then count1 - 1 else count1
    if count2 ≠ j then nbrLoopRight c j fuel neighbour1 count2
    else some neighbour1

/-- The bound `send_count_max = (int)(ceil(Local_np*Nsample*Nsample*(Buffer-1.0)))`. -/
def send_count_max (c : Config) (T : Nat) : Int :=
  ⌈((Local_np c T : ℚ) * c.Nsample * c.Nsample * (c.Buffer - 1))⌉

/-- The slab index `X = (int)(P[i].Pos[0]*scaleBox)` of a particle. -/
def slabX (c : Config) (p : part_data) : Int := toInt (p.Pos.1 * scaleBox c)

/-- The rank `Slab_to_task[X]` that owns the particle (a negative `X`, an out-of-bounds
read in C, reads entry 0 here). -/
def destTask (c : Config) (p : part_data) : Nat := c.Slab_to_task (slabX c p).toNat

/-- The statement pair `P[i] = P[NumPart-1]; NumPart--;` on the live part of the array. -/
def swapRemove (P : List part_data) (i : Nat) : List part_data :=
  match P.getLast? with
  | none => P
  | some last => (P.set i last).dropLast

/-- The local variables of a task that the classification loop changes. -/
structure Sel where
  P : List part_data
  P_send_left : List part_data
  P_send_right : List part_data
  procdiffmax : Nat

/-- The loop `for (i = 0; i < NumPart; i++)` of round `j` on rank `T`, started at index `i`
and run for at most `fuel` iterations.  An iteration either advances `i` or removes one
particle, so `NumPart - i` iterations are enough. -/
def classify (c : Config) (T j : Nat) : Nat → Nat → Sel → Except Err Sel
  | 0, i, s => if i < s.P.length then .error Err.diverges else .ok s
  | fuel + 1, i, s =>
    match s.P.get? i with
    | none => .ok s
    | some p =>
      if destTask c p ≠ T then
        match procdiff_left c T (destTask c p), procdiff_right c T (destTask c p) with
        | some pl, some pr =>
          if pl ≠ 0 ∨ pr ≠ 0 then
            if pl ≤ pr then
              let pm := if j = 1 ∧ pl > s.procdiffmax then pl else s.procdiffmax
              if pl = j then
                let sl := s.P_send_left ++ [p]
                if (sl.length : Int) ≥ send_count_max c T then .error (Err.sendLeftOverflow T)
                else classify c T j fuel i
                  { P := swapRemove s.P i, P_send_left := sl,
                    P_send_right := s.P_send_right, procdiffmax := pm }
              else classify c T j fuel (i + 1) { s with procdiffmax := pm }
            else
              let pm := if j = 1 ∧ pr > s.procdiffmax then pr else s.procdiffmax
              if pr = j then
                let sr := s.P_send_right ++ [p]
                if (sr.length : Int) ≥ send_count_max c T then .error (Err.sendRightOverflow T)
                else classify c T j fuel i
                  { P := swapRemove s.P i, P_send_left := s.P_send_left,
                    P_send_right := sr, procdiffmax := pm }
              else classify c T j fuel (i + 1) { s with procdiffmax := pm }
          else classify c T j fuel (i + 1) s
        | _, _ => .error Err.diverges
      else classify c T j fuel (i + 1) s

/-- What a task carries from one round to the next: the live particles and the local
variable `procdiffmax`. -/
structure TaskState where
  P : List part_data
  procdiffmax : Nat

/-- The first part of round `j` on rank `T`: the send buffers are emptied and, when
`j <= procdiffmax`, the classification loop runs. -/
def select (c : Config) (T j : Nat) (t : TaskState) : Except Err Sel :=
  let s0 : Sel := { P := t.P, P_send_left := [], P_send_right := [], procdiffmax := t.procdiffmax }
  if j ≤ t.procdiffmax then classify c T j t.P.length 0 s0 else .ok s0

/-- The value of `neighbour_left` in round `j` on rank `T` (`none` is `MPI_PROC_NULL`);
the outer `none` means that the neighbour walk does not stop.  A lap of the ring that
counts no task never will, so `j` laps decide whether the loop of the source stops. -/
def neighbour_left (c : Config) (T j : Nat) : Option (Option Nat) :=
  if j = 1 then some (c.LeftTask T)
  else if Local_np c T = 0 then some none
  else (nbrLoopLeft c j (j * c.NTask) T 0).map some

/-- The value of `neighbour_right` in round `j` on rank `T`. -/
def neighbour_right (c : Config) (T j : Nat) : Option (Option Nat) :=
  if j = 1 then some (c.RightTask T)
  else if Local_np c T = 0 then some none
  else (nbrLoopRight c j (j * c.NTask) T 0).map some

/-- The outcome of the first half of a round on one task: the selection and the two
peers. -/
structure Posted where
  sel : Sel
  left : Option Nat
  right : Option Nat

/-- The first half of round `j` on rank `T`, up to the point where the peers are known. -/
def post (c : Config) (T j : Nat) (t : TaskState) : Except Err Posted :=
  match select c T j t with
  | .error e => .error e
  | .ok s =>
    match neighbour_left c T j, neighbour_right c T j with
    | some l, some r => .ok { sel := s, left := l, right := r }
    | _, _ => .error Err.diverges

/-- Runs `post` on the ranks `T, T+1, …` of a list of task states. -/
def postAll (c : Config) (j : Nat) : Nat → List TaskState → Except Err (List Posted)
  | _, [] => .ok []
  | T, t :: ts =>
    match post c T j t with
    | .error e => .error e
    | .ok p =>
      match postAll c j (T + 1) ts with
      | .error e => .error e
      | .ok ps => .ok (p :: ps)

/-- A message of rank `T` to the peer `mine` is matched: the peer is a rank and names `T`
as its peer on the other side. -/
def peerOK (n : Nat) (mine : Option Nat) (theirs : Nat → Option Nat) (T : Nat) : Bool :=
  match mine with
  | none => true
  | some q => decide (q < n) && (theirs q == some T)

/-- The peer named by rank `T` on the left (`MPI_PROC_NULL` outside the list). -/
def leftOf (ps : List Posted) (T : Nat) : Option Nat :=
  match ps.get? T with
  | none => none
  | some p => p.left

/-- The peer named by rank `T` on the right. -/
def rightOf (ps : List Posted) (T : Nat) : Option Nat :=
  match ps.get? T with
  | none => none
  | some p => p.right

/-- Every `MPI_Sendrecv` of the round has its matching call on the peer. -/
def paired (ps : List Posted) : Bool :=
  (List.range ps.length).all fun T =>
    peerOK ps.length (leftOf ps T) (rightOf ps) T && peerOK ps.length (rightOf ps T) (leftOf ps) T

/-- The particles received from `neighbour_right`: its left send buffer. -/
def recvRight (ps : List Posted) (p : Posted) : List part_data :=
  match p.right with
  | none => []
  | some r =>
    match ps.get? r with
    | none => []
    | some q => q.sel.P_send_left

/-- The particles received from `neighbour_left`: its right send buffer. -/
def recvLeft (ps : List Posted) (p : Posted) : List part_data :=
  match p.left with
  | none => []
  | some l =>
    match ps.get? l with
    | none => []
    | some q => q.sel.P_send_right

/-- The second half of a round on rank `T`: the capacity check and the append of the
received particles behind the retained ones. -/
def receive (c : Config) (ps : List Posted) (T : Nat) (p : Posted) : Except Err TaskState :=
  if (((p.sel.P.length + (recvLeft ps p).length + (recvRight ps p).length : Nat) : ℚ)
      > (Local_np c T : ℚ) * c.Nsample * c.Nsample * c.Buffer) then .error (Err.recvOverflow T)
  else .ok { P := p.sel.P ++ recvRight ps p ++ recvLeft ps p, procdiffmax := p.sel.procdiffmax }

/-- Runs `receive` on the ranks `T, T+1, …`. -/
def receiveAll (c : Config) (ps : List Posted) : Nat → List Posted → Except Err (List TaskState)
  | _, [] => .ok []
  | T, p :: rest =>
    match receive c ps T p with
    | .error e => .error e
    | .ok t =>
      match receiveAll c ps (T + 1) rest with
      | .error e => .error e
      | .ok ts => .ok (t :: ts)

/-- One pass of the body of `for (j = 1; j <= procdiffmaxglob; j++)` on all tasks. -/
def round (c : Config) (j : Nat) (ts : List TaskState) : Except Err (List TaskState) :=
  match postAll c j 0 ts with
  | .error e => .error e
  | .ok ps => if paired ps then receiveAll c ps 0 ps else .error Err.protocol

/-- The result of `MPI_Allreduce(&procdiffmax, &procdiffmaxglob, 1, MPI_INT, MPI_MAX, …)`. -/
def procdiffmaxglob (ts : List TaskState) : Nat :=
  (ts.map fun t => t.procdiffmax).foldl max 0

/-- The rounds `j, j+1, …, j+n-1`. -/
def rounds (c : Config) : Nat → Nat → List TaskState → Except Err (List TaskState)
  | 0, _, ts => .ok ts
  | n + 1, j, ts =>
    match round c j ts with
    | .error e => .error e
    | .ok ts1 => rounds c n (j + 1) ts1

/-- The state of the tasks at entry: the given particles and `procdiffmax = 1`. -/
def initial (Ps : List (List part_data)) : List TaskState :=
  Ps.map fun P => { P := P, procdiffmax := 1 }

/-- The routine `MoveParticles` on all tasks: round 1, the all-reduce that fixes the number
of rounds, then the rounds `2 … procdiffmaxglob`.  The result is the particle array of
every task. -/
def MoveParticles (c : Config) (Ps : List (List part_data)) : Except Err (List (List part_data)) :=
  match round c 1 (initial Ps) with
  | .error e => .error e
  | .ok ts1 =>
    match rounds c (procdiffmaxglob ts1 - 1) 2 ts1 with
    | .error e => .error e
    | .ok ts => .ok (ts.map fun t => t.P)

/-! ## `PtoMesh` -/

/-- A real grid (`density`, `N11`, …) addressed by its flat index. -/
abbrev Grid := Nat → ℚ

/-- The statement `g[i] += w`. -/
def addAt (g : Grid) (i : Nat) (w : ℚ) : Grid := fun n => if n = i then g n + w else g n

/-- The flat index `(IX*Nmesh+IY)*2*(Nmesh/2+1)+IZ` of a cell of a real grid. -/
def gridIndex (c : Config) (IX IY IZ : Nat) : Nat :=
  (IX * c.Nmesh + IY) * 2 * (c.Nmesh / 2 + 1) + IZ

/-- The deposition weight `WPAR = pow((double)Nmesh / (double)Nsample, 3)`. -/
def WPAR (c : Config) : ℚ := ((c.Nmesh : ℚ) / (c.Nsample : ℚ)) ^ 3

/-- Subtraction of `unsigned int` values, with its wrap-around. -/
def usub32 (a b : Nat) : Nat := if b ≤ a then a - b else a + 2 ^ 32 - b

/-- The increment of an `unsigned int` value, with its wrap-around. -/
def uinc32 (a : Nat) : Nat := if a + 1 = 2 ^ 32 then 0 else a + 1

/-- The cell indices and weights that `PtoMesh` computes for one particle, at the point
where the eight `+=` statements start (so `TY` and `DY` are already multiplied by `WPAR`). -/
structure Stencil where
  IX : Nat
  IY : Nat
  IZ : Nat
  IXneigh : Nat
  IYneigh : Nat
  IZneigh : Nat
  TX : ℚ
  TY : ℚ
  TZ : ℚ
  DX : ℚ
  DY : ℚ
  DZ : ℚ

/-- The body of the particle loop of `PtoMesh` on rank `T`, up to the deposit. -/
def PtoMesh_stencil (c : Config) (T : Nat) (p : part_data) : Stencil :=
  let X := p.Pos.1 * scaleBox c
  let Y := p.Pos.2.1 * scaleBox c
  let Z := p.Pos.2.2 * scaleBox c
  let IX := toUInt X
  let IY := toUInt Y
  let IZ := toUInt Z
  let DX := X - (IX : ℚ)
  let DY := Y - (IY : ℚ)
  let DZ := Z - (IZ : ℚ)
  let TX := 1 - DX
  let TY := 1 - DY
  let TZ := 1 - DZ
  let DY := DY * WPAR c
  let TY := TY * WPAR c
  let IX := usub32 IX (c.Local_x_start T)
  let IY := if IY ≥ c.Nmesh then 0 else IY
  let IZ := if IZ ≥ c.Nmesh then 0 else IZ
  let IXneigh := uinc32 IX
  let IYneigh := IY + 1
  let IZneigh := IZ + 1
  let IYneigh := if IYneigh ≥ c.Nmesh then 0 else IYneigh
  let IZneigh := if IZneigh ≥ c.Nmesh then 0 else IZneigh
  { IX := IX, IY := IY, IZ := IZ, IXneigh := IXneigh, IYneigh := IYneigh, IZneigh := IZneigh,
    TX := TX, TY := TY, TZ := TZ, DX := DX, DY := DY, DZ := DZ }

/-- The eight cells written for a stencil, in the order of the source, each with the weight
added to it. -/
def Stencil.writes (s : Stencil) : List ((Nat × Nat × Nat) × ℚ) :=
  [((s.IX, s.IY, s.IZ), s.TX * s.TY * s.TZ),
   ((s.IX, s.IY, s.IZneigh), s.TX * s.TY * s.DZ),
   ((s.IX, s.IYneigh, s.IZ), s.TX * s.DY * s.TZ),
   ((s.IX, s.IYneigh, s.IZneigh), s.TX * s.DY * s.DZ),
   ((s.IXneigh, s.IY, s.IZ), s.DX * s.TY * s.TZ),
   ((s.IXneigh, s.IY, s.IZneigh), s.DX * s.TY * s.DZ),
   ((s.IXneigh, s.IYneigh, s.IZ), s.DX * s.DY * s.TZ),
   ((s.IXneigh, s.IYneigh, s.IZneigh), s.DX * s.DY * s.DZ)]

/-- The eight statements `density[…] += …` for one particle. -/
def PtoMesh_deposit (c : Config) (T : Nat) (density : Grid) (p : part_data) : Grid :=
  (PtoMesh_stencil c T p).writes.foldl
    (fun d w => addAt d (gridIndex c w.1.1 w.1.2.1 w.1.2.2) w.2) density

/-- The first part of `PtoMesh` on rank `T`: `density` is set to `-1` on its `2*Total_size`
elements and every local particle is deposited.  `old` is the previous content of the
memory. -/
def PtoMesh_local (c : Config) (T : Nat) (P : List part_data) (old : Grid) : Grid :=
  P.foldl (PtoMesh_deposit c T) (fun i => if i < 2 * Total_size c T then -1 else old i)

/-- The buffer `temp_density` of rank `T` after the `MPI_Sendrecv`: zero (`calloc`) when
`LeftTask` is `MPI_PROC_NULL`, else the halo slice `density[2*last_slice …]` of the left
task, whose matching send is taken for granted.  `pre L` is the grid of rank `L` before
the exchange. -/
def temp_density (c : Config) (pre : Nat → Grid) (T : Nat) : Grid :=
  match c.LeftTask T with
  | none => fun _ => 0
  | some L => fun i => if i < 2 * alloc_slice c then pre L (2 * last_slice c L + i) else 0

/-- The merge `if (NumPart != 0) for (i < 2*alloc_slice) density[i] += (temp_density[i] + 1.0)`. -/
def PtoMesh_merge (c : Config) (NumPart : Nat) (density temp : Grid) : Grid :=
  if NumPart ≠ 0 then fun i => if i < 2 * alloc_slice c then density i + (temp i + 1) else density i
  else density

/-- The grid `density` of rank `T` when `PtoMesh` reaches the transform: deposit on every
rank, exchange of the halo slices, merge.  `Ps R` is the particle array of rank `R`. -/
def PtoMesh (c : Config) (Ps : Nat → List part_data) (old : Nat → Grid) (T : Nat) : Grid :=
  PtoMesh_merge c (Ps T).length (PtoMesh_local c T (Ps T) (old T))
    (temp_density c (fun L => PtoMesh_local c L (Ps L) (old L)) T)

/-! ## `Forces` -/

/-- A complex grid (`P3D`, `FN11`, …): element `[ind][0]` is `.1`, element `[ind][1]` is `.2`. -/
abbrev CGrid := Nat → ℚ × ℚ

/-- The three force grids. -/
structure ForceGrids where
  FN11 : CGrid
  FN12 : CGrid
  FN13 : CGrid

/-- The constant `M_PI` of `math.h` (the same literal as `PI` of `vars.h`). -/
def M_PI : ℚ := 3.14159265358979323846

/-- The factor `Scale = 2. * M_PI / Box`. -/
def Scale (c : Config) : ℚ := 2 * M_PI / c.Box

/-- The flat index `(i*Nmesh + j)*(Nmesh/2+1) + k` of an element of a complex grid. -/
def cIndex (c : Config) (i j k : Nat) : Nat := (i * c.Nmesh + j) * (c.Nmesh / 2 + 1) + k

/-- The assignments `FN11[ind] = …; FN12[ind] = …; FN13[ind] = …` at one index. -/
structure Assign where
  ind : Nat
  f11 : ℚ × ℚ
  f12 : ℚ × ℚ
  f13 : ℚ × ℚ

/-- The window factor as the loop over `axes` leaves it, before the `pow`; `sinf` stands
for the library function `sin`. -/
def Forces_window (c : Config) (sinf : ℚ → ℚ) (dd : List Int) : ℚ :=
  dd.foldl (fun g d => if d ≠ 0 then g * (sinf ((M_PI * d) / c.Nmesh) / ((M_PI * d) / c.Nmesh)) else g) 1

/-- The potential `dens` at index `ind`: the Newtonian part and, with modified gravity
active, the fifth-force part added to it. -/
def Forces_dens (c : Config) (P3D P3D_mgarray_two : CGrid) (ind : Nat) (KK grid_corr : ℚ) : ℚ × ℚ :=
  let dens0 := ((P3D ind).1 * KK * grid_corr) / (c.Nmesh : ℚ) ^ 3
  let dens1 := (-1 * (P3D ind).2 * KK * grid_corr) / (c.Nmesh : ℚ) ^ 3
  if c.modified_gravity_active then
    (dens0 + ((P3D_mgarray_two ind).1 * KK * grid_corr) / (c.Nmesh : ℚ) ^ 3,
     dens1 + (-1 * (P3D_mgarray_two ind).2 * KK * grid_corr) / (c.Nmesh : ℚ) ^ 3)
  else (dens0, dens1)

/-- The six statements `FN1c[ind][0] = dens[1] * dd[c] / Scale; FN1c[ind][1] = dens[0] * dd[c] / Scale`. -/
def Forces_solve (c : Config) (ind : Nat) (dens : ℚ × ℚ) (dd0 dd1 dd2 : Int) : Assign :=
  { ind := ind,
    f11 := (dens.2 * dd0 / Scale c, dens.1 * dd0 / Scale c),
    f12 := (dens.2 * dd1 / Scale c, dens.1 * dd1 / Scale c),
    f13 := (dens.2 * dd2 / Scale c, dens.1 * dd2 / Scale c) }

/-- The X wavenumber `dd[0] = iglobal > Nmesh/2 ? iglobal-Nmesh : iglobal`. -/
def foldK (c : Config) (iglobal : Nat) : Int :=
  if iglobal > c.Nmesh / 2 then (iglobal : Int) - c.Nmesh else iglobal

/-- The body of the `k` loop of `Forces` on rank `T` at `(i, j, k)`: the assignments of the
primary mode and, for `j != Nmesh/2` and `j != 0`, those of its mirror along the y axis. -/
def Forces_body (c : Config) (T : Nat) (P3D P3D_mgarray_two : CGrid) (sinf : ℚ → ℚ)
    (i j k : Nat) : List Assign :=
  let iglobal := i + c.Local_x_start T
  let ind := cIndex c i j k
  let dd0 : Int := foldK c iglobal
  let dd1 : Int := j
  let dd2 : Int := k
  let RK : ℚ := ((dd0 * dd0 + dd1 * dd1 + dd2 * dd2 : Int) : ℚ)
  let KK : ℚ := -1 / RK
  let grid_corr := (1 / Forces_window c sinf [dd0, dd1, dd2]) ^ 4
  let grid_corr := (fun (_ : ℚ) => (1 : ℚ)) grid_corr
  let primary := Forces_solve c ind (Forces_dens c P3D P3D_mgarray_two ind KK grid_corr) dd0 dd1 dd2
  if j ≠ c.Nmesh / 2 ∧ j ≠ 0 then
    let ind := cIndex c i (c.Nmesh - j) k
    let dd1 : Int := -(j : Int)
    [primary, Forces_solve c ind (Forces_dens c P3D P3D_mgarray_two ind KK grid_corr) dd0 dd1 dd2]
  else [primary]

/-- The body of the `j` loop of `Forces`: the `(0,0,0)` mode is set to zero when
`iglobal == 0` and `j == 0`, and the `k` loop starts at `kmin`. -/
def Forces_row (c : Config) (T : Nat) (P3D P3D_mgarray_two : CGrid) (sinf : ℚ → ℚ)
    (i j : Nat) : List Assign :=
  let iglobal := i + c.Local_x_start T
  let dc : List Assign :=
    if iglobal = 0 ∧ j = 0 then [{ ind := 0, f11 := (0, 0), f12 := (0, 0), f13 := (0, 0) }] else []
  let kmin := if iglobal = 0 ∧ j = 0 then 1 else 0
  dc ++ (List.range' kmin (c.Nmesh / 2 + 1 - kmin)).flatMap (Forces_body c T P3D P3D_mgarray_two sinf i j)

/-- All assignments to the force grids that the loop nest of `Forces` makes on rank `T`, in
the order in which it makes them. -/
def Forces_assignments (c : Config) (T : Nat) (P3D P3D_mgarray_two : CGrid) (sinf : ℚ → ℚ) :
    List Assign :=
  (List.range (c.Local_nx T)).flatMap fun i =>
    (List.range (c.Nmesh / 2 + 1)).flatMap fun j => Forces_row c T P3D P3D_mgarray_two sinf i j

/-- One assignment carried out on the three grids. -/
def ForceGrids.store (F : ForceGrids) (a : Assign) : ForceGrids :=
  { FN11 := Function.update F.FN11 a.ind a.f11,
    FN12 := Function.update F.FN12 a.ind a.f12,
    FN13 := Function.update F.FN13 a.ind a.f13 }

/-- The k-space loop nest of `Forces` on rank `T`, from the grids `F` it finds. -/
def Forces_kspace (c : Config) (T : Nat) (P3D P3D_mgarray_two : CGrid) (sinf : ℚ → ℚ)
    (F : ForceGrids) : ForceGrids :=
  (Forces_assignments c T P3D P3D_mgarray_two sinf).foldl ForceGrids.store F

/-! ## `Forces`: the exchange of the halo slice -/

/-- The memory of the three force grids after the inverse transforms, read as real grids
`N11`, `N12`, `N13`. -/
structure RealForceGrids where
  N11 : Grid
  N12 : Grid
  N13 : Grid

/-- One `MPI_Sendrecv(&(N[0]), 2*alloc_slice…, LeftTask, 0, &(N[2*last_slice]),
2*alloc_slice…, RightTask, 0, …)` on rank `T`: the `2*alloc_slice` elements that start at
`N[2*last_slice]` receive the elements `N[0 …]` of the right task, whose matching send is
taken for granted; nothing is received when `RightTask` is `MPI_PROC_NULL`.  `pre R` is the
grid of rank `R` before the exchange. -/
def Forces_sendrecv (c : Config) (pre : Nat → Grid) (T : Nat) : Grid :=
  match c.RightTask T with
  | none => pre T
  | some R => fun i =>
    if 2 * last_slice c T ≤ i ∧ i < 2 * last_slice c T + 2 * alloc_slice c
    then pre R (i - 2 * last_slice c T) else pre T i

/-- The three exchanges at the end of `Forces`, for `N11`, `N12` and `N13`. -/
def Forces_exchange (c : Config) (pre : Nat → RealForceGrids) (T : Nat) : RealForceGrids :=
  { N11 := Forces_sendrecv c (fun R => (pre R).N11) T,
    N12 := Forces_sendrecv c (fun R => (pre R).N12) T,
    N13 := Forces_sendrecv c (fun R => (pre R).N13) T }

/-! ## `MtoParticles` -/

/-- The body of the particle loop of `MtoParticles` on rank `T`, up to the interpolation;
here `WPAR = 1`. -/
def MtoParticles_stencil (c : Config) (T : Nat) (p : part_data) : Stencil :=
  let WPAR : ℚ := 1
  let X := p.Pos.1 * scaleBox c
  let Y := p.Pos.2.1 * scaleBox c
  let Z := p.Pos.2.2 * scaleBox c
  let IX := toUInt X
  let IY := toUInt Y
  let IZ := toUInt Z
  let DX := X - (IX : ℚ)
  let DY := Y - (IY : ℚ)
  let DZ := Z - (IZ : ℚ)
  let TX := 1 - DX
  let TY := 1 - DY
  let TZ := 1 - DZ
  let DY := DY * WPAR
  let TY := TY * WPAR
  let IX := usub32 IX (c.Local_x_start T)
  let IY := if IY ≥ c.Nmesh then 0 else IY
  let IZ := if IZ ≥ c.Nmesh then 0 else IZ
  let IXneigh := uinc32 IX
  let IYneigh := IY + 1
  let IZneigh := IZ + 1
  let IYneigh := if IYneigh ≥ c.Nmesh then 0 else IYneigh
  let IZneigh := if IZneigh ≥ c.Nmesh then 0 else IZneigh
  { IX := IX, IY := IY, IZ := IZ, IXneigh := IXneigh, IYneigh := IYneigh, IZneigh := IZneigh,
    TX := TX, TY := TY, TZ := TZ, DX := DX, DY := DY, DZ := DZ }

/-- The right-hand side of `Disp[a][i] = N[…]*TX*TY*TZ + … + N[…]*DX*DY*DZ` for the force
grid `N`. -/
def MtoParticles_interp (c : Config) (N : Grid) (s : Stencil) : ℚ :=
  N (gridIndex c s.IX s.IY s.IZ) * s.TX * s.TY * s.TZ +
  N (gridIndex c s.IX s.IY s.IZneigh) * s.TX * s.TY * s.DZ +
  N (gridIndex c s.IX s.IYneigh s.IZ) * s.TX * s.DY * s.TZ +
  N (gridIndex c s.IX s.IYneigh s.IZneigh) * s.TX * s.DY * s.DZ +
  N (gridIndex c s.IXneigh s.IY s.IZ) * s.DX * s.TY * s.TZ +
  N (gridIndex c s.IXneigh s.IY s.IZneigh) * s.DX * s.TY * s.DZ +
  N (gridIndex c s.IXneigh s.IYneigh s.IZ) * s.DX * s.DY * s.TZ +
  N (gridIndex c s.IXneigh s.IYneigh s.IZneigh) * s.DX * s.DY * s.DZ

/-- The arrays `Disp[0..2][i]`, `i < NumPart`, (one `Vec3` for every particle) and the
array `sumDxyz`. -/
structure MtoState where
  Disp : List Vec3
  sumDxyz : Vec3

/-- One pass of the particle loop of `MtoParticles`: the three interpolations and
`sumDxyz[axes] += Disp[axes][i]`. -/
def MtoParticles_step (c : Config) (T : Nat) (N : RealForceGrids) (st : MtoState)
    (p : part_data) : MtoState :=
  let s := MtoParticles_stencil c T p
  let d0 := MtoParticles_interp c N.N11 s
  let d1 := MtoParticles_interp c N.N12 s
  let d2 := MtoParticles_interp c N.N13 s
  { Disp := st.Disp ++ [(d0, d1, d2)],
    sumDxyz := (st.sumDxyz.1 + d0, st.sumDxyz.2.1 + d1, st.sumDxyz.2.2 + d2) }

/-- The part of `MtoParticles` before the all-reduce, on rank `T`: `sumDxyz` is set to
zero, whatever it held (`sumDxyz_old`), and the particle loop runs. -/
def MtoParticles_local (c : Config) (T : Nat) (N : RealForceGrids) (P : List part_data)
    (sumDxyz_old : Vec3) : MtoState :=
  let sumDxyz : Vec3 := (fun (_ : Vec3) => ((0, 0, 0) : Vec3)) sumDxyz_old
  P.foldl (MtoParticles_step c T N) { Disp := [], sumDxyz := sumDxyz }

/-- The result of `MPI_Allreduce(MPI_IN_PLACE, &x, 1, MPI_DOUBLE, MPI_SUM, …)` when rank
`R` contributes `x R`. -/
def allreduce_sum (c : Config) (x : Nat → ℚ) : ℚ := ((List.range c.NTask).map x).sum

/-- The routine `MtoParticles` as rank `T` sees it: the local loop on every rank, then for
every axis the all-reduce of `sumDxyz[axes]` and the division by `TotNumPart`.  `N R`,
`Ps R` and `sumDxyz_old R` are the force grids, the particles and the previous content of
`sumDxyz` of rank `R`. -/
def MtoParticles (c : Config) (TotNumPart : Nat) (N : Nat → RealForceGrids)
    (Ps : Nat → List part_data) (sumDxyz_old : Nat → Vec3) (T : Nat) : MtoState :=
  let loc := fun R => MtoParticles_local c R (N R) (Ps R) (sumDxyz_old R)
  { Disp := (loc T).Disp,
    sumDxyz := (allreduce_sum c (fun R => (loc R).sumDxyz.1) / (TotNumPart : ℚ),
                allreduce_sum c (fun R => (loc R).sumDxyz.2.1) / (TotNumPart : ℚ),
                allreduce_sum c (fun R => (loc R).sumDxyz.2.2) / (TotNumPart : ℚ)) }

/-! ## Reading particle files (`readICfromfile.h`) -/

/-- The buffer that `read_ramses_file` leaves: `stored` is the content of the three
records read by `read_double_vec` (`[x1 … xn y1 … yn z1 … zn]`), and the loop
`if (buffer_dbl[i] >= 1.0) buffer_dbl[i] -= 1.0` runs over its `3*npart_loc` elements. -/
def read_ramses_file (stored : List ℚ) : List ℚ :=
  stored.map fun x => if x ≥ 1 then x - 1 else x

/-- The buffer that `read_ascii_file` leaves: `stored` is the buffer as the `fscanf` loop
fills it (`[x1 … xn y1 … yn z1 … zn]`), and the loop
`if (buffer_dbl[i] >= 1.0) buffer_dbl[i] -= 1.0` runs over its `3*npart_loc` elements. -/
def read_ascii_file (stored : List ℚ) : List ℚ :=
  stored.map fun x => if x ≥ 1 then x - 1 else x

/-- The buffer that `read_gadget_file` leaves: `stored` is the record read by
`read_float_vec` (`[x1 y1 z1 x2 y2 z2 …]`), `BoxSize` the field of the header, and the loop
`buffer_flt[i] *= normfac; if (buffer_flt[i] >= 1.0) buffer_flt[i] -= 1.0` runs over its
`3*npart_loc` elements. -/
def read_gadget_file (BoxSize : ℚ) (stored : List ℚ) : List ℚ :=
  let normfac : ℚ := 1 / BoxSize
  stored.map fun x =>
    let x := x * normfac
    if x ≥ 1 then x - 1 else x

/-- The coordinate `a` (`0`, `1`, `2`) of particle `i` in the read buffer:
`pos_flt[3*i + a]` for GADGET files (`TypeInputParticleFiles == 3`), else
`pos[i + a*npart_loc]`. -/
def fetch (TypeInputParticleFiles : Nat) (buffer : Nat → ℚ) (npart_loc i a : Nat) : ℚ :=
  if TypeInputParticleFiles = 3 then buffer (3 * i + a) else buffer (i + a * npart_loc)

/-- The test `IXX >= Local_nx || IXX < 0` of `ProcessParticlesSingleFile` on rank `T`, with
`IXX = (int)(X * scaleBox) - (int)(Local_x_start)` and `scaleBox = (double)Nmesh`: the
particle is skipped when it holds. -/
def skipped (c : Config) (T : Nat) (X : ℚ) : Bool :=
  let IXX : Int := toInt (X * (c.Nmesh : ℚ)) - (c.Local_x_start T : Int)
  decide (IXX ≥ (c.Local_nx T : Int) ∨ IXX < 0)

/-- The body of the particle loop of `ProcessParticlesSingleFile` on rank `T` after the
counter is increased, up to the deposit; `X`, `Y`, `Z` are the fetched coordinates.  The
neighbour indices are `int` variables there; they hold the same numbers. -/
def ProcessParticles_stencil (c : Config) (T : Nat) (X Y Z : ℚ) : Stencil :=
  let scaleBox : ℚ := (c.Nmesh : ℚ)
  let X := X * scaleBox
  let Y := Y * scaleBox
  let Z := Z * scaleBox
  let IX := toUInt X
  let IY := toUInt Y
  let IZ := toUInt Z
  let DX := X - (IX : ℚ)
  let DY := Y - (IY : ℚ)
  let DZ := Z - (IZ : ℚ)
  let TX := 1 - DX
  let TY := 1 - DY
  let TZ := 1 - DZ
  let DY := DY * WPAR c
  let TY := TY * WPAR c
  let IX := usub32 IX (c.Local_x_start T)
  let IY := if IY ≥ c.Nmesh then 0 else IY
  let IZ := if IZ ≥ c.Nmesh then 0 else IZ
  let IXneigh := uinc32 IX
  let IYneigh := IY + 1
  let IZneigh := IZ + 1
  let IYneigh := if IYneigh ≥ c.Nmesh then 0 else IYneigh
  let IZneigh := if IZneigh ≥ c.Nmesh then 0 else IZneigh
  { IX := IX, IY := IY, IZ := IZ, IXneigh := IXneigh, IYneigh := IYneigh, IZneigh := IZneigh,
    TX := TX, TY := TY, TZ := TZ, DX := DX, DY := DY, DZ := DZ }

/-- One pass of the particle loop of `ProcessParticlesSingleFile` on rank `T`, on the pair
of the grid `density` and the counter `npart_processed`. -/
def ProcessParticles_step (c : Config) (T : Nat) (TypeInputParticleFiles : Nat)
    (buffer : Nat → ℚ) (npart_loc : Nat) (st : Grid × Nat) (i : Nat) : Grid × Nat :=
  let X := fetch TypeInputParticleFiles buffer npart_loc i 0
  if skipped c T X then st
  else
    let Y := fetch TypeInputParticleFiles buffer npart_loc i 1
    let Z := fetch TypeInputParticleFiles buffer npart_loc i 2
    let npart_processed := st.2 + 1
    ((ProcessParticles_stencil c T X Y Z).writes.foldl
      (fun d w => addAt d (gridIndex c w.1.1 w.1.2.1 w.1.2.2) w.2) st.1, npart_processed)

/-- The routine `ProcessParticlesSingleFile(buffer, npart_loc)` on rank `T`: the grid
`density` it leaves and the count `npart_processed` it returns. -/
def ProcessParticlesSingleFile (c : Config) (T : Nat) (TypeInputParticleFiles : Nat)
    (buffer : Nat → ℚ) (npart_loc : Nat) (density : Grid) : Grid × Nat :=
  (List.range npart_loc).foldl (ProcessParticles_step c T TypeInputParticleFiles buffer npart_loc)
    (density, 0)

/-- The value of an `int` expression whose mathematical value is `x`, with the
wrap-around of 32-bit two's complement arithmetic. -/
def wrapInt32 (x : Int) : Int := (x + 2 ^ 31) % 2 ^ 32 - 2 ^ 31

/-- The `int` product `a * b`. -/
def imul32 (a b : Int) : Int := wrapInt32 (a * b)

/-- The factor `normfac` of `ReadFilesMakeDisplacementField`:
`1.0/(double)(Nmesh*Nmesh*Nmesh)` with the product taken in `int`, multiplied by
`growth_DLCDM(1.0) / growth_DLCDM(1.0/(1.0+Init_Redshift))`.  The function `growth_DLCDM`
is defined outside these files and is a parameter. -/
def ReadFiles_normfac (c : Config) (growth_DLCDM : ℚ → ℚ) (Init_Redshift : ℚ) : ℚ :=
  let normfac : ℚ := 1 / ((imul32 (imul32 c.Nmesh c.Nmesh) c.Nmesh : Int) : ℚ)
  normfac * (growth_DLCDM 1 / growth_DLCDM (1 / (1 + Init_Redshift)))

/-! ## `periodic_wrap` -/

/-- The loop `while(x >= Box) x -= Box` of `periodic_wrap`, run for at most `fuel` passes;
`none` when it has not ended by then. -/
def wrap_down (c : Config) : Nat → ℚ → Option ℚ
  | 0, x => if x ≥ c.Box then none else some x
  | fuel + 1, x => if x ≥ c.Box then wrap_down c fuel (x - c.Box) else some x

/-- The loop `while(x < 0) x += Box` of `periodic_wrap`, run for at most `fuel` passes. -/
def wrap_up (c : Config) : Nat → ℚ → Option ℚ
  | 0, x => if x < 0 then none else some x
  | fuel + 1, x => if x < 0 then wrap_up c fuel (x + c.Box) else some x

/-- The routine `periodic_wrap(x)`: the two loops, each with at most `fuel` passes, and the
statement `if (x == Box) x = 0.0`. -/
def periodic_wrap (c : Config) (fuel : Nat) (x : ℚ) : Option ℚ :=
  match wrap_down c fuel x with
  | none => none
  | some x =>
    match wrap_up c fuel x with
    | none => none
    | some x => some (if x = c.Box then 0 else x)

/-! ## Binary records and headers (`readICfromfile.h`, `vars.h`) -/

/-- The routine whose `fread` came up short and called `MPI_Abort`. -/
inductive ReadAbort
  | in_read_int
  | in_read_int_vec
  | in_read_double_vec
  | in_read_float_vec
  deriving DecidableEq

/-- The call `fread(ptr, size, n, fp)` on a file of which the bytes `s` are left: the
complete elements it stores (each the `size` bytes it is made of; their number is the
value returned) and the bytes left after it.  A short read takes the complete elements
there are and leaves the file at its end. -/
def fread (size n : Nat) (s : List Nat) : List (List Nat) × List Nat :=
  if n * size ≤ s.length then
    ((List.range n).map fun i => (s.drop (i * size)).take size, s.drop (n * size))
  else
    ((List.range (s.length / size)).map fun i => (s.drop (i * size)).take size, [])

/-- The routine `read_int(fp)`: the four bytes of `tmp` it returns and the bytes left in
the file. -/
def read_int (s : List Nat) : Except ReadAbort (List Nat × List Nat) :=
  let skip := fread 4 1 s
  let tmp := fread 4 1 skip.2
  if tmp.1.length ≠ 1 then .error ReadAbort.in_read_int
  else
    let skip := fread 4 1 tmp.2
    .ok (tmp.1.headD [], skip.2)

/-- The routine `read_int_vec(fp, buffer, n)`: the `n` elements of four bytes stored in
`buffer` and the bytes left in the file. -/
def read_int_vec (n : Nat) (s : List Nat) : Except ReadAbort (List (List Nat) × List Nat) :=
  let skip := fread 4 1 s
  let data := fread 4 n skip.2
  if data.1.length ≠ n then .error ReadAbort.in_read_int_vec
  else
    let skip := fread 4 1 data.2
    .ok (data.1, skip.2)

/-- The routine `read_double_vec(fp, buffer, n)`, with elements of eight bytes. -/
def read_double_vec (n : Nat) (s : List Nat) : Except ReadAbort (List (List Nat) × List Nat) :=
  let skip := fread 4 1 s
  let data := fread 8 n skip.2
  if data.1.length ≠ n then .error ReadAbort.in_read_double_vec
  else
    let skip := fread 4 1 data.2
    .ok (data.1, skip.2)

/-- The routine `read_float_vec(fp, buffer, n)`, with elements of four bytes. -/
def read_float_vec (n : Nat) (s : List Nat) : Except ReadAbort (List (List Nat) × List Nat) :=
  let skip := fread 4 1 s
  let data := fread 4 n skip.2
  if data.1.length ≠ n then .error ReadAbort.in_read_float_vec
  else
    let skip := fread 4 1 data.2
    .ok (data.1, skip.2)

/-- The structure `struct Ramses_Header`; an `int` is the four bytes it is stored in. -/
structure Ramses_Header where
  ncpu : List Nat
  ndim : List Nat
  npart : List Nat
  localseed : List (List Nat)
  nstar_tot : List Nat
  mstar_tot : List (List Nat)
  mstar_lost : List (List Nat)
  nsink : List Nat
  deriving DecidableEq

/-- The routine `read_ramses_header(fp)`: the header it stores in `ramses_header` and the
bytes left in the file. -/
def read_ramses_header (s : List Nat) : Except ReadAbort (Ramses_Header × List Nat) :=
  match read_int s with
  | .error e => .error e
  | .ok (ncpu, s) =>
  match read_int s with
  | .error e => .error e
  | .ok (ndim, s) =>
  match read_int s with
  | .error e => .error e
  | .ok (npart, s) =>
  match read_int_vec 4 s with
  | .error e => .error e
  | .ok (localseed, s) =>
  match read_int s with
  | .error e => .error e
  | .ok (nstar_tot, s) =>
  match read_int_vec 2 s with
  | .error e => .error e
  | .ok (mstar_tot, s) =>
  match read_int_vec 2 s with
  | .error e => .error e
  | .ok (mstar_lost, s) =>
  match read_int s with
  | .error e => .error e
  | .ok (nsink, s) =>
    .ok ({ ncpu := ncpu, ndim := ndim, npart := npart, localseed := localseed,
           nstar_tot := nstar_tot, mstar_tot := mstar_tot, mstar_lost := mstar_lost,
           nsink := nsink }, s)

/-- The element types of the fields of the two GADGET header structures. -/
inductive CType
  | int
  | unsigned_int
  | double
  | char
  deriving DecidableEq

/-- The names of the fields of `struct Gadget_Header` and `struct io_header_1`. -/
inductive FieldName
  | npart | mass | time | redshift | flag_sfr | flag_feedback | npartTotal | flag_cooling
  | num_files | BoxSize | Omega0 | OmegaLambda | HubbleParam | flag_stellarage | flag_metals
  | npartTotalHighWord | flag_entropy_instead_u | hashtabsize | fill
  deriving DecidableEq

/-- A field declaration `type name[count]` (`count = 1` for a scalar). -/
structure Field where
  type : CType
  name : FieldName
  count : Nat

/-- The declaration of `struct Gadget_Header` (`readICfromfile.h`). -/
def Gadget_Header : List Field :=
  [⟨CType.int, FieldName.npart, 6⟩,
   ⟨CType.double, FieldName.mass, 6⟩,
   ⟨CType.double, FieldName.time, 1⟩,
   ⟨CType.double, FieldName.redshift, 1⟩,
   ⟨CType.int, FieldName.flag_sfr, 1⟩,
   ⟨CType.int, FieldName.flag_feedback, 1⟩,
   ⟨CType.unsigned_int, FieldName.npartTotal, 6⟩,
   ⟨CType.int, FieldName.flag_cooling, 1⟩,
   ⟨CType.int, FieldName.num_files, 1⟩,
   ⟨CType.double, FieldName.BoxSize, 1⟩,
   ⟨CType.double, FieldName.Omega0, 1⟩,
   ⟨CType.double, FieldName.OmegaLambda, 1⟩,
   ⟨CType.double, FieldName.HubbleParam, 1⟩,
   ⟨CType.int, FieldName.flag_stellarage, 1⟩,
   ⟨CType.int, FieldName.flag_metals, 1⟩,
   ⟨CType.unsigned_int, FieldName.npartTotalHighWord, 6⟩,
   ⟨CType.int, FieldName.flag_entropy_instead_u, 1⟩,
   ⟨CType.char, FieldName.fill, 60⟩]

/-- The declaration of `struct io_header_1` (`vars.h`). -/
def io_header_1 : List Field :=
  [⟨CType.unsigned_int, FieldName.npart, 6⟩,
   ⟨CType.double, FieldName.mass, 6⟩,
   ⟨CType.double, FieldName.time, 1⟩,
   ⟨CType.double, FieldName.redshift, 1⟩,
   ⟨CType.int, FieldName.flag_sfr, 1⟩,
   ⟨CType.int, FieldName.flag_feedback, 1⟩,
   ⟨CType.unsigned_int, FieldName.npartTotal, 6⟩,
   ⟨CType.int, FieldName.flag_cooling, 1⟩,
   ⟨CType.int, FieldName.num_files, 1⟩,
   ⟨CType.double, FieldName.BoxSize, 1⟩,
   ⟨CType.double, FieldName.Omega0, 1⟩,
   ⟨CType.double, FieldName.OmegaLambda, 1⟩,
   ⟨CType.double, FieldName.HubbleParam, 1⟩,
   ⟨CType.int, FieldName.flag_stellarage, 1⟩,
   ⟨CType.int, FieldName.flag_metals, 1⟩,
   ⟨CType.int, FieldName.hashtabsize, 1⟩,
   ⟨CType.char, FieldName.fill, 84⟩]

/-- The content of the variable `header` (of type `struct io_header_1`); an array is a
function of the index. -/
structure HeaderValue where
  npart : Nat → Nat
  mass : Nat → ℚ
  time : ℚ
  redshift : ℚ
  flag_sfr : Int
  flag_feedback : Int
  npartTotal : Nat → Nat
  flag_cooling : Int
  num_files : Int
  BoxSize : ℚ
  Omega0 : ℚ
  OmegaLambda : ℚ
  HubbleParam : ℚ
  flag_stellarage : Int
  flag_metals : Int
  hashtabsize : Int

/-- The globals that `write_gadget_header` reads besides `Box`. -/
structure Cosmology where
  NumPart : Nat
  TotNumPart : Nat
  Omega : ℚ
  Hubble : ℚ
  G : ℚ
  HubbleParam : ℚ
  NTaskWithN : Int

/-- The assignments of `write_gadget_header(fp, A)` to `header`, from the content `old` it
finds.  `NumPart` is an `unsigned int`, `TotNumPart` an `unsigned long long`, and the
elements of `npart` and `npartTotal` are `unsigned int`, so a value stored there is reduced
modulo `2^32`; `TotNumPart >> 32` is the quotient by `2^32`. -/
def write_gadget_header (c : Config) (g : Cosmology) (A : ℚ) (old : HeaderValue) :
    HeaderValue :=
  let Z : ℚ := 1 / A - 1
  let npart : Nat → Nat := fun k => if k < 6 then 0 else old.npart k
  let npartTotal : Nat → Nat := fun k => if k < 6 then 0 else old.npartTotal k
  let mass : Nat → ℚ := fun k => if k < 6 then 0 else old.mass k
  let npart := Function.update npart 1 (g.NumPart % 2 ^ 32)
  let npartTotal := Function.update npartTotal 1 (g.TotNumPart % 2 ^ 32)
  let npartTotal := Function.update npartTotal 2 ((g.TotNumPart / 2 ^ 32) % 2 ^ 32)
  let mass := Function.update mass 1
    ((3 * g.Omega * g.Hubble * g.Hubble * c.Box * c.Box * c.Box)
      / (8 * M_PI * g.G * (g.TotNumPart : ℚ)))
  { npart := npart, mass := mass, time := A, redshift := Z,
    flag_sfr := 0, flag_feedback := 0, npartTotal := npartTotal, flag_cooling := 0,
    num_files := g.NTaskWithN, BoxSize := c.Box, Omega0 := g.Omega,
    OmegaLambda := 1 - g.Omega, HubbleParam := g.HubbleParam,
    flag_stellarage := 0, flag_metals := 0, hashtabsize := 0 }

/-! ## `check_complexgrid` (`readICfromfile.h`) -/

/-- The four running extrema of `check_complexgrid`. -/
structure GridExtrema where
  mingridre : ℚ
  maxgridre : ℚ
  mingridim : ℚ
  maxgridim : ℚ
deriving DecidableEq

/-- The four `if` statements of the loop body of `check_complexgrid` at index `ind`; the
last two compare `grid[ind][1]` and assign `grid[ind][0]`, as the source does. -/
def check_complexgrid_point (grid : CGrid) (s : GridExtrema) (ind : Nat) : GridExtrema :=
  let s := if (grid ind).1 < s.mingridre then { s with mingridre := (grid ind).1 } else s
  let s := if (grid ind).1 > s.maxgridre then { s with maxgridre := (grid ind).1 } else s
  let s := if (grid ind).2 < s.mingridim then { s with mingridim := (grid ind).1 } else s
  let s := if (grid ind).2 > s.maxgridim then { s with maxgridim := (grid ind).1 } else s
  s

/-- The loop nest of `check_complexgrid` on rank `T`: the extrema it holds before the
`MPI_Allreduce` calls, started from `1e100` and `-1e100`. -/
def check_complexgrid (c : Config) (T : Nat) (grid : CGrid) : GridExtrema :=
  (List.range (c.Local_nx T)).foldl (fun s i =>
    (List.range (c.Nmesh / 2 + 1)).foldl (fun s j =>
      (List.range (c.Nmesh / 2 + 1)).foldl (fun s k =>
        check_complexgrid_point grid s (cIndex c i j k)) s) s)
    { mingridre := 10 ^ 100, maxgridre := -10 ^ 100, mingridim := 10 ^ 100, maxgridim := -10 ^ 100 }

/-! ## Quantities and sample runs used in the statements -/

/-- The sum of `density + 1` over the cells `(ix, iy, iz)` of the first `nx` slices of a
grid, `iy, iz < Nmesh`; the padding columns of the real grid are not cells. -/
def cellSum (c : Config) (g : Grid) (nx : Nat) : ℚ :=
  ∑ ix ∈ Finset.range nx, ∑ iy ∈ Finset.range c.Nmesh, ∑ iz ∈ Finset.range c.Nmesh,
    (g (gridIndex c ix iy iz) + 1)

/-- A particle of rank `T` lies in the slab of `T` and has non-negative scaled
coordinates. -/
def inSlab (c : Config) (T : Nat) (p : part_data) : Prop :=
  0 ≤ p.Pos.1 * scaleBox c ∧ 0 ≤ p.Pos.2.1 * scaleBox c ∧ 0 ≤ p.Pos.2.2 * scaleBox c ∧
  c.Local_x_start T ≤ toUInt (p.Pos.1 * scaleBox c) ∧
  toUInt (p.Pos.1 * scaleBox c) < c.Local_x_start T + c.Local_nx T

/-- A particle at position `(x, y, z)` with every other field zero. -/
def particleAt (x y z : ℚ) : part_data :=
  { ID := 0, Dz := (0, 0, 0), D2 := (0, 0, 0), Pos := (x, y, z), Vel := (0, 0, 0) }

/-- A run on one task: `Nmesh = 2`, `Nsample = 1`, `Box = 1`. -/
def oneTask : Config where
  NTask := 1
  Nmesh := 2
  Nsample := 1
  Box := 1
  Buffer := 2
  Slab_to_task := fun _ => 0
  Local_np_table := fun _ => 1
  Local_nx := fun _ => 2
  Local_x_start := fun _ => 0
  LeftTask := fun _ => some 0
  RightTask := fun _ => some 0
  modified_gravity_active := false

/-- A run on two tasks with one slice each: `Nmesh = 2`, `Nsample = 2`, `Box = 1`. -/
def twoTasks : Config where
  NTask := 2
  Nmesh := 2
  Nsample := 2
  Box := 1
  Buffer := 4
  Slab_to_task := fun x => x
  Local_np_table := fun _ => 1
  Local_nx := fun _ => 1
  Local_x_start := fun T => T
  LeftTask := fun T => some (1 - T)
  RightTask := fun T => some (1 - T)
  modified_gravity_active := false

/-- All particles on rank 0: one particle a quarter of the box from the left edge. -/
def onRankZero (T : Nat) : List part_data := if T = 0 then [particleAt (1/4) 0 0] else []

/-- One particle on each of the ranks 0 and 1, each in the slab of its rank. -/
def onBothRanks (T : Nat) : List part_data :=
  if T = 0 then [particleAt (1/4) 0 0] else [particleAt (3/4) 0 0]

/-- The hop count that the classification loop uses for a particle `p` on rank `T`:
`procdiff_left` when `procdiff_left <= procdiff_right`, else `procdiff_right` (`0` when a
ring walk does not stop). -/
def chosenHop (c : Config) (T : Nat) (p : part_data) : Nat :=
  match procdiff_left c T (destTask c p), procdiff_right c T (destTask c p) with
  | some pl, some pr => if pl ≤ pr then pl else pr
  | _, _ => 0

/-- In round `j` on rank `T` the loop copies `p` into `P_send_left`. -/
def sendsLeft (c : Config) (T j : Nat) (p : part_data) : Prop :=
  destTask c p ≠ T ∧ ∃ pl pr, procdiff_left c T (destTask c p) = some pl ∧
    procdiff_right c T (destTask c p) = some pr ∧ (pl ≠ 0 ∨ pr ≠ 0) ∧ pl ≤ pr ∧ pl = j

/-- In round `j` on rank `T` the loop copies `p` into `P_send_right`. -/
def sendsRight (c : Config) (T j : Nat) (p : part_data) : Prop :=
  destTask c p ≠ T ∧ ∃ pl pr, procdiff_left c T (destTask c p) = some pl ∧
    procdiff_right c T (destTask c p) = some pr ∧ (pl ≠ 0 ∨ pr ≠ 0) ∧ ¬ pl ≤ pr ∧ pr = j

/-- In round `j` on rank `T` the loop leaves `p` in the array; `pm` bounds the value of
`procdiffmax` after the loop. -/
def keeps (c : Config) (T j pm : Nat) (p : part_data) : Prop :=
  destTask c p = T ∨ ∃ pl pr, procdiff_left c T (destTask c p) = some pl ∧
    procdiff_right c T (destTask c p) = some pr ∧
    ((pl = 0 ∧ pr = 0) ∨ (pl ≤ pr ∧ pl ≠ j ∧ (j = 1 → pl ≤ pm)) ∨
      (¬ pl ≤ pr ∧ pr ≠ j ∧ (j = 1 → pr ≤ pm)))

/-- What the classification loop, started at index `i` in state `s`, guarantees about the
state `s1` in which it ends. -/
def classifyPost (c : Config) (T j i : Nat) (s s1 : Sel) : Prop :=
  ((↑s1.P + ↑s1.P_send_left + ↑s1.P_send_right : Multiset part_data)
      = ↑s.P + ↑s.P_send_left + ↑s.P_send_right) ∧
  (∀ p ∈ s1.P, p ∈ s.P.take i ∨ (p ∈ s.P.drop i ∧ keeps c T j s1.procdiffmax p)) ∧
  (∀ p ∈ s1.P_send_left, p ∈ s.P_send_left ∨ (p ∈ s.P.drop i ∧ sendsLeft c T j p)) ∧
  (∀ p ∈ s1.P_send_right, p ∈ s.P_send_right ∨ (p ∈ s.P.drop i ∧ sendsRight c T j p)) ∧
  (s1.P_send_left = s.P_send_left ∨ (s1.P_send_left.length : Int) < send_count_max c T) ∧
  (s1.P_send_right = s.P_send_right ∨ (s1.P_send_right.length : Int) < send_count_max c T) ∧
  s.procdiffmax ≤ s1.procdiffmax ∧ (j ≠ 1 → s1.procdiffmax = s.procdiffmax)

/-- The state of the tasks that round `j` starts from: every particle is bound for a task
with particle slices, and, from round 2 on, a particle that is not on its task has a hop
count between `j` and the `procdiffmax` of the task that holds it. -/
def homeBound (c : Config) (j : Nat) (ts : List TaskState) : Prop :=
  ∀ T t, ts.get? T = some t → (j = 1 → 1 ≤ t.procdiffmax) ∧
    ∀ p ∈ t.P, c.Local_np_table (destTask c p) ≠ 0 ∧
      (destTask c p ≠ T → j ≠ 1 → j ≤ chosenHop c T p ∧ chosenHop c T p ≤ t.procdiffmax)

/-- The potential as the specification states it: `-density(k) / RK` divided by the grid
volume `Nmesh^3`, with `RK = k1^2 + k2^2 + k3^2`. -/
def specPotential (c : Config) (P : ℚ × ℚ) (k1 k2 k3 : Int) : ℚ × ℚ :=
  (-P.1 / (((k1 ^ 2 + k2 ^ 2 + k3 ^ 2 : Int) : ℚ) * (c.Nmesh : ℚ) ^ 3),
   -P.2 / (((k1 ^ 2 + k2 ^ 2 + k3 ^ 2 : Int) : ℚ) * (c.Nmesh : ℚ) ^ 3))

/-- The force component as the specification states it: the potential `phi` multiplied by
`i * k / Scale`, that is real part `-Im(phi) * k / Scale`, imaginary part
`Re(phi) * k / Scale`. -/
def specForce (c : Config) (phi : ℚ × ℚ) (k : Int) : ℚ × ℚ :=
  (-phi.2 * k / Scale c, phi.1 * k / Scale c)

/-- A run on one task with an odd grid: `Nmesh = 3`. -/
def oddMesh : Config where
  NTask := 1
  Nmesh := 3
  Nsample := 3
  Box := 1
  Buffer := 2
  Slab_to_task := fun _ => 0
  Local_np_table := fun _ => 3
  Local_nx := fun _ => 3
  Local_x_start := fun _ => 0
  LeftTask := fun _ => some 0
  RightTask := fun _ => some 0
  modified_gravity_active := false

/-- A run on three tasks of which the last owns no slice: `Nmesh = 2`, `Nsample = 2`. -/
def threeTasks : Config where
  NTask := 3
  Nmesh := 2
  Nsample := 2
  Box := 1
  Buffer := 2
  Slab_to_task := fun x => x
  Local_np_table := fun T => if T < 2 then 1 else 0
  Local_nx := fun T => if T < 2 then 1 else 0
  Local_x_start := fun T => if T < 2 then T else 2
  LeftTask := fun T => if T < 2 then some (1 - T) else none
  RightTask := fun T => if T < 2 then some (1 - T) else none
  modified_gravity_active := false

/-- A run on two tasks in which the second task owns a slab but no particle slice:
`Nmesh = 2`, `Nsample = 1`. -/
def emptyOwner : Config where
  NTask := 2
  Nmesh := 2
  Nsample := 1
  Box := 1
  Buffer := 2
  Slab_to_task := fun x => x
  Local_np_table := fun T => if T = 0 then 1 else 0
  Local_nx := fun _ => 1
  Local_x_start := fun T => T
  LeftTask := fun T => if T = 0 then some 0 else none
  RightTask := fun T => if T = 0 then some 0 else none
  modified_gravity_active := false

/-- A density spectrum for the sample runs: element `n` is `n + 1 + 2 i`. -/
def sampleSpectrum : CGrid := fun n => ((n : ℚ) + 1, 2)

/-- Force grids that hold `1 + i` everywhere. -/
def sampleForceGrids : ForceGrids :=
  { FN11 := fun _ => (1, 1), FN12 := fun _ => (1, 1), FN13 := fun _ => (1, 1) }

instance inSlab_decidable (c : Config) (T : Nat) (p : part_data) : Decidable (inSlab c T p) := by
  unfold inSlab; infer_instance

/-- The complex conjugate of an element of a complex grid. -/
def cconj (z : ℚ × ℚ) : ℚ × ℚ := (z.1, -z.2)

/-- The negative of an element of a complex grid. -/
def cneg (z : ℚ × ℚ) : ℚ × ℚ := (-z.1, -z.2)

/-- A run on one task with `Nmesh = 4`, `Nsample = 4`, `Box = 1`. -/
def fourMesh : Config where
  NTask := 1
  Nmesh := 4
  Nsample := 4
  Box := 1
  Buffer := 2
  Slab_to_task := fun _ => 0
  Local_np_table := fun _ => 4
  Local_nx := fun _ => 4
  Local_x_start := fun _ => 0
  LeftTask := fun _ => some 0
  RightTask := fun _ => some 0
  modified_gravity_active := false

/-- The stored half of a spectrum on a run with one task is that of a real grid: the
element at `(-i, -j, -k)` (indices modulo `Nmesh`) is the conjugate of the element at
`(i, j, k)` whenever both are stored. -/
def realSpectrum (c : Config) (P3D : CGrid) : Prop :=
  ∀ i < c.Nmesh, ∀ j < c.Nmesh, ∀ k < c.Nmesh / 2 + 1, (c.Nmesh - k) % c.Nmesh ≤ c.Nmesh / 2 →
    P3D (cIndex c ((c.Nmesh - i) % c.Nmesh) ((c.Nmesh - j) % c.Nmesh) ((c.Nmesh - k) % c.Nmesh))
      = cconj (P3D (cIndex c i j k))

instance realSpectrum_decidable (c : Config) (P3D : CGrid) : Decidable (realSpectrum c P3D) := by
  unfold realSpectrum; infer_instance

/-- The spectrum of the grid that is `1` in the cell `(0, 0, 0)` and `0` elsewhere: `1`
at every index. -/
def pointSpectrum : CGrid := fun _ => (1, 0)

/-- A spectrum on a `4^3` mesh that is `1` at the mode `(1, 1, 1)` and `0` elsewhere (the
stored half of the spectrum of the real grid made of this mode and its conjugate). -/
def oneMode : CGrid := fun n => if n = cIndex fourMesh 1 1 1 then (1, 0) else (0, 0)

/-- Real force grids for the sample runs: element `i` of every grid of rank `R` is
`100 * R + i + 1`. -/
def sampleRealGrids : Nat → RealForceGrids := fun R =>
  { N11 := fun i => 100 * (R : ℚ) + i + 1,
    N12 := fun i => 100 * (R : ℚ) + i + 1,
    N13 := fun i => 100 * (R : ℚ) + i + 1 }

/-- The displacement `(Disp[0][i], Disp[1][i], Disp[2][i])` that `MtoParticles` on rank
`T` interpolates for the particle `p`. -/
def interpolated (c : Config) (T : Nat) (N : RealForceGrids) (p : part_data) : Vec3 :=
  (MtoParticles_interp c N.N11 (MtoParticles_stencil c T p),
   MtoParticles_interp c N.N12 (MtoParticles_stencil c T p),
   MtoParticles_interp c N.N13 (MtoParticles_stencil c T p))

/-- A run on three tasks with one particle slice each and a buffer of a tenth:
`Nmesh = 3`, `Nsample = 3`, `Buffer = 11/10`, so `send_count_max = ceil(0.9) = 1`. -/
def tightBuffer : Config where
  NTask := 3
  Nmesh := 3
  Nsample := 3
  Box := 1
  Buffer := 11/10
  Slab_to_task := fun x => x
  Local_np_table := fun _ => 1
  Local_nx := fun _ => 1
  Local_x_start := fun T => T
  LeftTask := fun T => some ((T + 2) % 3)
  RightTask := fun T => some ((T + 1) % 3)
  modified_gravity_active := false

/-- Nine particles on each of three tasks: eight in the slab of the task and one in the
slab of its left neighbour (`toLeft`) or of its right neighbour, so that every task sends
one particle and receives one. -/
def ringShift (toLeft : Bool) : List (List part_data) :=
  [List.replicate 8 (particleAt (1/6) 0 0) ++ [particleAt (if toLeft then 5/6 else 1/2) 0 0],
   List.replicate 8 (particleAt (1/2) 0 0) ++ [particleAt (if toLeft then 1/6 else 5/6) 0 0],
   List.replicate 8 (particleAt (5/6) 0 0) ++ [particleAt (if toLeft then 1/2 else 1/6) 0 0]]

deriving instance DecidableEq for Sel

/-- The particle `i` of the read buffer lies in the slab range of task `T`:
`Local_x_start ≤ floor(X * Nmesh) < Local_x_start + Local_nx`. -/
def inRange (c : Config) (T : Nat) (X : ℚ) : Prop :=
  (c.Local_x_start T : Int) ≤ ⌊X * (c.Nmesh : ℚ)⌋ ∧
  ⌊X * (c.Nmesh : ℚ)⌋ < (c.Local_x_start T : Int) + (c.Local_nx T : Int)

/-- The slab ranges `[Local_x_start, Local_x_start + Local_nx)` of the tasks partition
`[0, Nmesh)`: every slab lies in the range of exactly one task. -/
def slabPartition (c : Config) : Prop :=
  ∀ x < c.Nmesh, ((List.range c.NTask).filter fun T =>
    decide (c.Local_x_start T ≤ x ∧ x < c.Local_x_start T + c.Local_nx T)).length = 1

instance slabPartition_decidable (c : Config) : Decidable (slabPartition c) := by
  unfold slabPartition; infer_instance

/-- The eight statements `density[…] += …` of `ProcessParticlesSingleFile` for particle `i`
of the buffer. -/
def ProcessParticles_deposit (c : Config) (T : Nat) (TypeInputParticleFiles : Nat)
    (buffer : Nat → ℚ) (npart_loc : Nat) (density : Grid) (i : Nat) : Grid :=
  (ProcessParticles_stencil c T (fetch TypeInputParticleFiles buffer npart_loc i 0)
      (fetch TypeInputParticleFiles buffer npart_loc i 1)
      (fetch TypeInputParticleFiles buffer npart_loc i 2)).writes.foldl
    (fun d w => addAt d (gridIndex c w.1.1 w.1.2.1 w.1.2.2) w.2) density

/-- A read buffer with two particles in the layout of RAMSES and ASCII files:
`X = 1/4, 3/4`, `Y = 0, 0`, `Z = 0, 0`. -/
def twoParticles : Nat → ℚ := fun n => if n = 0 then 1/4 else if n = 1 then 3/4 else 0

/-- A run with `Nmesh = 1291` on one task. -/
def largeMesh : Config where
  NTask := 1
  Nmesh := 1291
  Nsample := 1291
  Box := 1
  Buffer := 2
  Slab_to_task := fun _ => 0
  Local_np_table := fun _ => 1291
  Local_nx := fun _ => 1291
  Local_x_start := fun _ => 0
  LeftTask := fun _ => some 0
  RightTask := fun _ => some 0
  modified_gravity_active := false

/-- The value `RK = dd[0]*dd[0] + dd[1]*dd[1] + dd[2]*dd[2]` that `Forces` computes on rank
`T` at `(i, j, k)`. -/
def Forces_RK (c : Config) (T i j k : Nat) : Int :=
  foldK c (i + c.Local_x_start T) * foldK c (i + c.Local_x_start T) + (j : Int) * j + (k : Int) * k

/-- The value of `kmin` with which `Forces` on rank `T` starts the `k` loop of row
`(i, j)`. -/
def Forces_kmin (c : Config) (T i j : Nat) : Nat :=
  if i + c.Local_x_start T = 0 ∧ j = 0 then 1 else 0

/-- The sum of two spectra, element by element. -/
def addSpectra (P Q : CGrid) : CGrid := fun n => ((P n).1 + (Q n).1, (P n).2 + (Q n).2)

/-- The run `fourMesh` with modified gravity active. -/
def fourMeshMG : Config := { fourMesh with modified_gravity_active := true }

/-- The `n` elements of `size` bytes each that lie in the stream `s` behind a marker of four
bytes. -/
def recordData (size n : Nat) (s : List Nat) : List (List Nat) :=
  (List.range n).map fun i => ((s.drop 4).drop (i * size)).take size

/-- A stream of 116 bytes: byte `i` is `i`. -/
def sampleStream : List Nat := List.range 116

/-- The size in bytes of an element under the usual C layout: 4 for `int` and
`unsigned int`, 8 for `double`, 1 for `char`. -/
def CType.size : CType → Nat
  | .int => 4
  | .unsigned_int => 4
  | .double => 8
  | .char => 1

/-- The alignment of an element under the usual C layout: its size. -/
def CType.alignment : CType → Nat
  | .int => 4
  | .unsigned_int => 4
  | .double => 8
  | .char => 1

/-- The first multiple of `a` from `n` on. -/
def alignUp (a n : Nat) : Nat := (n + a - 1) / a * a

/-- The fields laid out one after the other from the offset `off`, each at the first
offset that its alignment allows: for every field its name, the padding before it and its
offset. -/
def layoutFrom : Nat → List Field → List (FieldName × Nat × Nat)
  | _, [] => []
  | off, f :: fs =>
    (f.name, alignUp f.type.alignment off - off, alignUp f.type.alignment off)
      :: layoutFrom (alignUp f.type.alignment off + f.count * f.type.size) fs

/-- The offset behind the last field. -/
def endOffset : Nat → List Field → Nat
  | off, [] => off
  | off, f :: fs => endOffset (alignUp f.type.alignment off + f.count * f.type.size) fs

/-- The value of `sizeof` for a structure: the offset behind the last field, rounded up to
the largest alignment of a field. -/
def structSize (fs : List Field) : Nat :=
  alignUp ((fs.map fun f => f.type.alignment).foldl max 1) (endOffset 0 fs)

/-- The offset of the field `name` in a structure. -/
def offsetOf (fs : List Field) (name : FieldName) : Option Nat :=
  ((layoutFrom 0 fs).find? fun e => decide (e.1 = name)).map fun e => e.2.2

/-- The content of `header` before a call: `7` in every element of `npartTotal`, zero in every
other field. -/
def zeroHeader : HeaderValue where
  npart := fun _ => 0
  mass := fun _ => 0
  time := 0
  redshift := 0
  flag_sfr := 0
  flag_feedback := 0
  npartTotal := fun _ => 7
  flag_cooling := 0
  num_files := 0
  BoxSize := 0
  Omega0 := 0
  OmegaLambda := 0
  HubbleParam := 0
  flag_stellarage := 0
  flag_metals := 0
  hashtabsize := 0

/-- A run of `2^33 + 5` particles. -/
def manyParticles : Cosmology where
  NumPart := 1000
  TotNumPart := 2 ^ 33 + 5
  Omega := 3/10
  Hubble := 100
  G := 43
  HubbleParam := 7/10
  NTaskWithN := 4

/-- The tests of the classification loop of round `j` on rank `T` that end in a copy of `p`
into `P_send_left`: the particle is bound for another task, the hop counts `L`, `R` are not
both zero, `L ≤ R` and `L = j`. -/
def goesLeft (c : Config) (T j : Nat) (p : part_data) : Bool :=
  decide (destTask c p ≠ T) &&
  match procdiff_left c T (destTask c p), procdiff_right c T (destTask c p) with
  | some L, some R => decide ((L ≠ 0 ∨ R ≠ 0) ∧ L ≤ R ∧ L = j)
  | _, _ => false

/-- The tests that end in a copy of `p` into `P_send_right`: as for the left, with `L > R`
and `R = j`. -/
def goesRight (c : Config) (T j : Nat) (p : part_data) : Bool :=
  decide (destTask c p ≠ T) &&
  match procdiff_left c T (destTask c p), procdiff_right c T (destTask c p) with
  | some L, some R => decide ((L ≠ 0 ∨ R ≠ 0) ∧ ¬ L ≤ R ∧ R = j)
  | _, _ => false

/-- The hop count that the classification loop of rank `T` works with for the particle `p`:
`min L R` (the count of the chosen direction) for a particle bound for another task, and `0`
for a particle of the task itself, for which no ring walk is made. -/
def hopOf (c : Config) (T : Nat) (p : part_data) : Nat :=
  if destTask c p ≠ T then chosenHop c T p else 0

/-- The hop counts of all particles of all tasks at entry of `MoveParticles`. -/
def entryHops (c : Config) (Ps : List (List part_data)) : List Nat :=
  (List.range Ps.length).flatMap fun T => ((Ps.get? T).getD []).map (hopOf c T)

/-- A run on one task with `Nmesh = 8`, `Nsample = 8`, `Box = 1`. -/
def eightMesh : Config where
  NTask := 1
  Nmesh := 8
  Nsample := 8
  Box := 1
  Buffer := 2
  Slab_to_task := fun _ => 0
  Local_np_table := fun _ => 8
  Local_nx := fun _ => 8
  Local_x_start := fun _ => 0
  LeftTask := fun _ => some 0
  RightTask := fun _ => some 0
  modified_gravity_active := false

/-- The points `(i, j, k)` with `i < Local_nx` and `j, k <= Nmesh/2` of the complex grid of
rank `T`, by their flat indices, in the order of the loops of `check_complexgrid`. -/
def localPoints (c : Config) (T : Nat) : List Nat :=
  (List.range (c.Local_nx T)).flatMap fun i =>
    (List.range (c.Nmesh / 2 + 1)).flatMap fun j =>
      (List.range (c.Nmesh / 2 + 1)).map fun k => cIndex c i j k

/-- A complex grid whose element `n` is `n + 10 i`: every imaginary part is `10`. -/
def imagTen : CGrid := fun n => ((n : ℚ), 10)

/-- The rank reached from `nb` after `i <= NTask` steps to the left on the ring. -/
def ringLeft (c : Config) (nb i : Nat) : Nat := if i ≤ nb then nb - i else nb + c.NTask - i

/-- The rank reached from `nb` after `i <= NTask` steps to the right on the ring. -/
def ringRight (c : Config) (nb i : Nat) : Nat :=
  if nb + i < c.NTask then nb + i else nb + i - c.NTask

/-- What a ring walk adds to its counter at task `x`: `1` when `Local_np_table[x] != 0`,
else `0`. -/
def occupied (c : Config) (x : Nat) : Nat := if c.Local_np_table x = 0 then 0 else 1

/-- The number of tasks with `Local_np_table > 0`. -/
def nonEmptyTasks (c : Config) : Nat :=
  ((Finset.range c.NTask).filter fun x => c.Local_np_table x ≠ 0).card

/-- A run on five tasks of which task 2 holds no particle slice: `Nmesh = 5`,
`Nsample = 4`. -/
def fiveRing : Config where
  NTask := 5
  Nmesh := 5
  Nsample := 4
  Box := 1
  Buffer := 2
  Slab_to_task := fun x => x
  Local_np_table := fun T => if T = 2 then 0 else 1
  Local_nx := fun _ => 1
  Local_x_start := fun T => T
  LeftTask := fun T => if T = 2 then none else if T = 3 then some 1 else some ((T + 4) % 5)
  RightTask := fun T => if T = 2 then none else if T = 1 then some 3 else some ((T + 1) % 5)
  modified_gravity_active := false

/-- Reference deposit of the claim on single-task runs, written from its words and not from
the source: along one axis a particle with scaled coordinate `u` gives the share `1 - d` to
the cell `I = floor u` and the share `d = u - I` to the cell `(I + 1) mod Nmesh`. -/
def periodicCIC_share (N : Nat) (u : ℚ) (a : Nat) : ℚ :=
  let I := Int.toNat ⌊u⌋
  let d := u - (I : ℚ)
  (if a = I then 1 - d else 0) + (if a = (I + 1) % N then d else 0)

/-- Reference deposit of the claim: the fully periodic CIC weight that the particle `p`, of
mass `(Nmesh/Nsample)^3`, gives to the cell `(x, y, z)`. -/
def periodicCIC_weight (c : Config) (p : part_data) (x y z : Nat) : ℚ :=
  WPAR c * periodicCIC_share c.Nmesh (p.Pos.1 * scaleBox c) x
    * periodicCIC_share c.Nmesh (p.Pos.2.1 * scaleBox c) y
    * periodicCIC_share c.Nmesh (p.Pos.2.2 * scaleBox c) z

/-- Reference deposit of the claim: the value of the cell `(x, y, z)`, `-1` plus the
periodic CIC weights of all particles. -/
def periodicCIC (c : Config) (P : List part_data) (x y z : Nat) : ℚ :=
  -1 + (P.map fun p => periodicCIC_weight c p x y z).sum

/-- What the eight `+=` statements for the stencil `s` add to the grid element `n`. -/
def Stencil.addedAt (c : Config) (s : Stencil) (n : Nat) : ℚ :=
  (s.writes.map fun w => if gridIndex c w.1.1 w.1.2.1 w.1.2.2 = n then w.2 else 0).sum

/-! ## Theorems -/

open Finset

/-! ### Helper lemmas for `PtoMesh` -/

theorem addAt_zero (g : Grid) (i : Nat) : addAt g i 0 = g := by
  funext n; simp [addAt]

theorem toUInt_natCast (a : Nat) : toUInt (a : ℚ) = a := by
  simp [toUInt]

theorem gridIndex_inj (c : Config) {x y z x' y' z' : Nat}
    (hy : y < c.Nmesh) (hz : z < c.Nmesh) (hy' : y' < c.Nmesh) (hz' : z' < c.Nmesh)
    (h : gridIndex c x y z = gridIndex c x' y' z') : x = x' ∧ y = y' ∧ z = z' := by
  unfold gridIndex at h
  have hM : c.Nmesh < 2 * (c.Nmesh / 2 + 1) := by omega
  set M := 2 * (c.Nmesh / 2 + 1) with hMdef
  have e1 : (x * c.Nmesh + y) * 2 * (c.Nmesh / 2 + 1) = M * (x * c.Nmesh + y) := by
    rw [hMdef]; ring
  have e2 : (x' * c.Nmesh + y') * 2 * (c.Nmesh / 2 + 1) = M * (x' * c.Nmesh + y') := by
    rw [hMdef]; ring
  rw [e1, e2] at h
  have hzM : z < M := by omega
  have hzM' : z' < M := by omega
  have hMpos : 0 < M := by omega
  have hq : x * c.Nmesh + y = x' * c.Nmesh + y' := by
    have := congrArg (· / M) h
    simpa [Nat.mul_add_div hMpos, Nat.div_eq_of_lt hzM, Nat.div_eq_of_lt hzM'] using this
  have hzz : z = z' := by
    have := congrArg (· % M) h
    simpa [Nat.mul_add_mod, Nat.mod_eq_of_lt hzM, Nat.mod_eq_of_lt hzM'] using this
  have hNpos : 0 < c.Nmesh := by omega
  have hxx : x = x' := by
    have := congrArg (· / c.Nmesh) hq
    simpa [Nat.add_comm (_ * c.Nmesh), Nat.add_mul_div_right _ _ hNpos, Nat.div_eq_of_lt hy,
      Nat.div_eq_of_lt hy'] using this
  have hyy : y = y' := by
    have := congrArg (· % c.Nmesh) hq
    simpa [Nat.add_mul_mod_self_right, Nat.add_comm (_ * c.Nmesh), Nat.mod_eq_of_lt hy,
      Nat.mod_eq_of_lt hy'] using this
  exact ⟨hxx, hyy, hzz⟩

theorem cellSum_addAt (c : Config) (d : Grid) (n x y z : Nat) (w : ℚ)
    (hx : x < n) (hy : y < c.Nmesh) (hz : z < c.Nmesh) :
    cellSum c (addAt d (gridIndex c x y z) w) n = cellSum c d n + w := by
  unfold cellSum addAt
  have key : ∀ ix ∈ range n, ∀ iy ∈ range c.Nmesh, ∀ iz ∈ range c.Nmesh,
      ((if gridIndex c ix iy iz = gridIndex c x y z then d (gridIndex c ix iy iz) + w
        else d (gridIndex c ix iy iz)) + 1)
      = (d (gridIndex c ix iy iz) + 1) + (if ix = x then (if iy = y then (if iz = z then w else 0) else 0) else 0) := by
    intro ix _ iy hiy iz hiz
    rw [mem_range] at hiy hiz
    by_cases h : gridIndex c ix iy iz = gridIndex c x y z
    · obtain ⟨h1, h2, h3⟩ := gridIndex_inj c hiy hiz hy hz h
      subst h1 h2 h3
      simp; ring
    · rw [if_neg h]
      have : ¬ (ix = x ∧ iy = y ∧ iz = z) := by
        rintro ⟨h1, h2, h3⟩; subst h1 h2 h3; exact h rfl
      by_cases a : ix = x
      · by_cases b : iy = y
        · by_cases e : iz = z
          · exact absurd ⟨a, b, e⟩ this
          · simp [a, b, e]
        · simp [a, b]
      · simp [a]
  rw [sum_congr rfl (fun ix hix => sum_congr rfl (fun iy hiy => sum_congr rfl (fun iz hiz => key ix hix iy hiy iz hiz)))]
  simp only [sum_add_distrib]
  congr 1
  simp [sum_ite_eq', hx, hy, hz]

theorem wrapY_lt (n m : Nat) (hN : 0 < n) : (if m ≥ n then 0 else m) < n := by
  split_ifs with h
  · exact hN
  · exact not_le.mp h

theorem stencil_weights_sum (c : Config) (T : Nat) (p : part_data) :
    ((PtoMesh_stencil c T p).writes.map Prod.snd).sum = WPAR c := by
  simp only [Stencil.writes, PtoMesh_stencil, List.map_cons, List.map_nil, List.sum_cons,
    List.sum_nil]
  ring

theorem cellSum_writes (c : Config) (n : Nat) (ws : List ((Nat × Nat × Nat) × ℚ))
    (h : ∀ w ∈ ws, w.1.1 < n ∧ w.1.2.1 < c.Nmesh ∧ w.1.2.2 < c.Nmesh) (d : Grid) :
    cellSum c (ws.foldl (fun d w => addAt d (gridIndex c w.1.1 w.1.2.1 w.1.2.2) w.2) d) n
      = cellSum c d n + (ws.map Prod.snd).sum := by
  induction ws generalizing d with
  | nil => simp
  | cons w ws ih =>
    rw [List.foldl_cons, ih (fun v hv => h v (List.mem_cons_of_mem _ hv))]
    obtain ⟨h1, h2, h3⟩ := h w (List.mem_cons_self _ _)
    rw [cellSum_addAt c d n _ _ _ _ h1 h2 h3, List.map_cons, List.sum_cons]
    ring

theorem stencil_cells (c : Config) (T : Nat) (p : part_data) (hN : 0 < c.Nmesh)
    (hnx : c.Local_nx T < 2 ^ 32) (hp : inSlab c T p) :
    ∀ w ∈ (PtoMesh_stencil c T p).writes,
      w.1.1 < c.Local_nx T + 1 ∧ w.1.2.1 < c.Nmesh ∧ w.1.2.2 < c.Nmesh := by
  obtain ⟨_, _, _, h1, h2⟩ := hp
  have hIX : (PtoMesh_stencil c T p).IX
      = toUInt (p.Pos.1 * scaleBox c) - c.Local_x_start T := by
    simp [PtoMesh_stencil, usub32, h1]
  have hlt : (PtoMesh_stencil c T p).IX < c.Local_nx T := by
    rw [hIX]; omega
  have hne : (PtoMesh_stencil c T p).IXneigh = (PtoMesh_stencil c T p).IX + 1 := by
    have : (PtoMesh_stencil c T p).IXneigh = uinc32 (PtoMesh_stencil c T p).IX := rfl
    rw [this, uinc32, if_neg]
    omega
  have hY : (PtoMesh_stencil c T p).IY < c.Nmesh := wrapY_lt _ _ hN
  have hYn : (PtoMesh_stencil c T p).IYneigh < c.Nmesh := wrapY_lt _ _ hN
  have hZ : (PtoMesh_stencil c T p).IZ < c.Nmesh := wrapY_lt _ _ hN
  have hZn : (PtoMesh_stencil c T p).IZneigh < c.Nmesh := wrapY_lt _ _ hN
  intro w hw
  simp only [Stencil.writes, List.mem_cons, List.mem_singleton, List.not_mem_nil, or_false] at hw
  rcases hw with h | h | h | h | h | h | h | h <;> subst h <;> simp only <;>
    refine ⟨by omega, ?_, ?_⟩ <;> assumption

theorem cellSum_deposit (c : Config) (T : Nat) (p : part_data) (hN : 0 < c.Nmesh)
    (hnx : c.Local_nx T < 2 ^ 32) (hp : inSlab c T p) (d : Grid) :
    cellSum c (PtoMesh_deposit c T d p) (c.Local_nx T + 1)
      = cellSum c d (c.Local_nx T + 1) + WPAR c := by
  rw [PtoMesh_deposit, cellSum_writes c _ _ (stencil_cells c T p hN hnx hp), stencil_weights_sum]

theorem cellSum_foldl_deposit (c : Config) (T : Nat) (hN : 0 < c.Nmesh)
    (hnx : c.Local_nx T < 2 ^ 32) (P : List part_data) (hP : ∀ p ∈ P, inSlab c T p) (d : Grid) :
    cellSum c (P.foldl (PtoMesh_deposit c T) d) (c.Local_nx T + 1)
      = cellSum c d (c.Local_nx T + 1) + WPAR c * P.length := by
  induction P generalizing d with
  | nil => simp
  | cons p P ih =>
    rw [List.foldl_cons, ih (fun q hq => hP q (List.mem_cons_of_mem _ hq)),
      cellSum_deposit c T p hN hnx (hP p (List.mem_cons_self _ _))]
    push_cast [List.length_cons]
    ring

theorem gridIndex_lt (c : Config) {n x y z : Nat} (hx : x < n) (hy : y < c.Nmesh)
    (hz : z < c.Nmesh) : gridIndex c x y z < 2 * (n * alloc_slice c) := by
  unfold gridIndex alloc_slice
  have hM : c.Nmesh < 2 * (c.Nmesh / 2 + 1) := by omega
  set M := c.Nmesh / 2 + 1
  have h1 : x * c.Nmesh + y + 1 ≤ n * c.Nmesh := by
    have : (x + 1) * c.Nmesh ≤ n * c.Nmesh := Nat.mul_le_mul_right _ hx
    nlinarith
  have h2 : (x * c.Nmesh + y + 1) * (2 * M) ≤ n * c.Nmesh * (2 * M) := Nat.mul_le_mul_right _ h1
  nlinarith

theorem cellSum_init (c : Config) (T : Nat) (old : Grid) (n : Nat) (hn : n ≤ c.Local_nx T + 1) :
    cellSum c (fun i => if i < 2 * Total_size c T then -1 else old i) n = 0 := by
  unfold cellSum
  refine sum_eq_zero (fun ix hix => sum_eq_zero (fun iy hiy => sum_eq_zero (fun iz hiz => ?_)))
  rw [mem_range] at hix hiy hiz
  have : gridIndex c ix iy iz < 2 * Total_size c T := by
    have := gridIndex_lt c (show ix < c.Local_nx T + 1 by omega) hiy hiz
    simpa [Total_size] using this
  simp [this]

theorem cellSum_local (c : Config) (T : Nat) (hN : 0 < c.Nmesh)
    (hnx : c.Local_nx T < 2 ^ 32) (P : List part_data) (hP : ∀ p ∈ P, inSlab c T p) (old : Grid) :
    cellSum c (PtoMesh_local c T P old) (c.Local_nx T + 1) = WPAR c * P.length := by
  rw [PtoMesh_local, cellSum_foldl_deposit c T hN hnx P hP, cellSum_init c T old _ le_rfl]
  ring



theorem gridIndex_halo (c : Config) (n y z : Nat) :
    2 * (n * alloc_slice c) + gridIndex c 0 y z = gridIndex c n y z := by
  unfold gridIndex alloc_slice
  ring

theorem gridIndex_ge (c : Config) (x y z : Nat) :
    2 * alloc_slice c ≤ gridIndex c (x + 1) y z := by
  unfold gridIndex alloc_slice
  have : c.Nmesh * (2 * (c.Nmesh / 2 + 1)) ≤ ((x + 1) * c.Nmesh + y) * (2 * (c.Nmesh / 2 + 1)) := by
    apply Nat.mul_le_mul_right
    nlinarith
  nlinarith

theorem cellSum_succ (c : Config) (g : Grid) (n : Nat) :
    cellSum c g (n + 1) = cellSum c g n
      + ∑ iy ∈ range c.Nmesh, ∑ iz ∈ range c.Nmesh, (g (gridIndex c n iy iz) + 1) := by
  unfold cellSum
  rw [sum_range_succ]

theorem cellSum_merge (c : Config) (Ps : Nat → List part_data) (old : Nat → Grid) (R L : Nat)
    (hne : Ps R ≠ []) (hL : c.LeftTask R = some L) (hnx : 0 < c.Local_nx R) :
    cellSum c (PtoMesh c Ps old R) (c.Local_nx R)
      = cellSum c (PtoMesh_local c R (Ps R) (old R)) (c.Local_nx R)
        + (cellSum c (PtoMesh_local c L (Ps L) (old L)) (c.Local_nx L + 1)
            - cellSum c (PtoMesh_local c L (Ps L) (old L)) (c.Local_nx L)) := by
  obtain ⟨m, hm⟩ : ∃ m, c.Local_nx R = m + 1 := ⟨c.Local_nx R - 1, by omega⟩
  rw [cellSum_succ c _ (c.Local_nx L), add_sub_cancel_left, hm]
  have hlen : (Ps R).length ≠ 0 := by
    intro h; exact hne (List.length_eq_zero.mp h)
  unfold cellSum
  rw [sum_range_succ', sum_range_succ', add_assoc]
  congr 1
  · refine sum_congr rfl (fun ix _ => sum_congr rfl (fun iy _ => sum_congr rfl (fun iz _ => ?_)))
    have := gridIndex_ge c ix iy iz
    simp only [PtoMesh, PtoMesh_merge, if_pos hlen, if_neg (not_lt.mpr this)]
  · rw [← sum_add_distrib]
    refine sum_congr rfl (fun iy hiy => ?_)
    rw [← sum_add_distrib]
    refine sum_congr rfl (fun iz hiz => ?_)
    rw [mem_range] at hiy hiz
    have hlt : gridIndex c 0 iy iz < 2 * alloc_slice c := by
      have := gridIndex_lt c (show 0 < 1 by omega) hiy hiz
      simpa using this
    simp only [PtoMesh, PtoMesh_merge, if_pos hlen, if_pos hlt, temp_density, hL, last_slice,
      gridIndex_halo]
    ring

theorem cellSum_unmerged (c : Config) (Ps : Nat → List part_data) (old : Nat → Grid) (R : Nat)
    (he : Ps R = []) :
    cellSum c (PtoMesh c Ps old R) (c.Local_nx R) = 0
    ∧ cellSum c (PtoMesh_local c R (Ps R) (old R)) (c.Local_nx R + 1) = 0
    ∧ cellSum c (PtoMesh_local c R (Ps R) (old R)) (c.Local_nx R) = 0 := by
  have h1 : PtoMesh c Ps old R = PtoMesh_local c R (Ps R) (old R) := by
    simp [PtoMesh, PtoMesh_merge, he]
  rw [h1, he]
  simp only [PtoMesh_local, List.foldl_nil]
  exact ⟨cellSum_init c R _ _ (by omega), cellSum_init c R _ _ le_rfl, cellSum_init c R _ _ (by omega)⟩

theorem sum_ring (n : Nat) (ne : Nat → Prop) [DecidablePred ne] (left : Nat → Option Nat)
    (g : Nat → ℚ)
    (h1 : ∀ R < n, ne R → ∃ L < n, left R = some L ∧ ne L)
    (h2 : ∀ R < n, ∀ R' < n, ne R → ne R' → left R = left R' → R = R') :
    ∑ R ∈ (range n).filter ne, g ((left R).getD 0) = ∑ L ∈ (range n).filter ne, g L := by
  set S := (range n).filter ne with hS
  have hinj : Set.InjOn (fun R => (left R).getD 0) (S : Set Nat) := by
    intro a ha b hb hab
    have ha' := (mem_filter.mp (mem_coe.mp ha))
    have hb' := (mem_filter.mp (mem_coe.mp hb))
    obtain ⟨La, _, ea, _⟩ := h1 a (mem_range.mp ha'.1) ha'.2
    obtain ⟨Lb, _, eb, _⟩ := h1 b (mem_range.mp hb'.1) hb'.2
    simp only [ea, eb, Option.getD_some] at hab
    exact h2 a (mem_range.mp ha'.1) b (mem_range.mp hb'.1) ha'.2 hb'.2 (by rw [ea, eb, hab])
  have himg : S.image (fun R => (left R).getD 0) = S := by
    apply eq_of_subset_of_card_le
    · intro L hL
      obtain ⟨R, hR, rfl⟩ := mem_image.mp hL
      have hR' := mem_filter.mp hR
      obtain ⟨L, hLn, e, hne⟩ := h1 R (mem_range.mp hR'.1) hR'.2
      simp only [e, Option.getD_some]
      exact mem_filter.mpr ⟨mem_range.mpr hLn, hne⟩
    · rw [card_image_of_injOn hinj]
  conv_rhs => rw [← himg]
  rw [sum_image hinj]



theorem total_before (c : Config) (Ps : Nat → List part_data) (old : Nat → Grid)
    (hN : 0 < c.Nmesh) (hnx : ∀ T < c.NTask, c.Local_nx T < 2 ^ 32)
    (hslab : ∀ T < c.NTask, ∀ p ∈ Ps T, inSlab c T p) :
    ∑ T ∈ range c.NTask, cellSum c (PtoMesh_local c T (Ps T) (old T)) (c.Local_nx T + 1)
      = WPAR c * ∑ T ∈ range c.NTask, ((Ps T).length : ℚ) := by
  rw [mul_sum]
  refine sum_congr rfl (fun T hT => ?_)
  rw [mem_range] at hT
  exact cellSum_local c T hN (hnx T hT) (Ps T) (hslab T hT) (old T)

theorem total_after (c : Config) (Ps : Nat → List part_data) (old : Nat → Grid)
    (hslab : ∀ T < c.NTask, ∀ p ∈ Ps T, inSlab c T p)
    (h1 : ∀ R < c.NTask, Ps R ≠ [] → ∃ L < c.NTask, c.LeftTask R = some L ∧ Ps L ≠ [])
    (h2 : ∀ R < c.NTask, ∀ R' < c.NTask, Ps R ≠ [] → Ps R' ≠ [] →
      c.LeftTask R = c.LeftTask R' → R = R') :
    ∑ T ∈ range c.NTask, cellSum c (PtoMesh c Ps old T) (c.Local_nx T)
      = ∑ T ∈ range c.NTask, cellSum c (PtoMesh_local c T (Ps T) (old T)) (c.Local_nx T + 1) := by
  obtain ⟨spill, hspill⟩ : ∃ f : Nat → ℚ, f = fun L =>
      cellSum c (PtoMesh_local c L (Ps L) (old L)) (c.Local_nx L + 1)
        - cellSum c (PtoMesh_local c L (Ps L) (old L)) (c.Local_nx L) := ⟨_, rfl⟩
  obtain ⟨own, hown⟩ : ∃ f : Nat → ℚ, f = fun R =>
      cellSum c (PtoMesh_local c R (Ps R) (old R)) (c.Local_nx R) := ⟨_, rfl⟩
  have hA : ∀ T ∈ range c.NTask, cellSum c (PtoMesh c Ps old T) (c.Local_nx T)
      = own T + (if Ps T ≠ [] then spill ((c.LeftTask T).getD 0) else 0) := by
    intro T hT
    rw [mem_range] at hT
    by_cases hne : Ps T ≠ []
    · obtain ⟨L, _, hL, _⟩ := h1 T hT hne
      obtain ⟨p, hp⟩ := List.exists_mem_of_ne_nil _ hne
      obtain ⟨_, _, _, ha, hb⟩ := hslab T hT p hp
      rw [if_pos hne, hL, Option.getD_some, hspill, hown]
      exact cellSum_merge c Ps old T L hne hL (by omega)
    · rw [if_neg hne, add_zero]
      have he : Ps T = [] := not_not.mp hne
      rw [(cellSum_unmerged c Ps old T he).1, hown]
      exact (cellSum_unmerged c Ps old T he).2.2.symm
  have hB : ∀ T ∈ range c.NTask,
      cellSum c (PtoMesh_local c T (Ps T) (old T)) (c.Local_nx T + 1)
      = own T + (if Ps T ≠ [] then spill T else 0) := by
    intro T _
    by_cases hne : Ps T ≠ []
    · rw [if_pos hne, hspill, hown]; ring
    · rw [if_neg hne, add_zero]
      have he : Ps T = [] := not_not.mp hne
      rw [(cellSum_unmerged c Ps old T he).2.1, hown]
      exact (cellSum_unmerged c Ps old T he).2.2.symm
  rw [sum_congr rfl hA, sum_congr rfl hB, sum_add_distrib, sum_add_distrib, ← sum_filter,
    ← sum_filter]
  congr 1
  exact sum_ring c.NTask (fun T => Ps T ≠ []) c.LeftTask spill h1 h2

/-! ### Claims on `PtoMesh` -/

/-- C3 (amended): when every particle lies in the slab of its task, the sum of
`density + 1` over all cells of all tasks (owned slices and halo slice) after the deposit is
`WPAR` times the number of particles, where `WPAR = (Nmesh/Nsample)^3`; and the sum over
the owned slices after the halo merge is the same number when the tasks that hold
particles form a ring under `LeftTask` (each has a left neighbour that holds particles, and
no two share one). -/
theorem PtoMesh_mass_conservation (c : Config) (Ps : Nat → List part_data) (old : Nat → Grid)
    (hN : 0 < c.Nmesh) (hnx : ∀ T < c.NTask, c.Local_nx T < 2 ^ 32)
    (hslab : ∀ T < c.NTask, ∀ p ∈ Ps T, inSlab c T p) :
    ∑ T ∈ range c.NTask, cellSum c (PtoMesh_local c T (Ps T) (old T)) (c.Local_nx T + 1)
      = WPAR c * ∑ T ∈ range c.NTask, ((Ps T).length : ℚ)
    ∧ ((∀ R < c.NTask, Ps R ≠ [] → ∃ L < c.NTask, c.LeftTask R = some L ∧ Ps L ≠ []) →
       (∀ R < c.NTask, ∀ R' < c.NTask, Ps R ≠ [] → Ps R' ≠ [] →
          c.LeftTask R = c.LeftTask R' → R = R') →
       ∑ T ∈ range c.NTask, cellSum c (PtoMesh c Ps old T) (c.Local_nx T)
         = WPAR c * ∑ T ∈ range c.NTask, ((Ps T).length : ℚ)) :=
  ⟨total_before c Ps old hN hnx hslab, fun h1 h2 => by
    rw [total_after c Ps old hslab h1 h2, total_before c Ps old hN hnx hslab]⟩

/-- C3 (witness): two tasks with one particle each. -/
theorem PtoMesh_mass_conservation_witness :
    ∑ T ∈ range 2, cellSum twoTasks (PtoMesh twoTasks onBothRanks (fun _ _ => 0) T)
        (twoTasks.Local_nx T) = WPAR twoTasks * ∑ T ∈ range 2, ((onBothRanks T).length : ℚ) :=
  (PtoMesh_mass_conservation twoTasks onBothRanks (fun _ _ => 0) (by decide) (by decide)
    (by decide!)).2 (by decide) (by
      intro R hR R' hR' _ _ h
      have hR2 : R < 2 := hR
      have hR2' : R' < 2 := hR'
      interval_cases R <;> interval_cases R' <;> simp_all [twoTasks])

/-- C3 (counterexample): with `Nmesh = 2`, `Nsample = 1` one particle gives the sum `8`,
not `1`; and with two tasks of which the second holds no particle the sum after the merge
is `1/2` for one particle. -/
theorem PtoMesh_mass_conservation_counterexample :
    cellSum oneTask (PtoMesh_local oneTask 0 [particleAt (1/4) 0 0] (fun _ => 0))
        (oneTask.Local_nx 0 + 1) = 8
    ∧ [particleAt (1/4) 0 0].length = 1
    ∧ ∑ T ∈ range 2, cellSum twoTasks (PtoMesh twoTasks onRankZero (fun _ _ => 0) T)
        (twoTasks.Local_nx T) = 1 / 2
    ∧ ∑ T ∈ range 2, (onRankZero T).length = 1 := by decide!


/-- C4: the eight weights that `PtoMesh` adds to the grid for one particle sum to `WPAR`. -/
theorem PtoMesh_weights_sum (c : Config) (T : Nat) (p : part_data) :
    ((PtoMesh_stencil c T p).writes.map Prod.snd).sum = WPAR c :=
  stencil_weights_sum c T p

/-- C5: a particle whose scaled coordinates are the integers `(a, b, k)`, a grid point of
the local slab, gets the weights `WPAR, 0, 0, 0, 0, 0, 0, 0`; its first cell is
`(a - Local_x_start, b, k)` and the deposit adds `WPAR` to that cell and changes no other
element of the grid. -/
theorem PtoMesh_grid_point (c : Config) (T : Nat) (p : part_data) (a b k : Nat)
    (hX : p.Pos.1 * scaleBox c = a) (hY : p.Pos.2.1 * scaleBox c = b)
    (hZ : p.Pos.2.2 * scaleBox c = k)
    (ha : c.Local_x_start T ≤ a ∧ a < c.Local_x_start T + c.Local_nx T)
    (hb : b < c.Nmesh) (hk : k < c.Nmesh) :
    (PtoMesh_stencil c T p).writes.map Prod.snd = [WPAR c, 0, 0, 0, 0, 0, 0, 0] ∧
    ((PtoMesh_stencil c T p).IX, (PtoMesh_stencil c T p).IY, (PtoMesh_stencil c T p).IZ)
      = (a - c.Local_x_start T, b, k) ∧
    ∀ d : Grid, PtoMesh_deposit c T d p
      = addAt d (gridIndex c (a - c.Local_x_start T) b k) (WPAR c) := by
  have hs : PtoMesh_stencil c T p =
      { IX := a - c.Local_x_start T, IY := b, IZ := k,
        IXneigh := uinc32 (a - c.Local_x_start T),
        IYneigh := if b + 1 ≥ c.Nmesh then 0 else b + 1,
        IZneigh := if k + 1 ≥ c.Nmesh then 0 else k + 1,
        TX := 1, TY := WPAR c, TZ := 1, DX := 0, DY := 0, DZ := 0 } := by
    simp only [PtoMesh_stencil, hX, hY, hZ, toUInt_natCast, usub32, if_pos ha.1,
      if_neg (not_le.mpr hb), if_neg (not_le.mpr hk), ge_iff_le]
    simp
  refine ⟨?_, ?_, ?_⟩
  · rw [hs]; simp [Stencil.writes]
  · rw [hs]
  · intro d
    rw [PtoMesh_deposit, hs]
    simp [Stencil.writes, addAt_zero]

/-- C5 (witness): the grid point `(1, 1, 0)` of a `2^3` mesh. -/
theorem PtoMesh_grid_point_witness :
    (PtoMesh_stencil oneTask 0 (particleAt (1/2) (1/2) 0)).writes.map Prod.snd
      = [WPAR oneTask, 0, 0, 0, 0, 0, 0, 0] ∧
    PtoMesh_deposit oneTask 0 (fun _ => -1) (particleAt (1/2) (1/2) 0)
      = addAt (fun _ => -1) (gridIndex oneTask 1 1 0) (WPAR oneTask) :=
  have h := PtoMesh_grid_point oneTask 0 (particleAt (1/2) (1/2) 0) 1 1 0 (by decide!)
    (by decide!) (by decide!) (by decide) (by decide) (by decide)
  ⟨h.1, h.2.2 _⟩

/-- The edges that `PtoMesh` guards: a scaled Y or Z coordinate equal to `Nmesh` gives the
cell index 0 on that axis and all Y and Z indices of the stencil lie in `[0, Nmesh)`.  The X
index has no such guard: only for a particle whose X cell lies in the owned range of the
task is it below `Local_nx` and the X neighbour at most `Local_nx`. -/
theorem stencil_edges (c : Config) (T : Nat) (p : part_data) (hN : 0 < c.Nmesh)
    (hnx : c.Local_nx T < 2 ^ 32) :
    (p.Pos.2.1 * scaleBox c = c.Nmesh → (PtoMesh_stencil c T p).IY = 0) ∧
    (p.Pos.2.2 * scaleBox c = c.Nmesh → (PtoMesh_stencil c T p).IZ = 0) ∧
    (PtoMesh_stencil c T p).IY < c.Nmesh ∧ (PtoMesh_stencil c T p).IYneigh < c.Nmesh ∧
    (PtoMesh_stencil c T p).IZ < c.Nmesh ∧ (PtoMesh_stencil c T p).IZneigh < c.Nmesh ∧
    (c.Local_x_start T ≤ toUInt (p.Pos.1 * scaleBox c) ∧
      toUInt (p.Pos.1 * scaleBox c) < c.Local_x_start T + c.Local_nx T →
      (PtoMesh_stencil c T p).IX = toUInt (p.Pos.1 * scaleBox c) - c.Local_x_start T ∧
      (PtoMesh_stencil c T p).IX < c.Local_nx T ∧
      (PtoMesh_stencil c T p).IXneigh = (PtoMesh_stencil c T p).IX + 1 ∧
      (PtoMesh_stencil c T p).IXneigh ≤ c.Local_nx T) := by
  refine ⟨?_, ?_, wrapY_lt _ _ hN, wrapY_lt _ _ hN, wrapY_lt _ _ hN, wrapY_lt _ _ hN, ?_⟩
  · intro h
    simp [PtoMesh_stencil, h, toUInt_natCast]
  · intro h
    simp [PtoMesh_stencil, h, toUInt_natCast]
  · rintro ⟨h1, h2⟩
    have hIX : (PtoMesh_stencil c T p).IX
        = toUInt (p.Pos.1 * scaleBox c) - c.Local_x_start T := by
      simp [PtoMesh_stencil, usub32, h1]
    have hlt : (PtoMesh_stencil c T p).IX < c.Local_nx T := by
      rw [hIX]; omega
    have hne : (PtoMesh_stencil c T p).IXneigh = (PtoMesh_stencil c T p).IX + 1 := by
      have : (PtoMesh_stencil c T p).IXneigh = uinc32 (PtoMesh_stencil c T p).IX := rfl
      rw [this, uinc32, if_neg]
      omega
    exact ⟨hIX, hlt, hne, by omega⟩

/-- C6 (failing input): on one task with `Nmesh = 2` and `Local_nx = 2` a particle whose
scaled X coordinate is exactly `Nmesh` gets the X cell index `2`, not `0`, and the X
neighbour index `3 = Local_nx + 1`, beyond the halo slice: the last four of its eight
statements address the elements `24, 25, 28, 29` of a grid of `2*Total_size = 24` elements.
The same edge on Y and Z is guarded (cell index `0`), and `ProcessParticlesSingleFile` skips
the particle. -/
theorem PtoMesh_edge_overrun :
    (particleAt 1 0 0).Pos.1 * scaleBox oneTask = oneTask.Nmesh ∧
    oneTask.Local_nx 0 = 2 ∧
    (PtoMesh_stencil oneTask 0 (particleAt 1 0 0)).IX = 2 ∧
    (PtoMesh_stencil oneTask 0 (particleAt 1 0 0)).IXneigh = 3 ∧
    ((PtoMesh_stencil oneTask 0 (particleAt 1 0 0)).writes.map fun w =>
      gridIndex oneTask w.1.1 w.1.2.1 w.1.2.2) = [16, 17, 20, 21, 24, 25, 28, 29] ∧
    2 * Total_size oneTask 0 = 24 ∧
    ((PtoMesh_stencil oneTask 0 (particleAt 0 1 1)).IY = 0 ∧
      (PtoMesh_stencil oneTask 0 (particleAt 0 1 1)).IZ = 0) ∧
    skipped oneTask 0 1 = true := by
  refine ⟨?_, ?_, ?_, ?_, ?_, ?_, ?_, ?_⟩ <;> decide!

/-- The merge as the source makes it: for a task `R` with left neighbour `L`, after the halo
exchange an element `i` of the first slice of `R` holds its own value plus the halo-slice
value of `L` plus `1` when `NumPart != 0` on `R`; when `R` holds no particle the grid of `R`
is left as it was, and so is every element outside the first slice. -/
theorem halo_merge_eq (c : Config) (Ps : Nat → List part_data) (old : Nat → Grid)
    (R L : Nat) (hL : c.LeftTask R = some L) (i : Nat) :
    PtoMesh c Ps old R i =
      if (Ps R).length ≠ 0 ∧ i < 2 * alloc_slice c then
        PtoMesh_local c R (Ps R) (old R) i
          + PtoMesh_local c L (Ps L) (old L) (2 * last_slice c L + i) + 1
      else PtoMesh_local c R (Ps R) (old R) i := by
  unfold PtoMesh PtoMesh_merge temp_density
  rw [hL]
  by_cases h1 : (Ps R).length ≠ 0
  · by_cases h2 : i < 2 * alloc_slice c
    · simp only [if_pos h1, if_pos h2, if_pos (And.intro h1 h2)]
      ring
    · simp only [if_pos h1, if_neg h2,
        if_neg (fun h : (Ps R).length ≠ 0 ∧ i < 2 * alloc_slice c => h2 h.2)]
  · simp only [if_neg h1, if_neg (fun h : (Ps R).length ≠ 0 ∧ i < 2 * alloc_slice c => h1 h.1)]

/-- C7 (failing input): two tasks with one slice each (`Nmesh = 2`, `WPAR = 1`).  Rank 1
owns a slice but holds no particle, and its left neighbour, rank 0, has spilled `1/2` into
its halo slice (value `-1/2`).  After the exchange the first cell of rank 1 still holds its
own value `-1`: the spilled slice is not added, and the owned cells of the two tasks hold
the mass `1/2` of a particle of mass `1`.  With a particle on rank 1 too, the same spill is
merged: the first cell of rank 1 holds `-1/2 + -1/2 + 1 = 0`. -/
theorem PtoMesh_halo_merge_lost :
    twoTasks.LeftTask 1 = some 0 ∧ twoTasks.Local_nx 1 = 1 ∧ onRankZero 1 = [] ∧
    PtoMesh_local twoTasks 0 (onRankZero 0) (fun _ => 0) (2 * last_slice twoTasks 0 + 0) = -1/2 ∧
    PtoMesh_local twoTasks 1 (onRankZero 1) (fun _ => 0) 0 = -1 ∧
    PtoMesh twoTasks onRankZero (fun _ _ => 0) 1 0 = -1 ∧
    ∑ T ∈ range 2, cellSum twoTasks (PtoMesh twoTasks onRankZero (fun _ _ => 0) T)
        (twoTasks.Local_nx T) = 1/2 ∧
    WPAR twoTasks * ∑ T ∈ range 2, ((onRankZero T).length : ℚ) = 1 ∧
    PtoMesh_local twoTasks 0 (onBothRanks 0) (fun _ => 0) (2 * last_slice twoTasks 0 + 0) = -1/2 ∧
    PtoMesh_local twoTasks 1 (onBothRanks 1) (fun _ => 0) 0 = -1/2 ∧
    PtoMesh twoTasks onBothRanks (fun _ _ => 0) 1 0 = 0 := by
  refine ⟨?_, ?_, ?_, ?_, ?_, ?_, ?_, ?_, ?_, ?_, ?_⟩ <;> decide!

/-! ### Helper lemmas for `Forces` -/

theorem cIndex_inj (c : Config) {i r k i' r' k' : Nat}
    (hr : r < c.Nmesh) (hk : k ≤ c.Nmesh / 2) (hr' : r' < c.Nmesh) (hk' : k' ≤ c.Nmesh / 2)
    (h : cIndex c i r k = cIndex c i' r' k') : i = i' ∧ r = r' ∧ k = k' := by
  unfold cIndex at h
  set M := c.Nmesh / 2 + 1 with hM
  have hkM : k < M := by omega
  have hkM' : k' < M := by omega
  have hMpos : 0 < M := by omega
  have e1 : (i * c.Nmesh + r) * M + k = M * (i * c.Nmesh + r) + k := by ring
  have e2 : (i' * c.Nmesh + r') * M + k' = M * (i' * c.Nmesh + r') + k' := by ring
  rw [e1, e2] at h
  have hq : i * c.Nmesh + r = i' * c.Nmesh + r' := by
    have := congrArg (· / M) h
    simpa [Nat.mul_add_div hMpos, Nat.div_eq_of_lt hkM, Nat.div_eq_of_lt hkM'] using this
  have hkk : k = k' := by
    have := congrArg (· % M) h
    simpa [Nat.mul_add_mod, Nat.mod_eq_of_lt hkM, Nat.mod_eq_of_lt hkM'] using this
  have hNpos : 0 < c.Nmesh := by omega
  have hii : i = i' := by
    have := congrArg (· / c.Nmesh) hq
    simpa [Nat.add_comm (_ * c.Nmesh), Nat.add_mul_div_right _ _ hNpos, Nat.div_eq_of_lt hr,
      Nat.div_eq_of_lt hr'] using this
  have hrr : r = r' := by
    have := congrArg (· % c.Nmesh) hq
    simpa [Nat.add_mul_mod_self_right, Nat.add_comm (_ * c.Nmesh), Nat.mod_eq_of_lt hr,
      Nat.mod_eq_of_lt hr'] using this
  exact ⟨hii, hrr, hkk⟩

theorem body_ind (c : Config) (T : Nat) (P3D mg2 : CGrid) (sinf : ℚ → ℚ) (i j k : Nat) :
    (Forces_body c T P3D mg2 sinf i j k).map Assign.ind
      = if j ≠ c.Nmesh / 2 ∧ j ≠ 0 then [cIndex c i j k, cIndex c i (c.Nmesh - j) k]
        else [cIndex c i j k] := by
  unfold Forces_body
  by_cases h : j ≠ c.Nmesh / 2 ∧ j ≠ 0
  · simp only [if_pos h, List.map_cons, List.map_nil, Forces_solve]
  · simp only [if_neg h, List.map_cons, List.map_nil, Forces_solve]

theorem nodup_flatMap_range {β : Type} (n : Nat) (f : Nat → List β)
    (h1 : ∀ i < n, (f i).Nodup)
    (h2 : ∀ i < n, ∀ i' < n, i ≠ i' → ∀ x, x ∈ f i → x ∈ f i' → False) :
    ((List.range n).flatMap f).Nodup := by
  rw [List.nodup_flatMap]
  refine ⟨fun i hi => h1 i (List.mem_range.mp hi), ?_⟩
  have := List.pairwise_lt_range n
  refine (List.Pairwise.and_mem.mp this).imp ?_
  rintro a b ⟨ha, hb, hab⟩
  intro x hxa hxb
  exact h2 a (List.mem_range.mp ha) b (List.mem_range.mp hb) (Nat.ne_of_lt hab) x hxa hxb



/-- The indices that the body assigns at `(i, j, k)`. -/
theorem mem_body_ind (c : Config) (T : Nat) (P3D mg2 : CGrid) (sinf : ℚ → ℚ) (i j k x : Nat) :
    x ∈ (Forces_body c T P3D mg2 sinf i j k).map Assign.ind ↔
      x = cIndex c i j k ∨ ((j ≠ c.Nmesh / 2 ∧ j ≠ 0) ∧ x = cIndex c i (c.Nmesh - j) k) := by
  rw [body_ind]
  by_cases h : j ≠ c.Nmesh / 2 ∧ j ≠ 0
  · simp [h]
  · simp [h]

theorem row_ind (c : Config) (T : Nat) (P3D mg2 : CGrid) (sinf : ℚ → ℚ) (i j : Nat) :
    (Forces_row c T P3D mg2 sinf i j).map Assign.ind
      = (List.range (c.Nmesh / 2 + 1)).flatMap
          fun k => (Forces_body c T P3D mg2 sinf i j k).map Assign.ind := by
  unfold Forces_row
  by_cases h : i + c.Local_x_start T = 0 ∧ j = 0
  · have hi : i = 0 := by omega
    have hj : j = 0 := h.2
    simp only [if_pos h, List.map_append, List.map_cons, List.map_nil, List.map_flatMap,
      Nat.add_sub_cancel]
    rw [List.range_eq_range', List.range'_succ, List.flatMap_cons, body_ind, hi, hj]
    simp only [ne_eq, not_true_eq_false, and_false, if_false]
    have : cIndex c 0 0 0 = 0 := by simp [cIndex]
    rw [this]
  · simp only [if_neg h, List.nil_append, List.map_flatMap, Nat.sub_zero,
      ← List.range_eq_range']



theorem assignments_ind (c : Config) (T : Nat) (P3D mg2 : CGrid) (sinf : ℚ → ℚ) :
    (Forces_assignments c T P3D mg2 sinf).map Assign.ind
      = (List.range (c.Local_nx T)).flatMap fun i =>
          (List.range (c.Nmesh / 2 + 1)).flatMap fun j =>
            (List.range (c.Nmesh / 2 + 1)).flatMap fun k =>
              (Forces_body c T P3D mg2 sinf i j k).map Assign.ind := by
  unfold Forces_assignments
  simp only [List.map_flatMap, row_ind]

theorem mem_assignments_ind (c : Config) (T : Nat) (P3D mg2 : CGrid) (sinf : ℚ → ℚ) (x : Nat) :
    x ∈ (Forces_assignments c T P3D mg2 sinf).map Assign.ind ↔
      ∃ i < c.Local_nx T, ∃ j ≤ c.Nmesh / 2, ∃ k ≤ c.Nmesh / 2,
        x = cIndex c i j k ∨ ((j ≠ c.Nmesh / 2 ∧ j ≠ 0) ∧ x = cIndex c i (c.Nmesh - j) k) := by
  rw [assignments_ind]
  simp only [List.mem_flatMap, List.mem_range, mem_body_ind, Nat.lt_succ_iff]

theorem written_unique (c : Config) {i j k i' j' k' x : Nat}
    (hj : j ≤ c.Nmesh / 2) (hk : k ≤ c.Nmesh / 2) (hj' : j' ≤ c.Nmesh / 2)
    (hk' : k' ≤ c.Nmesh / 2) (hN : 0 < c.Nmesh)
    (h : x = cIndex c i j k ∨ ((j ≠ c.Nmesh / 2 ∧ j ≠ 0) ∧ x = cIndex c i (c.Nmesh - j) k))
    (h' : x = cIndex c i' j' k' ∨
      ((j' ≠ c.Nmesh / 2 ∧ j' ≠ 0) ∧ x = cIndex c i' (c.Nmesh - j') k')) :
    i = i' ∧ j = j' ∧ k = k' ∧
      (x = cIndex c i j k ↔ x = cIndex c i' j' k') := by
  rcases h with h | ⟨⟨h1, h2⟩, h⟩ <;> rcases h' with h' | ⟨⟨h1', h2'⟩, h'⟩
  · obtain ⟨a, b, e⟩ := cIndex_inj c (by omega) hk (by omega) hk' (h.symm.trans h')
    exact ⟨a, b, e, by rw [a, b, e]⟩
  · obtain ⟨a, b, e⟩ := cIndex_inj c (by omega) hk (by omega) hk' (h.symm.trans h')
    omega
  · obtain ⟨a, b, e⟩ := cIndex_inj c (by omega) hk (by omega) hk' (h.symm.trans h')
    omega
  · obtain ⟨a, b, e⟩ := cIndex_inj c (by omega) hk (by omega) hk' (h.symm.trans h')
    refine ⟨a, by omega, e, ?_⟩
    have hj2 : j = j' := by omega
    subst a hj2 e
    exact Iff.rfl

theorem assignments_nodup (c : Config) (T : Nat) (P3D mg2 : CGrid) (sinf : ℚ → ℚ)
    (hN : 0 < c.Nmesh) :
    ((Forces_assignments c T P3D mg2 sinf).map Assign.ind).Nodup := by
  rw [assignments_ind]
  apply nodup_flatMap_range
  · intro i _
    apply nodup_flatMap_range
    · intro j hj
      apply nodup_flatMap_range
      · intro k hk
        rw [body_ind]
        by_cases h : j ≠ c.Nmesh / 2 ∧ j ≠ 0
        · rw [if_pos h]
          simp only [List.nodup_cons, List.mem_singleton, List.not_mem_nil, not_false_eq_true,
            List.nodup_nil, and_true]
          intro e
          have := cIndex_inj c (show j < c.Nmesh by omega) (show k ≤ c.Nmesh / 2 by omega)
            (show c.Nmesh - j < c.Nmesh by omega) (show k ≤ c.Nmesh / 2 by omega) e
          omega
        · rw [if_neg h]; simp
      · intro k hk k' hk' hne x hx hx'
        rw [mem_body_ind] at hx hx'
        have := written_unique c (by omega) (by omega) (by omega) (by omega) hN hx hx'
        omega
    · intro j hj j' hj' hne x hx hx'
      simp only [List.mem_flatMap, List.mem_range, mem_body_ind] at hx hx'
      obtain ⟨k, hk, hx⟩ := hx
      obtain ⟨k', hk', hx'⟩ := hx'
      have := written_unique c (by omega) (by omega) (by omega) (by omega) hN hx hx'
      omega
  · intro i hi i' hi' hne x hx hx'
    simp only [List.mem_flatMap, List.mem_range, mem_body_ind] at hx hx'
    obtain ⟨j, hj, k, hk, hx⟩ := hx
    obtain ⟨j', hj', k', hk', hx'⟩ := hx'
    have := written_unique c (by omega) (by omega) (by omega) (by omega) hN hx hx'
    omega

theorem foldl_store_frame (as : List Assign) (F : ForceGrids) (a : Nat)
    (h : a ∉ as.map Assign.ind) :
    (as.foldl ForceGrids.store F).FN11 a = F.FN11 a ∧
    (as.foldl ForceGrids.store F).FN12 a = F.FN12 a ∧
    (as.foldl ForceGrids.store F).FN13 a = F.FN13 a := by
  induction as generalizing F with
  | nil => simp
  | cons w as ih =>
    simp only [List.map_cons, List.mem_cons, not_or] at h
    rw [List.foldl_cons]
    obtain ⟨h1, h2, h3⟩ := ih (F.store w) h.2
    rw [h1, h2, h3]
    simp [ForceGrids.store, Function.update_noteq h.1]

theorem foldl_store_mem (as : List Assign) (F : ForceGrids) (w : Assign)
    (hw : w ∈ as) (hnd : (as.map Assign.ind).Nodup) :
    (as.foldl ForceGrids.store F).FN11 w.ind = w.f11 ∧
    (as.foldl ForceGrids.store F).FN12 w.ind = w.f12 ∧
    (as.foldl ForceGrids.store F).FN13 w.ind = w.f13 := by
  induction as generalizing F with
  | nil => simp at hw
  | cons v as ih =>
    simp only [List.map_cons, List.nodup_cons] at hnd
    rw [List.foldl_cons]
    rcases List.mem_cons.mp hw with rfl | hw'
    · obtain ⟨h1, h2, h3⟩ := foldl_store_frame as (F.store w) w.ind hnd.1
      rw [h1, h2, h3]
      simp [ForceGrids.store]
    · exact ih (F.store v) hw' hnd.2



theorem row_sub_assignments (c : Config) (T : Nat) (P3D mg2 : CGrid) (sinf : ℚ → ℚ)
    {i j : Nat} (hi : i < c.Local_nx T) (hj : j ≤ c.Nmesh / 2) {w : Assign}
    (hw : w ∈ Forces_row c T P3D mg2 sinf i j) : w ∈ Forces_assignments c T P3D mg2 sinf := by
  unfold Forces_assignments
  simp only [List.mem_flatMap, List.mem_range]
  exact ⟨i, hi, j, by omega, hw⟩

theorem dc_mem (c : Config) (T : Nat) (P3D mg2 : CGrid) (sinf : ℚ → ℚ)
    (h0 : c.Local_x_start T = 0) (hnx : 0 < c.Local_nx T) :
    ({ ind := 0, f11 := (0, 0), f12 := (0, 0), f13 := (0, 0) } : Assign)
      ∈ Forces_assignments c T P3D mg2 sinf := by
  apply row_sub_assignments c T P3D mg2 sinf hnx (Nat.zero_le _)
  unfold Forces_row
  simp [h0]

theorem body_sub_assignments (c : Config) (T : Nat) (P3D mg2 : CGrid) (sinf : ℚ → ℚ)
    {i j k : Nat} (hi : i < c.Local_nx T) (hj : j ≤ c.Nmesh / 2) (hk : k ≤ c.Nmesh / 2)
    (hne : ¬ (i + c.Local_x_start T = 0 ∧ j = 0 ∧ k = 0)) {w : Assign}
    (hw : w ∈ Forces_body c T P3D mg2 sinf i j k) :
    w ∈ Forces_assignments c T P3D mg2 sinf := by
  apply row_sub_assignments c T P3D mg2 sinf hi hj
  unfold Forces_row
  apply List.mem_append_right
  rw [List.mem_flatMap]
  refine ⟨k, ?_, hw⟩
  rw [List.mem_range'_1]
  by_cases h : i + c.Local_x_start T = 0 ∧ j = 0
  · have : k ≠ 0 := fun hk0 => hne ⟨h.1, h.2, hk0⟩
    simp only [if_pos h]; omega
  · simp only [if_neg h]; omega

/-! ### Claims on `Forces` -/

/-- C8: on the task that owns global slice 0 (its `Local_x_start` is 0 and it has a slice),
after the k-space loop element 0, the `(0,0,0)` mode, of each of `FN11`, `FN12`, `FN13` has
real part 0 and imaginary part 0, whatever the spectra and the previous grids are. -/
theorem Forces_dc_zero (c : Config) (T : Nat) (P3D mg2 : CGrid) (sinf : ℚ → ℚ) (F : ForceGrids)
    (hN : 0 < c.Nmesh) (h0 : c.Local_x_start T = 0) (hnx : 0 < c.Local_nx T) :
    (Forces_kspace c T P3D mg2 sinf F).FN11 0 = (0, 0) ∧
    (Forces_kspace c T P3D mg2 sinf F).FN12 0 = (0, 0) ∧
    (Forces_kspace c T P3D mg2 sinf F).FN13 0 = (0, 0) :=
  foldl_store_mem _ F _ (dc_mem c T P3D mg2 sinf h0 hnx) (assignments_nodup c T P3D mg2 sinf hN)

theorem primary_mem (c : Config) (T : Nat) (P3D mg2 : CGrid) (sinf : ℚ → ℚ) (i j k : Nat) :
    Forces_solve c (cIndex c i j k)
      (Forces_dens c P3D mg2 (cIndex c i j k)
        (-1 / (((foldK c (i + c.Local_x_start T) * foldK c (i + c.Local_x_start T)
          + (j : Int) * j + (k : Int) * k : Int)) : ℚ)) 1)
      (foldK c (i + c.Local_x_start T)) j k
      ∈ Forces_body c T P3D mg2 sinf i j k := by
  unfold Forces_body
  by_cases h : j ≠ c.Nmesh / 2 ∧ j ≠ 0
  · simp only [if_pos h, List.mem_cons, true_or]
  · simp only [if_neg h, List.mem_cons, true_or]

theorem mirror_mem (c : Config) (T : Nat) (P3D mg2 : CGrid) (sinf : ℚ → ℚ) (i j k : Nat)
    (h : j ≠ c.Nmesh / 2 ∧ j ≠ 0) :
    Forces_solve c (cIndex c i (c.Nmesh - j) k)
      (Forces_dens c P3D mg2 (cIndex c i (c.Nmesh - j) k)
        (-1 / (((foldK c (i + c.Local_x_start T) * foldK c (i + c.Local_x_start T)
          + (j : Int) * j + (k : Int) * k : Int)) : ℚ)) 1)
      (foldK c (i + c.Local_x_start T)) (-(j : Int)) k
      ∈ Forces_body c T P3D mg2 sinf i j k := by
  unfold Forces_body
  simp only [if_pos h, List.mem_cons, List.mem_singleton, or_true, true_or]

theorem solve_spec (c : Config) (P3D mg2 : CGrid) (ind : Nat) (k1 k2 k3 j : Int)
    (hj : j * j = k2 * k2) (hmg : c.modified_gravity_active = false) :
    Forces_solve c ind (Forces_dens c P3D mg2 ind
      (-1 / (((k1 * k1 + j * j + k3 * k3 : Int)) : ℚ)) 1) k1 k2 k3
    = { ind := ind,
        f11 := specForce c (specPotential c (P3D ind) k1 k2 k3) k1,
        f12 := specForce c (specPotential c (P3D ind) k1 k2 k3) k2,
        f13 := specForce c (specPotential c (P3D ind) k1 k2 k3) k3 } := by
  have e : (k1 * k1 + j * j + k3 * k3 : Int) = k1 ^ 2 + k2 ^ 2 + k3 ^ 2 := by
    rw [hj]; ring
  simp only [Forces_solve, Forces_dens, hmg, specForce, specPotential, e, Bool.false_eq_true,
    if_false, Assign.mk.injEq, Prod.mk.injEq, true_and]
  refine ⟨⟨?_, ?_⟩, ⟨?_, ?_⟩, ⟨?_, ?_⟩⟩ <;> ring

/-- C9: with modified gravity inactive, for a mode `(i, j, k)` of the loop with folded
wavenumber `(k1, j, k) ≠ (0,0,0)`, the grids after the loop hold at the primary index
`(i * k_c / Scale) * phi` with `phi = -P3D / (RK * Nmesh^3)`, and, for `j ≠ Nmesh/2`,
`j ≠ 0`, the same at the mirror index `(i, Nmesh - j, k)` with Y wavenumber `-j`. -/
theorem Forces_formula (c : Config) (T : Nat) (P3D mg2 : CGrid) (sinf : ℚ → ℚ) (F : ForceGrids)
    (i j k : Nat) (hmg : c.modified_gravity_active = false) (hN : 0 < c.Nmesh)
    (hi : i < c.Local_nx T) (hj : j ≤ c.Nmesh / 2) (hk : k ≤ c.Nmesh / 2)
    (hne : (foldK c (i + c.Local_x_start T), (j : Int), (k : Int)) ≠ (0, 0, 0)) :
    ((Forces_kspace c T P3D mg2 sinf F).FN11 (cIndex c i j k)
        = specForce c (specPotential c (P3D (cIndex c i j k))
            (foldK c (i + c.Local_x_start T)) j k) (foldK c (i + c.Local_x_start T)) ∧
      (Forces_kspace c T P3D mg2 sinf F).FN12 (cIndex c i j k)
        = specForce c (specPotential c (P3D (cIndex c i j k))
            (foldK c (i + c.Local_x_start T)) j k) j ∧
      (Forces_kspace c T P3D mg2 sinf F).FN13 (cIndex c i j k)
        = specForce c (specPotential c (P3D (cIndex c i j k))
            (foldK c (i + c.Local_x_start T)) j k) k) ∧
    (j ≠ c.Nmesh / 2 ∧ j ≠ 0 →
      (Forces_kspace c T P3D mg2 sinf F).FN11 (cIndex c i (c.Nmesh - j) k)
        = specForce c (specPotential c (P3D (cIndex c i (c.Nmesh - j) k))
            (foldK c (i + c.Local_x_start T)) (-(j : Int)) k) (foldK c (i + c.Local_x_start T)) ∧
      (Forces_kspace c T P3D mg2 sinf F).FN12 (cIndex c i (c.Nmesh - j) k)
        = specForce c (specPotential c (P3D (cIndex c i (c.Nmesh - j) k))
            (foldK c (i + c.Local_x_start T)) (-(j : Int)) k) (-(j : Int)) ∧
      (Forces_kspace c T P3D mg2 sinf F).FN13 (cIndex c i (c.Nmesh - j) k)
        = specForce c (specPotential c (P3D (cIndex c i (c.Nmesh - j) k))
            (foldK c (i + c.Local_x_start T)) (-(j : Int)) k) k) := by
  have hz : ¬ (i + c.Local_x_start T = 0 ∧ j = 0 ∧ k = 0) := by
    rintro ⟨a, b, e⟩
    apply hne
    simp [foldK, a, b, e]
  have hnd := assignments_nodup c T P3D mg2 sinf hN
  constructor
  · have hval := foldl_store_mem _ F _
      (body_sub_assignments c T P3D mg2 sinf hi hj hk hz (primary_mem c T P3D mg2 sinf i j k)) hnd
    rw [solve_spec c P3D mg2 _ _ _ _ _ rfl hmg] at hval
    exact hval
  · intro hm
    have hval := foldl_store_mem _ F _
      (body_sub_assignments c T P3D mg2 sinf hi hj hk hz (mirror_mem c T P3D mg2 sinf i j k hm)) hnd
    rw [solve_spec c P3D mg2 _ _ _ _ _ (by ring) hmg] at hval
    exact hval

theorem ind_count (c : Config) (T : Nat) (P3D mg2 : CGrid) (sinf : ℚ → ℚ) (hN : 0 < c.Nmesh)
    (i m k : Nat) (hi : i < c.Local_nx T) (hm : m < c.Nmesh) (hk : k ≤ c.Nmesh / 2) :
    ((Forces_assignments c T P3D mg2 sinf).map Assign.ind).count (cIndex c i m k)
      = if m ≤ c.Nmesh / 2 ∨ c.Nmesh - m < c.Nmesh / 2 then 1 else 0 := by
  have hnd := assignments_nodup c T P3D mg2 sinf hN
  by_cases h : m ≤ c.Nmesh / 2 ∨ c.Nmesh - m < c.Nmesh / 2
  · rw [if_pos h]
    apply List.count_eq_one_of_mem hnd
    rw [mem_assignments_ind]
    by_cases h1 : m ≤ c.Nmesh / 2
    · exact ⟨i, hi, m, h1, k, hk, Or.inl rfl⟩
    · have h2 : c.Nmesh - m < c.Nmesh / 2 := by tauto
      refine ⟨i, hi, c.Nmesh - m, by omega, k, hk, Or.inr ⟨⟨by omega, by omega⟩, ?_⟩⟩
      have : c.Nmesh - (c.Nmesh - m) = m := by omega
      rw [this]
  · rw [if_neg h]
    apply List.count_eq_zero_of_not_mem
    rw [mem_assignments_ind]
    rintro ⟨i', _, j', hj', k', hk', hx | ⟨⟨h1, h2⟩, hx⟩⟩
    · have := cIndex_inj c hm hk (by omega) hk' hx
      omega
    · have := cIndex_inj c hm hk (by omega) hk' hx
      omega

/-- C10 (amended): a point `(i, j, k)`, `i < Local_nx`, `j < Nmesh`, `k ≤ Nmesh/2`, is
assigned exactly once when `j ≤ Nmesh/2` (primary branch) or `Nmesh - j < Nmesh/2` (mirror
branch) and not at all otherwise; for even `Nmesh` every point is assigned exactly once. -/
theorem Forces_coverage (c : Config) (T : Nat) (P3D mg2 : CGrid) (sinf : ℚ → ℚ)
    (hN : 0 < c.Nmesh) (i j k : Nat) (hi : i < c.Local_nx T) (hj : j < c.Nmesh)
    (hk : k ≤ c.Nmesh / 2) :
    ((Forces_assignments c T P3D mg2 sinf).map Assign.ind).count (cIndex c i j k)
      = (if j ≤ c.Nmesh / 2 ∨ c.Nmesh - j < c.Nmesh / 2 then 1 else 0) ∧
    (c.Nmesh % 2 = 0 →
      ((Forces_assignments c T P3D mg2 sinf).map Assign.ind).count (cIndex c i j k) = 1) := by
  refine ⟨ind_count c T P3D mg2 sinf hN i j k hi hj hk, fun he => ?_⟩
  rw [ind_count c T P3D mg2 sinf hN i j k hi hj hk, if_pos]
  omega

/-- C10 (counterexample): with `Nmesh = 3` the point `(0, 2, 0)` is assigned by no
iteration of the loop. -/
theorem Forces_coverage_counterexample :
    ((Forces_assignments oddMesh 0 sampleSpectrum sampleSpectrum (fun x => x)).map
      Assign.ind).count (cIndex oddMesh 0 2 0) = 0 := by decide!

/-- C10 (witness): the point `(1, 1, 1)` of a `2^3` mesh. -/
theorem Forces_coverage_witness :
    ((Forces_assignments oneTask 0 sampleSpectrum sampleSpectrum (fun x => x)).map
      Assign.ind).count (cIndex oneTask 1 1 1) = 1 :=
  (Forces_coverage oneTask 0 sampleSpectrum sampleSpectrum (fun x => x) (by decide) 1 1 1
    (by decide) (by decide) (by decide)).2 (by decide)

/-- C8 (witness): one task, `Nmesh = 2`, grids that held `1 + i` before. -/
theorem Forces_dc_zero_witness :
    (Forces_kspace oneTask 0 sampleSpectrum sampleSpectrum (fun x => x) sampleForceGrids).FN12 0
      = (0, 0) :=
  (Forces_dc_zero oneTask 0 sampleSpectrum sampleSpectrum (fun x => x) sampleForceGrids
    (by decide) (by decide) (by decide)).2.1

/-- C9 (witness): the mode `(1, 0, 1)` of a `2^3` mesh. -/
theorem Forces_formula_witness :
    (Forces_kspace oneTask 0 sampleSpectrum sampleSpectrum (fun x => x) sampleForceGrids).FN13
        (cIndex oneTask 1 0 1)
      = specForce oneTask (specPotential oneTask (sampleSpectrum (cIndex oneTask 1 0 1)) 1 0 1) 1 :=
  (Forces_formula oneTask 0 sampleSpectrum sampleSpectrum (fun x => x) sampleForceGrids 1 0 1
    (by decide) (by decide) (by decide) (by decide) (by decide) (by decide!)).1.2.2

/-! ### Helper lemmas for `MoveParticles` -/

theorem swapRemove_concat (init : List part_data) (last : part_data) (i : Nat) :
    swapRemove (init ++ [last]) i = init.set i last := by
  unfold swapRemove
  have hl : (init ++ [last]).getLast? = some last := by simp
  rw [hl]
  simp only
  by_cases h : i < init.length
  · rw [List.set_append_left _ _ h, List.dropLast_concat]
  · rw [List.set_append_right _ _ (by omega)]
    have : init.set i last = init := by
      apply List.set_eq_of_length_le; omega
    rw [this]
    rcases Nat.eq_zero_or_pos (i - init.length) with h0 | h0
    · rw [h0]; simp
    · obtain ⟨m, hm⟩ : ∃ m, i - init.length = m + 1 := ⟨i - init.length - 1, by omega⟩
      rw [hm]; simp

theorem set_multiset (init : List part_data) (last p : part_data) (i : Nat)
    (hp : (init ++ [last]).get? i = some p) :
    (↑(init.set i last) : Multiset part_data) + {p} = ↑(init ++ [last]) := by
  induction init generalizing i with
  | nil =>
    cases i with
    | zero => simp at hp; subst hp; simp
    | succ n => simp at hp
  | cons a init ih =>
    cases i with
    | zero =>
      simp at hp; subst hp
      simp only [List.set_cons_zero, List.cons_append]
      rw [← Multiset.cons_coe, ← Multiset.cons_coe, ← Multiset.coe_add,
        ← Multiset.singleton_add, ← Multiset.singleton_add, ← Multiset.coe_singleton]
      abel
    | succ n =>
      simp only [List.cons_append, List.get?_cons_succ] at hp
      simp only [List.set_cons_succ, List.cons_append]
      rw [← Multiset.cons_coe, ← Multiset.cons_coe, Multiset.cons_add, ih n hp]

theorem set_take (init : List part_data) (last : part_data) (i : Nat)
    (hi : i ≤ init.length) :
    (init.set i last).take i = (init ++ [last]).take i := by
  induction init generalizing i with
  | nil =>
    have : i = 0 := by simpa using hi
    subst this; simp
  | cons a init ih =>
    cases i with
    | zero => simp
    | succ n =>
      have : n ≤ init.length := by simpa using hi
      simp [ih n this]

theorem set_drop (init : List part_data) (last : part_data) (i : Nat) :
    ∀ x ∈ (init.set i last).drop i, x ∈ (init ++ [last]).drop (i + 1) := by
  induction init generalizing i with
  | nil => intro x hx; simp at hx
  | cons a init ih =>
    cases i with
    | zero =>
      intro x hx
      simp only [List.set_cons_zero, List.drop_zero, List.mem_cons] at hx
      simp only [List.cons_append, List.drop_succ_cons, List.drop_zero, List.mem_append,
        List.mem_singleton]
      tauto
    | succ n =>
      intro x hx
      simp only [List.set_cons_succ, List.drop_succ_cons] at hx
      simpa using ih n x hx

theorem exists_concat (P : List part_data) (i : Nat) (hi : i < P.length) :
    ∃ init last, P = init ++ [last] := by
  have hne : P ≠ [] := by intro h; simp [h] at hi
  exact ⟨P.dropLast, P.getLast hne, (List.dropLast_append_getLast hne).symm⟩

theorem swapRemove_multiset (P : List part_data) (i : Nat) (p : part_data)
    (hp : P.get? i = some p) :
    (↑(swapRemove P i) : Multiset part_data) + {p} = ↑P := by
  have hi : i < P.length := by
    rw [List.get?_eq_some] at hp; exact hp.1
  obtain ⟨init, last, rfl⟩ := exists_concat P i hi
  rw [swapRemove_concat]
  exact set_multiset init last p i hp

theorem swapRemove_take (P : List part_data) (i : Nat) (hi : i < P.length) :
    (swapRemove P i).take i = P.take i := by
  obtain ⟨init, last, rfl⟩ := exists_concat P i hi
  rw [swapRemove_concat]
  exact set_take init last i (by simpa [Nat.lt_succ_iff] using hi)

theorem swapRemove_drop (P : List part_data) (i : Nat) (hi : i < P.length) :
    ∀ x ∈ (swapRemove P i).drop i, x ∈ P.drop (i + 1) := by
  obtain ⟨init, last, rfl⟩ := exists_concat P i hi
  rw [swapRemove_concat]
  exact set_drop init last i

theorem swapRemove_length (P : List part_data) (i : Nat) (hi : i < P.length) :
    (swapRemove P i).length + 1 = P.length := by
  obtain ⟨init, last, rfl⟩ := exists_concat P i hi
  rw [swapRemove_concat]
  simp



theorem mem_drop_of_get (P : List part_data) (i : Nat) (p : part_data)
    (hp : P.get? i = some p) : p ∈ P.drop i := by
  rw [List.get?_eq_some] at hp
  obtain ⟨hi, rfl⟩ := hp
  have h := List.drop_eq_getElem_cons hi
  rw [h]
  exact List.mem_cons_self _ _

theorem mem_drop_succ (P : List part_data) (i : Nat) (x : part_data)
    (hx : x ∈ P.drop (i + 1)) : x ∈ P.drop i := by
  have : P.drop (i + 1) = (P.drop i).drop 1 := by rw [List.drop_drop, Nat.add_comm]
  rw [this] at hx
  exact List.mem_of_mem_drop hx

theorem mem_take_succ (P : List part_data) (i : Nat) (p x : part_data)
    (hp : P.get? i = some p) (hx : x ∈ P.take (i + 1)) : x ∈ P.take i ∨ x = p := by
  rw [List.get?_eq_some] at hp
  obtain ⟨hi, rfl⟩ := hp
  rw [List.take_succ, List.mem_append] at hx
  rcases hx with h | h
  · exact Or.inl h
  · right
    rw [List.getElem?_eq_getElem hi] at h
    simpa using h

theorem keeps_mono (c : Config) (T j pm pm2 : Nat) (p : part_data) (h : pm ≤ pm2)
    (hk : keeps c T j pm p) : keeps c T j pm2 p := by
  rcases hk with hk | ⟨pl, pr, h1, h2, h3⟩
  · exact Or.inl hk
  · refine Or.inr ⟨pl, pr, h1, h2, ?_⟩
    rcases h3 with h3 | ⟨a, b, e⟩ | ⟨a, b, e⟩
    · exact Or.inl h3
    · exact Or.inr (Or.inl ⟨a, b, fun hj => le_trans (e hj) h⟩)
    · exact Or.inr (Or.inr ⟨a, b, fun hj => le_trans (e hj) h⟩)

/-- The step of the loop that keeps the particle at index `i`. -/
theorem classifyPost_advance (c : Config) (T j i : Nat) (s s1 : Sel) (p : part_data) (pm : Nat)
    (hp : s.P.get? i = some p) (h1 : s.procdiffmax ≤ pm) (h2 : j ≠ 1 → pm = s.procdiffmax)
    (hk : keeps c T j pm p)
    (ih : classifyPost c T j (i + 1) { s with procdiffmax := pm } s1) :
    classifyPost c T j i s s1 := by
  obtain ⟨a, b, cL, cR, eL, eR, f, g⟩ := ih
  refine ⟨a, ?_, ?_, ?_, eL, eR, le_trans h1 f, fun hj => (g hj).trans (h2 hj)⟩
  · intro x hx
    rcases b x hx with h | ⟨h, h'⟩
    · rcases mem_take_succ s.P i p x hp h with h | h
      · exact Or.inl h
      · subst h
        exact Or.inr ⟨mem_drop_of_get s.P i x hp, keeps_mono c T j pm _ x f hk⟩
    · exact Or.inr ⟨mem_drop_succ s.P i x h, h'⟩
  · intro x hx
    rcases cL x hx with h | ⟨h, h'⟩
    · exact Or.inl h
    · exact Or.inr ⟨mem_drop_succ s.P i x h, h'⟩
  · intro x hx
    rcases cR x hx with h | ⟨h, h'⟩
    · exact Or.inl h
    · exact Or.inr ⟨mem_drop_succ s.P i x h, h'⟩

/-- The step of the loop that moves the particle at index `i` to the left buffer. -/
theorem classifyPost_sendLeft (c : Config) (T j i : Nat) (s s1 : Sel) (p : part_data) (pm : Nat)
    (hp : s.P.get? i = some p) (h1 : s.procdiffmax ≤ pm) (h2 : j ≠ 1 → pm = s.procdiffmax)
    (hs : sendsLeft c T j p)
    (hmax : ((s.P_send_left ++ [p]).length : Int) < send_count_max c T)
    (ih : classifyPost c T j i
      { P := swapRemove s.P i, P_send_left := s.P_send_left ++ [p],
        P_send_right := s.P_send_right, procdiffmax := pm } s1) :
    classifyPost c T j i s s1 := by
  have hi : i < s.P.length := by
    rw [List.get?_eq_some] at hp; exact hp.1
  obtain ⟨a, b, cL, cR, eL, eR, f, g⟩ := ih
  simp only at a b cL cR eL eR f g
  refine ⟨?_, ?_, ?_, ?_, ?_, eR, le_trans h1 f, fun hj => (g hj).trans (h2 hj)⟩
  · rw [a, ← swapRemove_multiset s.P i p hp, ← Multiset.coe_add, ← Multiset.coe_singleton]
    abel
  · intro x hx
    rcases b x hx with h | ⟨h, h'⟩
    · rw [swapRemove_take s.P i hi] at h; exact Or.inl h
    · exact Or.inr ⟨mem_drop_succ s.P i x (swapRemove_drop s.P i hi x h), h'⟩
  · intro x hx
    rcases cL x hx with h | ⟨h, h'⟩
    · rcases List.mem_append.mp h with h | h
      · exact Or.inl h
      · have : x = p := by simpa using h
        subst this
        exact Or.inr ⟨mem_drop_of_get s.P i x hp, hs⟩
    · exact Or.inr ⟨mem_drop_succ s.P i x (swapRemove_drop s.P i hi x h), h'⟩
  · intro x hx
    rcases cR x hx with h | ⟨h, h'⟩
    · exact Or.inl h
    · exact Or.inr ⟨mem_drop_succ s.P i x (swapRemove_drop s.P i hi x h), h'⟩
  · rcases eL with h | h
    · right; rw [h]; exact hmax
    · exact Or.inr h

/-- The step of the loop that moves the particle at index `i` to the right buffer. -/
theorem classifyPost_sendRight (c : Config) (T j i : Nat) (s s1 : Sel) (p : part_data) (pm : Nat)
    (hp : s.P.get? i = some p) (h1 : s.procdiffmax ≤ pm) (h2 : j ≠ 1 → pm = s.procdiffmax)
    (hs : sendsRight c T j p)
    (hmax : ((s.P_send_right ++ [p]).length : Int) < send_count_max c T)
    (ih : classifyPost c T j i
      { P := swapRemove s.P i, P_send_left := s.P_send_left,
        P_send_right := s.P_send_right ++ [p], procdiffmax := pm } s1) :
    classifyPost c T j i s s1 := by
  have hi : i < s.P.length := by
    rw [List.get?_eq_some] at hp; exact hp.1
  obtain ⟨a, b, cL, cR, eL, eR, f, g⟩ := ih
  simp only at a b cL cR eL eR f g
  refine ⟨?_, ?_, ?_, ?_, eL, ?_, le_trans h1 f, fun hj => (g hj).trans (h2 hj)⟩
  · rw [a, ← swapRemove_multiset s.P i p hp, ← Multiset.coe_add, ← Multiset.coe_singleton]
    abel
  · intro x hx
    rcases b x hx with h | ⟨h, h'⟩
    · rw [swapRemove_take s.P i hi] at h; exact Or.inl h
    · exact Or.inr ⟨mem_drop_succ s.P i x (swapRemove_drop s.P i hi x h), h'⟩
  · intro x hx
    rcases cL x hx with h | ⟨h, h'⟩
    · exact Or.inl h
    · exact Or.inr ⟨mem_drop_succ s.P i x (swapRemove_drop s.P i hi x h), h'⟩
  · intro x hx
    rcases cR x hx with h | ⟨h, h'⟩
    · rcases List.mem_append.mp h with h | h
      · exact Or.inl h
      · have : x = p := by simpa using h
        subst this
        exact Or.inr ⟨mem_drop_of_get s.P i x hp, hs⟩
    · exact Or.inr ⟨mem_drop_succ s.P i x (swapRemove_drop s.P i hi x h), h'⟩
  · rcases eR with h | h
    · right; rw [h]; exact hmax
    · exact Or.inr h

theorem classifyPost_done (c : Config) (T j i : Nat) (s : Sel) (hi : s.P.length ≤ i) :
    classifyPost c T j i s s := by
  refine ⟨rfl, ?_, fun p hp => Or.inl hp, fun p hp => Or.inl hp, Or.inl rfl, Or.inl rfl,
    le_rfl, fun _ => rfl⟩
  intro p hp
  left
  rw [List.take_of_length_le hi]; exact hp



theorem classify_spec (c : Config) (T j : Nat) :
    ∀ (fuel i : Nat) (s s1 : Sel), classify c T j fuel i s = .ok s1 →
      classifyPost c T j i s s1 := by
  intro fuel
  induction fuel with
  | zero =>
    intro i s s1 h
    simp only [classify] at h
    split_ifs at h with hi
    cases h
    exact classifyPost_done c T j i s (by omega)
  | succ fuel ih =>
    intro i s s1 h
    rw [classify] at h
    cases hp : s.P.get? i with
    | none =>
      rw [hp] at h
      simp only at h
      cases h
      apply classifyPost_done
      rw [List.get?_eq_none] at hp; exact hp
    | some p =>
      rw [hp] at h
      simp only at h
      by_cases hd : destTask c p ≠ T
      · rw [if_pos hd] at h
        cases hl : procdiff_left c T (destTask c p) with
        | none => rw [hl] at h; simp at h
        | some pl =>
          cases hr : procdiff_right c T (destTask c p) with
          | none => rw [hl, hr] at h; simp at h
          | some pr =>
            rw [hl, hr] at h
            simp only at h
            by_cases h0 : pl ≠ 0 ∨ pr ≠ 0
            · rw [if_pos h0] at h
              by_cases hle : pl ≤ pr
              · rw [if_pos hle] at h
                have hpm1 : s.procdiffmax ≤
                    (if j = 1 ∧ pl > s.procdiffmax then pl else s.procdiffmax) := by
                  split_ifs with hc
                  · exact le_of_lt hc.2
                  · exact le_rfl
                have hpm2 : j ≠ 1 →
                    (if j = 1 ∧ pl > s.procdiffmax then pl else s.procdiffmax)
                      = s.procdiffmax := by
                  intro hj; rw [if_neg (fun hc => hj hc.1)]
                by_cases hj : pl = j
                · rw [if_pos hj] at h
                  by_cases hov : ((s.P_send_left ++ [p]).length : Int) ≥ send_count_max c T
                  · rw [if_pos hov] at h; cases h
                  · rw [if_neg hov] at h
                    exact classifyPost_sendLeft c T j i s s1 p _ hp hpm1 hpm2
                      ⟨hd, pl, pr, hl, hr, h0, hle, hj⟩ (by omega) (ih _ _ _ h)
                · rw [if_neg hj] at h
                  refine classifyPost_advance c T j i s s1 p _ hp hpm1 hpm2 ?_ (ih _ _ _ h)
                  refine Or.inr ⟨pl, pr, hl, hr, Or.inr (Or.inl ⟨hle, hj, fun _ => ?_⟩)⟩
                  split_ifs with hc
                  · exact le_rfl
                  · by_contra hlt
                    exact hc ⟨by assumption, by omega⟩
              · rw [if_neg hle] at h
                have hpm1 : s.procdiffmax ≤
                    (if j = 1 ∧ pr > s.procdiffmax then pr else s.procdiffmax) := by
                  split_ifs with hc
                  · exact le_of_lt hc.2
                  · exact le_rfl
                have hpm2 : j ≠ 1 →
                    (if j = 1 ∧ pr > s.procdiffmax then pr else s.procdiffmax)
                      = s.procdiffmax := by
                  intro hj; rw [if_neg (fun hc => hj hc.1)]
                by_cases hj : pr = j
                · rw [if_pos hj] at h
                  by_cases hov : ((s.P_send_right ++ [p]).length : Int) ≥ send_count_max c T
                  · rw [if_pos hov] at h; cases h
                  · rw [if_neg hov] at h
                    exact classifyPost_sendRight c T j i s s1 p _ hp hpm1 hpm2
                      ⟨hd, pl, pr, hl, hr, h0, hle, hj⟩ (by omega) (ih _ _ _ h)
                · rw [if_neg hj] at h
                  refine classifyPost_advance c T j i s s1 p _ hp hpm1 hpm2 ?_ (ih _ _ _ h)
                  refine Or.inr ⟨pl, pr, hl, hr, Or.inr (Or.inr ⟨hle, hj, fun _ => ?_⟩)⟩
                  split_ifs with hc
                  · exact le_rfl
                  · by_contra hlt
                    exact hc ⟨by assumption, by omega⟩
            · rw [if_neg h0] at h
              refine classifyPost_advance c T j i s s1 p s.procdiffmax hp le_rfl (fun _ => rfl)
                ?_ (ih _ _ _ h)
              exact Or.inr ⟨pl, pr, hl, hr, Or.inl (by omega)⟩
      · rw [if_neg hd] at h
        exact classifyPost_advance c T j i s s1 p s.procdiffmax hp le_rfl (fun _ => rfl)
          (Or.inl (not_not.mp hd)) (ih _ _ _ h)

theorem list_sum_range {α M : Type} [AddCommMonoid M] (l : List α) (f : α → M) :
    (l.map f).sum = ∑ i ∈ range l.length, ((l.get? i).map f).getD 0 := by
  induction l with
  | nil => simp
  | cons a l ih =>
    rw [List.map_cons, List.sum_cons, List.length_cons, sum_range_succ', ih, add_comm]
    simp

theorem pairing_sum {M : Type} [AddCommMonoid M] (n : Nat) (nl nr : Nat → Option Nat)
    (sL : Nat → M)
    (h1 : ∀ T < n, ∀ r, nr T = some r → r < n ∧ nl r = some T)
    (h2 : ∀ R < n, ∀ t, nl R = some t → t < n ∧ nr t = some R)
    (h3 : ∀ R < n, nl R = none → sL R = 0) :
    ∑ T ∈ range n, ((nr T).map sL).getD 0 = ∑ R ∈ range n, sL R := by
  have hR : ∀ R ∈ range n, sL R = ∑ T ∈ range n, (if nr T = some R then sL R else 0) := by
    intro R hR
    rw [mem_range] at hR
    cases hl : nl R with
    | none =>
      rw [h3 R hR hl]; simp
    | some t =>
      obtain ⟨ht, hrt⟩ := h2 R hR t hl
      rw [sum_eq_single t]
      · rw [if_pos hrt]
      · intro T hT hne
        rw [mem_range] at hT
        rw [if_neg]
        intro hc
        have := (h1 T hT R hc).2
        rw [hl] at this
        exact hne (Option.some.inj this).symm
      · intro hc; exact absurd (mem_range.mpr ht) hc
  rw [sum_congr rfl hR, sum_comm]
  refine sum_congr rfl (fun T hT => ?_)
  rw [mem_range] at hT
  cases hr : nr T with
  | none => simp
  | some r =>
    obtain ⟨hrn, _⟩ := h1 T hT r hr
    simp only [Option.some.injEq, Option.map_some', Option.getD_some]
    rw [sum_ite_eq (range n) r (fun R => sL R), if_pos (mem_range.mpr hrn)]

theorem postAll_spec (c : Config) (j : Nat) :
    ∀ (ts : List TaskState) (T0 : Nat) (ps : List Posted), postAll c j T0 ts = .ok ps →
      ps.length = ts.length ∧
      ∀ k t, ts.get? k = some t → ∃ p, ps.get? k = some p ∧ post c (T0 + k) j t = .ok p := by
  intro ts
  induction ts with
  | nil =>
    intro T0 ps h
    simp only [postAll] at h
    cases h
    exact ⟨rfl, fun k t hk => by simp at hk⟩
  | cons t ts ih =>
    intro T0 ps h
    rw [postAll] at h
    cases hp : post c T0 j t with
    | error e => rw [hp] at h; cases h
    | ok p =>
      rw [hp] at h
      simp only at h
      cases hrest : postAll c j (T0 + 1) ts with
      | error e => rw [hrest] at h; cases h
      | ok ps1 =>
        rw [hrest] at h
        cases h
        obtain ⟨hlen, hget⟩ := ih (T0 + 1) ps1 hrest
        refine ⟨by simp [hlen], ?_⟩
        intro k t1 hk
        cases k with
        | zero =>
          simp only [List.get?_cons_zero, Option.some.injEq] at hk
          subst hk
          exact ⟨p, rfl, by simpa using hp⟩
        | succ k =>
          simp only [List.get?_cons_succ] at hk
          obtain ⟨q, hq, hpost⟩ := hget k t1 hk
          refine ⟨q, by simpa using hq, ?_⟩
          have : T0 + (k + 1) = T0 + 1 + k := by omega
          rw [this]; exact hpost

theorem receiveAll_spec (c : Config) (ps0 : List Posted) :
    ∀ (ps : List Posted) (T0 : Nat) (ts : List TaskState), receiveAll c ps0 T0 ps = .ok ts →
      ts.length = ps.length ∧
      ∀ k p, ps.get? k = some p → ∃ t, ts.get? k = some t ∧ receive c ps0 (T0 + k) p = .ok t := by
  intro ps
  induction ps with
  | nil =>
    intro T0 ts h
    simp only [receiveAll] at h
    cases h
    exact ⟨rfl, fun k t hk => by simp at hk⟩
  | cons p ps ih =>
    intro T0 ts h
    rw [receiveAll] at h
    cases hp : receive c ps0 T0 p with
    | error e => rw [hp] at h; cases h
    | ok t =>
      rw [hp] at h
      simp only at h
      cases hrest : receiveAll c ps0 (T0 + 1) ps with
      | error e => rw [hrest] at h; cases h
      | ok ts1 =>
        rw [hrest] at h
        cases h
        obtain ⟨hlen, hget⟩ := ih (T0 + 1) ts1 hrest
        refine ⟨by simp [hlen], ?_⟩
        intro k p1 hk
        cases k with
        | zero =>
          simp only [List.get?_cons_zero, Option.some.injEq] at hk
          subst hk
          exact ⟨t, rfl, by simpa using hp⟩
        | succ k =>
          simp only [List.get?_cons_succ] at hk
          obtain ⟨q, hq, hrecv⟩ := hget k p1 hk
          refine ⟨q, by simpa using hq, ?_⟩
          have : T0 + (k + 1) = T0 + 1 + k := by omega
          rw [this]; exact hrecv

theorem paired_spec (ps : List Posted) (h : paired ps = true) :
    (∀ T < ps.length, ∀ r, rightOf ps T = some r → r < ps.length ∧ leftOf ps r = some T) ∧
    (∀ T < ps.length, ∀ l, leftOf ps T = some l → l < ps.length ∧ rightOf ps l = some T) := by
  unfold paired at h
  rw [List.all_eq_true] at h
  constructor
  · intro T hT r hr
    have := h T (List.mem_range.mpr hT)
    rw [Bool.and_eq_true] at this
    have h2 := this.2
    rw [hr] at h2
    simpa [peerOK] using h2
  · intro T hT l hl
    have := h T (List.mem_range.mpr hT)
    rw [Bool.and_eq_true] at this
    have h1 := this.1
    rw [hl] at h1
    simpa [peerOK] using h1

theorem select_spec (c : Config) (T j : Nat) (t : TaskState) (sel : Sel)
    (h : select c T j t = .ok sel) :
    ((↑sel.P + ↑sel.P_send_left + ↑sel.P_send_right : Multiset part_data) = ↑t.P) ∧
    (∀ p ∈ sel.P, p ∈ t.P ∧ (j ≤ t.procdiffmax → keeps c T j sel.procdiffmax p)) ∧
    (∀ p ∈ sel.P_send_left, p ∈ t.P ∧ sendsLeft c T j p) ∧
    (∀ p ∈ sel.P_send_right, p ∈ t.P ∧ sendsRight c T j p) ∧
    (sel.P_send_left = [] ∨ (sel.P_send_left.length : Int) < send_count_max c T) ∧
    (sel.P_send_right = [] ∨ (sel.P_send_right.length : Int) < send_count_max c T) ∧
    t.procdiffmax ≤ sel.procdiffmax ∧ (j ≠ 1 → sel.procdiffmax = t.procdiffmax) := by
  unfold select at h
  simp only at h
  by_cases hj : j ≤ t.procdiffmax
  · rw [if_pos hj] at h
    obtain ⟨a, b, cL, cR, eL, eR, f, g⟩ := classify_spec c T j _ _ _ _ h
    simp only [List.take_zero, List.not_mem_nil, List.drop_zero, false_or, Multiset.coe_nil,
      add_zero] at a b cL cR eL eR f g
    exact ⟨a, fun p hp => ⟨(b p hp).1, fun _ => (b p hp).2⟩, cL, cR, eL, eR, f, g⟩
  · rw [if_neg hj] at h
    cases h
    simp only [Multiset.coe_nil, add_zero, List.not_mem_nil, false_implies, implies_true,
      true_or, le_refl, true_and, and_true]
    exact fun p hp => ⟨hp, fun h => absurd h hj⟩

theorem send_count_max_zero (c : Config) (T : Nat) (h : Local_np c T = 0) :
    send_count_max c T = 0 := by
  simp [send_count_max, h]

theorem post_spec (c : Config) (T j : Nat) (t : TaskState) (p : Posted)
    (h : post c T j t = .ok p) :
    select c T j t = .ok p.sel ∧ neighbour_left c T j = some p.left ∧
    neighbour_right c T j = some p.right := by
  unfold post at h
  cases hs : select c T j t with
  | error e => rw [hs] at h; cases h
  | ok s =>
    rw [hs] at h
    simp only at h
    cases hl : neighbour_left c T j with
    | none => rw [hl] at h; cases h
    | some l =>
      cases hr : neighbour_right c T j with
      | none => rw [hl, hr] at h; cases h
      | some r =>
        rw [hl, hr] at h
        cases h
        exact ⟨rfl, rfl, rfl⟩

theorem neighbour_left_isSome (c : Config) (T j : Nat) (l : Option Nat)
    (hnp : Local_np c T ≠ 0) (hL : (c.LeftTask T).isSome)
    (h : neighbour_left c T j = some l) : l.isSome := by
  unfold neighbour_left at h
  by_cases hj : j = 1
  · rw [if_pos hj] at h; cases h; exact hL
  · rw [if_neg hj, if_neg hnp] at h
    cases hw : nbrLoopLeft c j (j * c.NTask) T 0 with
    | none => rw [hw] at h; cases h
    | some x => rw [hw] at h; cases h; rfl

theorem neighbour_right_isSome (c : Config) (T j : Nat) (r : Option Nat)
    (hnp : Local_np c T ≠ 0) (hR : (c.RightTask T).isSome)
    (h : neighbour_right c T j = some r) : r.isSome := by
  unfold neighbour_right at h
  by_cases hj : j = 1
  · rw [if_pos hj] at h; cases h; exact hR
  · rw [if_neg hj, if_neg hnp] at h
    cases hw : nbrLoopRight c j (j * c.NTask) T 0 with
    | none => rw [hw] at h; cases h
    | some x => rw [hw] at h; cases h; rfl

theorem receive_spec (c : Config) (ps : List Posted) (T : Nat) (p : Posted) (t : TaskState)
    (h : receive c ps T p = .ok t) :
    t.P = p.sel.P ++ recvRight ps p ++ recvLeft ps p ∧ t.procdiffmax = p.sel.procdiffmax ∧
    ¬ (((p.sel.P.length + (recvLeft ps p).length + (recvRight ps p).length : Nat) : ℚ)
      > (Local_np c T : ℚ) * c.Nsample * c.Nsample * c.Buffer) := by
  unfold receive at h
  split_ifs at h with hc
  cases h
  exact ⟨rfl, rfl, hc⟩



theorem round_spec (c : Config) (j : Nat) (ts ts1 : List TaskState)
    (h : round c j ts = .ok ts1) :
    ∃ ps : List Posted, paired ps = true ∧ ps.length = ts.length ∧ ts1.length = ts.length ∧
      ∀ T < ts.length, ∃ t p t1, ts.get? T = some t ∧ ps.get? T = some p ∧
        ts1.get? T = some t1 ∧ post c T j t = .ok p ∧ receive c ps T p = .ok t1 := by
  unfold round at h
  cases hp : postAll c j 0 ts with
  | error e => rw [hp] at h; cases h
  | ok ps =>
    rw [hp] at h
    simp only at h
    by_cases hpair : paired ps = true
    · rw [if_pos hpair] at h
      obtain ⟨hlen, hpost⟩ := postAll_spec c j ts 0 ps hp
      obtain ⟨hlen1, hrecv⟩ := receiveAll_spec c ps ps 0 ts1 h
      refine ⟨ps, hpair, hlen, by omega, ?_⟩
      intro T hT
      obtain ⟨t, ht⟩ : ∃ t, ts.get? T = some t := ⟨ts.get ⟨T, hT⟩, List.get?_eq_get hT⟩
      obtain ⟨p, hp1, hp2⟩ := hpost T t ht
      obtain ⟨t1, ht1, hr⟩ := hrecv T p hp1
      simp only [Nat.zero_add] at hp2 hr
      exact ⟨t, p, t1, ht, hp1, ht1, hp2, hr⟩
    · rw [if_neg hpair] at h; cases h

theorem round_conservation (c : Config) (j : Nat) (ts ts1 : List TaskState)
    (hnull : ∀ T < ts.length, Local_np c T ≠ 0 →
      (c.LeftTask T).isSome ∧ (c.RightTask T).isSome)
    (h : round c j ts = .ok ts1) :
    ts1.length = ts.length ∧
    (ts1.map fun t => (↑t.P : Multiset part_data)).sum
      = (ts.map fun t => (↑t.P : Multiset part_data)).sum := by
  obtain ⟨ps, hpair, hlen, hlen1, hall⟩ := round_spec c j ts ts1 h
  refine ⟨hlen1, ?_⟩
  obtain ⟨hp1, hp2⟩ := paired_spec ps hpair
  rw [list_sum_range, list_sum_range, hlen1]
  obtain ⟨selP, hselP⟩ : ∃ f : Nat → Multiset part_data, f = fun T =>
      match ps.get? T with | some p => (↑p.sel.P : Multiset part_data) | none => 0 := ⟨_, rfl⟩
  obtain ⟨sL, hsL⟩ : ∃ f : Nat → Multiset part_data, f = fun T =>
      match ps.get? T with
      | some p => (↑p.sel.P_send_left : Multiset part_data) | none => 0 := ⟨_, rfl⟩
  obtain ⟨sR, hsR⟩ : ∃ f : Nat → Multiset part_data, f = fun T =>
      match ps.get? T with
      | some p => (↑p.sel.P_send_right : Multiset part_data) | none => 0 := ⟨_, rfl⟩
  have hA : ∀ T ∈ range ts.length,
      ((ts1.get? T).map fun t => (↑t.P : Multiset part_data)).getD 0
        = selP T + ((rightOf ps T).map sL).getD 0 + ((leftOf ps T).map sR).getD 0 := by
    intro T hT
    obtain ⟨t, p, t1, ht, hp, ht1, hpost, hrecv⟩ := hall T (mem_range.mp hT)
    obtain ⟨hP, _, _⟩ := receive_spec c ps T p t1 hrecv
    rw [ht1, hselP, hsL, hsR]
    simp only [hp, hP, rightOf, leftOf, recvRight, recvLeft, Option.map_some', Option.getD_some]
    rw [← Multiset.coe_add, ← Multiset.coe_add]
    congr 1
    · congr 1
      cases p.right with
      | none => rfl
      | some r => simp only [Option.map_some', Option.getD_some]; cases ps.get? r <;> rfl
    · cases p.left with
      | none => rfl
      | some l => simp only [Option.map_some', Option.getD_some]; cases ps.get? l <;> rfl
  have hB : ∀ T ∈ range ts.length,
      ((ts.get? T).map fun t => (↑t.P : Multiset part_data)).getD 0
        = selP T + sL T + sR T := by
    intro T hT
    obtain ⟨t, p, t1, ht, hp, ht1, hpost, hrecv⟩ := hall T (mem_range.mp hT)
    obtain ⟨hsel, _, _⟩ := post_spec c T j t p hpost
    obtain ⟨hm, _⟩ := select_spec c T j t p.sel hsel
    rw [ht, hselP, hsL, hsR]
    simp only [hp, Option.map_some', Option.getD_some]
    exact hm.symm
  have hnoneL : ∀ R < ps.length, leftOf ps R = none → sL R = 0 := by
    intro R hR hnone
    rw [hlen] at hR
    obtain ⟨t, p, t1, ht, hp, ht1, hpost, hrecv⟩ := hall R hR
    obtain ⟨hsel, hl, _⟩ := post_spec c R j t p hpost
    obtain ⟨_, _, _, _, hE, _⟩ := select_spec c R j t p.sel hsel
    rw [hsL]
    simp only [hp]
    simp only [leftOf, hp] at hnone
    rcases hE with hE | hE
    · rw [hE]; rfl
    · exfalso
      have hnp : Local_np c R ≠ 0 := by
        intro h0
        rw [send_count_max_zero c R h0] at hE
        have : (0 : Int) ≤ (p.sel.P_send_left.length : Int) := Int.natCast_nonneg _
        omega
      have := neighbour_left_isSome c R j p.left hnp (hnull R hR hnp).1 hl
      rw [hnone] at this
      cases this
  have hnoneR : ∀ R < ps.length, rightOf ps R = none → sR R = 0 := by
    intro R hR hnone
    rw [hlen] at hR
    obtain ⟨t, p, t1, ht, hp, ht1, hpost, hrecv⟩ := hall R hR
    obtain ⟨hsel, _, hr⟩ := post_spec c R j t p hpost
    obtain ⟨_, _, _, _, _, hE, _⟩ := select_spec c R j t p.sel hsel
    rw [hsR]
    simp only [hp]
    simp only [rightOf, hp] at hnone
    rcases hE with hE | hE
    · rw [hE]; rfl
    · exfalso
      have hnp : Local_np c R ≠ 0 := by
        intro h0
        rw [send_count_max_zero c R h0] at hE
        have : (0 : Int) ≤ (p.sel.P_send_right.length : Int) := Int.natCast_nonneg _
        omega
      have := neighbour_right_isSome c R j p.right hnp (hnull R hR hnp).2 hr
      rw [hnone] at this
      cases this
  rw [sum_congr rfl hA, sum_congr rfl hB, sum_add_distrib, sum_add_distrib, sum_add_distrib,
    sum_add_distrib]
  have e1 := pairing_sum ps.length (leftOf ps) (rightOf ps) sL hp1 hp2 hnoneL
  have e2 := pairing_sum ps.length (rightOf ps) (leftOf ps) sR hp2 hp1 hnoneR
  rw [hlen] at e1 e2
  rw [e1, e2]

theorem hopLeft_nbr (c : Config) (dest j : Nat) (hnp : c.Local_np_table dest ≠ 0) :
    ∀ (fuel nb pd : Nat), hopLoopLeft c dest fuel nb pd = some j →
      pd < j ∧ ∀ fuel1, fuel ≤ fuel1 → nbrLoopLeft c j fuel1 nb pd = some dest := by
  intro fuel
  induction fuel with
  | zero => intro nb pd h; simp [hopLoopLeft] at h
  | succ fuel ih =>
    intro nb pd h
    rw [hopLoopLeft] at h
    by_cases hd : dest ≠ stepLeft c nb
    · rw [if_pos hd] at h
      obtain ⟨hlt, hnbr⟩ := ih _ _ h
      have hle : pd ≤ (if c.Local_np_table (stepLeft c nb) = 0 then pd + 1 - 1 else pd + 1) := by
        split_ifs <;> omega
      refine ⟨by omega, ?_⟩
      intro fuel1 hf
      obtain ⟨f, rfl⟩ : ∃ f, fuel1 = f + 1 := ⟨fuel1 - 1, by omega⟩
      rw [nbrLoopLeft]
      rw [if_pos (by omega)]
      exact hnbr f (by omega)
    · rw [if_neg hd] at h
      have hd' : dest = stepLeft c nb := not_not.mp hd
      rw [← hd', if_neg hnp] at h
      have hj : pd + 1 = j := Option.some.inj h
      refine ⟨by omega, ?_⟩
      intro fuel1 hf
      obtain ⟨f, rfl⟩ : ∃ f, fuel1 = f + 1 := ⟨fuel1 - 1, by omega⟩
      rw [nbrLoopLeft]
      rw [← hd', if_neg hnp, if_neg (by omega)]

theorem hopRight_nbr (c : Config) (dest j : Nat) (hnp : c.Local_np_table dest ≠ 0) :
    ∀ (fuel nb pd : Nat), hopLoopRight c dest fuel nb pd = some j →
      pd < j ∧ ∀ fuel1, fuel ≤ fuel1 → nbrLoopRight c j fuel1 nb pd = some dest := by
  intro fuel
  induction fuel with
  | zero => intro nb pd h; simp [hopLoopRight] at h
  | succ fuel ih =>
    intro nb pd h
    rw [hopLoopRight] at h
    by_cases hd : dest ≠ stepRight c nb
    · rw [if_pos hd] at h
      obtain ⟨hlt, hnbr⟩ := ih _ _ h
      have hle : pd ≤ (if c.Local_np_table (stepRight c nb) = 0 then pd + 1 - 1 else pd + 1) := by
        split_ifs <;> omega
      refine ⟨by omega, ?_⟩
      intro fuel1 hf
      obtain ⟨f, rfl⟩ : ∃ f, fuel1 = f + 1 := ⟨fuel1 - 1, by omega⟩
      rw [nbrLoopRight]
      rw [if_pos (by omega)]
      exact hnbr f (by omega)
    · rw [if_neg hd] at h
      have hd' : dest = stepRight c nb := not_not.mp hd
      rw [← hd', if_neg hnp] at h
      have hj : pd + 1 = j := Option.some.inj h
      refine ⟨by omega, ?_⟩
      intro fuel1 hf
      obtain ⟨f, rfl⟩ : ∃ f, fuel1 = f + 1 := ⟨fuel1 - 1, by omega⟩
      rw [nbrLoopRight]
      rw [← hd', if_neg hnp, if_neg (by omega)]

/-- A particle sent to the left in round `j` is sent to the task that owns it. -/
theorem arrival_left (c : Config) (R j : Nat) (p : part_data) (l : Option Nat)
    (hG : c.Local_np_table (destTask c p) ≠ 0) (hnp : Local_np c R ≠ 0)
    (hLR : c.LeftTask R = nbrLoopLeft c 1 c.NTask R 0)
    (hs : sendsLeft c R j p) (hl : neighbour_left c R j = some l) :
    l = some (destTask c p) := by
  obtain ⟨_, pl, pr, hpl, _, _, _, hj⟩ := hs
  subst hj
  unfold procdiff_left at hpl
  obtain ⟨hpos, hnbr⟩ := hopLeft_nbr c (destTask c p) pl hG _ _ _ hpl
  unfold neighbour_left at hl
  by_cases h1 : pl = 1
  · rw [if_pos h1] at hl
    rw [hLR, ← h1, hnbr c.NTask le_rfl] at hl
    exact (Option.some.inj hl).symm
  · rw [if_neg h1, if_neg hnp, hnbr (pl * c.NTask) (by nlinarith)] at hl
    exact (Option.some.inj hl).symm

theorem arrival_right (c : Config) (R j : Nat) (p : part_data) (r : Option Nat)
    (hG : c.Local_np_table (destTask c p) ≠ 0) (hnp : Local_np c R ≠ 0)
    (hLR : c.RightTask R = nbrLoopRight c 1 c.NTask R 0)
    (hs : sendsRight c R j p) (hr : neighbour_right c R j = some r) :
    r = some (destTask c p) := by
  obtain ⟨_, pl, pr, _, hpr, _, _, hj⟩ := hs
  subst hj
  unfold procdiff_right at hpr
  obtain ⟨hpos, hnbr⟩ := hopRight_nbr c (destTask c p) pr hG _ _ _ hpr
  unfold neighbour_right at hr
  by_cases h1 : pr = 1
  · rw [if_pos h1] at hr
    rw [hLR, ← h1, hnbr c.NTask le_rfl] at hr
    exact (Option.some.inj hr).symm
  · rw [if_neg h1, if_neg hnp, hnbr (pr * c.NTask) (by nlinarith)] at hr
    exact (Option.some.inj hr).symm

theorem chosenHop_eq (c : Config) (T : Nat) (p : part_data) (pl pr : Nat)
    (hl : procdiff_left c T (destTask c p) = some pl)
    (hr : procdiff_right c T (destTask c p) = some pr) :
    chosenHop c T p = if pl ≤ pr then pl else pr := by
  unfold chosenHop
  rw [hl, hr]

theorem sender_np (c : Config) (T : Nat) (l : List part_data) (p : part_data) (hp : p ∈ l)
    (h : l = [] ∨ (l.length : Int) < send_count_max c T) : Local_np c T ≠ 0 := by
  intro h0
  rcases h with h | h
  · rw [h] at hp; cases hp
  · rw [send_count_max_zero c T h0] at h
    have : (0 : Int) ≤ (l.length : Int) := Int.natCast_nonneg _
    omega

theorem round_homeBound (c : Config) (j : Nat) (ts ts1 : List TaskState) (hj : 1 ≤ j)
    (hLR : ∀ T < ts.length, Local_np c T ≠ 0 →
      c.LeftTask T = nbrLoopLeft c 1 c.NTask T 0 ∧
      c.RightTask T = nbrLoopRight c 1 c.NTask T 0)
    (hpre : homeBound c j ts) (h : round c j ts = .ok ts1) :
    homeBound c (j + 1) ts1 ∧
    (j ≠ 1 → ∀ T t t1, ts.get? T = some t → ts1.get? T = some t1 →
      t1.procdiffmax = t.procdiffmax) := by
  obtain ⟨ps, hpair, hlen, hlen1, hall⟩ := round_spec c j ts ts1 h
  obtain ⟨hp1, hp2⟩ := paired_spec ps hpair
  constructor
  · intro T t1 ht1
    have hT : T < ts.length := by
      rw [← hlen1]; rw [List.get?_eq_some] at ht1; exact ht1.1
    obtain ⟨t, p, t1', ht, hp, ht1', hpost, hrecv⟩ := hall T hT
    rw [ht1] at ht1'
    cases ht1'
    obtain ⟨hsel, hl, hr⟩ := post_spec c T j t p hpost
    obtain ⟨_, hB, _, _, _, _, hF, hFeq⟩ := select_spec c T j t p.sel hsel
    obtain ⟨hP, hpm, _⟩ := receive_spec c ps T p t1 hrecv
    obtain ⟨hpm1, hpart⟩ := hpre T t ht
    refine ⟨fun hc => by omega, ?_⟩
    intro q hq
    rw [hP, List.mem_append, List.mem_append] at hq
    rcases hq with (hq | hq) | hq
    · -- a retained particle
      obtain ⟨hqt, hkeep⟩ := hB q hq
      obtain ⟨hG, hbound⟩ := hpart q hqt
      refine ⟨hG, fun hne _ => ?_⟩
      rw [hpm]
      by_cases hrun : j ≤ t.procdiffmax
      · rcases hkeep hrun with hk | ⟨pl, pr, hpl, hpr, hk⟩
        · exact absurd hk hne
        · rw [chosenHop_eq c T q pl pr hpl hpr]
          have hposl := (hopLeft_nbr c _ pl hG _ _ _ hpl).1
          have hposr := (hopRight_nbr c _ pr hG _ _ _ hpr).1
          by_cases hj1 : j = 1
          · rcases hk with hk | ⟨a, b, e⟩ | ⟨a, b, e⟩
            · omega
            · rw [if_pos a]; have := e hj1; omega
            · rw [if_neg a]; have := e hj1; omega
          · have hb := hbound hne hj1
            rw [chosenHop_eq c T q pl pr hpl hpr] at hb
            have hpmeq := hFeq hj1
            rcases hk with hk | ⟨a, b, e⟩ | ⟨a, b, e⟩
            · omega
            · rw [if_pos a] at hb ⊢; omega
            · rw [if_neg a] at hb ⊢; omega
      · exfalso
        have hj1 : j ≠ 1 := by
          intro hj1; have := hpm1 hj1; omega
        have := hbound hne hj1
        omega
    · -- a particle received from the right neighbour
      unfold recvRight at hq
      cases hr0 : p.right with
      | none => rw [hr0] at hq; cases hq
      | some R =>
        rw [hr0] at hq
        simp only at hq
        have hpr : rightOf ps T = some R := by unfold rightOf; rw [hp]; exact hr0
        obtain ⟨hRn, hleft⟩ := hp1 T (by omega) R hpr
        obtain ⟨tR, pR, tR1, htR, hpR, _, hpostR, _⟩ := hall R (by omega)
        rw [hpR] at hq
        simp only at hq
        obtain ⟨hselR, hlR, _⟩ := post_spec c R j tR pR hpostR
        obtain ⟨_, _, hC, _, hE, _⟩ := select_spec c R j tR pR.sel hselR
        obtain ⟨hqR, hsend⟩ := hC q hq
        obtain ⟨hG, _⟩ := (hpre R tR htR).2 q hqR
        have hnp := sender_np c R _ q hq hE
        have := arrival_left c R j q pR.left hG hnp (hLR R (by omega) hnp).1 hsend hlR
        simp only [leftOf, hpR, this, Option.some.injEq] at hleft
        exact ⟨hG, fun hne => absurd hleft hne⟩
    · -- a particle received from the left neighbour
      unfold recvLeft at hq
      cases hl0 : p.left with
      | none => rw [hl0] at hq; cases hq
      | some L =>
        rw [hl0] at hq
        simp only at hq
        have hpl : leftOf ps T = some L := by unfold leftOf; rw [hp]; exact hl0
        obtain ⟨hLn, hright⟩ := hp2 T (by omega) L hpl
        obtain ⟨tL, pL, tL1, htL, hpL, _, hpostL, _⟩ := hall L (by omega)
        rw [hpL] at hq
        simp only at hq
        obtain ⟨hselL, _, hrL⟩ := post_spec c L j tL pL hpostL
        obtain ⟨_, _, _, hD, _, hE, _⟩ := select_spec c L j tL pL.sel hselL
        obtain ⟨hqL, hsend⟩ := hD q hq
        obtain ⟨hG, _⟩ := (hpre L tL htL).2 q hqL
        have hnp := sender_np c L _ q hq hE
        have := arrival_right c L j q pL.right hG hnp (hLR L (by omega) hnp).2 hsend hrL
        simp only [rightOf, hpL, this, Option.some.injEq] at hright
        exact ⟨hG, fun hne => absurd hright hne⟩
  · intro hj1 T t t1 ht ht1
    have hT : T < ts.length := by
      rw [List.get?_eq_some] at ht; exact ht.1
    obtain ⟨t', p, t1', ht', hp, ht1', hpost, hrecv⟩ := hall T hT
    rw [ht] at ht'; cases ht'
    rw [ht1] at ht1'; cases ht1'
    obtain ⟨hsel, _, _⟩ := post_spec c T j t p hpost
    obtain ⟨_, _, _, _, _, _, _, hFeq⟩ := select_spec c T j t p.sel hsel
    obtain ⟨_, hpm, _⟩ := receive_spec c ps T p t1 hrecv
    rw [hpm, hFeq hj1]

theorem rounds_conservation (c : Config) :
    ∀ (n j : Nat) (ts ts1 : List TaskState),
      (∀ T < ts.length, Local_np c T ≠ 0 → (c.LeftTask T).isSome ∧ (c.RightTask T).isSome) →
      rounds c n j ts = .ok ts1 →
      ts1.length = ts.length ∧
      (ts1.map fun t => Multiset.ofList t.P).sum
        = (ts.map fun t => Multiset.ofList t.P).sum := by
  intro n
  induction n with
  | zero =>
    intro j ts ts1 _ h
    simp only [rounds] at h
    cases h
    exact ⟨rfl, rfl⟩
  | succ n ih =>
    intro j ts ts1 hnull h
    rw [rounds] at h
    cases hr : round c j ts with
    | error e => rw [hr] at h; cases h
    | ok ts2 =>
      rw [hr] at h
      simp only at h
      obtain ⟨hl, hs⟩ := round_conservation c j ts ts2 hnull hr
      obtain ⟨hl2, hs2⟩ := ih (j + 1) ts2 ts1 (by rw [hl]; exact hnull) h
      exact ⟨hl2.trans hl, hs2.trans hs⟩

theorem MoveParticles_spec (c : Config) (Ps out : List (List part_data))
    (h : MoveParticles c Ps = .ok out) :
    ∃ ts1 ts, round c 1 (initial Ps) = .ok ts1 ∧
      rounds c (procdiffmaxglob ts1 - 1) 2 ts1 = .ok ts ∧ out = ts.map fun t => t.P := by
  unfold MoveParticles at h
  cases h1 : round c 1 (initial Ps) with
  | error e => rw [h1] at h; cases h
  | ok ts1 =>
    rw [h1] at h
    simp only at h
    cases h2 : rounds c (procdiffmaxglob ts1 - 1) 2 ts1 with
    | error e => rw [h2] at h; cases h
    | ok ts =>
      rw [h2] at h
      cases h
      exact ⟨ts1, ts, rfl, h2, rfl⟩

theorem sum_length_eq_card (l : List (List part_data)) :
    (l.map List.length).sum = Multiset.card (l.map fun P => Multiset.ofList P).sum := by
  induction l with
  | nil => simp
  | cons a l ih => simp [ih]

theorem conservation (c : Config) (Ps out : List (List part_data))
    (hlen : Ps.length = c.NTask)
    (hnull : ∀ T < c.NTask, Local_np c T ≠ 0 →
      (c.LeftTask T).isSome ∧ (c.RightTask T).isSome)
    (hrun : MoveParticles c Ps = .ok out) :
    out.length = c.NTask ∧
    (out.map fun P => Multiset.ofList P).sum
      = (Ps.map fun P => Multiset.ofList P).sum := by
  obtain ⟨ts1, ts, h1, h2, rfl⟩ := MoveParticles_spec c Ps out hrun
  have hi : (initial Ps).length = c.NTask := by simp [initial, hlen]
  obtain ⟨hl1, hs1⟩ := round_conservation c 1 (initial Ps) ts1 (by rw [hi]; exact hnull) h1
  obtain ⟨hl2, hs2⟩ := rounds_conservation c _ 2 ts1 ts (by rw [hl1, hi]; exact hnull) h2
  refine ⟨by simp [hl2, hl1, hi], ?_⟩
  have e1 : (List.map (fun P => Multiset.ofList P) (List.map (fun t => t.P) ts))
      = ts.map fun t => Multiset.ofList t.P := by
    rw [List.map_map]; rfl
  have e2 : ((initial Ps).map fun t => Multiset.ofList t.P)
      = Ps.map fun P => Multiset.ofList P := by
    unfold initial; rw [List.map_map]; rfl
  rw [e1, hs2, hs1, e2]

/-! ### Claims on `MoveParticles` -/

/-- C1: for a run on `NTask` tasks in which `LeftTask` and `RightTask` are `MPI_PROC_NULL`
only on tasks without particle slices, if `MoveParticles` ends without a fatal error then
the multiset of all particles of all tasks is the same after the run as before it, and so
is the sum of `NumPart` over the tasks. -/
theorem MoveParticles_conservation (c : Config) (Ps out : List (List part_data))
    (hlen : Ps.length = c.NTask)
    (hnull : ∀ T < c.NTask, Local_np c T ≠ 0 →
      (c.LeftTask T).isSome ∧ (c.RightTask T).isSome)
    (hrun : MoveParticles c Ps = .ok out) :
    out.length = c.NTask ∧
    (out.map fun P => Multiset.ofList P).sum
      = (Ps.map fun P => Multiset.ofList P).sum ∧
    (out.map List.length).sum = (Ps.map List.length).sum := by
  obtain ⟨h1, h2⟩ := conservation c Ps out hlen hnull hrun
  exact ⟨h1, h2, by rw [sum_length_eq_card, sum_length_eq_card, h2]⟩

/-- C1 (witness): three tasks, the last without slices; the two particles change places
and the multiset of particles is the same. -/
theorem MoveParticles_conservation_witness :
    MoveParticles threeTasks [[particleAt (3/4) 0 0], [particleAt (1/4) 0 0], []]
      = .ok [[particleAt (1/4) 0 0], [particleAt (3/4) 0 0], []] ∧
    ([[particleAt (1/4) 0 0], [particleAt (3/4) 0 0], []].map
        fun P => Multiset.ofList P).sum
      = ([[particleAt (3/4) 0 0], [particleAt (1/4) 0 0], []].map
          fun P => Multiset.ofList P).sum :=
  ⟨by decide!,
    (MoveParticles_conservation threeTasks
      [[particleAt (3/4) 0 0], [particleAt (1/4) 0 0], []]
      [[particleAt (1/4) 0 0], [particleAt (3/4) 0 0], []] (by decide) (by decide)
      (by decide!)).2.1⟩

theorem foldl_max_ge (l : List Nat) (acc : Nat) :
    acc ≤ l.foldl max acc ∧ ∀ x ∈ l, x ≤ l.foldl max acc := by
  induction l generalizing acc with
  | nil => simp
  | cons a l ih =>
    rw [List.foldl_cons]
    obtain ⟨h1, h2⟩ := ih (max acc a)
    refine ⟨le_trans (le_max_left _ _) h1, ?_⟩
    intro x hx
    rcases List.mem_cons.mp hx with rfl | hx
    · exact le_trans (le_max_right _ _) h1
    · exact h2 x hx

theorem le_procdiffmaxglob (ts : List TaskState) (T : Nat) (t : TaskState)
    (h : ts.get? T = some t) : t.procdiffmax ≤ procdiffmaxglob ts := by
  unfold procdiffmaxglob
  apply (foldl_max_ge _ 0).2
  rw [List.mem_map]
  exact ⟨t, List.get?_mem h, rfl⟩

theorem rounds_homeBound (c : Config) (G : Nat) :
    ∀ (n j : Nat) (ts ts1 : List TaskState), 2 ≤ j →
      (∀ T < ts.length, Local_np c T ≠ 0 →
        c.LeftTask T = nbrLoopLeft c 1 c.NTask T 0 ∧
        c.RightTask T = nbrLoopRight c 1 c.NTask T 0) →
      homeBound c j ts → (∀ T t, ts.get? T = some t → t.procdiffmax ≤ G) →
      rounds c n j ts = .ok ts1 →
      homeBound c (j + n) ts1 ∧ (∀ T t, ts1.get? T = some t → t.procdiffmax ≤ G) := by
  intro n
  induction n with
  | zero =>
    intro j ts ts1 _ _ hb hG h
    simp only [rounds] at h
    cases h
    exact ⟨hb, hG⟩
  | succ n ih =>
    intro j ts ts1 hj hLR hb hG h
    rw [rounds] at h
    cases hr : round c j ts with
    | error e => rw [hr] at h; cases h
    | ok ts2 =>
      rw [hr] at h
      simp only at h
      obtain ⟨hb2, hpm⟩ := round_homeBound c j ts ts2 (by omega) hLR hb hr
      obtain ⟨_, _, _, hlen2, _⟩ := round_spec c j ts ts2 hr
      have hG2 : ∀ T t, ts2.get? T = some t → t.procdiffmax ≤ G := by
        intro T t2 ht2
        have hT : T < ts.length := by
          rw [← hlen2]; rw [List.get?_eq_some] at ht2; exact ht2.1
        have ht : ts.get? T = some (ts.get ⟨T, hT⟩) := List.get?_eq_get hT
        rw [hpm (by omega) T _ t2 ht ht2]
        exact hG T _ ht
      have := ih (j + 1) ts2 ts1 (by omega) (by rw [hlen2]; exact hLR) hb2 hG2 h
      have e : j + 1 + n = j + (n + 1) := by omega
      rw [e] at this
      exact this

theorem slabX_lt (c : Config) (p : part_data) (hBox : 0 < c.Box)
    (hp : 0 ≤ p.Pos.1 ∧ p.Pos.1 < c.Box) (hN : 0 < c.Nmesh) : (slabX c p).toNat < c.Nmesh := by
  unfold slabX toInt scaleBox
  have h0 : 0 ≤ p.Pos.1 * ((c.Nmesh : ℚ) / c.Box) :=
    mul_nonneg hp.1 (div_nonneg (Nat.cast_nonneg _) hBox.le)
  rw [if_pos h0]
  have hlt : p.Pos.1 * ((c.Nmesh : ℚ) / c.Box) < c.Nmesh := by
    have hN' : (0 : ℚ) < c.Nmesh := by exact_mod_cast hN
    rw [mul_div_assoc', div_lt_iff₀ hBox]
    nlinarith [hp.1, hp.2]
  have hfl : ⌊p.Pos.1 * ((c.Nmesh : ℚ) / c.Box)⌋ < (c.Nmesh : Int) := by
    rw [Int.floor_lt]; exact_mod_cast hlt
  have hge : 0 ≤ ⌊p.Pos.1 * ((c.Nmesh : ℚ) / c.Box)⌋ := Int.floor_nonneg.mpr h0
  omega

theorem initial_homeBound (c : Config) (Ps : List (List part_data))
    (hG : ∀ P ∈ Ps, ∀ p ∈ P, c.Local_np_table (destTask c p) ≠ 0) :
    homeBound c 1 (initial Ps) := by
  intro T t ht
  unfold initial at ht
  rw [List.get?_eq_getElem?, List.getElem?_map] at ht
  cases hP : Ps[T]? with
  | none => rw [hP] at ht; cases ht
  | some P =>
    rw [hP] at ht
    cases ht
    refine ⟨fun _ => le_rfl,
      fun p hp => ⟨hG P (List.getElem?_mem hP) p hp, fun _ h => absurd rfl h⟩⟩

theorem convergence (c : Config) (Ps out : List (List part_data))
    (hlen : Ps.length = c.NTask)
    (hG : ∀ P ∈ Ps, ∀ p ∈ P, c.Local_np_table (destTask c p) ≠ 0)
    (hLR : ∀ T < c.NTask, Local_np c T ≠ 0 →
      c.LeftTask T = nbrLoopLeft c 1 c.NTask T 0 ∧
      c.RightTask T = nbrLoopRight c 1 c.NTask T 0)
    (hrun : MoveParticles c Ps = .ok out) :
    ∀ T P, out.get? T = some P → ∀ p ∈ P, destTask c p = T := by
  obtain ⟨ts1, ts, h1, h2, rfl⟩ := MoveParticles_spec c Ps out hrun
  have hi : (initial Ps).length = c.NTask := by simp [initial, hlen]
  obtain ⟨hb1, _⟩ := round_homeBound c 1 (initial Ps) ts1 le_rfl (by rw [hi]; exact hLR)
    (initial_homeBound c Ps hG) h1
  obtain ⟨_, _, _, hlen1, _⟩ := round_spec c 1 (initial Ps) ts1 h1
  obtain ⟨hb, hpm⟩ := rounds_homeBound c (procdiffmaxglob ts1) _ 2 ts1 ts le_rfl
    (by rw [hlen1, hi]; exact hLR) hb1 (fun T t ht => le_procdiffmaxglob ts1 T t ht) h2
  intro T P hP p hp
  rw [List.get?_eq_getElem?, List.getElem?_map] at hP
  cases ht : ts[T]? with
  | none => rw [ht] at hP; cases hP
  | some t =>
    rw [ht] at hP
    cases hP
    rw [← List.get?_eq_getElem?] at ht
    obtain ⟨_, hq⟩ := hb T t ht
    obtain ⟨_, hbound⟩ := hq p hp
    by_contra hne
    have := hbound hne (by omega)
    have := hpm T t ht
    omega



theorem rounds_length (c : Config) :
    ∀ (n j : Nat) (ts ts1 : List TaskState), rounds c n j ts = .ok ts1 →
      ts1.length = ts.length := by
  intro n
  induction n with
  | zero =>
    intro j ts ts1 h
    simp only [rounds] at h
    cases h
    rfl
  | succ n ih =>
    intro j ts ts1 h
    rw [rounds] at h
    cases hr : round c j ts with
    | error e => rw [hr] at h; cases h
    | ok ts2 =>
      rw [hr] at h
      simp only at h
      obtain ⟨_, _, _, hlen2, _⟩ := round_spec c j ts ts2 hr
      exact (ih (j + 1) ts2 ts1 h).trans hlen2

theorem MoveParticles_length (c : Config) (Ps out : List (List part_data))
    (hrun : MoveParticles c Ps = .ok out) : out.length = Ps.length := by
  obtain ⟨ts1, ts, h1, h2, rfl⟩ := MoveParticles_spec c Ps out hrun
  obtain ⟨_, _, _, hlen1, _⟩ := round_spec c 1 (initial Ps) ts1 h1
  have := rounds_length c _ 2 ts1 ts h2
  simp [this, hlen1, initial]

/-- C2 (counterexample): with two tasks of which the second owns a slab but no particle
slice, a particle of task 0 with `X` in `[0, Box)` that lies in the slab of task 1 is still
on task 0 when `MoveParticles` has run without a fatal error. -/
theorem MoveParticles_convergence_counterexample :
    MoveParticles emptyOwner [[particleAt (3/4) 0 0], []] = .ok [[particleAt (3/4) 0 0], []] ∧
    destTask emptyOwner (particleAt (3/4) 0 0) = 1 ∧
    (0 ≤ (particleAt (3/4) 0 0).Pos.1 ∧ (particleAt (3/4) 0 0).Pos.1 < emptyOwner.Box) := by
  decide!

/-- C2 (amended): when every slab is owned by a task with a non-zero entry in
`Local_np_table`, `LeftTask` and `RightTask` of the tasks with particle slices are the
nearest such tasks on the ring, and all positions lie in `[0, Box)`, then after a run of
`MoveParticles` without a fatal error every particle held by a task `T` satisfies
`Slab_to_task[X] = T`. -/
theorem MoveParticles_convergence (c : Config) (Ps out : List (List part_data))
    (hlen : Ps.length = c.NTask) (hBox : 0 < c.Box) (hN : 0 < c.Nmesh)
    (hpos : ∀ P ∈ Ps, ∀ p ∈ P, 0 ≤ p.Pos.1 ∧ p.Pos.1 < c.Box)
    (hslab : ∀ x < c.Nmesh, c.Local_np_table (c.Slab_to_task x) ≠ 0)
    (hLR : ∀ T < c.NTask, Local_np c T ≠ 0 →
      c.LeftTask T = nbrLoopLeft c 1 c.NTask T 0 ∧
      c.RightTask T = nbrLoopRight c 1 c.NTask T 0)
    (hrun : MoveParticles c Ps = .ok out) :
    out.length = c.NTask ∧ ∀ T P, out.get? T = some P → ∀ p ∈ P, destTask c p = T :=
  ⟨(MoveParticles_length c Ps out hrun).trans hlen,
    convergence c Ps out hlen
      (fun P hP p hp => hslab _ (slabX_lt c p hBox (hpos P hP p hp) hN)) hLR hrun⟩

/-- C2 (witness): two tasks; the particle of task 0 that lies in the slab of task 1 is on
task 1 and no longer on task 0 after the run, which has one round. -/
theorem MoveParticles_convergence_witness :
    MoveParticles twoTasks [[particleAt (3/4) 0 0], []] = .ok [[], [particleAt (3/4) 0 0]] ∧
    destTask twoTasks (particleAt (3/4) 0 0) = 1 :=
  ⟨by decide!,
    (MoveParticles_convergence twoTasks [[particleAt (3/4) 0 0], []]
      [[], [particleAt (3/4) 0 0]] (by decide) (by decide!) (by decide) (by decide!)
      (by decide) (by decide) (by decide!)).2 1 [particleAt (3/4) 0 0] (by decide!)
      (particleAt (3/4) 0 0) (List.mem_singleton.mpr rfl)⟩

/-! ### Claims on `Forces`: the mirror modes and the halo exchange -/

theorem kspace_primary (c : Config) (T : Nat) (P3D mg2 : CGrid) (sinf : ℚ → ℚ) (F : ForceGrids)
    (i j k : Nat) (hN : 0 < c.Nmesh) (hi : i < c.Local_nx T) (hj : j ≤ c.Nmesh / 2)
    (hk : k ≤ c.Nmesh / 2) (hz : ¬ (i + c.Local_x_start T = 0 ∧ j = 0 ∧ k = 0)) :
    (Forces_kspace c T P3D mg2 sinf F).FN11 (cIndex c i j k)
      = (Forces_solve c (cIndex c i j k) (Forces_dens c P3D mg2 (cIndex c i j k)
        (-1 / (((foldK c (i + c.Local_x_start T) * foldK c (i + c.Local_x_start T)
          + (j : Int) * j + (k : Int) * k : Int)) : ℚ)) 1)
        (foldK c (i + c.Local_x_start T)) j k).f11 ∧
    (Forces_kspace c T P3D mg2 sinf F).FN12 (cIndex c i j k)
      = (Forces_solve c (cIndex c i j k) (Forces_dens c P3D mg2 (cIndex c i j k)
        (-1 / (((foldK c (i + c.Local_x_start T) * foldK c (i + c.Local_x_start T)
          + (j : Int) * j + (k : Int) * k : Int)) : ℚ)) 1)
        (foldK c (i + c.Local_x_start T)) j k).f12 ∧
    (Forces_kspace c T P3D mg2 sinf F).FN13 (cIndex c i j k)
      = (Forces_solve c (cIndex c i j k) (Forces_dens c P3D mg2 (cIndex c i j k)
        (-1 / (((foldK c (i + c.Local_x_start T) * foldK c (i + c.Local_x_start T)
          + (j : Int) * j + (k : Int) * k : Int)) : ℚ)) 1)
        (foldK c (i + c.Local_x_start T)) j k).f13 :=
  foldl_store_mem _ F _
    (body_sub_assignments c T P3D mg2 sinf hi hj hk hz (primary_mem c T P3D mg2 sinf i j k))
    (assignments_nodup c T P3D mg2 sinf hN)

theorem kspace_mirror (c : Config) (T : Nat) (P3D mg2 : CGrid) (sinf : ℚ → ℚ) (F : ForceGrids)
    (i j k : Nat) (hN : 0 < c.Nmesh) (hi : i < c.Local_nx T) (hj : j ≤ c.Nmesh / 2)
    (hk : k ≤ c.Nmesh / 2) (hm : j ≠ c.Nmesh / 2 ∧ j ≠ 0) :
    (Forces_kspace c T P3D mg2 sinf F).FN11 (cIndex c i (c.Nmesh - j) k)
      = (Forces_solve c (cIndex c i (c.Nmesh - j) k)
        (Forces_dens c P3D mg2 (cIndex c i (c.Nmesh - j) k)
        (-1 / (((foldK c (i + c.Local_x_start T) * foldK c (i + c.Local_x_start T)
          + (j : Int) * j + (k : Int) * k : Int)) : ℚ)) 1)
        (foldK c (i + c.Local_x_start T)) (-(j : Int)) k).f11 ∧
    (Forces_kspace c T P3D mg2 sinf F).FN12 (cIndex c i (c.Nmesh - j) k)
      = (Forces_solve c (cIndex c i (c.Nmesh - j) k)
        (Forces_dens c P3D mg2 (cIndex c i (c.Nmesh - j) k)
        (-1 / (((foldK c (i + c.Local_x_start T) * foldK c (i + c.Local_x_start T)
          + (j : Int) * j + (k : Int) * k : Int)) : ℚ)) 1)
        (foldK c (i + c.Local_x_start T)) (-(j : Int)) k).f12 ∧
    (Forces_kspace c T P3D mg2 sinf F).FN13 (cIndex c i (c.Nmesh - j) k)
      = (Forces_solve c (cIndex c i (c.Nmesh - j) k)
        (Forces_dens c P3D mg2 (cIndex c i (c.Nmesh - j) k)
        (-1 / (((foldK c (i + c.Local_x_start T) * foldK c (i + c.Local_x_start T)
          + (j : Int) * j + (k : Int) * k : Int)) : ℚ)) 1)
        (foldK c (i + c.Local_x_start T)) (-(j : Int)) k).f13 :=
  foldl_store_mem _ F _
    (body_sub_assignments c T P3D mg2 sinf hi hj hk (fun h => hm.2 h.2.1)
      (mirror_mem c T P3D mg2 sinf i j k hm))
    (assignments_nodup c T P3D mg2 sinf hN)

/-- C11 (amended): for `0 < j < Nmesh/2`, when the spectrum at the mirror index
`(i, Nmesh - j, k)` is the conjugate of the spectrum at `(i, j, k)` (and, with modified
gravity active, the same holds for the second spectrum), the value `Forces` writes at the
mirror index is the conjugate of the primary value in `FN12` and the negated conjugate of
the primary value in `FN11` and `FN13`. -/
theorem Forces_mirror (c : Config) (T : Nat) (P3D mg2 : CGrid) (sinf : ℚ → ℚ) (F : ForceGrids)
    (i j k : Nat) (hN : 0 < c.Nmesh) (hi : i < c.Local_nx T) (hj0 : 0 < j)
    (hj : j < c.Nmesh / 2) (hk : k ≤ c.Nmesh / 2)
    (hP : P3D (cIndex c i (c.Nmesh - j) k) = cconj (P3D (cIndex c i j k)))
    (hM : c.modified_gravity_active = true →
      mg2 (cIndex c i (c.Nmesh - j) k) = cconj (mg2 (cIndex c i j k))) :
    (Forces_kspace c T P3D mg2 sinf F).FN11 (cIndex c i (c.Nmesh - j) k)
      = cneg (cconj ((Forces_kspace c T P3D mg2 sinf F).FN11 (cIndex c i j k))) ∧
    (Forces_kspace c T P3D mg2 sinf F).FN12 (cIndex c i (c.Nmesh - j) k)
      = cconj ((Forces_kspace c T P3D mg2 sinf F).FN12 (cIndex c i j k)) ∧
    (Forces_kspace c T P3D mg2 sinf F).FN13 (cIndex c i (c.Nmesh - j) k)
      = cneg (cconj ((Forces_kspace c T P3D mg2 sinf F).FN13 (cIndex c i j k))) := by
  obtain ⟨p1, p2, p3⟩ := kspace_primary c T P3D mg2 sinf F i j k hN hi hj.le hk (by omega)
  obtain ⟨m1, m2, m3⟩ := kspace_mirror c T P3D mg2 sinf F i j k hN hi hj.le hk
    ⟨by omega, by omega⟩
  rw [p1, p2, p3, m1, m2, m3]
  cases hmg : c.modified_gravity_active
  · simp only [Forces_solve, Forces_dens, hmg, hP, cconj, cneg, Bool.false_eq_true, if_false]
    refine ⟨?_, ?_, ?_⟩ <;> ext <;> push_cast <;> ring
  · simp only [Forces_solve, Forces_dens, hmg, hP, hM hmg, cconj, cneg, if_true]
    refine ⟨?_, ?_, ?_⟩ <;> ext <;> push_cast <;> ring

/-- C11 (counterexample): on a `4^3` mesh, at the mode `(1, 1, 1)` and its mirror
`(1, 3, 1)`.  For the spectrum of a grid with one non-zero cell the mirror value is not the
conjugate of the primary value in `FN11` and not its negative in `FN12`; for a real
spectrum that is non-zero at `(1, 1, 1)` only, the mirror value in `FN12` is zero and the
primary value is not. -/
theorem Forces_mirror_counterexample :
    realSpectrum fourMesh pointSpectrum ∧
    (Forces_kspace fourMesh 0 pointSpectrum pointSpectrum (fun x => x) sampleForceGrids).FN11
        (cIndex fourMesh 1 3 1)
      ≠ cconj ((Forces_kspace fourMesh 0 pointSpectrum pointSpectrum (fun x => x)
          sampleForceGrids).FN11 (cIndex fourMesh 1 1 1)) ∧
    (Forces_kspace fourMesh 0 pointSpectrum pointSpectrum (fun x => x) sampleForceGrids).FN12
        (cIndex fourMesh 1 3 1)
      ≠ cneg (cconj ((Forces_kspace fourMesh 0 pointSpectrum pointSpectrum (fun x => x)
          sampleForceGrids).FN12 (cIndex fourMesh 1 1 1))) ∧
    realSpectrum fourMesh oneMode ∧
    (Forces_kspace fourMesh 0 oneMode oneMode (fun x => x) sampleForceGrids).FN12
        (cIndex fourMesh 1 3 1) = (0, 0) ∧
    (Forces_kspace fourMesh 0 oneMode oneMode (fun x => x) sampleForceGrids).FN12
        (cIndex fourMesh 1 1 1) ≠ (0, 0) := by decide!

/-- C11 (witness): the mode `(1, 1, 1)` of a `4^3` mesh, for the spectrum that is `1`
everywhere. -/
theorem Forces_mirror_witness :
    (Forces_kspace fourMesh 0 pointSpectrum pointSpectrum (fun x => x) sampleForceGrids).FN12
        (cIndex fourMesh 1 3 1)
      = cconj ((Forces_kspace fourMesh 0 pointSpectrum pointSpectrum (fun x => x)
          sampleForceGrids).FN12 (cIndex fourMesh 1 1 1)) :=
  (Forces_mirror fourMesh 0 pointSpectrum pointSpectrum (fun x => x) sampleForceGrids 1 1 1
    (by decide) (by decide) (by decide) (by decide) (by decide) (by decide!)
    (fun h => absurd h (by decide))).2.1

theorem sendrecv_halo (c : Config) (pre : Nat → Grid) (T R : Nat) (hR : c.RightTask T = some R)
    (i : Nat) (hi : i < 2 * alloc_slice c) :
    Forces_sendrecv c pre T (2 * last_slice c T + i) = pre R i := by
  unfold Forces_sendrecv
  rw [hR]
  simp only
  rw [if_pos ⟨by omega, by omega⟩]
  congr 1
  omega

theorem sendrecv_owned (c : Config) (pre : Nat → Grid) (T : Nat)
    (i : Nat) (hi : i < 2 * last_slice c T) :
    Forces_sendrecv c pre T i = pre T i := by
  unfold Forces_sendrecv
  cases hR : c.RightTask T with
  | none => rfl
  | some R =>
    simp only
    rw [if_neg (by omega)]

/-- C12 (amended): after the exchange at the end of `Forces`, in each of `N11`, `N12`,
`N13`, element `i` of the halo slice of task `T` holds element `i` of the first owned
slice of the right neighbour of `T` (what the halo slice held before is overwritten, not
added to), and no element of an owned slice changes. -/
theorem Forces_halo_exchange (c : Config) (pre : Nat → RealForceGrids) (T : Nat) :
    (∀ R, c.RightTask T = some R → ∀ i < 2 * alloc_slice c,
      (Forces_exchange c pre T).N11 (2 * last_slice c T + i) = (pre R).N11 i ∧
      (Forces_exchange c pre T).N12 (2 * last_slice c T + i) = (pre R).N12 i ∧
      (Forces_exchange c pre T).N13 (2 * last_slice c T + i) = (pre R).N13 i) ∧
    (∀ i < 2 * last_slice c T,
      (Forces_exchange c pre T).N11 i = (pre T).N11 i ∧
      (Forces_exchange c pre T).N12 i = (pre T).N12 i ∧
      (Forces_exchange c pre T).N13 i = (pre T).N13 i) := by
  refine ⟨fun R hR i hi => ⟨?_, ?_, ?_⟩, fun i hi => ⟨?_, ?_, ?_⟩⟩
  · exact sendrecv_halo c (fun R => (pre R).N11) T R hR i hi
  · exact sendrecv_halo c (fun R => (pre R).N12) T R hR i hi
  · exact sendrecv_halo c (fun R => (pre R).N13) T R hR i hi
  · exact sendrecv_owned c (fun R => (pre R).N11) T i hi
  · exact sendrecv_owned c (fun R => (pre R).N12) T i hi
  · exact sendrecv_owned c (fun R => (pre R).N13) T i hi

/-- C12 (counterexample): two tasks with one slice each.  Element `0` of the halo slice
of task `0` held `9` before the exchange and element `0` of the first slice of task `1`
is `101`; after the exchange the halo element is `101`, not `9 + 101`. -/
theorem Forces_halo_exchange_counterexample :
    (sampleRealGrids 0).N11 (2 * last_slice twoTasks 0) = 9 ∧
    (sampleRealGrids 1).N11 0 = 101 ∧
    (Forces_exchange twoTasks sampleRealGrids 0).N11 (2 * last_slice twoTasks 0) = 101 ∧
    (Forces_exchange twoTasks sampleRealGrids 0).N11 (2 * last_slice twoTasks 0)
      ≠ (sampleRealGrids 0).N11 (2 * last_slice twoTasks 0) + (sampleRealGrids 1).N11 0 := by
  decide!

/-- C12 (witness): element `3` of the halo slice of task `0` of a run on two tasks. -/
theorem Forces_halo_exchange_witness :
    (Forces_exchange twoTasks sampleRealGrids 0).N12 (2 * last_slice twoTasks 0 + 3)
      = (sampleRealGrids 1).N12 3 :=
  ((Forces_halo_exchange twoTasks sampleRealGrids 0).1 1 (by decide) 3 (by decide)).2.1

/-! ### Claims on `MtoParticles` -/

theorem interp_eq_sum (c : Config) (g : Grid) (s : Stencil) :
    MtoParticles_interp c g s
      = (s.writes.map fun w => g (gridIndex c w.1.1 w.1.2.1 w.1.2.2) * w.2).sum := by
  simp only [MtoParticles_interp, Stencil.writes, List.map_cons, List.map_nil, List.sum_cons,
    List.sum_nil]
  ring

/-- C13: for every particle, `MtoParticles` and `PtoMesh` compute the same eight cells (so
the same eight flat indices), the interpolation reads exactly these cells, every weight of
`PtoMesh` is `WPAR` times the weight of `MtoParticles` at the same cell (the weight of
`MtoParticles` is that of `PtoMesh` divided by `WPAR` for `Nmesh, Nsample ≥ 1`), and for
every grid `g` the sum of `g` times the deposited weights is `WPAR` times the
interpolation of `g`. -/
theorem MtoParticles_symmetric (c : Config) (T : Nat) (p : part_data) :
    (MtoParticles_stencil c T p).writes.map Prod.fst
      = (PtoMesh_stencil c T p).writes.map Prod.fst ∧
    (∀ g : Grid, MtoParticles_interp c g (MtoParticles_stencil c T p)
      = ((MtoParticles_stencil c T p).writes.map
          fun w => g (gridIndex c w.1.1 w.1.2.1 w.1.2.2) * w.2).sum) ∧
    (PtoMesh_stencil c T p).writes.map Prod.snd
      = (MtoParticles_stencil c T p).writes.map (fun w => WPAR c * w.2) ∧
    (0 < c.Nmesh → 0 < c.Nsample →
      (MtoParticles_stencil c T p).writes.map Prod.snd
        = (PtoMesh_stencil c T p).writes.map (fun w => w.2 / WPAR c)) ∧
    (∀ g : Grid, ((PtoMesh_stencil c T p).writes.map
          fun w => g (gridIndex c w.1.1 w.1.2.1 w.1.2.2) * w.2).sum
      = WPAR c * MtoParticles_interp c g (MtoParticles_stencil c T p)) := by
  refine ⟨?_, fun g => interp_eq_sum c g _, ?_, ?_, ?_⟩
  · simp [Stencil.writes, MtoParticles_stencil, PtoMesh_stencil]
  · simp only [Stencil.writes, MtoParticles_stencil, PtoMesh_stencil, List.map_cons,
      List.map_nil, mul_one]
    refine List.cons_eq_cons.2 ⟨by ring, List.cons_eq_cons.2 ⟨by ring, List.cons_eq_cons.2
      ⟨by ring, List.cons_eq_cons.2 ⟨by ring, List.cons_eq_cons.2 ⟨by ring, List.cons_eq_cons.2
      ⟨by ring, List.cons_eq_cons.2 ⟨by ring, List.cons_eq_cons.2 ⟨by ring, rfl⟩⟩⟩⟩⟩⟩⟩⟩
  · intro hN hS
    have hW : WPAR c ≠ 0 := by
      unfold WPAR
      have h1 : (c.Nmesh : ℚ) ≠ 0 := by exact_mod_cast hN.ne.symm
      have h2 : (c.Nsample : ℚ) ≠ 0 := by exact_mod_cast hS.ne.symm
      exact pow_ne_zero _ (div_ne_zero h1 h2)
    simp only [Stencil.writes, MtoParticles_stencil, PtoMesh_stencil, List.map_cons,
      List.map_nil, mul_one]
    refine List.cons_eq_cons.2 ⟨by field_simp; ring, List.cons_eq_cons.2 ⟨by field_simp; ring,
      List.cons_eq_cons.2 ⟨by field_simp; ring, List.cons_eq_cons.2 ⟨by field_simp; ring,
      List.cons_eq_cons.2 ⟨by field_simp; ring, List.cons_eq_cons.2 ⟨by field_simp; ring,
      List.cons_eq_cons.2 ⟨by field_simp; ring, List.cons_eq_cons.2 ⟨by field_simp; ring, rfl⟩⟩⟩⟩⟩⟩⟩⟩
  · intro g
    simp only [MtoParticles_interp, Stencil.writes, MtoParticles_stencil, PtoMesh_stencil,
      List.map_cons, List.map_nil, List.sum_cons, List.sum_nil]
    ring

/-- C13 (witness): a particle in the middle of a cell of a `4^3` mesh with `Nsample = 4`
(so `WPAR = 1`): the weights of `MtoParticles` are those of `PtoMesh` divided by `WPAR`. -/
theorem MtoParticles_symmetric_witness :
    (MtoParticles_stencil fourMesh 0 (particleAt (1/8) (3/8) (5/8))).writes.map Prod.snd
      = (PtoMesh_stencil fourMesh 0 (particleAt (1/8) (3/8) (5/8))).writes.map
          (fun w => w.2 / WPAR fourMesh) :=
  (MtoParticles_symmetric fourMesh 0 (particleAt (1/8) (3/8) (5/8))).2.2.2.1
    (by decide) (by decide)

theorem foldl_step (c : Config) (T : Nat) (N : RealForceGrids) (P : List part_data)
    (st : MtoState) :
    (P.foldl (MtoParticles_step c T N) st).Disp = st.Disp ++ P.map (interpolated c T N) ∧
    (P.foldl (MtoParticles_step c T N) st).sumDxyz.1
      = st.sumDxyz.1 + (P.map fun p => (interpolated c T N p).1).sum ∧
    (P.foldl (MtoParticles_step c T N) st).sumDxyz.2.1
      = st.sumDxyz.2.1 + (P.map fun p => (interpolated c T N p).2.1).sum ∧
    (P.foldl (MtoParticles_step c T N) st).sumDxyz.2.2
      = st.sumDxyz.2.2 + (P.map fun p => (interpolated c T N p).2.2).sum := by
  induction P generalizing st with
  | nil => simp
  | cons p P ih =>
    obtain ⟨h0, h1, h2, h3⟩ := ih (MtoParticles_step c T N st p)
    rw [List.foldl_cons, h0, h1, h2, h3]
    simp only [MtoParticles_step, interpolated, List.map_cons, List.sum_cons, List.append_assoc,
      List.singleton_append, add_assoc, and_self]

/-- C14: after `MtoParticles`, on every task, `sumDxyz[a]` is the sum over all tasks and
all their particles of the interpolated `Disp[a][i]`, divided by `TotNumPart`, whatever
`sumDxyz` held before; `Disp` holds the interpolated displacement of every local
particle. -/
theorem MtoParticles_mean (c : Config) (TotNumPart : Nat) (N : Nat → RealForceGrids)
    (Ps : Nat → List part_data) (sumDxyz_old : Nat → Vec3) (T : Nat) (_ : 0 < TotNumPart) :
    (MtoParticles c TotNumPart N Ps sumDxyz_old T).Disp = (Ps T).map (interpolated c T (N T)) ∧
    (MtoParticles c TotNumPart N Ps sumDxyz_old T).sumDxyz.1
      = (∑ R ∈ Finset.range c.NTask, ((Ps R).map fun p => (interpolated c R (N R) p).1).sum)
        / (TotNumPart : ℚ) ∧
    (MtoParticles c TotNumPart N Ps sumDxyz_old T).sumDxyz.2.1
      = (∑ R ∈ Finset.range c.NTask, ((Ps R).map fun p => (interpolated c R (N R) p).2.1).sum)
        / (TotNumPart : ℚ) ∧
    (MtoParticles c TotNumPart N Ps sumDxyz_old T).sumDxyz.2.2
      = (∑ R ∈ Finset.range c.NTask, ((Ps R).map fun p => (interpolated c R (N R) p).2.2).sum)
        / (TotNumPart : ℚ) := by
  have hsum : ∀ f : Nat → ℚ, allreduce_sum c f = ∑ R ∈ Finset.range c.NTask, f R := by
    intro f
    unfold allreduce_sum
    rw [Finset.sum_range, ← List.sum_ofFn]
    congr 1
    apply List.ext_get
    · simp
    · intro n h1 h2
      simp
  simp only [MtoParticles, MtoParticles_local, hsum]
  refine ⟨?_, ?_, ?_, ?_⟩
  · rw [(foldl_step c T (N T) (Ps T) _).1]; simp
  · congr 1
    apply Finset.sum_congr rfl
    intro R _
    rw [(foldl_step c R (N R) (Ps R) _).2.1]; simp
  · congr 1
    apply Finset.sum_congr rfl
    intro R _
    rw [(foldl_step c R (N R) (Ps R) _).2.2.1]; simp
  · congr 1
    apply Finset.sum_congr rfl
    intro R _
    rw [(foldl_step c R (N R) (Ps R) _).2.2.2]; simp

/-- C14 (witness): two tasks with one particle each, `TotNumPart = 2`, and `sumDxyz`
holding `7` on entry. -/
theorem MtoParticles_mean_witness :
    (MtoParticles twoTasks 2 sampleRealGrids onBothRanks (fun _ => (7, 7, 7)) 0).sumDxyz.1
      = (∑ R ∈ Finset.range twoTasks.NTask,
          ((onBothRanks R).map fun p => (interpolated twoTasks R (sampleRealGrids R) p).1).sum)
        / ((2 : Nat) : ℚ) :=
  (MtoParticles_mean twoTasks 2 sampleRealGrids onBothRanks (fun _ => (7, 7, 7)) 0
    (by decide)).2.1

/-! ### Claims on `MoveParticles`: direction, overflow checks -/

/-- C15: in a round `j` in which the classification loop of task `T` runs and ends, a
particle of the task bound for another task, with hop counts `L` and `R` not both zero, is
put in the left send buffer exactly when `L ≤ R` and `L = j`, in the right send buffer
exactly when `L > R` and `R = j`, and it stays in the array exactly when `min L R ≠ j`;
the hop count that the loop compares with `j` is `min L R`. -/
theorem MoveParticles_direction (c : Config) (T j : Nat) (t : TaskState) (sel : Sel)
    (h : select c T j t = .ok sel) (hj : j ≤ t.procdiffmax) (p : part_data) (hp : p ∈ t.P)
    (hd : destTask c p ≠ T) (L R : Nat) (hL : procdiff_left c T (destTask c p) = some L)
    (hR : procdiff_right c T (destTask c p) = some R) (hnz : L ≠ 0 ∨ R ≠ 0) :
    (p ∈ sel.P_send_left ↔ L ≤ R ∧ L = j) ∧
    (p ∈ sel.P_send_right ↔ ¬ L ≤ R ∧ R = j) ∧
    (p ∈ sel.P ↔ min L R ≠ j) ∧
    chosenHop c T p = min L R := by
  obtain ⟨hms, hkeep, hleft, hright, -⟩ := select_spec c T j t sel h
  have hmem : p ∈ sel.P ∨ p ∈ sel.P_send_left ∨ p ∈ sel.P_send_right := by
    have : p ∈ (Multiset.ofList sel.P + Multiset.ofList sel.P_send_left
        + Multiset.ofList sel.P_send_right : Multiset part_data) := by
      rw [hms]; exact hp
    simpa [or_assoc] using this
  have hl : p ∈ sel.P_send_left → L ≤ R ∧ L = j := by
    intro hm
    obtain ⟨_, _, pl, pr, h1, h2, _, h4, h5⟩ := hleft p hm
    rw [hL] at h1; rw [hR] at h2; cases h1; cases h2
    exact ⟨h4, h5⟩
  have hr : p ∈ sel.P_send_right → ¬ L ≤ R ∧ R = j := by
    intro hm
    obtain ⟨_, _, pl, pr, h1, h2, _, h4, h5⟩ := hright p hm
    rw [hL] at h1; rw [hR] at h2; cases h1; cases h2
    exact ⟨h4, h5⟩
  have hk : p ∈ sel.P → min L R ≠ j := by
    intro hm
    rcases (hkeep p hm).2 hj with h0 | ⟨pl, pr, h1, h2, h3⟩
    · exact absurd h0 hd
    · rw [hL] at h1; rw [hR] at h2; cases h1; cases h2
      rcases h3 with ⟨a, b⟩ | ⟨a, b, _⟩ | ⟨a, b, _⟩
      · omega
      · rw [min_eq_left a]; exact b
      · rw [min_eq_right (by omega)]; exact b
  refine ⟨⟨hl, ?_⟩, ⟨hr, ?_⟩, ⟨hk, ?_⟩, ?_⟩
  · rintro ⟨a, b⟩
    rcases hmem with h1 | h1 | h1
    · exact absurd (by rw [min_eq_left a]; exact b) (hk h1)
    · exact h1
    · exact absurd a (hr h1).1
  · rintro ⟨a, b⟩
    rcases hmem with h1 | h1 | h1
    · exact absurd (by rw [min_eq_right (by omega)]; exact b) (hk h1)
    · exact absurd (hl h1).1 a
    · exact h1
  · intro hne
    rcases hmem with h1 | h1 | h1
    · exact h1
    · obtain ⟨a, b⟩ := hl h1
      exact absurd (by rw [min_eq_left a]; exact b) hne
    · obtain ⟨a, b⟩ := hr h1
      exact absurd (by rw [min_eq_right (by omega)]; exact b) hne
  · unfold chosenHop
    rw [hL, hR]
    simp only
    by_cases a : L ≤ R
    · rw [if_pos a, min_eq_left a]
    · rw [if_neg a, min_eq_right (by omega)]

/-- C15 (witness): two tasks; the particle of task `0` is bound for task `1`, one hop away
on either side, and goes into the left send buffer in round `1`. -/
theorem MoveParticles_direction_witness :
    particleAt (3/4) 0 0
        ∈ (Sel.mk [] [particleAt (3/4) 0 0] [] 1).P_send_left ↔ 1 ≤ 1 ∧ 1 = 1 :=
  (MoveParticles_direction twoTasks 0 1 { P := [particleAt (3/4) 0 0], procdiffmax := 1 }
    (Sel.mk [] [particleAt (3/4) 0 0] [] 1) (by decide!) (by decide) (particleAt (3/4) 0 0)
    (by decide!) (by decide!) 1 1 (by decide!) (by decide!) (by decide)).1

/-- C16 (failing input): with `send_count_max = 1` and nine particles on every task, of
which one is bound for the left (or for the right) neighbour, task `0` buffers one particle,
which is not more than `send_count_max`, and the round ends in the fatal error of the send
buffers. -/
theorem MoveParticles_send_overflow :
    send_count_max tightBuffer 0 = 1 ∧
    MoveParticles tightBuffer (ringShift true) = .error (Err.sendLeftOverflow 0) ∧
    MoveParticles tightBuffer (ringShift false) = .error (Err.sendRightOverflow 0) ∧
    select tightBuffer 0 1 { P := [particleAt (5/6) 0 0], procdiffmax := 1 }
      = .error (Err.sendLeftOverflow 0) ∧
    select tightBuffer 0 1 { P := [particleAt (1/2) 0 0], procdiffmax := 1 }
      = .error (Err.sendRightOverflow 0) := by decide!

/-- C17: the second half of a round on task `T` ends in the fatal receive error exactly
when `NumPart + recv_count_left + recv_count_right > Local_np*Nsample*Nsample*Buffer`;
otherwise the array holds the retained particles in their slots, followed by the particles
received from the right and then those received from the left, and `NumPart` has grown by
`recv_count_left + recv_count_right`. -/
theorem MoveParticles_receive (c : Config) (ps : List Posted) (T : Nat) (p : Posted) :
    (receive c ps T p = .error (Err.recvOverflow T) ↔
      (((p.sel.P.length + (recvLeft ps p).length + (recvRight ps p).length : Nat) : ℚ)
        > (Local_np c T : ℚ) * c.Nsample * c.Nsample * c.Buffer)) ∧
    (¬ (((p.sel.P.length + (recvLeft ps p).length + (recvRight ps p).length : Nat) : ℚ)
        > (Local_np c T : ℚ) * c.Nsample * c.Nsample * c.Buffer) →
      ∃ t, receive c ps T p = .ok t ∧
        t.P.take p.sel.P.length = p.sel.P ∧
        t.P.drop p.sel.P.length = recvRight ps p ++ recvLeft ps p ∧
        t.P.length = p.sel.P.length + ((recvLeft ps p).length + (recvRight ps p).length)) := by
  by_cases hc : (((p.sel.P.length + (recvLeft ps p).length + (recvRight ps p).length : Nat) : ℚ)
        > (Local_np c T : ℚ) * c.Nsample * c.Nsample * c.Buffer)
  · refine ⟨⟨fun _ => hc, fun _ => ?_⟩, fun h => absurd hc h⟩
    unfold receive
    rw [if_pos hc]
  · refine ⟨⟨fun h => ?_, fun h => absurd h hc⟩, fun _ => ?_⟩
    · unfold receive at h
      rw [if_neg hc] at h
      cases h
    · refine ⟨{ P := p.sel.P ++ recvRight ps p ++ recvLeft ps p,
                procdiffmax := p.sel.procdiffmax }, ?_, ?_, ?_, ?_⟩
      · unfold receive
        rw [if_neg hc]
      · simp [List.append_assoc]
      · simp [List.append_assoc]
      · simp only [List.length_append]
        omega

/-- C17 (witness): two tasks that exchange their particles; task `0` retains nothing and
receives one particle from the right. -/
theorem MoveParticles_receive_witness :
    ∃ t, receive twoTasks
        [{ sel := Sel.mk [] [particleAt (3/4) 0 0] [] 1, left := some 1, right := some 1 },
         { sel := Sel.mk [] [particleAt (1/4) 0 0] [] 1, left := some 0, right := some 0 }] 0
        { sel := Sel.mk [] [particleAt (3/4) 0 0] [] 1, left := some 1, right := some 1 }
          = .ok t ∧
      t.P.take 0 = [] ∧ t.P.drop 0 = [particleAt (1/4) 0 0] ++ [] ∧ t.P.length = 0 + (0 + 1) :=
  (MoveParticles_receive twoTasks
    [{ sel := Sel.mk [] [particleAt (3/4) 0 0] [] 1, left := some 1, right := some 1 },
     { sel := Sel.mk [] [particleAt (1/4) 0 0] [] 1, left := some 0, right := some 0 }] 0
    { sel := Sel.mk [] [particleAt (3/4) 0 0] [] 1, left := some 1, right := some 1 }).2
    (by decide!)

/-! ### Claims on the reading of particle files -/

theorem wrap_once (x : ℚ) (h0 : 0 ≤ x) (h2 : x < 2) :
    0 ≤ (if x ≥ 1 then x - 1 else x) ∧ (if x ≥ 1 then x - 1 else x) < 1 := by
  by_cases h : x ≥ 1
  · rw [if_pos h]; constructor <;> linarith
  · rw [if_neg h]; constructor <;> linarith

/-- C18 (amended): when every stored coordinate lies in `[0, 2)` (for GADGET files: in
`[0, 2*BoxSize)`, with `BoxSize > 0`), every coordinate that `read_ramses_file`,
`read_ascii_file` and `read_gadget_file` leave in the buffer lies in `[0, 1)`. -/
theorem ingestion_normalised (stored : List ℚ) (BoxSize : ℚ) :
    ((∀ x ∈ stored, 0 ≤ x ∧ x < 2) →
      (∀ y ∈ read_ramses_file stored, 0 ≤ y ∧ y < 1) ∧
      (∀ y ∈ read_ascii_file stored, 0 ≤ y ∧ y < 1)) ∧
    (0 < BoxSize → (∀ x ∈ stored, 0 ≤ x ∧ x < 2 * BoxSize) →
      ∀ y ∈ read_gadget_file BoxSize stored, 0 ≤ y ∧ y < 1) := by
  refine ⟨fun h => ⟨?_, ?_⟩, fun hB h => ?_⟩
  · intro y hy
    simp only [read_ramses_file, List.mem_map] at hy
    obtain ⟨x, hx, rfl⟩ := hy
    exact wrap_once x (h x hx).1 (h x hx).2
  · intro y hy
    simp only [read_ascii_file, List.mem_map] at hy
    obtain ⟨x, hx, rfl⟩ := hy
    exact wrap_once x (h x hx).1 (h x hx).2
  · intro y hy
    simp only [read_gadget_file, List.mem_map] at hy
    obtain ⟨x, hx, rfl⟩ := hy
    apply wrap_once
    · exact mul_nonneg (h x hx).1 (by positivity)
    · rw [mul_one_div, div_lt_iff₀ hB]
      exact (h x hx).2

/-- C18 (counterexample): a stored coordinate `5/2` is left as `3/2` by `read_ramses_file`,
a stored coordinate `-1/2` is left as it is by `read_ascii_file`, and with `BoxSize = 10` a
stored coordinate `25` is left as `3/2` by `read_gadget_file`. -/
theorem ingestion_normalised_counterexample :
    read_ramses_file [5/2] = [3/2] ∧ read_ascii_file [-1/2] = [-1/2] ∧
    read_gadget_file 10 [25] = [3/2] := by decide!

/-- C18 (witness): the stored coordinate `3/2` is left as `1/2`. -/
theorem ingestion_normalised_witness :
    (1/2 : ℚ) ∈ read_ramses_file [3/2] ∧ (0 : ℚ) ≤ 1/2 ∧ (1/2 : ℚ) < 1 :=
  ⟨by decide!, ((ingestion_normalised [3/2] 1).1 (by decide!)).1 (1/2) (by decide!)⟩

theorem process_foldl (c : Config) (T ty : Nat) (buffer : Nat → ℚ) (n : Nat) (l : List Nat)
    (st : Grid × Nat) :
    l.foldl (ProcessParticles_step c T ty buffer n) st
      = ((l.filter fun i => !skipped c T (fetch ty buffer n i 0)).foldl
          (ProcessParticles_deposit c T ty buffer n) st.1,
         st.2 + (l.filter fun i => !skipped c T (fetch ty buffer n i 0)).length) := by
  induction l generalizing st with
  | nil => simp
  | cons i l ih =>
    rw [List.foldl_cons, ih]
    by_cases hs : skipped c T (fetch ty buffer n i 0) = true
    · simp [ProcessParticles_step, hs]
    · simp only [Bool.not_eq_true] at hs
      simp only [ProcessParticles_step, hs, Bool.false_eq_true, if_false, List.filter_cons,
        Bool.not_false, if_true, List.foldl_cons, List.length_cons, ProcessParticles_deposit]
      congr 1
      omega

theorem length_filter_range (n : Nat) (q : Nat → Bool) :
    ((List.range n).filter q).length = ∑ i ∈ Finset.range n, if q i then 1 else 0 := by
  induction n with
  | zero => simp
  | succ n ih =>
    rw [List.range_succ, List.filter_append, List.length_append, ih, Finset.sum_range_succ]
    by_cases h : q n <;> simp [h]

theorem skipped_iff (c : Config) (T : Nat) (X : ℚ) (hX : 0 ≤ X) :
    skipped c T X = false ↔ inRange c T X := by
  have h0 : 0 ≤ X * (c.Nmesh : ℚ) := mul_nonneg hX (Nat.cast_nonneg _)
  unfold skipped inRange toInt
  rw [if_pos h0]
  simp only [decide_eq_false_iff_not, not_or, not_le, not_lt]
  constructor
  · rintro ⟨a, b⟩; constructor <;> omega
  · rintro ⟨a, b⟩; constructor <;> omega

theorem process_weights_sum (c : Config) (T : Nat) (X Y Z : ℚ) :
    ((ProcessParticles_stencil c T X Y Z).writes.map Prod.snd).sum = WPAR c := by
  simp only [Stencil.writes, ProcessParticles_stencil, List.map_cons, List.map_nil,
    List.sum_cons, List.sum_nil]
  ring

/-- The X indices of the stencil of a particle that `ProcessParticlesSingleFile` does not
skip on rank `T`. -/
theorem process_index (c : Config) (T : Nat) (X Y Z : ℚ) (hN : 0 < c.Nmesh)
    (hX : 0 ≤ X ∧ X < 1) (hs : skipped c T X = false) :
    (ProcessParticles_stencil c T X Y Z).IX
      = ⌊X * (c.Nmesh : ℚ)⌋.toNat - c.Local_x_start T ∧
    (ProcessParticles_stencil c T X Y Z).IX < c.Local_nx T ∧
    (c.Nmesh < 2 ^ 32 →
      (ProcessParticles_stencil c T X Y Z).IXneigh = (ProcessParticles_stencil c T X Y Z).IX + 1) := by
  obtain ⟨h1, h2⟩ := (skipped_iff c T X hX.1).1 hs
  have h0 : 0 ≤ ⌊X * (c.Nmesh : ℚ)⌋ :=
    Int.floor_nonneg.2 (mul_nonneg hX.1 (Nat.cast_nonneg _))
  have hlt : ⌊X * (c.Nmesh : ℚ)⌋ < (c.Nmesh : Int) := by
    rw [Int.floor_lt]
    have hN' : (0 : ℚ) < c.Nmesh := by exact_mod_cast hN
    push_cast
    nlinarith [hX.1, hX.2]
  have hIX : (ProcessParticles_stencil c T X Y Z).IX
      = ⌊X * (c.Nmesh : ℚ)⌋.toNat - c.Local_x_start T := by
    show usub32 (toUInt (X * (c.Nmesh : ℚ))) (c.Local_x_start T) = _
    unfold usub32 toUInt
    rw [if_pos (by omega)]
  refine ⟨hIX, by rw [hIX]; omega, fun h32 => ?_⟩
  have : (ProcessParticles_stencil c T X Y Z).IXneigh
      = uinc32 (ProcessParticles_stencil c T X Y Z).IX := rfl
  rw [this, uinc32, if_neg]
  rw [hIX]
  omega

theorem process_cells (c : Config) (T : Nat) (X Y Z : ℚ) (hN : 0 < c.Nmesh)
    (h32 : c.Nmesh < 2 ^ 32) (hX : 0 ≤ X ∧ X < 1) (hs : skipped c T X = false) :
    ∀ w ∈ (ProcessParticles_stencil c T X Y Z).writes,
      w.1.1 < c.Local_nx T + 1 ∧ w.1.2.1 < c.Nmesh ∧ w.1.2.2 < c.Nmesh := by
  obtain ⟨-, hlt, hne⟩ := process_index c T X Y Z hN hX hs
  have hne := hne h32
  have hY : (ProcessParticles_stencil c T X Y Z).IY < c.Nmesh := wrapY_lt _ _ hN
  have hYn : (ProcessParticles_stencil c T X Y Z).IYneigh < c.Nmesh := wrapY_lt _ _ hN
  have hZ : (ProcessParticles_stencil c T X Y Z).IZ < c.Nmesh := wrapY_lt _ _ hN
  have hZn : (ProcessParticles_stencil c T X Y Z).IZneigh < c.Nmesh := wrapY_lt _ _ hN
  intro w hw
  simp only [Stencil.writes, List.mem_cons, List.mem_singleton, List.not_mem_nil, or_false] at hw
  rcases hw with h | h | h | h | h | h | h | h <;> subst h <;> simp only <;>
    refine ⟨by omega, ?_, ?_⟩ <;> assumption

theorem cellSum_process (c : Config) (T ty : Nat) (buffer : Nat → ℚ) (n : Nat)
    (hN : 0 < c.Nmesh) (h32 : c.Nmesh < 2 ^ 32) (l : List Nat)
    (hl : ∀ i ∈ l, (0 ≤ fetch ty buffer n i 0 ∧ fetch ty buffer n i 0 < 1) ∧
      skipped c T (fetch ty buffer n i 0) = false) (d : Grid) :
    cellSum c (l.foldl (ProcessParticles_deposit c T ty buffer n) d) (c.Local_nx T + 1)
      = cellSum c d (c.Local_nx T + 1) + WPAR c * l.length := by
  induction l generalizing d with
  | nil => simp
  | cons i l ih =>
    obtain ⟨hX, hs⟩ := hl i (List.mem_cons_self _ _)
    rw [List.foldl_cons, ih (fun q hq => hl q (List.mem_cons_of_mem _ hq)),
      ProcessParticles_deposit,
      cellSum_writes c _ _ (process_cells c T _ _ _ hN h32 hX hs), process_weights_sum]
    push_cast [List.length_cons]
    ring

/-- C19: for a slab decomposition that partitions `[0, Nmesh)` and a buffer whose
particles have `X` in `[0, 1)`, a task deposits a particle exactly when its range contains
`floor(X * Nmesh)`, every particle is deposited by exactly one task,
`ProcessParticlesSingleFile` deposits on each task the particles that are not skipped and
returns their number, and the returned counts add up to `npart_loc`.  The deposit of a
particle on its task has the local X index `floor(X * Nmesh) - Local_x_start`, below
`Local_nx`, its X neighbour is the next slice, and its eight weights add up to
`WPAR = (Nmesh/Nsample)^3`; so on each task the sum of `density + 1` over the owned slices
and the halo slice grows by `WPAR` times the returned count, and over all tasks by
`WPAR * npart_loc`. -/
theorem ProcessParticles_slab_filter (c : Config) (TypeInputParticleFiles : Nat)
    (buffer : Nat → ℚ) (npart_loc : Nat) (density : Nat → Grid) (hN : 0 < c.Nmesh)
    (hpart : slabPartition c)
    (hX : ∀ i < npart_loc, 0 ≤ fetch TypeInputParticleFiles buffer npart_loc i 0 ∧
      fetch TypeInputParticleFiles buffer npart_loc i 0 < 1) :
    (∀ i < npart_loc, ∀ T,
      skipped c T (fetch TypeInputParticleFiles buffer npart_loc i 0) = false
        ↔ inRange c T (fetch TypeInputParticleFiles buffer npart_loc i 0)) ∧
    (∀ i < npart_loc, ((List.range c.NTask).filter fun T =>
      !skipped c T (fetch TypeInputParticleFiles buffer npart_loc i 0)).length = 1) ∧
    (∀ T, ProcessParticlesSingleFile c T TypeInputParticleFiles buffer npart_loc (density T)
      = (((List.range npart_loc).filter fun i =>
            !skipped c T (fetch TypeInputParticleFiles buffer npart_loc i 0)).foldl
          (ProcessParticles_deposit c T TypeInputParticleFiles buffer npart_loc) (density T),
         ((List.range npart_loc).filter fun i =>
            !skipped c T (fetch TypeInputParticleFiles buffer npart_loc i 0)).length)) ∧
    ∑ T ∈ Finset.range c.NTask,
      (ProcessParticlesSingleFile c T TypeInputParticleFiles buffer npart_loc (density T)).2
      = npart_loc ∧
    (∀ i < npart_loc, ∀ T Y Z,
      skipped c T (fetch TypeInputParticleFiles buffer npart_loc i 0) = false →
      (ProcessParticles_stencil c T
          (fetch TypeInputParticleFiles buffer npart_loc i 0) Y Z).IX
        = ⌊fetch TypeInputParticleFiles buffer npart_loc i 0 * (c.Nmesh : ℚ)⌋.toNat
          - c.Local_x_start T ∧
      (ProcessParticles_stencil c T
          (fetch TypeInputParticleFiles buffer npart_loc i 0) Y Z).IX < c.Local_nx T ∧
      (c.Nmesh < 2 ^ 32 →
        (ProcessParticles_stencil c T
            (fetch TypeInputParticleFiles buffer npart_loc i 0) Y Z).IXneigh
          = (ProcessParticles_stencil c T
              (fetch TypeInputParticleFiles buffer npart_loc i 0) Y Z).IX + 1) ∧
      ((ProcessParticles_stencil c T
          (fetch TypeInputParticleFiles buffer npart_loc i 0) Y Z).writes.map Prod.snd).sum
        = WPAR c) ∧
    (c.Nmesh < 2 ^ 32 → ∀ T,
      cellSum c (ProcessParticlesSingleFile c T TypeInputParticleFiles buffer npart_loc
          (density T)).1 (c.Local_nx T + 1)
        = cellSum c (density T) (c.Local_nx T + 1)
          + WPAR c * (ProcessParticlesSingleFile c T TypeInputParticleFiles buffer npart_loc
              (density T)).2) ∧
    (c.Nmesh < 2 ^ 32 →
      ∑ T ∈ Finset.range c.NTask,
        (cellSum c (ProcessParticlesSingleFile c T TypeInputParticleFiles buffer npart_loc
            (density T)).1 (c.Local_nx T + 1) - cellSum c (density T) (c.Local_nx T + 1))
        = WPAR c * npart_loc) := by
  have hone : ∀ i < npart_loc, ((List.range c.NTask).filter fun T =>
      !skipped c T (fetch TypeInputParticleFiles buffer npart_loc i 0)).length = 1 := by
    intro i hi
    obtain ⟨h0, h1⟩ := hX i hi
    have hc0 : 0 ≤ fetch TypeInputParticleFiles buffer npart_loc i 0 * (c.Nmesh : ℚ) :=
      mul_nonneg h0 (Nat.cast_nonneg _)
    have hlt : ⌊fetch TypeInputParticleFiles buffer npart_loc i 0 * (c.Nmesh : ℚ)⌋.toNat
        < c.Nmesh := by
      have hpos : (0 : ℚ) < c.Nmesh := by exact_mod_cast hN
      have : ⌊fetch TypeInputParticleFiles buffer npart_loc i 0 * (c.Nmesh : ℚ)⌋
          < (c.Nmesh : Int) := by
        rw [Int.floor_lt]
        push_cast
        nlinarith
      have h3 := Int.floor_nonneg.2 hc0
      omega
    rw [← hpart _ hlt]
    congr 1
    apply List.filter_congr
    intro T _
    have h3 := Int.floor_nonneg.2 hc0
    rw [Bool.eq_iff_iff]
    simp only [Bool.not_eq_true', decide_eq_true_eq]
    rw [skipped_iff c T _ h0]
    unfold inRange
    constructor
    · rintro ⟨a, b⟩; constructor <;> omega
    · rintro ⟨a, b⟩; constructor <;> omega
  have hproc : ∀ T, ProcessParticlesSingleFile c T TypeInputParticleFiles buffer npart_loc
      (density T)
      = (((List.range npart_loc).filter fun i =>
            !skipped c T (fetch TypeInputParticleFiles buffer npart_loc i 0)).foldl
          (ProcessParticles_deposit c T TypeInputParticleFiles buffer npart_loc) (density T),
         ((List.range npart_loc).filter fun i =>
            !skipped c T (fetch TypeInputParticleFiles buffer npart_loc i 0)).length) := by
    intro T
    unfold ProcessParticlesSingleFile
    rw [process_foldl]
    simp
  have hcount : ∑ T ∈ Finset.range c.NTask,
      (ProcessParticlesSingleFile c T TypeInputParticleFiles buffer npart_loc (density T)).2
      = npart_loc := by
    simp only [hproc, length_filter_range]
    rw [Finset.sum_comm]
    have : ∀ i ∈ Finset.range npart_loc, (∑ T ∈ Finset.range c.NTask,
        if (!skipped c T (fetch TypeInputParticleFiles buffer npart_loc i 0)) = true then 1
        else 0) = 1 := by
      intro i hi
      rw [← length_filter_range]
      exact hone i (Finset.mem_range.1 hi)
    rw [Finset.sum_congr rfl this]
    simp
  have hmass : c.Nmesh < 2 ^ 32 → ∀ T,
      cellSum c (ProcessParticlesSingleFile c T TypeInputParticleFiles buffer npart_loc
          (density T)).1 (c.Local_nx T + 1)
        = cellSum c (density T) (c.Local_nx T + 1)
          + WPAR c * (ProcessParticlesSingleFile c T TypeInputParticleFiles buffer npart_loc
              (density T)).2 := by
    intro h32 T
    rw [hproc T]
    simp only
    apply cellSum_process c T _ _ _ hN h32
    intro i hi
    rw [List.mem_filter, List.mem_range] at hi
    refine ⟨hX i hi.1, ?_⟩
    simpa using hi.2
  refine ⟨fun i hi T => skipped_iff c T _ (hX i hi).1, hone, hproc, hcount, ?_, hmass, ?_⟩
  · intro i hi T Y Z hs
    obtain ⟨a, b, e⟩ := process_index c T _ Y Z hN (hX i hi) hs
    exact ⟨a, b, e, process_weights_sum c T _ Y Z⟩
  · intro h32
    rw [Finset.sum_congr rfl (fun T _ => by rw [hmass h32 T, add_sub_cancel_left]),
      ← Finset.mul_sum, ← Nat.cast_sum, hcount]

/-- C19 (witness): two tasks with one slab each and a buffer of two particles, one in
each slab (`X = 1/4` and `X = 3/4`, scaled `1/2` and `3/2`; `WPAR = 1`): each task returns
`1`, and on either task the particle of the task adds `1/2` to the cell `(0, 0, 0)` and
`1/2` to the halo cell `(1, 0, 0)` of a grid that held `-1` everywhere. -/
theorem ProcessParticles_slab_filter_witness :
    ∑ T ∈ Finset.range twoTasks.NTask,
      (ProcessParticlesSingleFile twoTasks T 1 twoParticles 2 (fun _ => -1)).2 = 2 ∧
    ∑ T ∈ Finset.range twoTasks.NTask,
      (cellSum twoTasks (ProcessParticlesSingleFile twoTasks T 1 twoParticles 2 (fun _ => -1)).1
          (twoTasks.Local_nx T + 1) - cellSum twoTasks (fun _ => -1) (twoTasks.Local_nx T + 1))
      = WPAR twoTasks * (2 : Nat) ∧
    WPAR twoTasks = 1 ∧
    (ProcessParticlesSingleFile twoTasks 0 1 twoParticles 2 (fun _ => -1)).2 = 1 ∧
    (ProcessParticlesSingleFile twoTasks 0 1 twoParticles 2 (fun _ => -1)).1
      (gridIndex twoTasks 0 0 0) = -1/2 ∧
    (ProcessParticlesSingleFile twoTasks 0 1 twoParticles 2 (fun _ => -1)).1
      (gridIndex twoTasks 1 0 0) = -1/2 ∧
    (ProcessParticlesSingleFile twoTasks 1 1 twoParticles 2 (fun _ => -1)).1
      (gridIndex twoTasks 0 0 0) = -1/2 :=
  have h := ProcessParticles_slab_filter twoTasks 1 twoParticles 2 (fun _ _ => -1) (by decide)
    (by decide) (by decide!)
  ⟨h.2.2.2.1, h.2.2.2.2.2.2 (by decide), by decide!, by decide!, by decide!, by decide!,
    by decide!⟩

theorem imul32_cube (n : Nat) (h : n ≤ 1290) :
    imul32 (imul32 n n) n = (n : Int) ^ 3 := by
  have h1 : (n : Int) * n ≤ 1290 * 1290 := by
    have : (n : Int) ≤ 1290 := by exact_mod_cast h
    nlinarith [Int.natCast_nonneg n]
  have h0 : 0 ≤ (n : Int) * n := mul_nonneg (Int.natCast_nonneg n) (Int.natCast_nonneg n)
  have e1 : imul32 n n = (n : Int) * n := by
    unfold imul32 wrapInt32
    rw [Int.emod_eq_of_lt (by omega) (by omega)]
    omega
  rw [e1]
  have h3 : (n : Int) * n * n ≤ 1290 * 1290 * 1290 := by
    have : (n : Int) ≤ 1290 := by exact_mod_cast h
    nlinarith [Int.natCast_nonneg n]
  have h4 : 0 ≤ (n : Int) * n * n := mul_nonneg h0 (Int.natCast_nonneg n)
  unfold imul32 wrapInt32
  rw [Int.emod_eq_of_lt (by omega) (by omega)]
  ring_nf

/-- C20 (failing input): with `Nmesh = 1291` the `int` product `Nmesh*Nmesh*Nmesh` is
`-2143282125`, not `1291^3 = 2151685171`, and the factor is not
`(1 / Nmesh^3) * growth_DLCDM(1) / growth_DLCDM(1/(1+Init_Redshift))` (here with
`growth_DLCDM(a) = a` and `Init_Redshift = 1`); with `Nmesh = 2048` the product is `0`. -/
theorem ReadFiles_normfac_overflow :
    imul32 (imul32 largeMesh.Nmesh largeMesh.Nmesh) largeMesh.Nmesh = -2143282125 ∧
    (largeMesh.Nmesh : Int) ^ 3 = 2151685171 ∧
    ReadFiles_normfac largeMesh (fun a => a) 1 = -2 / 2143282125 ∧
    ReadFiles_normfac largeMesh (fun a => a) 1
      ≠ 1 / (largeMesh.Nmesh : ℚ) ^ 3 * ((fun a : ℚ => a) 1 / (fun a : ℚ => a) (1 / (1 + 1))) ∧
    imul32 (imul32 2048 2048) 2048 = 0 := by
  constructor
  · norm_num [imul32, wrapInt32, largeMesh]
  constructor
  · norm_num [largeMesh]
  constructor
  · norm_num [ReadFiles_normfac, imul32, wrapInt32, largeMesh]
  constructor
  · norm_num [ReadFiles_normfac, imul32, wrapInt32, largeMesh]
  · norm_num [imul32, wrapInt32]

/-! ### Claims on `Forces`: wavenumbers and the fifth force -/

theorem foldK_eq (c : Config) (g : Nat) :
    foldK c g = if g ≤ c.Nmesh / 2 then (g : Int) else (g : Int) - c.Nmesh := by
  unfold foldK
  by_cases h : g > c.Nmesh / 2
  · rw [if_pos h, if_neg (by omega)]
  · rw [if_neg h, if_pos (by omega)]

theorem foldK_ne_zero (c : Config) (g : Nat) (hg : g < c.Nmesh) (h0 : g ≠ 0) :
    foldK c g ≠ 0 := by
  rw [foldK_eq]
  split_ifs <;> omega

theorem foldK_bounds (c : Config) (g : Nat) (hg : g < c.Nmesh) :
    -((c.Nmesh : ℚ) / 2) < (foldK c g : ℚ) ∧ (foldK c g : ℚ) ≤ (c.Nmesh : ℚ) / 2 ∧
    (c.Nmesh % 2 = 0 → -((c.Nmesh / 2 : Nat) : Int) < foldK c g) ∧
    foldK c g ≤ ((c.Nmesh / 2 : Nat) : Int) := by
  have hN : (0 : ℚ) < c.Nmesh := by exact_mod_cast (by omega : 0 < c.Nmesh)
  have hgq : (g : ℚ) < c.Nmesh := by exact_mod_cast hg
  have hg0 : (0 : ℚ) ≤ g := Nat.cast_nonneg g
  rw [foldK_eq]
  by_cases h : g ≤ c.Nmesh / 2
  · rw [if_pos h]
    have h2 : (2 : ℚ) * g ≤ c.Nmesh := by exact_mod_cast (by omega : 2 * g ≤ c.Nmesh)
    refine ⟨?_, ?_, fun _ => by omega, by omega⟩
    · push_cast; linarith
    · push_cast; linarith
  · rw [if_neg h]
    have h2 : (c.Nmesh : ℚ) < 2 * g := by exact_mod_cast (by omega : c.Nmesh < 2 * g)
    refine ⟨?_, ?_, fun _ => by omega, by omega⟩
    · push_cast; linarith
    · push_cast; linarith

theorem RK_eq_zero (c : Config) (T i j k : Nat) (hg : i + c.Local_x_start T < c.Nmesh) :
    Forces_RK c T i j k = 0 ↔ i + c.Local_x_start T = 0 ∧ j = 0 ∧ k = 0 := by
  unfold Forces_RK
  constructor
  · intro h
    have h1 := mul_self_nonneg (foldK c (i + c.Local_x_start T))
    have h2 := mul_self_nonneg (j : Int)
    have h3 := mul_self_nonneg (k : Int)
    have e1 : foldK c (i + c.Local_x_start T) * foldK c (i + c.Local_x_start T) = 0 := by omega
    have e2 : (j : Int) * j = 0 := by omega
    have e3 : (k : Int) * k = 0 := by omega
    refine ⟨?_, ?_, ?_⟩
    · by_contra hne
      exact foldK_ne_zero c _ hg hne (mul_self_eq_zero.1 e1)
    · exact_mod_cast mul_self_eq_zero.1 e2
    · exact_mod_cast mul_self_eq_zero.1 e3
  · rintro ⟨a, rfl, rfl⟩
    rw [a]
    simp [foldK]

theorem RK_nonneg (c : Config) (T i j k : Nat) : 0 ≤ Forces_RK c T i j k := by
  unfold Forces_RK
  have h1 := mul_self_nonneg (foldK c (i + c.Local_x_start T))
  have h2 := mul_self_nonneg (j : Int)
  have h3 := mul_self_nonneg (k : Int)
  omega

/-- C28: on a task whose slab lies inside the mesh, in every row `(i, j)` of the loop the
`k` loop starts at `kmin`, which is `1` exactly when `iglobal = 0` and `j = 0`; at every `k`
of the loop `RK` is positive (and `KK = -1/RK` is computed from it), and among the modes
`(i, j, k)` the only one with `RK = 0` is the one with `iglobal = 0`, `j = 0`, `k = 0`, which
the loop skips. -/
theorem Forces_RK_positive (c : Config) (T : Nat) (P3D mg2 : CGrid) (sinf : ℚ → ℚ) (i j : Nat)
    (hslab : c.Local_x_start T + c.Local_nx T ≤ c.Nmesh) (hi : i < c.Local_nx T) :
    Forces_row c T P3D mg2 sinf i j
      = (if i + c.Local_x_start T = 0 ∧ j = 0
          then [{ ind := 0, f11 := (0, 0), f12 := (0, 0), f13 := (0, 0) }] else [])
        ++ (List.range' (Forces_kmin c T i j) (c.Nmesh / 2 + 1 - Forces_kmin c T i j)).flatMap
            (Forces_body c T P3D mg2 sinf i j) ∧
    (∀ k ∈ List.range' (Forces_kmin c T i j) (c.Nmesh / 2 + 1 - Forces_kmin c T i j),
      0 < Forces_RK c T i j k ∧
      Forces_solve c (cIndex c i j k)
        (Forces_dens c P3D mg2 (cIndex c i j k) (-1 / ((Forces_RK c T i j k : Int) : ℚ)) 1)
        (foldK c (i + c.Local_x_start T)) j k ∈ Forces_body c T P3D mg2 sinf i j k) ∧
    (∀ k, Forces_RK c T i j k = 0 ↔ i + c.Local_x_start T = 0 ∧ j = 0 ∧ k = 0) ∧
    (0 ∈ List.range' (Forces_kmin c T i j) (c.Nmesh / 2 + 1 - Forces_kmin c T i j)
      ↔ ¬ (i + c.Local_x_start T = 0 ∧ j = 0)) := by
  have hg : i + c.Local_x_start T < c.Nmesh := by omega
  refine ⟨rfl, ?_, fun k => RK_eq_zero c T i j k hg, ?_⟩
  · intro k hk
    rw [List.mem_range'_1] at hk
    refine ⟨?_, primary_mem c T P3D mg2 sinf i j k⟩
    have hne : Forces_RK c T i j k ≠ 0 := by
      rw [Ne, RK_eq_zero c T i j k hg]
      rintro ⟨a, b, e⟩
      have : Forces_kmin c T i j = 1 := by
        unfold Forces_kmin; rw [if_pos ⟨a, b⟩]
      omega
    have := RK_nonneg c T i j k
    omega
  · rw [List.mem_range'_1]
    unfold Forces_kmin
    by_cases h : i + c.Local_x_start T = 0 ∧ j = 0
    · rw [if_pos h]
      exact ⟨fun a => by omega, fun hn => absurd h hn⟩
    · rw [if_neg h]
      exact ⟨fun _ => h, fun _ => ⟨le_rfl, by omega⟩⟩

/-- C28 (witness): row `(0, 0)` of a `2^3` mesh on one task: the loop starts at `k = 1`,
where `RK = 1`. -/
theorem Forces_RK_positive_witness :
    0 < Forces_RK oneTask 0 0 0 1 ∧
    ¬ (0 ∈ List.range' (Forces_kmin oneTask 0 0 0) (oneTask.Nmesh / 2 + 1 - Forces_kmin oneTask 0 0 0)) :=
  ⟨((Forces_RK_positive oneTask 0 sampleSpectrum sampleSpectrum (fun x => x) 0 0 (by decide)
      (by decide)).2.1 1 (by decide)).1,
   fun h => ((Forces_RK_positive oneTask 0 sampleSpectrum sampleSpectrum (fun x => x) 0 0
      (by decide) (by decide)).2.2.2.1 h) (by decide)⟩

/-- C29: at a mode `(i, j, k)` of the loop on a task whose slab lies inside the mesh, the
assignments are made with X wavenumber `fold(iglobal)`, Z wavenumber `k` and Y wavenumber
`fold(j)` at the primary row `j` and `fold(Nmesh - j)` at the mirror row `Nmesh - j`, where
`fold(g)` is `g` for `g ≤ Nmesh/2` and `g - Nmesh` otherwise; each of these folded values
`w` satisfies `-Nmesh/2 < w ≤ Nmesh/2` (as rationals for every `Nmesh`, with the integer
quotient `Nmesh/2` for even `Nmesh`). -/
theorem Forces_wavenumber_fold (c : Config) (T : Nat) (P3D mg2 : CGrid) (sinf : ℚ → ℚ)
    (i j k : Nat) (hg : i + c.Local_x_start T < c.Nmesh) (hj : j ≤ c.Nmesh / 2) :
    Forces_body c T P3D mg2 sinf i j k
      = Forces_solve c (cIndex c i j k)
          (Forces_dens c P3D mg2 (cIndex c i j k) (-1 / ((Forces_RK c T i j k : Int) : ℚ)) 1)
          (foldK c (i + c.Local_x_start T)) (foldK c j) k
        :: (if j ≠ c.Nmesh / 2 ∧ j ≠ 0 then
            [Forces_solve c (cIndex c i (c.Nmesh - j) k)
              (Forces_dens c P3D mg2 (cIndex c i (c.Nmesh - j) k)
                (-1 / ((Forces_RK c T i j k : Int) : ℚ)) 1)
              (foldK c (i + c.Local_x_start T)) (foldK c (c.Nmesh - j)) k]
           else []) ∧
    (∀ g, foldK c g = if g ≤ c.Nmesh / 2 then (g : Int) else (g : Int) - c.Nmesh) ∧
    (-((c.Nmesh : ℚ) / 2) < (foldK c (i + c.Local_x_start T) : ℚ) ∧
      (foldK c (i + c.Local_x_start T) : ℚ) ≤ (c.Nmesh : ℚ) / 2) ∧
    (-((c.Nmesh : ℚ) / 2) < (foldK c j : ℚ) ∧ (foldK c j : ℚ) ≤ (c.Nmesh : ℚ) / 2) ∧
    (j ≠ c.Nmesh / 2 ∧ j ≠ 0 →
      -((c.Nmesh : ℚ) / 2) < (foldK c (c.Nmesh - j) : ℚ) ∧
      (foldK c (c.Nmesh - j) : ℚ) ≤ (c.Nmesh : ℚ) / 2) ∧
    (c.Nmesh % 2 = 0 →
      (-((c.Nmesh / 2 : Nat) : Int) < foldK c (i + c.Local_x_start T) ∧
        foldK c (i + c.Local_x_start T) ≤ ((c.Nmesh / 2 : Nat) : Int)) ∧
      (-((c.Nmesh / 2 : Nat) : Int) < foldK c j ∧ foldK c j ≤ ((c.Nmesh / 2 : Nat) : Int)) ∧
      (j ≠ c.Nmesh / 2 ∧ j ≠ 0 →
        -((c.Nmesh / 2 : Nat) : Int) < foldK c (c.Nmesh - j) ∧
        foldK c (c.Nmesh - j) ≤ ((c.Nmesh / 2 : Nat) : Int))) := by
  have hjN : j < c.Nmesh := by omega
  have e1 : foldK c j = (j : Int) := by rw [foldK_eq, if_pos hj]
  have e2 : j ≠ c.Nmesh / 2 ∧ j ≠ 0 → foldK c (c.Nmesh - j) = -(j : Int) := by
    intro hm
    rw [foldK_eq, if_neg (by omega)]
    omega
  have b1 := foldK_bounds c _ hg
  have b2 := foldK_bounds c _ hjN
  have b3 : j ≠ c.Nmesh / 2 ∧ j ≠ 0 → _ := fun hm =>
    foldK_bounds c (c.Nmesh - j) (by omega)
  refine ⟨?_, foldK_eq c, ⟨b1.1, b1.2.1⟩, ⟨b2.1, b2.2.1⟩, fun hm => ⟨(b3 hm).1, (b3 hm).2.1⟩,
    fun he => ⟨⟨b1.2.2.1 he, b1.2.2.2⟩, ⟨b2.2.2.1 he, b2.2.2.2⟩,
      fun hm => ⟨(b3 hm).2.2.1 he, (b3 hm).2.2.2⟩⟩⟩
  rw [e1]
  by_cases hm : j ≠ c.Nmesh / 2 ∧ j ≠ 0
  · rw [if_pos hm, e2 hm]
    simp only [Forces_body, Forces_RK]
    rw [if_pos hm]
  · rw [if_neg hm]
    simp only [Forces_body, Forces_RK]
    rw [if_neg hm]

/-- C29 (witness): the mode `(3, 1, 1)` of a `4^3` mesh: X wavenumber `-1`, Y wavenumbers
`1` and `-1`. -/
theorem Forces_wavenumber_fold_witness :
    Forces_body fourMesh 0 sampleSpectrum sampleSpectrum (fun x => x) 3 1 1
      = Forces_solve fourMesh (cIndex fourMesh 3 1 1)
          (Forces_dens fourMesh sampleSpectrum sampleSpectrum (cIndex fourMesh 3 1 1)
            (-1 / ((Forces_RK fourMesh 0 3 1 1 : Int) : ℚ)) 1)
          (foldK fourMesh (3 + fourMesh.Local_x_start 0)) (foldK fourMesh 1) 1
        :: (if 1 ≠ fourMesh.Nmesh / 2 ∧ 1 ≠ 0 then
            [Forces_solve fourMesh (cIndex fourMesh 3 (fourMesh.Nmesh - 1) 1)
              (Forces_dens fourMesh sampleSpectrum sampleSpectrum
                (cIndex fourMesh 3 (fourMesh.Nmesh - 1) 1)
                (-1 / ((Forces_RK fourMesh 0 3 1 1 : Int) : ℚ)) 1)
              (foldK fourMesh (3 + fourMesh.Local_x_start 0))
              (foldK fourMesh (fourMesh.Nmesh - 1)) 1]
           else []) ∧
    foldK fourMesh (3 + fourMesh.Local_x_start 0) = -1 ∧ foldK fourMesh 1 = 1 ∧
    foldK fourMesh (fourMesh.Nmesh - 1) = -1 :=
  ⟨(Forces_wavenumber_fold fourMesh 0 sampleSpectrum sampleSpectrum (fun x => x) 3 1 1
      (by decide) (by decide)).1, by decide, by decide, by decide⟩

theorem dens_additive (c c0 : Config) (P3D mg2 mg2b : CGrid) (ind : Nat) (KK g : ℚ)
    (hN : c0.Nmesh = c.Nmesh) (h1 : c.modified_gravity_active = true)
    (h0 : c0.modified_gravity_active = false) :
    Forces_dens c P3D mg2 ind KK g = Forces_dens c0 (addSpectra P3D mg2) mg2b ind KK g := by
  simp only [Forces_dens, h1, h0, hN, addSpectra, if_true, Bool.false_eq_true, if_false]
  ext
  · simp only; ring
  · simp only; ring

/-- C30: with modified gravity active, the force grids that the loop of `Forces` writes for
the spectra `P3D` and `P3D_mgarray_two` are the grids it writes with modified gravity
inactive for the density spectrum `P3D + P3D_mgarray_two` (whatever the second spectrum is
then); with modified gravity inactive the grids do not depend on `P3D_mgarray_two`. -/
theorem Forces_fifth_force_additive (c : Config) (T : Nat) (P3D mg2 mg2b : CGrid)
    (sinf : ℚ → ℚ) (F : ForceGrids) :
    (c.modified_gravity_active = true →
      Forces_kspace c T P3D mg2 sinf F
        = Forces_kspace { c with modified_gravity_active := false } T (addSpectra P3D mg2) mg2b
            sinf F) ∧
    (c.modified_gravity_active = false →
      Forces_kspace c T P3D mg2 sinf F = Forces_kspace c T P3D mg2b sinf F) := by
  constructor
  · intro h1
    have hb : Forces_body c T P3D mg2 sinf
        = Forces_body { c with modified_gravity_active := false } T (addSpectra P3D mg2) mg2b
            sinf := by
      funext i j k
      simp only [Forces_body]
      rw [dens_additive c { c with modified_gravity_active := false } P3D mg2 mg2b _ _ _ rfl h1 rfl,
        dens_additive c { c with modified_gravity_active := false } P3D mg2 mg2b _ _ _ rfl h1 rfl]
      rfl
    unfold Forces_kspace Forces_assignments Forces_row
    rw [hb]
  · intro h0
    have hb : Forces_body c T P3D mg2 sinf = Forces_body c T P3D mg2b sinf := by
      funext i j k
      simp only [Forces_body, Forces_dens, h0, Bool.false_eq_true, if_false]
    unfold Forces_kspace Forces_assignments Forces_row
    rw [hb]

/-- C30 (witness): a `4^3` mesh; the value at the mode `(1, 1, 1)` of `FN12` with modified
gravity active is the value with modified gravity inactive for the sum of the spectra. -/
theorem Forces_fifth_force_additive_witness :
    (Forces_kspace fourMeshMG 0 sampleSpectrum pointSpectrum (fun x => x) sampleForceGrids).FN12
        (cIndex fourMesh 1 1 1)
      = (Forces_kspace { fourMeshMG with modified_gravity_active := false } 0
          (addSpectra sampleSpectrum pointSpectrum) oneMode (fun x => x) sampleForceGrids).FN12
        (cIndex fourMesh 1 1 1) :=
  congrArg (fun G => G.FN12 (cIndex fourMesh 1 1 1))
    ((Forces_fifth_force_additive fourMeshMG 0 sampleSpectrum pointSpectrum oneMode (fun x => x)
      sampleForceGrids).1 (by decide))

/-! ### Claims on `periodic_wrap` -/

theorem wrap_down_spec (c : Config) (hB : 0 < c.Box) :
    ∀ (n fuel : Nat) (x : ℚ), n ≤ fuel → 0 ≤ x - n * c.Box → x - n * c.Box < c.Box →
      wrap_down c fuel x = some (x - n * c.Box) := by
  intro n
  induction n with
  | zero =>
    intro fuel x _ h0 h1
    simp only [Nat.cast_zero, zero_mul, sub_zero] at h0 h1 ⊢
    cases fuel with
    | zero => rw [wrap_down, if_neg (not_le.2 h1)]
    | succ f => rw [wrap_down, if_neg (not_le.2 h1)]
  | succ n ih =>
    intro fuel x hf h0 h1
    push_cast at h0 h1 ⊢
    have hx : x ≥ c.Box := by nlinarith [Nat.cast_nonneg (α := ℚ) n]
    cases fuel with
    | zero => omega
    | succ f =>
      rw [wrap_down, if_pos hx, ih f (x - c.Box) (by omega) (by linarith) (by linarith)]
      congr 1
      ring

theorem wrap_down_small (c : Config) (fuel : Nat) (x : ℚ) (h : x < c.Box) :
    wrap_down c fuel x = some x := by
  cases fuel with
  | zero => rw [wrap_down, if_neg (not_le.2 h)]
  | succ f => rw [wrap_down, if_neg (not_le.2 h)]

theorem wrap_up_spec (c : Config) (hB : 0 < c.Box) :
    ∀ (n fuel : Nat) (x : ℚ), n ≤ fuel → 0 ≤ x + n * c.Box → x + n * c.Box < c.Box →
      wrap_up c fuel x = some (x + n * c.Box) := by
  intro n
  induction n with
  | zero =>
    intro fuel x _ h0 h1
    simp only [Nat.cast_zero, zero_mul, add_zero] at h0 h1 ⊢
    cases fuel with
    | zero => rw [wrap_up, if_neg (not_lt.2 h0)]
    | succ f => rw [wrap_up, if_neg (not_lt.2 h0)]
  | succ n ih =>
    intro fuel x hf h0 h1
    push_cast at h0 h1 ⊢
    have hx : x < 0 := by nlinarith [Nat.cast_nonneg (α := ℚ) n]
    cases fuel with
    | zero => omega
    | succ f =>
      rw [wrap_up, if_pos hx, ih f (x + c.Box) (by omega) (by linarith) (by linarith)]
      congr 1
      ring

theorem periodic_wrap_value (c : Config) (hB : 0 < c.Box) (x : ℚ) (fuel : Nat)
    (hf : ⌊x / c.Box⌋.natAbs ≤ fuel) :
    periodic_wrap c fuel x = some (x - ⌊x / c.Box⌋ * c.Box) := by
  have h0 : 0 ≤ x - ⌊x / c.Box⌋ * c.Box := by
    have := Int.floor_le (x / c.Box)
    rw [le_div_iff₀ hB] at this
    linarith
  have h1 : x - ⌊x / c.Box⌋ * c.Box < c.Box := by
    have := Int.lt_floor_add_one (x / c.Box)
    rw [div_lt_iff₀ hB] at this
    linarith
  unfold periodic_wrap
  by_cases hx : 0 ≤ ⌊x / c.Box⌋
  · obtain ⟨n, hn⟩ := Int.eq_ofNat_of_zero_le hx
    rw [hn] at h0 h1 hf ⊢
    simp only [Int.natAbs_ofNat, Int.cast_natCast] at h0 h1 hf ⊢
    rw [wrap_down_spec c hB n fuel x hf h0 h1]
    simp only
    rw [wrap_up_spec c hB 0 fuel _ (Nat.zero_le _) (by simpa using h0) (by simpa using h1)]
    simp only [Nat.cast_zero, zero_mul, add_zero]
    rw [if_neg (ne_of_lt h1)]
  · have hneg : ⌊x / c.Box⌋ < 0 := not_le.1 hx
    obtain ⟨n, hn⟩ := Int.exists_eq_neg_ofNat hneg.le
    rw [hn] at h0 h1 hf ⊢
    simp only [Int.natAbs_neg, Int.natAbs_ofNat, Int.cast_neg, Int.cast_natCast, neg_mul,
      sub_neg_eq_add] at h0 h1 hf ⊢
    have hxB : x < c.Box := by nlinarith [Nat.cast_nonneg (α := ℚ) n]
    rw [wrap_down_small c fuel x hxB]
    simp only
    rw [wrap_up_spec c hB n fuel x hf h0 h1]
    simp only
    rw [if_neg (ne_of_lt h1)]

/-- C21: for `Box > 0` and every `x`, `periodic_wrap(x)` ends (every number of passes from
`|floor(x / Box)|` on is enough for both loops) and returns `y = x - floor(x/Box) * Box`,
which is the one value with `0 ≤ y < Box` that differs from `x` by an integer multiple of
`Box`; it returns `x` for `x` in `[0, Box)` and returns `y` again when applied to `y`. -/
theorem periodic_wrap_spec (c : Config) (hB : 0 < c.Box) (x : ℚ) :
    ∃ y : ℚ, (∀ fuel, ⌊x / c.Box⌋.natAbs ≤ fuel → periodic_wrap c fuel x = some y) ∧
      0 ≤ y ∧ y < c.Box ∧ (∃ n : Int, x - y = n * c.Box) ∧
      (∀ z : ℚ, 0 ≤ z → z < c.Box → (∃ n : Int, x - z = n * c.Box) → z = y) ∧
      (0 ≤ x → x < c.Box → y = x) ∧
      (∀ fuel, periodic_wrap c fuel y = some y) := by
  have h0 : 0 ≤ x - ⌊x / c.Box⌋ * c.Box := by
    have := Int.floor_le (x / c.Box)
    rw [le_div_iff₀ hB] at this
    linarith
  have h1 : x - ⌊x / c.Box⌋ * c.Box < c.Box := by
    have := Int.lt_floor_add_one (x / c.Box)
    rw [div_lt_iff₀ hB] at this
    linarith
  have huniq : ∀ z : ℚ, 0 ≤ z → z < c.Box → (∃ n : Int, x - z = n * c.Box) →
      z = x - ⌊x / c.Box⌋ * c.Box := by
    rintro z hz0 hz1 ⟨n, hn⟩
    have hfl : ⌊x / c.Box⌋ = n := by
      rw [Int.floor_eq_iff, le_div_iff₀ hB, div_lt_iff₀ hB]
      constructor <;> linarith
    rw [hfl]
    linarith
  refine ⟨x - ⌊x / c.Box⌋ * c.Box, fun fuel hf => periodic_wrap_value c hB x fuel hf, h0, h1,
    ⟨⌊x / c.Box⌋, by ring⟩, huniq, ?_, ?_⟩
  · intro hx0 hx1
    exact (huniq x hx0 hx1 ⟨0, by simp⟩).symm
  · intro fuel
    have hfl : ⌊(x - ⌊x / c.Box⌋ * c.Box) / c.Box⌋ = 0 := by
      rw [Int.floor_eq_iff, le_div_iff₀ hB, div_lt_iff₀ hB]
      constructor
      · simpa using h0
      · simpa using h1
    have := periodic_wrap_value c hB (x - ⌊x / c.Box⌋ * c.Box) fuel (by rw [hfl]; simp)
    rw [hfl] at this
    simpa using this

/-- C21 (witness): `Box = 1`; `periodic_wrap(-5/2)` is `1/2`, reached with three passes. -/
theorem periodic_wrap_spec_witness :
    periodic_wrap oneTask 3 (-5/2) = some (1/2) ∧
    ∃ y : ℚ, (∀ fuel, ⌊(-5/2 : ℚ) / oneTask.Box⌋.natAbs ≤ fuel →
        periodic_wrap oneTask fuel (-5/2) = some y) ∧
      0 ≤ y ∧ y < oneTask.Box ∧ (∃ n : Int, (-5/2 : ℚ) - y = n * oneTask.Box) ∧
      (∀ z : ℚ, 0 ≤ z → z < oneTask.Box → (∃ n : Int, (-5/2 : ℚ) - z = n * oneTask.Box) → z = y) ∧
      (0 ≤ (-5/2 : ℚ) → (-5/2 : ℚ) < oneTask.Box → y = -5/2) ∧
      (∀ fuel, periodic_wrap oneTask fuel y = some y) :=
  ⟨by decide!, periodic_wrap_spec oneTask (by decide!) (-5/2)⟩

/-! ### Claims on the binary records and headers -/

theorem fread_ok (size n : Nat) (s : List Nat) (h : n * size ≤ s.length) :
    fread size n s
      = ((List.range n).map fun i => (s.drop (i * size)).take size, s.drop (n * size)) := by
  unfold fread
  rw [if_pos h]

theorem read_int_ok (s : List Nat) (h : 4 + 1 * 4 + 4 ≤ s.length) :
    read_int s = .ok ((s.drop 4).take 4, s.drop (4 + 1 * 4 + 4)) := by
  unfold read_int
  rw [fread_ok 4 1 s (by omega)]
  simp only
  rw [fread_ok 4 1 (s.drop (1 * 4)) (by rw [List.length_drop]; omega)]
  simp only
  rw [fread_ok 4 1 _ (by rw [List.length_drop, List.length_drop]; omega)]
  simp [List.drop_drop, List.range_succ]

theorem read_int_vec_ok (n : Nat) (s : List Nat) (h : 4 + n * 4 + 4 ≤ s.length) :
    read_int_vec n s = .ok (recordData 4 n s, s.drop (4 + n * 4 + 4)) := by
  unfold read_int_vec recordData
  rw [fread_ok 4 1 s (by omega)]
  simp only
  rw [fread_ok 4 n (s.drop (1 * 4)) (by rw [List.length_drop]; omega)]
  simp only
  rw [fread_ok 4 1 _ (by rw [List.length_drop, List.length_drop]; omega)]
  simp only [List.length_map, List.length_range, ne_eq, not_true_eq_false, if_false,
    List.drop_drop]

theorem read_double_vec_ok (n : Nat) (s : List Nat) (h : 4 + n * 8 + 4 ≤ s.length) :
    read_double_vec n s = .ok (recordData 8 n s, s.drop (4 + n * 8 + 4)) := by
  unfold read_double_vec recordData
  rw [fread_ok 4 1 s (by omega)]
  simp only
  rw [fread_ok 8 n (s.drop (1 * 4)) (by rw [List.length_drop]; omega)]
  simp only
  rw [fread_ok 4 1 _ (by rw [List.length_drop, List.length_drop]; omega)]
  simp only [List.length_map, List.length_range, ne_eq, not_true_eq_false, if_false,
    List.drop_drop]

theorem read_float_vec_ok (n : Nat) (s : List Nat) (h : 4 + n * 4 + 4 ≤ s.length) :
    read_float_vec n s = .ok (recordData 4 n s, s.drop (4 + n * 4 + 4)) := by
  unfold read_float_vec recordData
  rw [fread_ok 4 1 s (by omega)]
  simp only
  rw [fread_ok 4 n (s.drop (1 * 4)) (by rw [List.length_drop]; omega)]
  simp only
  rw [fread_ok 4 1 _ (by rw [List.length_drop, List.length_drop]; omega)]
  simp only [List.length_map, List.length_range, ne_eq, not_true_eq_false, if_false,
    List.drop_drop]

theorem read_ramses_header_ok (s : List Nat) (h : 116 ≤ s.length) :
    read_ramses_header s
      = .ok ({ ncpu := (s.drop 4).take 4,
               ndim := (s.drop 16).take 4,
               npart := (s.drop 28).take 4,
               localseed := recordData 4 4 (s.drop 36),
               nstar_tot := (s.drop 64).take 4,
               mstar_tot := recordData 4 2 (s.drop 72),
               mstar_lost := recordData 4 2 (s.drop 88),
               nsink := (s.drop 108).take 4 }, s.drop 116) := by
  unfold read_ramses_header
  rw [read_int_ok s (by omega)]
  simp only
  rw [read_int_ok _ (by rw [List.length_drop]; omega)]
  simp only
  rw [read_int_ok _ (by rw [List.length_drop, List.length_drop]; omega)]
  simp only
  rw [read_int_vec_ok 4 _ (by simp only [List.length_drop]; omega)]
  simp only
  rw [read_int_ok _ (by simp only [List.length_drop]; omega)]
  simp only
  rw [read_int_vec_ok 2 _ (by simp only [List.length_drop]; omega)]
  simp only
  rw [read_int_vec_ok 2 _ (by simp only [List.length_drop]; omega)]
  simp only
  rw [read_int_ok _ (by simp only [List.length_drop]; omega)]
  simp [List.drop_drop]

theorem fread_snd (size n : Nat) (s : List Nat) : (fread size n s).2 = s.drop (n * size) := by
  unfold fread
  by_cases h : n * size ≤ s.length
  · rw [if_pos h]
  · rw [if_neg h]
    exact (List.drop_eq_nil_of_le (by omega)).symm

theorem fread_short (size n : Nat) (s : List Nat) (h : s.length < n * size) :
    (fread size n s).1.length ≠ n := by
  unfold fread
  rw [if_neg (by omega)]
  simp only [List.length_map, List.length_range]
  have hs : 0 < size := by
    rcases Nat.eq_zero_or_pos size with h0 | h0
    · rw [h0] at h; simp at h
    · exact h0
  have : s.length / size < n := Nat.div_lt_of_lt_mul (by rw [Nat.mul_comm]; exact h)
  omega

theorem fread_full (size n : Nat) (s : List Nat) (h : n * size ≤ s.length) :
    (fread size n s).1 = (List.range n).map fun i => (s.drop (i * size)).take size := by
  rw [fread_ok size n s h]

theorem read_int_short (s : List Nat) (h : s.length < 4 + 1 * 4) :
    read_int s = .error ReadAbort.in_read_int := by
  unfold read_int
  simp only
  rw [if_pos]
  apply fread_short
  rw [fread_snd, List.length_drop]
  omega

theorem read_int_vec_short (n : Nat) (s : List Nat) (hn : n ≠ 0) (h : s.length < 4 + n * 4) :
    read_int_vec n s = .error ReadAbort.in_read_int_vec := by
  unfold read_int_vec
  simp only
  rw [if_pos]
  apply fread_short
  rw [fread_snd, List.length_drop]
  omega

theorem read_double_vec_short (n : Nat) (s : List Nat) (hn : n ≠ 0)
    (h : s.length < 4 + n * 8) :
    read_double_vec n s = .error ReadAbort.in_read_double_vec := by
  unfold read_double_vec
  simp only
  rw [if_pos]
  apply fread_short
  rw [fread_snd, List.length_drop]
  omega

theorem read_float_vec_short (n : Nat) (s : List Nat) (hn : n ≠ 0) (h : s.length < 4 + n * 4) :
    read_float_vec n s = .error ReadAbort.in_read_float_vec := by
  unfold read_float_vec
  simp only
  rw [if_pos]
  apply fread_short
  rw [fread_snd, List.length_drop]
  omega

theorem read_int_data (s : List Nat) (h : 4 + 1 * 4 ≤ s.length) :
    read_int s = .ok ((s.drop 4).take 4, s.drop (4 + 1 * 4 + 4)) := by
  unfold read_int
  simp only
  have h1 : (fread 4 1 (fread 4 1 s).2) = ([(s.drop 4).take 4], s.drop 8) := by
    rw [fread_snd, fread_ok 4 1 _ (by rw [List.length_drop]; omega)]
    simp [List.drop_drop, List.range_succ]
  rw [h1]
  simp only [List.length_singleton, ne_eq, not_true_eq_false, if_false, fread_snd,
    List.drop_drop, List.headD_cons]

theorem read_int_vec_data (n : Nat) (s : List Nat) (h : 4 + n * 4 ≤ s.length) :
    read_int_vec n s = .ok (recordData 4 n s, s.drop (4 + n * 4 + 4)) := by
  unfold read_int_vec recordData
  simp only
  have h1 : (fread 4 n (fread 4 1 s).2)
      = ((List.range n).map fun i => ((s.drop 4).drop (i * 4)).take 4, s.drop (4 + n * 4)) := by
    rw [fread_snd, fread_ok 4 n _ (by rw [List.length_drop]; omega)]
    simp [List.drop_drop]
  rw [h1]
  simp only [List.length_map, List.length_range, ne_eq, not_true_eq_false, if_false, fread_snd,
    List.drop_drop]

theorem read_double_vec_data (n : Nat) (s : List Nat) (h : 4 + n * 8 ≤ s.length) :
    read_double_vec n s = .ok (recordData 8 n s, s.drop (4 + n * 8 + 4)) := by
  unfold read_double_vec recordData
  simp only
  have h1 : (fread 8 n (fread 4 1 s).2)
      = ((List.range n).map fun i => ((s.drop 4).drop (i * 8)).take 8, s.drop (4 + n * 8)) := by
    rw [fread_snd, fread_ok 8 n _ (by rw [List.length_drop]; omega)]
    simp [List.drop_drop]
  rw [h1]
  simp only [List.length_map, List.length_range, ne_eq, not_true_eq_false, if_false, fread_snd,
    List.drop_drop]

theorem read_float_vec_data (n : Nat) (s : List Nat) (h : 4 + n * 4 ≤ s.length) :
    read_float_vec n s = .ok (recordData 4 n s, s.drop (4 + n * 4 + 4)) := by
  unfold read_float_vec recordData
  simp only
  have h1 : (fread 4 n (fread 4 1 s).2)
      = ((List.range n).map fun i => ((s.drop 4).drop (i * 4)).take 4, s.drop (4 + n * 4)) := by
    rw [fread_snd, fread_ok 4 n _ (by rw [List.length_drop]; omega)]
    simp [List.drop_drop]
  rw [h1]
  simp only [List.length_map, List.length_range, ne_eq, not_true_eq_false, if_false, fread_snd,
    List.drop_drop]

/-- On a stream of fewer than 112 bytes the data part of one of the eight records of the
header is short, and `read_ramses_header` aborts. -/
theorem read_ramses_header_short (s : List Nat) (h : s.length < 112) :
    ∃ e, read_ramses_header s = .error e := by
  unfold read_ramses_header
  by_cases h1 : s.length < 8
  · rw [read_int_short s (by omega)]; exact ⟨_, rfl⟩
  rw [read_int_data s (by omega)]
  simp only
  by_cases h2 : s.length < 20
  · rw [read_int_short _ (by rw [List.length_drop]; omega)]; exact ⟨_, rfl⟩
  rw [read_int_data _ (by rw [List.length_drop]; omega)]
  simp only
  by_cases h3 : s.length < 32
  · rw [read_int_short _ (by simp only [List.length_drop]; omega)]; exact ⟨_, rfl⟩
  rw [read_int_data _ (by simp only [List.length_drop]; omega)]
  simp only
  by_cases h4 : s.length < 56
  · rw [read_int_vec_short 4 _ (by decide) (by simp only [List.length_drop]; omega)]
    exact ⟨_, rfl⟩
  rw [read_int_vec_data 4 _ (by simp only [List.length_drop]; omega)]
  simp only
  by_cases h5 : s.length < 68
  · rw [read_int_short _ (by simp only [List.length_drop]; omega)]; exact ⟨_, rfl⟩
  rw [read_int_data _ (by simp only [List.length_drop]; omega)]
  simp only
  by_cases h6 : s.length < 84
  · rw [read_int_vec_short 2 _ (by decide) (by simp only [List.length_drop]; omega)]
    exact ⟨_, rfl⟩
  rw [read_int_vec_data 2 _ (by simp only [List.length_drop]; omega)]
  simp only
  by_cases h7 : s.length < 100
  · rw [read_int_vec_short 2 _ (by decide) (by simp only [List.length_drop]; omega)]
    exact ⟨_, rfl⟩
  rw [read_int_vec_data 2 _ (by simp only [List.length_drop]; omega)]
  simp only
  rw [read_int_short _ (by simp only [List.length_drop]; omega)]
  exact ⟨_, rfl⟩

/-- C22 (amended): on a stream that holds at least `4 + n*sizeof(element) + 4` more bytes,
`read_int` (`n = 1`), `read_int_vec`, `read_double_vec` and `read_float_vec` consume exactly
that many bytes and return the `n` elements behind the leading marker, whatever the bytes
of the two markers are; on a stream that holds at least 116 bytes `read_ramses_header`
consumes eight such records and stores them in `ncpu`, `ndim`, `npart`, `localseed[4]`,
`nstar_tot`, `mstar_tot[2]`, `mstar_lost[2]`, `nsink`, in this order.  On every stream whose
data part is short, one that holds fewer than `4 + n*sizeof(element)` bytes (`n >= 1`), each
of the four readers aborts, and so does `read_ramses_header` on a stream of fewer than 112
bytes; on every stream that holds the data part the reader returns the `n` elements, also
when the stream ends inside the trailing marker, and then leaves the file at its end. -/
theorem record_framing (n : Nat) (s : List Nat) :
    (4 + 1 * 4 + 4 ≤ s.length →
      read_int s = .ok ((s.drop 4).take 4, s.drop (4 + 1 * 4 + 4))) ∧
    (4 + n * 4 + 4 ≤ s.length →
      read_int_vec n s = .ok (recordData 4 n s, s.drop (4 + n * 4 + 4))) ∧
    (4 + n * 8 + 4 ≤ s.length →
      read_double_vec n s = .ok (recordData 8 n s, s.drop (4 + n * 8 + 4))) ∧
    (4 + n * 4 + 4 ≤ s.length →
      read_float_vec n s = .ok (recordData 4 n s, s.drop (4 + n * 4 + 4))) ∧
    (116 ≤ s.length →
      read_ramses_header s
        = .ok ({ ncpu := (s.drop 4).take 4,
                 ndim := (s.drop 16).take 4,
                 npart := (s.drop 28).take 4,
                 localseed := recordData 4 4 (s.drop 36),
                 nstar_tot := (s.drop 64).take 4,
                 mstar_tot := recordData 4 2 (s.drop 72),
                 mstar_lost := recordData 4 2 (s.drop 88),
                 nsink := (s.drop 108).take 4 }, s.drop 116)) ∧
    ((s.length < 4 + 1 * 4 → read_int s = .error ReadAbort.in_read_int) ∧
     (n ≠ 0 → s.length < 4 + n * 4 → read_int_vec n s = .error ReadAbort.in_read_int_vec) ∧
     (n ≠ 0 → s.length < 4 + n * 8 →
        read_double_vec n s = .error ReadAbort.in_read_double_vec) ∧
     (n ≠ 0 → s.length < 4 + n * 4 →
        read_float_vec n s = .error ReadAbort.in_read_float_vec) ∧
     (s.length < 112 → ∃ e, read_ramses_header s = .error e)) ∧
    ((4 + 1 * 4 ≤ s.length → s.length < 4 + 1 * 4 + 4 →
        read_int s = .ok ((s.drop 4).take 4, [])) ∧
     (4 + n * 4 ≤ s.length → s.length < 4 + n * 4 + 4 →
        read_int_vec n s = .ok (recordData 4 n s, [])) ∧
     (4 + n * 8 ≤ s.length → s.length < 4 + n * 8 + 4 →
        read_double_vec n s = .ok (recordData 8 n s, [])) ∧
     (4 + n * 4 ≤ s.length → s.length < 4 + n * 4 + 4 →
        read_float_vec n s = .ok (recordData 4 n s, []))) :=
  ⟨read_int_ok s, read_int_vec_ok n s, read_double_vec_ok n s, read_float_vec_ok n s,
    read_ramses_header_ok s,
    ⟨read_int_short s, read_int_vec_short n s, read_double_vec_short n s,
      read_float_vec_short n s, read_ramses_header_short s⟩,
    ⟨fun h1 h2 => by
       have e : s.drop (4 + 1 * 4 + 4) = [] := List.drop_eq_nil_of_le (by omega)
       rw [read_int_data s h1, e],
     fun h1 h2 => by
       have e : s.drop (4 + n * 4 + 4) = [] := List.drop_eq_nil_of_le (by omega)
       rw [read_int_vec_data n s h1, e],
     fun h1 h2 => by
       have e : s.drop (4 + n * 8 + 4) = [] := List.drop_eq_nil_of_le (by omega)
       rw [read_double_vec_data n s h1, e],
     fun h1 h2 => by
       have e : s.drop (4 + n * 4 + 4) = [] := List.drop_eq_nil_of_le (by omega)
       rw [read_float_vec_data n s h1, e]⟩⟩

/-- C22 (counterexample): on the empty stream `read_int` aborts and returns nothing; on a
stream of eight bytes it returns the element and has consumed eight bytes, not twelve; on a
stream of eleven bytes `read_int_vec` with `n = 2` aborts. -/
theorem record_framing_counterexample :
    read_int [] = .error ReadAbort.in_read_int ∧
    read_int [1, 2, 3, 4, 5, 6, 7, 8] = .ok ([5, 6, 7, 8], []) ∧
    read_int_vec 2 [1, 2, 3, 4, 5, 6, 7, 8, 9, 10, 11] = .error ReadAbort.in_read_int_vec := by
  decide

/-- C22 (witness): a stream of 116 bytes. -/
theorem record_framing_witness :
    read_int sampleStream = .ok ([4, 5, 6, 7], sampleStream.drop 12) ∧
    (read_ramses_header sampleStream).map (fun r => (r.1.nsink, r.2))
      = .ok ([108, 109, 110, 111], []) ∧
    read_double_vec 2 (sampleStream.take 19) = .error ReadAbort.in_read_double_vec ∧
    read_float_vec 3 (sampleStream.take 15) = .error ReadAbort.in_read_float_vec ∧
    read_double_vec 2 (sampleStream.take 22) = .ok ([[4, 5, 6, 7, 8, 9, 10, 11],
      [12, 13, 14, 15, 16, 17, 18, 19]], []) :=
  ⟨(record_framing 0 sampleStream).1 (by decide),
   by rw [(record_framing 0 sampleStream).2.2.2.2.1 (by decide)]; decide,
   (record_framing 2 (sampleStream.take 19)).2.2.2.2.2.1.2.2.1 (by decide) (by decide),
   (record_framing 3 (sampleStream.take 15)).2.2.2.2.2.1.2.2.2.1 (by decide) (by decide),
   by rw [((record_framing 2 (sampleStream.take 22)).2.2.2.2.2.2).2.2.1 (by decide) (by decide)]
      decide⟩

/-- C23: under the usual C layout `struct Gadget_Header` and `struct io_header_1` both have
size 256, no field of either has padding before it and neither has padding at its end, and
the fields `npart`, `mass`, `time`, `redshift`, `npartTotal`, `num_files` and `BoxSize` are
at the offsets 0, 24, 72, 80, 96, 124 and 128 in both. -/
theorem gadget_header_layout :
    structSize Gadget_Header = 256 ∧ structSize io_header_1 = 256 ∧
    (layoutFrom 0 Gadget_Header).map (fun e => e.2.1) = List.replicate 18 0 ∧
    (layoutFrom 0 io_header_1).map (fun e => e.2.1) = List.replicate 17 0 ∧
    endOffset 0 Gadget_Header = 256 ∧ endOffset 0 io_header_1 = 256 ∧
    [FieldName.npart, FieldName.mass, FieldName.time, FieldName.redshift,
      FieldName.npartTotal, FieldName.num_files, FieldName.BoxSize].map (offsetOf Gadget_Header)
      = [some 0, some 24, some 72, some 80, some 96, some 124, some 128] ∧
    [FieldName.npart, FieldName.mass, FieldName.time, FieldName.redshift,
      FieldName.npartTotal, FieldName.num_files, FieldName.BoxSize].map (offsetOf io_header_1)
      = [some 0, some 24, some 72, some 80, some 96, some 124, some 128] := by
  decide

/-- C24: for `TotNumPart < 2^64`, `write_gadget_header` leaves `TotNumPart mod 2^32` in
`header.npartTotal[1]` and the quotient of `TotNumPart` by `2^32` in `header.npartTotal[2]`,
so that `npartTotal[1] + 2^32 * npartTotal[2] = TotNumPart`, and `0` in the four other
elements of `npartTotal`. -/
theorem write_gadget_header_npartTotal (c : Config) (g : Cosmology) (A : ℚ) (old : HeaderValue)
    (h : g.TotNumPart < 2 ^ 64) :
    (write_gadget_header c g A old).npartTotal 1 = g.TotNumPart % 2 ^ 32 ∧
    (write_gadget_header c g A old).npartTotal 2 = g.TotNumPart / 2 ^ 32 ∧
    (write_gadget_header c g A old).npartTotal 1
      + 2 ^ 32 * (write_gadget_header c g A old).npartTotal 2 = g.TotNumPart ∧
    (∀ k < 6, k ≠ 1 → k ≠ 2 → (write_gadget_header c g A old).npartTotal k = 0) := by
  have hq : g.TotNumPart / 2 ^ 32 % 2 ^ 32 = g.TotNumPart / 2 ^ 32 := by
    apply Nat.mod_eq_of_lt
    omega
  have e1 : (write_gadget_header c g A old).npartTotal 1 = g.TotNumPart % 2 ^ 32 := by
    simp [write_gadget_header, Function.update]
  have e2 : (write_gadget_header c g A old).npartTotal 2 = g.TotNumPart / 2 ^ 32 := by
    simp only [write_gadget_header, Function.update_same]
    exact hq
  refine ⟨e1, e2, ?_, ?_⟩
  · rw [e1, e2]
    exact Nat.mod_add_div _ _
  · intro k hk h1 h2
    simp only [write_gadget_header]
    rw [Function.update_noteq h2, Function.update_noteq h1, if_pos hk]

/-- C24 (witness): a run of `2^33 + 5` particles: `npartTotal[1] = 5`, `npartTotal[2] = 2`. -/
theorem write_gadget_header_npartTotal_witness :
    (write_gadget_header oneTask manyParticles 1 zeroHeader).npartTotal 1 = (2 ^ 33 + 5) % 2 ^ 32 ∧
    (write_gadget_header oneTask manyParticles 1 zeroHeader).npartTotal 2 = (2 ^ 33 + 5) / 2 ^ 32 :=
  ⟨(write_gadget_header_npartTotal oneTask manyParticles 1 zeroHeader (by decide)).1,
   (write_gadget_header_npartTotal oneTask manyParticles 1 zeroHeader (by decide)).2.1⟩

/-! ### Claims on `MoveParticles`: the rounds -/

theorem goesLeft_iff (c : Config) (T j : Nat) (p : part_data) :
    goesLeft c T j p = true ↔ sendsLeft c T j p := by
  unfold goesLeft sendsLeft
  cases hl : procdiff_left c T (destTask c p) with
  | none => simp
  | some L =>
    cases hr : procdiff_right c T (destTask c p) with
    | none => simp
    | some R => simp

theorem goesRight_iff (c : Config) (T j : Nat) (p : part_data) :
    goesRight c T j p = true ↔ sendsRight c T j p := by
  unfold goesRight sendsRight
  cases hl : procdiff_left c T (destTask c p) with
  | none => simp
  | some L =>
    cases hr : procdiff_right c T (destTask c p) with
    | none => simp
    | some R => simp

theorem keeps_not_sent (c : Config) (T j pm : Nat) (p : part_data) (h : keeps c T j pm p) :
    ¬ sendsLeft c T j p ∧ ¬ sendsRight c T j p := by
  constructor
  · rintro ⟨hd, pl, pr, h1, h2, h3, h4, h5⟩
    rcases h with h0 | ⟨ql, qr, g1, g2, g3⟩
    · exact hd h0
    · rw [h1] at g1; rw [h2] at g2; cases g1; cases g2
      rcases g3 with ⟨a, b⟩ | ⟨a, b, _⟩ | ⟨a, b, _⟩
      · omega
      · exact b h5
      · exact a h4
  · rintro ⟨hd, pl, pr, h1, h2, h3, h4, h5⟩
    rcases h with h0 | ⟨ql, qr, g1, g2, g3⟩
    · exact hd h0
    · rw [h1] at g1; rw [h2] at g2; cases g1; cases g2
      rcases g3 with ⟨a, b⟩ | ⟨a, b, _⟩ | ⟨a, b, _⟩
      · omega
      · exact h4 a
      · exact b h5

theorem sent_exclusive (c : Config) (T j : Nat) (p : part_data) (h : sendsLeft c T j p) :
    ¬ sendsRight c T j p := by
  obtain ⟨_, pl, pr, h1, h2, _, h4, _⟩ := h
  rintro ⟨_, ql, qr, g1, g2, _, g4, _⟩
  rw [h1] at g1; rw [h2] at g2; cases g1; cases g2
  exact g4 h4

/-- C26: when the classification loop of round `j` runs on a task (`j ≤ procdiffmax`) and
ends without a fatal error, the retained array and the two send buffers together are a
permutation of the array before the loop; the left buffer holds exactly the particles of
the array that are bound for another task with hop counts `L ≤ R`, `L = j`, the right
buffer exactly those with `L > R`, `R = j`, and the retained array exactly the others; a
particle bound for another task is in one of the buffers exactly when `min L R = j`. -/
theorem MoveParticles_selection (c : Config) (T j : Nat) (t : TaskState) (sel : Sel)
    (h : select c T j t = .ok sel) (hj : j ≤ t.procdiffmax) (hj1 : 1 ≤ j) :
    (Multiset.ofList sel.P + Multiset.ofList sel.P_send_left + Multiset.ofList sel.P_send_right
      = Multiset.ofList t.P) ∧
    Multiset.ofList sel.P_send_left
      = (Multiset.ofList t.P).filter (fun p => goesLeft c T j p = true) ∧
    Multiset.ofList sel.P_send_right
      = (Multiset.ofList t.P).filter (fun p => goesRight c T j p = true) ∧
    Multiset.ofList sel.P
      = (Multiset.ofList t.P).filter
          (fun p => ¬ (goesLeft c T j p = true ∨ goesRight c T j p = true)) ∧
    (∀ p L R, destTask c p ≠ T → procdiff_left c T (destTask c p) = some L →
      procdiff_right c T (destTask c p) = some R →
      ((goesLeft c T j p = true ↔ min L R = j ∧ L ≤ R) ∧
       (goesRight c T j p = true ↔ min L R = j ∧ ¬ L ≤ R))) := by
  obtain ⟨hms, hkeep, hleft, hright, -⟩ := select_spec c T j t sel h
  have hP : ∀ p ∈ Multiset.ofList sel.P, ¬ goesLeft c T j p = true ∧ ¬ goesRight c T j p = true := by
    intro p hp
    rw [goesLeft_iff, goesRight_iff]
    exact keeps_not_sent c T j _ p ((hkeep p hp).2 hj)
  have hL : ∀ p ∈ Multiset.ofList sel.P_send_left,
      goesLeft c T j p = true ∧ ¬ goesRight c T j p = true := by
    intro p hp
    rw [goesLeft_iff, goesRight_iff]
    exact ⟨(hleft p hp).2, sent_exclusive c T j p (hleft p hp).2⟩
  have hR : ∀ p ∈ Multiset.ofList sel.P_send_right,
      ¬ goesLeft c T j p = true ∧ goesRight c T j p = true := by
    intro p hp
    rw [goesLeft_iff, goesRight_iff]
    exact ⟨fun hl => sent_exclusive c T j p hl (hright p hp).2, (hright p hp).2⟩
  refine ⟨by simpa using hms, ?_, ?_, ?_, ?_⟩
  · rw [← hms, Multiset.filter_add, Multiset.filter_add,
      Multiset.filter_eq_nil.2 (fun p hp => (hP p hp).1),
      Multiset.filter_eq_self.2 (fun p hp => (hL p hp).1),
      Multiset.filter_eq_nil.2 (fun p hp => (hR p hp).1)]
    simp
  · rw [← hms, Multiset.filter_add, Multiset.filter_add,
      Multiset.filter_eq_nil.2 (fun p hp => (hP p hp).2),
      Multiset.filter_eq_nil.2 (fun p hp => (hL p hp).2),
      Multiset.filter_eq_self.2 (fun p hp => (hR p hp).2)]
    simp
  · rw [← hms, Multiset.filter_add, Multiset.filter_add,
      Multiset.filter_eq_self.2 (fun p hp => not_or.2 (hP p hp)),
      Multiset.filter_eq_nil.2 (fun p hp => not_not.2 (Or.inl (hL p hp).1)),
      Multiset.filter_eq_nil.2 (fun p hp => not_not.2 (Or.inr (hR p hp).2))]
    simp
  · intro p L R hd hl hr
    unfold goesLeft goesRight
    rw [hl, hr]
    simp only [hd, ne_eq, not_false_eq_true, decide_True, Bool.true_and, decide_eq_true_eq]
    constructor
    · constructor
      · rintro ⟨_, a, b⟩
        exact ⟨by rw [min_eq_left a]; exact b, a⟩
      · rintro ⟨a, b⟩
        rw [min_eq_left b] at a
        exact ⟨by omega, b, a⟩
    · constructor
      · rintro ⟨_, a, b⟩
        exact ⟨by rw [min_eq_right (by omega)]; exact b, a⟩
      · rintro ⟨a, b⟩
        rw [min_eq_right (by omega)] at a
        exact ⟨by omega, b, a⟩

/-- C26 (witness): two tasks, round 1 on task `0`, which holds a particle of its own slab
and one bound for task `1`; the second goes into the left buffer. -/
theorem MoveParticles_selection_witness :
    Multiset.ofList (Sel.mk [particleAt (1/4) 0 0] [particleAt (3/4) 0 0] [] 1).P_send_left
      = (Multiset.ofList [particleAt (1/4) 0 0, particleAt (3/4) 0 0]).filter
          (fun p => goesLeft twoTasks 0 1 p = true) :=
  (MoveParticles_selection twoTasks 0 1
    { P := [particleAt (1/4) 0 0, particleAt (3/4) 0 0], procdiffmax := 1 }
    (Sel.mk [particleAt (1/4) 0 0] [particleAt (3/4) 0 0] [] 1) (by decide!) (by decide)
    (by decide)).2.1

theorem foldl_max_le (l : List Nat) (acc B : Nat) (h0 : acc ≤ B) (h : ∀ x ∈ l, x ≤ B) :
    l.foldl max acc ≤ B := by
  induction l generalizing acc with
  | nil => simpa using h0
  | cons a l ih =>
    rw [List.foldl_cons]
    exact ih _ (max_le h0 (h a (List.mem_cons_self _ _)))
      (fun x hx => h x (List.mem_cons_of_mem _ hx))

theorem mem_swapRemove (P : List part_data) (i : Nat) (p q : part_data)
    (hp : P.get? i = some p) (hq : q ∈ swapRemove P i) : q ∈ P := by
  have h := swapRemove_multiset P i p hp
  have : q ∈ (Multiset.ofList (swapRemove P i) + {p} : Multiset part_data) :=
    Multiset.mem_add.2 (Or.inl hq)
  rw [h] at this
  exact this

theorem hopOf_eq (c : Config) (T : Nat) (p : part_data) (pl pr : Nat)
    (hd : destTask c p ≠ T) (hl : procdiff_left c T (destTask c p) = some pl)
    (hr : procdiff_right c T (destTask c p) = some pr) :
    hopOf c T p = if pl ≤ pr then pl else pr := by
  unfold hopOf chosenHop
  rw [if_pos hd, hl, hr]

theorem classify_pm_le (c : Config) (T j : Nat) :
    ∀ (fuel i : Nat) (s s1 : Sel) (B : Nat), classify c T j fuel i s = .ok s1 →
      s.procdiffmax ≤ B → (∀ p ∈ s.P, hopOf c T p ≤ B) → s1.procdiffmax ≤ B := by
  intro fuel
  induction fuel with
  | zero =>
    intro i s s1 B h hB _
    simp only [classify] at h
    split_ifs at h with hi
    cases h
    exact hB
  | succ fuel ih =>
    intro i s s1 B h hB hP
    rw [classify] at h
    cases hp : s.P.get? i with
    | none =>
      rw [hp] at h
      simp only at h
      cases h
      exact hB
    | some p =>
      rw [hp] at h
      simp only at h
      have hpm : p ∈ s.P := List.get?_mem hp
      have hsw : ∀ q ∈ swapRemove s.P i, hopOf c T q ≤ B :=
        fun q hq => hP q (mem_swapRemove s.P i p q hp hq)
      by_cases hd : destTask c p ≠ T
      · rw [if_pos hd] at h
        cases hl : procdiff_left c T (destTask c p) with
        | none => rw [hl] at h; simp at h
        | some pl =>
          cases hr : procdiff_right c T (destTask c p) with
          | none => rw [hl, hr] at h; simp at h
          | some pr =>
            rw [hl, hr] at h
            simp only at h
            have hhop := hopOf_eq c T p pl pr hd hl hr
            have hpB := hP p hpm
            by_cases h0 : pl ≠ 0 ∨ pr ≠ 0
            · rw [if_pos h0] at h
              by_cases hle : pl ≤ pr
              · rw [if_pos hle] at h
                rw [hhop, if_pos hle] at hpB
                have hpm1 : (if j = 1 ∧ pl > s.procdiffmax then pl else s.procdiffmax) ≤ B := by
                  split_ifs
                  · exact hpB
                  · exact hB
                by_cases hj : pl = j
                · rw [if_pos hj] at h
                  by_cases hov : ((s.P_send_left ++ [p]).length : Int) ≥ send_count_max c T
                  · rw [if_pos hov] at h; cases h
                  · rw [if_neg hov] at h
                    exact ih _ _ _ B h hpm1 hsw
                · rw [if_neg hj] at h
                  exact ih _ _ _ B h hpm1 hP
              · rw [if_neg hle] at h
                rw [hhop, if_neg hle] at hpB
                have hpm1 : (if j = 1 ∧ pr > s.procdiffmax then pr else s.procdiffmax) ≤ B := by
                  split_ifs
                  · exact hpB
                  · exact hB
                by_cases hj : pr = j
                · rw [if_pos hj] at h
                  by_cases hov : ((s.P_send_right ++ [p]).length : Int) ≥ send_count_max c T
                  · rw [if_pos hov] at h; cases h
                  · rw [if_neg hov] at h
                    exact ih _ _ _ B h hpm1 hsw
                · rw [if_neg hj] at h
                  exact ih _ _ _ B h hpm1 hP
            · rw [if_neg h0] at h
              exact ih _ _ _ B h hB hP
      · rw [if_neg hd] at h
        exact ih _ _ _ B h hB hP

theorem select_pm (c : Config) (T : Nat) (P : List part_data) (sel : Sel)
    (h : select c T 1 { P := P, procdiffmax := 1 } = .ok sel) :
    sel.procdiffmax = (P.map (hopOf c T)).foldl max 1 := by
  obtain ⟨hms, hkeep, hleft, hright, -, -, hpm, -⟩ := select_spec c T 1 _ sel h
  apply le_antisymm
  · unfold select at h
    rw [if_pos (le_refl _)] at h
    apply classify_pm_le c T 1 _ _ _ _ _ h
    · exact (foldl_max_ge _ 1).1
    · intro p hp
      exact (foldl_max_ge _ 1).2 _ (List.mem_map.2 ⟨p, hp, rfl⟩)
  · apply foldl_max_le _ _ _ hpm
    intro x hx
    obtain ⟨p, hp, rfl⟩ := List.mem_map.1 hx
    have hmem : p ∈ sel.P ∨ p ∈ sel.P_send_left ∨ p ∈ sel.P_send_right := by
      have : p ∈ (Multiset.ofList sel.P + Multiset.ofList sel.P_send_left
          + Multiset.ofList sel.P_send_right : Multiset part_data) := by
        rw [hms]; exact hp
      simpa [or_assoc] using this
    rcases hmem with h1 | h1 | h1
    · rcases (hkeep p h1).2 (le_refl _) with h0 | ⟨pl, pr, hl, hr, h3⟩
      · unfold hopOf; rw [if_neg (not_not.2 h0)]; exact Nat.zero_le _
      · by_cases hd : destTask c p ≠ T
        · rw [hopOf_eq c T p pl pr hd hl hr]
          rcases h3 with ⟨a, b⟩ | ⟨a, _, b⟩ | ⟨a, _, b⟩
          · rw [a, b]; simp
          · rw [if_pos a]; exact b rfl
          · rw [if_neg a]; exact b rfl
        · unfold hopOf; rw [if_neg hd]; exact Nat.zero_le _
    · obtain ⟨_, hd, pl, pr, hl, hr, _, a, b⟩ := hleft p h1
      rw [hopOf_eq c T p pl pr hd hl hr, if_pos a, b]
      exact hpm
    · obtain ⟨_, hd, pl, pr, hl, hr, _, a, b⟩ := hright p h1
      rw [hopOf_eq c T p pl pr hd hl hr, if_neg a, b]
      exact hpm

theorem initial_get (Ps : List (List part_data)) (T : Nat) (t : TaskState)
    (h : (initial Ps).get? T = some t) :
    t = { P := (Ps.get? T).getD [], procdiffmax := 1 } ∧ T < Ps.length := by
  unfold initial at h
  rw [List.get?_eq_getElem?, List.getElem?_map] at h
  cases hP : Ps[T]? with
  | none => rw [hP] at h; cases h
  | some P =>
    rw [hP] at h
    simp only [Option.map_some', Option.some.injEq] at h
    refine ⟨?_, ?_⟩
    · rw [← h, List.get?_eq_getElem?, hP]; rfl
    · exact (List.getElem?_eq_some_iff.1 hP).1

theorem round_one_pm (c : Config) (Ps : List (List part_data)) (ts1 : List TaskState)
    (h : round c 1 (initial Ps) = .ok ts1) :
    ts1.length = Ps.length ∧
    ∀ T < Ps.length, ∃ t1, ts1.get? T = some t1 ∧
      t1.procdiffmax = (((Ps.get? T).getD []).map (hopOf c T)).foldl max 1 := by
  obtain ⟨ps, _, _, hlen, hall⟩ := round_spec c 1 _ ts1 h
  have hil : (initial Ps).length = Ps.length := by simp [initial]
  refine ⟨by rw [hlen, hil], fun T hT => ?_⟩
  obtain ⟨t, p, t1, ht, _, ht1, hpost, hrecv⟩ := hall T (by rw [hil]; exact hT)
  obtain ⟨hsel, -⟩ := post_spec c T 1 t p hpost
  obtain ⟨-, hpm, -⟩ := receive_spec c ps T p t1 hrecv
  obtain ⟨rfl, -⟩ := initial_get Ps T t ht
  exact ⟨t1, ht1, by rw [hpm, select_pm c T _ _ hsel]⟩

theorem round_one_glob (c : Config) (Ps : List (List part_data)) (ts1 : List TaskState)
    (hne : Ps ≠ []) (h : round c 1 (initial Ps) = .ok ts1) :
    procdiffmaxglob ts1 = (entryHops c Ps).foldl max 1 := by
  obtain ⟨hlen, hall⟩ := round_one_pm c Ps ts1 h
  have hpos : 0 < Ps.length := List.length_pos.2 hne
  apply le_antisymm
  · unfold procdiffmaxglob
    apply foldl_max_le _ _ _ (Nat.zero_le _)
    intro x hx
    obtain ⟨t, ht, rfl⟩ := List.mem_map.1 hx
    obtain ⟨T, hT⟩ := List.get?_of_mem ht
    have hTlt : T < Ps.length := by
      rw [← hlen]; rw [List.get?_eq_some] at hT; exact hT.1
    obtain ⟨t1, ht1, hpm⟩ := hall T hTlt
    rw [hT] at ht1; cases ht1
    rw [hpm]
    apply foldl_max_le _ _ _ (foldl_max_ge _ 1).1
    intro y hy
    apply (foldl_max_ge _ 1).2
    unfold entryHops
    rw [List.mem_flatMap]
    exact ⟨T, List.mem_range.2 hTlt, hy⟩
  · apply foldl_max_le
    · obtain ⟨t1, ht1, hpm⟩ := hall 0 hpos
      have := le_procdiffmaxglob ts1 0 t1 ht1
      have h1 := (foldl_max_ge (((Ps.get? 0).getD []).map (hopOf c 0)) 1).1
      omega
    · intro x hx
      unfold entryHops at hx
      rw [List.mem_flatMap] at hx
      obtain ⟨T, hT, hxT⟩ := hx
      obtain ⟨t1, ht1, hpm⟩ := hall T (List.mem_range.1 hT)
      have := le_procdiffmaxglob ts1 T t1 ht1
      have h1 := (foldl_max_ge (((Ps.get? T).getD []).map (hopOf c T)) 1).2 x hxT
      omega

theorem round_pm (c : Config) (j : Nat) (ts ts1 : List TaskState) (hj : j ≠ 1)
    (h : round c j ts = .ok ts1) :
    ts1.map (fun t => t.procdiffmax) = ts.map (fun t => t.procdiffmax) := by
  obtain ⟨ps, _, _, hlen, hall⟩ := round_spec c j ts ts1 h
  apply List.ext_get?
  intro T
  rw [List.get?_eq_getElem?, List.get?_eq_getElem?, List.getElem?_map, List.getElem?_map]
  by_cases hT : T < ts.length
  · obtain ⟨t, p, t1, ht, _, ht1, hpost, hrecv⟩ := hall T hT
    obtain ⟨hsel, -⟩ := post_spec c T j t p hpost
    obtain ⟨-, hpm, -⟩ := receive_spec c ps T p t1 hrecv
    obtain ⟨-, -, -, -, -, -, -, hsame⟩ := select_spec c T j t p.sel hsel
    rw [List.get?_eq_getElem?] at ht ht1
    rw [ht, ht1]
    simp only [Option.map_some']
    rw [hpm, hsame hj]
  · rw [List.getElem?_eq_none (by omega), List.getElem?_eq_none (by omega)]

theorem rounds_pm (c : Config) :
    ∀ (n j : Nat) (ts ts1 : List TaskState), 2 ≤ j → rounds c n j ts = .ok ts1 →
      ts1.map (fun t => t.procdiffmax) = ts.map (fun t => t.procdiffmax) := by
  intro n
  induction n with
  | zero =>
    intro j ts ts1 _ h
    simp only [rounds] at h
    cases h
    rfl
  | succ n ih =>
    intro j ts ts1 hj h
    rw [rounds] at h
    cases hr : round c j ts with
    | error e => rw [hr] at h; cases h
    | ok ts2 =>
      rw [hr] at h
      simp only at h
      rw [ih (j + 1) ts2 ts1 (by omega) h, round_pm c j ts ts2 (by omega) hr]

theorem rounds_eq_foldlM (c : Config) :
    ∀ (n j : Nat) (ts : List TaskState),
      rounds c n j ts = (List.range' j n).foldlM (fun ts j => round c j ts) ts := by
  intro n
  induction n with
  | zero => intro j ts; rfl
  | succ n ih =>
    intro j ts
    rw [rounds, List.range'_succ, List.foldlM_cons]
    cases hr : round c j ts with
    | error e => rfl
    | ok ts1 => exact ih (j + 1) ts1

/-- C27: a run of `MoveParticles` on at least one task that ends without a fatal error is
round 1 followed by the rounds `2, …, procdiffmaxglob`, that is, the rounds
`j = 1, …, procdiffmaxglob` each started from the result of the one before, so
`procdiffmaxglob` rounds in all, where `procdiffmaxglob`, the maximum over the tasks of
`procdiffmax` after round 1, is the maximum of `1` and of the hop counts `min L R` of all
particles that are not on their task at entry; the later rounds leave the `procdiffmax` of
every task as round 1 set it. -/
theorem MoveParticles_round_count (c : Config) (Ps out : List (List part_data))
    (hne : Ps ≠ []) (hrun : MoveParticles c Ps = .ok out) :
    ∃ ts1 ts, round c 1 (initial Ps) = .ok ts1 ∧
      rounds c (procdiffmaxglob ts1 - 1) 2 ts1 = .ok ts ∧
      out = ts.map (fun t => t.P) ∧
      procdiffmaxglob ts1 = (entryHops c Ps).foldl max 1 ∧
      1 + (procdiffmaxglob ts1 - 1) = procdiffmaxglob ts1 ∧
      ts.map (fun t => t.procdiffmax) = ts1.map (fun t => t.procdiffmax) ∧
      procdiffmaxglob ts = procdiffmaxglob ts1 ∧
      (List.range' 1 (procdiffmaxglob ts1)).length = (entryHops c Ps).foldl max 1 ∧
      (List.range' 1 (procdiffmaxglob ts1)).foldlM (fun ts j => round c j ts) (initial Ps)
        = .ok ts := by
  obtain ⟨ts1, ts, h1, h2, h3⟩ := MoveParticles_spec c Ps out hrun
  have hG := round_one_glob c Ps ts1 hne h1
  have hpm := rounds_pm c _ 2 ts1 ts (le_refl _) h2
  have hge : 1 ≤ procdiffmaxglob ts1 := by
    have := (foldl_max_ge (entryHops c Ps) 1).1
    omega
  refine ⟨ts1, ts, h1, h2, h3, hG, by omega, hpm, ?_, ?_, ?_⟩
  · unfold procdiffmaxglob
    rw [hpm]
  · rw [List.length_range', hG]
  · obtain ⟨g, hg⟩ : ∃ g, procdiffmaxglob ts1 = g + 1 := ⟨procdiffmaxglob ts1 - 1, by omega⟩
    rw [hg] at h2 ⊢
    rw [List.range'_succ, List.foldlM_cons, h1]
    rw [Nat.add_sub_cancel, rounds_eq_foldlM] at h2
    exact h2

/-- C27 (witness): the run `fiveRing` (five tasks, task 2 without particle slices).  The
particle of task 0 is bound for task 3, two hops away on either side, and the particle of
task 1 is bound for task 0, one hop to its left; `procdiffmax` is `2` on task 0 and `1` on
the other tasks after round 1, `procdiffmaxglob` is `2`, and the run has two rounds: the
second one takes the particle of task 0 to task 3 and changes no `procdiffmax`. -/
theorem MoveParticles_round_count_witness :
    (entryHops fiveRing [[particleAt (7/10) 0 0], [particleAt (1/10) 0 0], [], [], []]).foldl
      max 1 = 2 ∧
    ((round fiveRing 1
        (initial [[particleAt (7/10) 0 0], [particleAt (1/10) 0 0], [], [], []])).map
      fun ts1 => ts1.map fun t => (t.P, t.procdiffmax))
      = .ok [([particleAt (7/10) 0 0, particleAt (1/10) 0 0], 2), ([], 1), ([], 1), ([], 1),
          ([], 1)] ∧
    ∃ ts1 ts, round fiveRing 1
        (initial [[particleAt (7/10) 0 0], [particleAt (1/10) 0 0], [], [], []]) = .ok ts1 ∧
      rounds fiveRing (procdiffmaxglob ts1 - 1) 2 ts1 = .ok ts ∧
      [[particleAt (1/10) 0 0], [], [], [particleAt (7/10) 0 0], []] = ts.map (fun t => t.P) ∧
      procdiffmaxglob ts1
        = (entryHops fiveRing
            [[particleAt (7/10) 0 0], [particleAt (1/10) 0 0], [], [], []]).foldl max 1 ∧
      1 + (procdiffmaxglob ts1 - 1) = procdiffmaxglob ts1 ∧
      ts.map (fun t => t.procdiffmax) = ts1.map (fun t => t.procdiffmax) ∧
      procdiffmaxglob ts = procdiffmaxglob ts1 ∧
      (List.range' 1 (procdiffmaxglob ts1)).length
        = (entryHops fiveRing
            [[particleAt (7/10) 0 0], [particleAt (1/10) 0 0], [], [], []]).foldl max 1 ∧
      (List.range' 1 (procdiffmaxglob ts1)).foldlM (fun ts j => round fiveRing j ts)
          (initial [[particleAt (7/10) 0 0], [particleAt (1/10) 0 0], [], [], []]) = .ok ts :=
  ⟨by decide!, by decide!,
   MoveParticles_round_count fiveRing
    [[particleAt (7/10) 0 0], [particleAt (1/10) 0 0], [], [], []]
    [[particleAt (1/10) 0 0], [], [], [particleAt (7/10) 0 0], []] (by decide) (by decide!)⟩

/-! ### The particle at the centre of an `8^3` mesh -/

/-- On one task with `Nmesh = 8`, the particle at the centre of the box deposits its whole
weight on the cell `(4, 4, 4)`: the seven other statements add zero. -/
theorem centre_deposit :
    (PtoMesh_stencil eightMesh 0 (particleAt (1/2) (1/2) (1/2))).writes
      = [((4, 4, 4), 1), ((4, 4, 5), 0), ((4, 5, 4), 0), ((4, 5, 5), 0),
         ((5, 4, 4), 0), ((5, 4, 5), 0), ((5, 5, 4), 0), ((5, 5, 5), 0)] := by
  decide!

/-- On one task with `Nmesh = 8`, the displacement interpolated for the particle at the
centre of the box is the value of the three force grids at the cell `(4, 4, 4)`, whatever
the grids hold. -/
theorem centre_interpolation (N : RealForceGrids) :
    interpolated eightMesh 0 N (particleAt (1/2) (1/2) (1/2))
      = (N.N11 (gridIndex eightMesh 4 4 4), N.N12 (gridIndex eightMesh 4 4 4),
         N.N13 (gridIndex eightMesh 4 4 4)) := by
  have hw : (MtoParticles_stencil eightMesh 0 (particleAt (1/2) (1/2) (1/2))).writes
      = [((4, 4, 4), 1), ((4, 4, 5), 0), ((4, 5, 4), 0), ((4, 5, 5), 0),
         ((5, 4, 4), 0), ((5, 4, 5), 0), ((5, 5, 4), 0), ((5, 5, 5), 0)] := by decide!
  simp only [interpolated, interp_eq_sum, hw]
  simp

/-! ### Claims on the window factor of `Forces` -/

/-- C31: the force grids that the k-space loop of `Forces` writes do not depend on the
function `sin` that enters the window factor: for any two functions in its place the loop
leaves the same grids, and every assignment of the loop body is made with the potential
`dens` computed with `grid_corr = 1`. -/
theorem Forces_window_identity (c : Config) (T : Nat) (P3D P3D_mgarray_two : CGrid)
    (sinf sinf2 : ℚ → ℚ) (F : ForceGrids) :
    Forces_kspace c T P3D P3D_mgarray_two sinf F = Forces_kspace c T P3D P3D_mgarray_two sinf2 F ∧
    ∀ i j k : Nat,
      Forces_body c T P3D P3D_mgarray_two sinf i j k =
        (let dd0 := foldK c (i + c.Local_x_start T)
         let KK : ℚ := -1 / (((dd0 * dd0 + (j : Int) * j + (k : Int) * k : Int)) : ℚ)
         if j ≠ c.Nmesh / 2 ∧ j ≠ 0 then
           [Forces_solve c (cIndex c i j k)
              (Forces_dens c P3D P3D_mgarray_two (cIndex c i j k) KK 1) dd0 j k,
            Forces_solve c (cIndex c i (c.Nmesh - j) k)
              (Forces_dens c P3D P3D_mgarray_two (cIndex c i (c.Nmesh - j) k) KK 1) dd0 (-(j : Int)) k]
         else
           [Forces_solve c (cIndex c i j k)
              (Forces_dens c P3D P3D_mgarray_two (cIndex c i j k) KK 1) dd0 j k]) := by
  have hb : Forces_body c T P3D P3D_mgarray_two sinf = Forces_body c T P3D P3D_mgarray_two sinf2 := by
    funext i j k
    rfl
  refine ⟨?_, fun i j k => rfl⟩
  unfold Forces_kspace Forces_assignments Forces_row
  rw [hb]

/-! ### Claims on the grid index -/

theorem gridIndex_column (c : Config) (IX IY IZ : Nat) (hz : IZ < c.Nmesh) :
    gridIndex c IX IY IZ % (2 * (c.Nmesh / 2 + 1)) = IZ ∧
    gridIndex c IX IY IZ / (2 * (c.Nmesh / 2 + 1)) = IX * c.Nmesh + IY := by
  have hlt : IZ < 2 * (c.Nmesh / 2 + 1) := by omega
  have he : gridIndex c IX IY IZ = IZ + (2 * (c.Nmesh / 2 + 1)) * (IX * c.Nmesh + IY) := by
    unfold gridIndex; ring
  rw [he]
  constructor
  · rw [Nat.add_mul_mod_self_left, Nat.mod_eq_of_lt hlt]
  · rw [Nat.add_mul_div_left _ _ (by omega), Nat.div_eq_of_lt hlt, Nat.zero_add]

/-- C37: for `Nmesh >= 1` the flat index `(IX*Nmesh + IY)*2*(Nmesh/2+1) + IZ` sends distinct
triples with `IY, IZ < Nmesh` to distinct positions; the position lies in column `IZ` of row
`IX*Nmesh + IY`, which is not one of the padding columns `IZ >= Nmesh`; the `Y` and `Z`
indices of every cell of the stencils of `PtoMesh`, `MtoParticles` and
`ProcessParticlesSingleFile` are below `Nmesh`; and the index of a cell of the owned slices
or of the halo slice is below the size `2*Total_size` of the local grid, so that on a grid
of at most `2^32` real elements the `unsigned int` arithmetic of the source gives this very
number, and on a grid of at most `2^31` real elements `int` arithmetic does too. -/
theorem gridIndex_injective (c : Config) (hN : 1 ≤ c.Nmesh) :
    (∀ IX IY IZ IX2 IY2 IZ2 : Nat, IY < c.Nmesh → IZ < c.Nmesh → IY2 < c.Nmesh → IZ2 < c.Nmesh →
      (IX, IY, IZ) ≠ (IX2, IY2, IZ2) → gridIndex c IX IY IZ ≠ gridIndex c IX2 IY2 IZ2) ∧
    (∀ IX IY IZ : Nat, IZ < c.Nmesh →
      gridIndex c IX IY IZ % (2 * (c.Nmesh / 2 + 1)) = IZ ∧
      gridIndex c IX IY IZ / (2 * (c.Nmesh / 2 + 1)) = IX * c.Nmesh + IY) ∧
    (∀ (T : Nat) (p : part_data), ∀ w ∈ (PtoMesh_stencil c T p).writes,
      w.1.2.1 < c.Nmesh ∧ w.1.2.2 < c.Nmesh) ∧
    (∀ (T : Nat) (p : part_data), ∀ w ∈ (MtoParticles_stencil c T p).writes,
      w.1.2.1 < c.Nmesh ∧ w.1.2.2 < c.Nmesh) ∧
    (∀ (T : Nat) (X Y Z : ℚ), ∀ w ∈ (ProcessParticles_stencil c T X Y Z).writes,
      w.1.2.1 < c.Nmesh ∧ w.1.2.2 < c.Nmesh) ∧
    (∀ T IX IY IZ : Nat, IX ≤ c.Local_nx T → IY < c.Nmesh → IZ < c.Nmesh →
      gridIndex c IX IY IZ < 2 * Total_size c T ∧
      (2 * Total_size c T ≤ 2 ^ 32 → gridIndex c IX IY IZ % 2 ^ 32 = gridIndex c IX IY IZ) ∧
      (2 * Total_size c T ≤ 2 ^ 31 →
        wrapInt32 (gridIndex c IX IY IZ : Int) = (gridIndex c IX IY IZ : Int))) := by
  have hw : ∀ m : Nat, (if m ≥ c.Nmesh then 0 else m) < c.Nmesh := fun m => wrapY_lt _ m hN
  refine ⟨?_, fun IX IY IZ hz => gridIndex_column c IX IY IZ hz, ?_, ?_, ?_, ?_⟩
  · intro IX IY IZ IX2 IY2 IZ2 hy hz hy2 hz2 hne h
    obtain ⟨h1, h2, h3⟩ := gridIndex_inj c hy hz hy2 hz2 h
    exact hne (by rw [h1, h2, h3])
  · intro T p w hw1
    simp only [Stencil.writes, PtoMesh_stencil, List.mem_cons, List.mem_singleton,
      List.not_mem_nil, or_false] at hw1
    rcases hw1 with h | h | h | h | h | h | h | h <;> subst h <;> exact ⟨hw _, hw _⟩
  · intro T p w hw1
    simp only [Stencil.writes, MtoParticles_stencil, List.mem_cons, List.mem_singleton,
      List.not_mem_nil, or_false] at hw1
    rcases hw1 with h | h | h | h | h | h | h | h <;> subst h <;> exact ⟨hw _, hw _⟩
  · intro T X Y Z w hw1
    simp only [Stencil.writes, ProcessParticles_stencil, List.mem_cons, List.mem_singleton,
      List.not_mem_nil, or_false] at hw1
    rcases hw1 with h | h | h | h | h | h | h | h <;> subst h <;> exact ⟨hw _, hw _⟩
  · intro T IX IY IZ hx hy hz
    have hlt : gridIndex c IX IY IZ < 2 * Total_size c T := by
      have := gridIndex_lt c (Nat.lt_succ_of_le hx) hy hz
      unfold Total_size
      exact this
    refine ⟨hlt, fun hT => Nat.mod_eq_of_lt (lt_of_lt_of_le hlt hT), fun hT => ?_⟩
    unfold wrapInt32
    rw [Int.emod_eq_of_lt (by omega) (by omega)]
    omega

/-- C37 (witness): on the run `oneTask` (`Nmesh = 2`, rows of `4` values). -/
theorem gridIndex_injective_witness :
    1 ≤ oneTask.Nmesh ∧ gridIndex oneTask 1 0 1 ≠ gridIndex oneTask 0 1 1 ∧
    gridIndex oneTask 1 0 1 % (2 * (oneTask.Nmesh / 2 + 1)) = 1 ∧
    gridIndex oneTask 2 1 1 % 2 ^ 32 = gridIndex oneTask 2 1 1 :=
  have h := gridIndex_injective oneTask (by decide)
  ⟨by decide, h.1 1 0 1 0 1 1 (by decide) (by decide) (by decide) (by decide) (by decide),
    (h.2.1 1 0 1 (by decide)).1,
    (h.2.2.2.2.2 0 2 1 1 (by decide) (by decide) (by decide)).2.1 (by decide)⟩

/-! ### Claims on `check_complexgrid` -/

theorem foldl_flatMap_eq {β : Type} (f : β → Nat → β) (g : Nat → List Nat) (l : List Nat)
    (s : β) : l.foldl (fun s j => (g j).foldl f s) s = (l.flatMap g).foldl f s := by
  induction l generalizing s with
  | nil => rfl
  | cons i l ih => rw [List.foldl_cons, List.flatMap_cons, List.foldl_append, ← ih]

theorem check_complexgrid_eq (c : Config) (T : Nat) (grid : CGrid) :
    check_complexgrid c T grid = (localPoints c T).foldl (check_complexgrid_point grid)
      { mingridre := 10 ^ 100, maxgridre := -10 ^ 100, mingridim := 10 ^ 100,
        maxgridim := -10 ^ 100 } := by
  unfold check_complexgrid localPoints
  rw [← foldl_flatMap_eq]
  congr 1
  funext s i
  rw [← foldl_flatMap_eq]
  congr 1
  funext s j
  rw [List.foldl_map]

theorem point_fold_re (grid : CGrid) (l : List Nat) (s : GridExtrema) :
    (l.foldl (check_complexgrid_point grid) s).mingridre
      = l.foldl (fun m ind => min m (grid ind).1) s.mingridre ∧
    (l.foldl (check_complexgrid_point grid) s).maxgridre
      = l.foldl (fun m ind => max m (grid ind).1) s.maxgridre := by
  induction l generalizing s with
  | nil => exact ⟨rfl, rfl⟩
  | cons a l ih =>
    rw [List.foldl_cons, List.foldl_cons, List.foldl_cons]
    have h1 : (check_complexgrid_point grid s a).mingridre = min s.mingridre (grid a).1 := by
      unfold check_complexgrid_point
      by_cases h : (grid a).1 < s.mingridre
      · simp only [h, if_true, min_eq_right (le_of_lt h)]; split_ifs <;> rfl
      · simp only [h, if_false, min_eq_left (not_lt.mp h)]; split_ifs <;> rfl
    have h2 : (check_complexgrid_point grid s a).maxgridre = max s.maxgridre (grid a).1 := by
      unfold check_complexgrid_point
      by_cases h : (grid a).1 > s.maxgridre
      · simp only [h, if_true, max_eq_right (le_of_lt h)]; split_ifs <;> rfl
      · simp only [h, if_false, max_eq_left (not_lt.mp h)]; split_ifs <;> rfl
    rw [(ih _).1, (ih _).2, h1, h2]
    exact ⟨rfl, rfl⟩

theorem foldl_min_spec (f : Nat → ℚ) (l : List Nat) (m : ℚ) :
    (∀ a ∈ l, l.foldl (fun m ind => min m (f ind)) m ≤ f a) ∧
    l.foldl (fun m ind => min m (f ind)) m ≤ m ∧
    (l.foldl (fun m ind => min m (f ind)) m = m ∨
      ∃ a ∈ l, l.foldl (fun m ind => min m (f ind)) m = f a) := by
  induction l generalizing m with
  | nil => simp
  | cons b l ih =>
    rw [List.foldl_cons]
    obtain ⟨h1, h2, h3⟩ := ih (min m (f b))
    refine ⟨?_, le_trans h2 (min_le_left _ _), ?_⟩
    · intro a ha
      rcases List.mem_cons.mp ha with h | h
      · subst h; exact le_trans h2 (min_le_right _ _)
      · exact h1 a h
    · rcases h3 with h | ⟨a, ha, h⟩
      · rcases min_choice m (f b) with hm | hm
        · left; rw [h, hm]
        · right; exact ⟨b, List.mem_cons_self _ _, by rw [h, hm]⟩
      · right; exact ⟨a, List.mem_cons_of_mem _ ha, h⟩

theorem foldl_max_spec (f : Nat → ℚ) (l : List Nat) (m : ℚ) :
    (∀ a ∈ l, f a ≤ l.foldl (fun m ind => max m (f ind)) m) ∧
    m ≤ l.foldl (fun m ind => max m (f ind)) m ∧
    (l.foldl (fun m ind => max m (f ind)) m = m ∨
      ∃ a ∈ l, l.foldl (fun m ind => max m (f ind)) m = f a) := by
  induction l generalizing m with
  | nil => simp
  | cons b l ih =>
    rw [List.foldl_cons]
    obtain ⟨h1, h2, h3⟩ := ih (max m (f b))
    refine ⟨?_, le_trans (le_max_left _ _) h2, ?_⟩
    · intro a ha
      rcases List.mem_cons.mp ha with h | h
      · subst h; exact le_trans (le_max_right _ _) h2
      · exact h1 a h
    · rcases h3 with h | ⟨a, ha, h⟩
      · rcases max_choice m (f b) with hm | hm
        · left; rw [h, hm]
        · right; exact ⟨b, List.mem_cons_self _ _, by rw [h, hm]⟩
      · right; exact ⟨a, List.mem_cons_of_mem _ ha, h⟩

/-- The sibling lines for the real parts are right: when some local point has a real part
below `1e100`, `mingridre` is the least real part over the local points, and likewise
`maxgridre` the greatest when some real part is above `-1e100`. -/
theorem check_complexgrid_real (c : Config) (T : Nat) (grid : CGrid) :
    ((∃ a ∈ localPoints c T, (grid a).1 < 10 ^ 100) →
      (∀ a ∈ localPoints c T, (check_complexgrid c T grid).mingridre ≤ (grid a).1) ∧
      ∃ a ∈ localPoints c T, (check_complexgrid c T grid).mingridre = (grid a).1) ∧
    ((∃ a ∈ localPoints c T, -10 ^ 100 < (grid a).1) →
      (∀ a ∈ localPoints c T, (grid a).1 ≤ (check_complexgrid c T grid).maxgridre) ∧
      ∃ a ∈ localPoints c T, (check_complexgrid c T grid).maxgridre = (grid a).1) := by
  rw [check_complexgrid_eq]
  constructor
  · rintro ⟨a, ha, hlt⟩
    rw [(point_fold_re grid _ _).1]
    obtain ⟨h1, _, h3⟩ := foldl_min_spec (fun ind => (grid ind).1) (localPoints c T) (10 ^ 100)
    refine ⟨h1, ?_⟩
    rcases h3 with h | h
    · exact absurd (h ▸ h1 a ha) (not_le.mpr hlt)
    · exact h
  · rintro ⟨a, ha, hlt⟩
    rw [(point_fold_re grid _ _).2]
    obtain ⟨h1, _, h3⟩ := foldl_max_spec (fun ind => (grid ind).1) (localPoints c T) (-10 ^ 100)
    refine ⟨h1, ?_⟩
    rcases h3 with h | h
    · exact absurd (h ▸ h1 a ha) (not_le.mpr hlt)
    · exact h

/-- C38 (failing input): on the run `oneTask` (`Local_nx = 2`, `Nmesh = 2`, eight local
points with indices `0 … 7`) and the grid `imagTen`, whose imaginary parts are all `10`,
`check_complexgrid` holds `0` in `mingridim` and `7` in `maxgridim`, the least and the
greatest real part, and not `10`; its `mingridre` and `maxgridre` are `0` and `7`. -/
theorem check_complexgrid_imaginary :
    localPoints oneTask 0 = [0, 1, 2, 3, 4, 5, 6, 7] ∧
    (∀ ind, (imagTen ind).2 = 10) ∧
    (check_complexgrid oneTask 0 imagTen).mingridim = 0 ∧
    (check_complexgrid oneTask 0 imagTen).maxgridim = 7 ∧
    (check_complexgrid oneTask 0 imagTen).mingridre = 0 ∧
    (check_complexgrid oneTask 0 imagTen).maxgridre = 7 := by
  refine ⟨by decide, fun _ => rfl, ?_, ?_, ?_, ?_⟩ <;> decide!

/-! ### Helper lemmas for the ring walks of `MoveParticles` -/

theorem stepLeft_lt (c : Config) (x : Nat) (hx : x < c.NTask) : stepLeft c x < c.NTask := by
  unfold stepLeft; split_ifs <;> omega

theorem stepRight_lt (c : Config) (x : Nat) (hx : x < c.NTask) : stepRight c x < c.NTask := by
  unfold stepRight; split_ifs <;> omega

theorem stepRight_stepLeft (c : Config) (x : Nat) (hx : x < c.NTask) :
    stepRight c (stepLeft c x) = x := by
  unfold stepRight stepLeft
  by_cases h0 : x = 0
  · subst h0
    simp only [if_true]
    rw [if_pos (by omega)]
    omega
  · simp only [h0, if_false]
    rw [if_neg (by omega)]
    omega

theorem stepLeft_stepRight (c : Config) (x : Nat) (hx : x < c.NTask) :
    stepLeft c (stepRight c x) = x := by
  unfold stepRight stepLeft
  by_cases h0 : x + 1 ≥ c.NTask
  · simp only [h0, if_true]
    rw [if_pos (by omega)]
    omega
  · simp only [h0, if_false]
    rw [if_neg (by omega)]
    omega

/-- A left neighbour walk that ends at `U` can be walked back: from `U` the right walk
comes to the start of the left walk with the counts mirrored. -/
theorem nbrLeft_reverse (c : Config) (j : Nat) :
    ∀ (fuel nb a U : Nat), nb < c.NTask → a < j → nbrLoopLeft c j fuel nb a = some U →
      U < c.NTask ∧ c.Local_np_table U ≠ 0 ∧ ∃ m, m + 1 ≤ fuel ∧ ∀ g b, b + (j - a - 1) < j →
        nbrLoopRight c j (m + g + 1) U b
          = nbrLoopRight c j (g + 1) (stepLeft c nb) (b + (j - a - 1)) := by
  intro fuel
  induction fuel with
  | zero => intro nb a U _ _ h; simp [nbrLoopLeft] at h
  | succ fuel ih =>
    intro nb a U hnb ha h
    rw [nbrLoopLeft] at h
    by_cases hz : c.Local_np_table (stepLeft c nb) = 0
    · simp only [hz, if_true, Nat.add_sub_cancel] at h
      rw [if_pos (by omega)] at h
      obtain ⟨hU, hUnp, m, hm, hrev⟩ := ih (stepLeft c nb) a U (stepLeft_lt c nb hnb) ha h
      refine ⟨hU, hUnp, m + 1, by omega, ?_⟩
      intro g b hb
      have h1 := hrev (g + 1) b hb
      rw [show m + 1 + g + 1 = m + (g + 1) + 1 by omega, h1]
      conv_lhs => rw [nbrLoopRight]
      simp only [stepRight_stepLeft c _ (stepLeft_lt c nb hnb), hz, if_true, Nat.add_sub_cancel]
      rw [if_pos (by omega)]
    · simp only [hz, if_false] at h
      by_cases hc : a + 1 ≠ j
      · rw [if_pos hc] at h
        obtain ⟨hU, hUnp, m, hm, hrev⟩ :=
          ih (stepLeft c nb) (a + 1) U (stepLeft_lt c nb hnb) (by omega) h
        refine ⟨hU, hUnp, m + 1, by omega, ?_⟩
        intro g b hb
        have h1 := hrev (g + 1) b (by omega)
        rw [show m + 1 + g + 1 = m + (g + 1) + 1 by omega, h1]
        conv_lhs => rw [nbrLoopRight]
        simp only [stepRight_stepLeft c _ (stepLeft_lt c nb hnb), hz, if_false]
        rw [if_pos (by omega), show b + (j - (a + 1) - 1) + 1 = b + (j - a - 1) by omega]
      · rw [if_neg hc] at h
        have hU : stepLeft c nb = U := Option.some.inj h
        subst hU
        refine ⟨stepLeft_lt c nb hnb, hz, 0, by omega, ?_⟩
        intro g b _
        rw [show j - a - 1 = 0 by omega, Nat.zero_add]
        rfl

theorem nbrRight_reverse (c : Config) (j : Nat) :
    ∀ (fuel nb a U : Nat), nb < c.NTask → a < j → nbrLoopRight c j fuel nb a = some U →
      U < c.NTask ∧ c.Local_np_table U ≠ 0 ∧ ∃ m, m + 1 ≤ fuel ∧ ∀ g b, b + (j - a - 1) < j →
        nbrLoopLeft c j (m + g + 1) U b
          = nbrLoopLeft c j (g + 1) (stepRight c nb) (b + (j - a - 1)) := by
  intro fuel
  induction fuel with
  | zero => intro nb a U _ _ h; simp [nbrLoopRight] at h
  | succ fuel ih =>
    intro nb a U hnb ha h
    rw [nbrLoopRight] at h
    by_cases hz : c.Local_np_table (stepRight c nb) = 0
    · simp only [hz, if_true, Nat.add_sub_cancel] at h
      rw [if_pos (by omega)] at h
      obtain ⟨hU, hUnp, m, hm, hrev⟩ := ih (stepRight c nb) a U (stepRight_lt c nb hnb) ha h
      refine ⟨hU, hUnp, m + 1, by omega, ?_⟩
      intro g b hb
      have h1 := hrev (g + 1) b hb
      rw [show m + 1 + g + 1 = m + (g + 1) + 1 by omega, h1]
      conv_lhs => rw [nbrLoopLeft]
      simp only [stepLeft_stepRight c _ (stepRight_lt c nb hnb), hz, if_true, Nat.add_sub_cancel]
      rw [if_pos (by omega)]
    · simp only [hz, if_false] at h
      by_cases hc : a + 1 ≠ j
      · rw [if_pos hc] at h
        obtain ⟨hU, hUnp, m, hm, hrev⟩ :=
          ih (stepRight c nb) (a + 1) U (stepRight_lt c nb hnb) (by omega) h
        refine ⟨hU, hUnp, m + 1, by omega, ?_⟩
        intro g b hb
        have h1 := hrev (g + 1) b (by omega)
        rw [show m + 1 + g + 1 = m + (g + 1) + 1 by omega, h1]
        conv_lhs => rw [nbrLoopLeft]
        simp only [stepLeft_stepRight c _ (stepRight_lt c nb hnb), hz, if_false]
        rw [if_pos (by omega), show b + (j - (a + 1) - 1) + 1 = b + (j - a - 1) by omega]
      · rw [if_neg hc] at h
        have hU : stepRight c nb = U := Option.some.inj h
        subst hU
        refine ⟨stepRight_lt c nb hnb, hz, 0, by omega, ?_⟩
        intro g b _
        rw [show j - a - 1 = 0 by omega, Nat.zero_add]
        rfl

/-- The task found by the left neighbour walk of `T` finds `T` by its right neighbour
walk. -/
theorem nbr_mutual_left (c : Config) (j F T U : Nat) (hj : 1 ≤ j) (hT : T < c.NTask)
    (hnp : c.Local_np_table T ≠ 0) (h : nbrLoopLeft c j F T 0 = some U) :
    U < c.NTask ∧ c.Local_np_table U ≠ 0 ∧ nbrLoopRight c j F U 0 = some T := by
  obtain ⟨hU, hUnp, m, hm, hrev⟩ := nbrLeft_reverse c j F T 0 U hT (by omega) h
  refine ⟨hU, hUnp, ?_⟩
  have h1 := hrev (F - m - 1) 0 (by omega)
  rw [show m + (F - m - 1) + 1 = F by omega] at h1
  rw [h1, nbrLoopRight, stepRight_stepLeft c T hT, if_neg hnp, if_neg (by omega)]

theorem nbr_mutual_right (c : Config) (j F T U : Nat) (hj : 1 ≤ j) (hT : T < c.NTask)
    (hnp : c.Local_np_table T ≠ 0) (h : nbrLoopRight c j F T 0 = some U) :
    U < c.NTask ∧ c.Local_np_table U ≠ 0 ∧ nbrLoopLeft c j F U 0 = some T := by
  obtain ⟨hU, hUnp, m, hm, hrev⟩ := nbrRight_reverse c j F T 0 U hT (by omega) h
  refine ⟨hU, hUnp, ?_⟩
  have h1 := hrev (F - m - 1) 0 (by omega)
  rw [show m + (F - m - 1) + 1 = F by omega] at h1
  rw [h1, nbrLoopLeft, stepLeft_stepRight c T hT, if_neg hnp, if_neg (by omega)]

/-- From `nb` the left neighbour walk stops, or it comes to the non-empty task `T0` with a
greater count after as many steps as `T0` lies to the left of `nb`. -/
theorem nbrLeft_lap (c : Config) (j T0 : Nat) (hT0 : T0 < c.NTask)
    (hnp : c.Local_np_table T0 ≠ 0) :
    ∀ (d fuel nb a : Nat), nb < c.NTask → a < j →
      (if T0 < nb then nb - T0 else nb + c.NTask - T0) = d → d ≤ fuel →
      (∃ U, nbrLoopLeft c j fuel nb a = some U) ∨
        ∃ a2, a < a2 ∧ a2 < j ∧ nbrLoopLeft c j fuel nb a = nbrLoopLeft c j (fuel - d) T0 a2 := by
  intro d
  induction d with
  | zero => intro fuel nb a hnb _ hd _; split_ifs at hd <;> omega
  | succ d ih =>
    intro fuel nb a hnb ha hd hf
    obtain ⟨f, rfl⟩ : ∃ f, fuel = f + 1 := ⟨fuel - 1, by omega⟩
    rw [nbrLoopLeft]
    by_cases hs : stepLeft c nb = T0
    · have hd0 : d = 0 := by
        unfold stepLeft at hs
        split_ifs at hd hs <;> omega
      subst hd0
      rw [hs, if_neg hnp]
      by_cases hc : a + 1 ≠ j
      · rw [if_pos hc]
        exact Or.inr ⟨a + 1, by omega, by omega, rfl⟩
      · rw [if_neg hc]
        exact Or.inl ⟨T0, rfl⟩
    · have hd1 : (if T0 < stepLeft c nb then stepLeft c nb - T0
          else stepLeft c nb + c.NTask - T0) = d := by
        unfold stepLeft at hs ⊢
        split_ifs at hd hs ⊢ <;> omega
      by_cases hc : (if c.Local_np_table (stepLeft c nb) = 0 then a + 1 - 1 else a + 1) ≠ j
      · rw [if_pos hc]
        have ha2 : (if c.Local_np_table (stepLeft c nb) = 0 then a + 1 - 1 else a + 1) < j := by
          split_ifs at hc ⊢ <;> omega
        rcases ih f (stepLeft c nb) _ (stepLeft_lt c nb hnb) ha2 hd1 (by omega) with h | h
        · exact Or.inl h
        · obtain ⟨a2, h1, h2, h3⟩ := h
          refine Or.inr ⟨a2, ?_, h2, ?_⟩
          · split_ifs at h1 <;> omega
          · rw [h3, show f + 1 - (d + 1) = f - d by omega]
      · rw [if_neg hc]
        exact Or.inl ⟨_, rfl⟩

theorem nbrRight_lap (c : Config) (j T0 : Nat) (hT0 : T0 < c.NTask)
    (hnp : c.Local_np_table T0 ≠ 0) :
    ∀ (d fuel nb a : Nat), nb < c.NTask → a < j →
      (if nb < T0 then T0 - nb else T0 + c.NTask - nb) = d → d ≤ fuel →
      (∃ U, nbrLoopRight c j fuel nb a = some U) ∨
        ∃ a2, a < a2 ∧ a2 < j ∧ nbrLoopRight c j fuel nb a = nbrLoopRight c j (fuel - d) T0 a2 := by
  intro d
  induction d with
  | zero => intro fuel nb a hnb _ hd _; split_ifs at hd <;> omega
  | succ d ih =>
    intro fuel nb a hnb ha hd hf
    obtain ⟨f, rfl⟩ : ∃ f, fuel = f + 1 := ⟨fuel - 1, by omega⟩
    rw [nbrLoopRight]
    by_cases hs : stepRight c nb = T0
    · have hd0 : d = 0 := by
        unfold stepRight at hs
        split_ifs at hd hs <;> omega
      subst hd0
      rw [hs, if_neg hnp]
      by_cases hc : a + 1 ≠ j
      · rw [if_pos hc]
        exact Or.inr ⟨a + 1, by omega, by omega, rfl⟩
      · rw [if_neg hc]
        exact Or.inl ⟨T0, rfl⟩
    · have hd1 : (if stepRight c nb < T0 then T0 - stepRight c nb
          else T0 + c.NTask - stepRight c nb) = d := by
        unfold stepRight at hs ⊢
        split_ifs at hd hs ⊢ <;> omega
      by_cases hc : (if c.Local_np_table (stepRight c nb) = 0 then a + 1 - 1 else a + 1) ≠ j
      · rw [if_pos hc]
        have ha2 : (if c.Local_np_table (stepRight c nb) = 0 then a + 1 - 1 else a + 1) < j := by
          split_ifs at hc ⊢ <;> omega
        rcases ih f (stepRight c nb) _ (stepRight_lt c nb hnb) ha2 hd1 (by omega) with h | h
        · exact Or.inl h
        · obtain ⟨a2, h1, h2, h3⟩ := h
          refine Or.inr ⟨a2, ?_, h2, ?_⟩
          · split_ifs at h1 <;> omega
          · rw [h3, show f + 1 - (d + 1) = f - d by omega]
      · rw [if_neg hc]
        exact Or.inl ⟨_, rfl⟩

/-- The left neighbour walk of a non-empty task stops within `j - a` laps of the ring. -/
theorem nbrLeft_exists (c : Config) (j T0 : Nat) (hT0 : T0 < c.NTask)
    (hnp : c.Local_np_table T0 ≠ 0) :
    ∀ (k a fuel : Nat), a < j → j - a ≤ k → k * c.NTask ≤ fuel →
      ∃ U, nbrLoopLeft c j fuel T0 a = some U := by
  intro k
  induction k with
  | zero => intro a fuel ha hk _; omega
  | succ k ih =>
    intro a fuel ha hk hf
    rw [Nat.succ_mul] at hf
    rcases nbrLeft_lap c j T0 hT0 hnp c.NTask fuel T0 a hT0 ha
      (by rw [if_neg (lt_irrefl _)]; omega) (by omega) with h | ⟨a2, h1, h2, h3⟩
    · exact h
    · rw [h3]
      exact ih a2 _ h2 (by omega) (by omega)

theorem nbrRight_exists (c : Config) (j T0 : Nat) (hT0 : T0 < c.NTask)
    (hnp : c.Local_np_table T0 ≠ 0) :
    ∀ (k a fuel : Nat), a < j → j - a ≤ k → k * c.NTask ≤ fuel →
      ∃ U, nbrLoopRight c j fuel T0 a = some U := by
  intro k
  induction k with
  | zero => intro a fuel ha hk _; omega
  | succ k ih =>
    intro a fuel ha hk hf
    rw [Nat.succ_mul] at hf
    rcases nbrRight_lap c j T0 hT0 hnp c.NTask fuel T0 a hT0 ha
      (by rw [if_neg (lt_irrefl _)]; omega) (by omega) with h | ⟨a2, h1, h2, h3⟩
    · exact h
    · rw [h3]
      exact ih a2 _ h2 (by omega) (by omega)

/-- In a round `j >= 2` the two neighbours of a non-empty task exist, and each of them
names the task as its neighbour on the other side. -/
theorem neighbours_mutual (c : Config) (T j : Nat) (hj : 2 ≤ j) (hT : T < c.NTask)
    (hnp : c.Local_np_table T ≠ 0) :
    ∃ U V, neighbour_left c T j = some (some U) ∧ neighbour_right c U j = some (some T) ∧
      neighbour_right c T j = some (some V) ∧ neighbour_left c V j = some (some T) ∧
      U < c.NTask ∧ V < c.NTask := by
  obtain ⟨U, hU⟩ := nbrLeft_exists c j T hT hnp j 0 (j * c.NTask) (by omega) (by omega) le_rfl
  obtain ⟨V, hV⟩ := nbrRight_exists c j T hT hnp j 0 (j * c.NTask) (by omega) (by omega) le_rfl
  obtain ⟨hUlt, hUnp, hUr⟩ := nbr_mutual_left c j _ T U (by omega) hT hnp hU
  obtain ⟨hVlt, hVnp, hVl⟩ := nbr_mutual_right c j _ T V (by omega) hT hnp hV
  have hj1 : j ≠ 1 := by omega
  refine ⟨U, V, ?_, ?_, ?_, ?_, hUlt, hVlt⟩
  · unfold neighbour_left Local_np; rw [if_neg hj1, if_neg hnp, hU]; rfl
  · unfold neighbour_right Local_np; rw [if_neg hj1, if_neg hUnp, hUr]; rfl
  · unfold neighbour_right Local_np; rw [if_neg hj1, if_neg hnp, hV]; rfl
  · unfold neighbour_left Local_np; rw [if_neg hj1, if_neg hVnp, hVl]; rfl

/-- In a round `j >= 2` on `NTask` tasks every `MPI_Sendrecv` has its matching call on the
peer. -/
theorem postAll_paired (c : Config) (j : Nat) (hj : 2 ≤ j) (ts : List TaskState)
    (ps : List Posted) (hlen : ts.length = c.NTask) (h : postAll c j 0 ts = .ok ps) :
    paired ps = true := by
  obtain ⟨hl, hpost⟩ := postAll_spec c j ts 0 ps h
  have hj1 : j ≠ 1 := by omega
  have key : ∀ T < c.NTask, neighbour_left c T j = some (leftOf ps T) ∧
      neighbour_right c T j = some (rightOf ps T) := by
    intro T hT
    obtain ⟨t, ht⟩ : ∃ t, ts.get? T = some t :=
      ⟨ts.get ⟨T, by omega⟩, List.get?_eq_get (by omega)⟩
    obtain ⟨p, hp, hpo⟩ := hpost T t ht
    rw [Nat.zero_add] at hpo
    obtain ⟨_, h1, h2⟩ := post_spec c T j t p hpo
    unfold leftOf rightOf
    rw [hp]
    exact ⟨h1, h2⟩
  have hnp : ∀ T q, (neighbour_left c T j = some (some q) ∨ neighbour_right c T j = some (some q)) →
      c.Local_np_table T ≠ 0 := by
    intro T q hq h0
    unfold neighbour_left neighbour_right Local_np at hq
    rw [if_neg hj1, if_pos h0, if_neg hj1, if_pos h0] at hq
    rcases hq with hq | hq <;> cases hq
  unfold paired
  rw [List.all_eq_true]
  intro T hT
  rw [List.mem_range, hl, hlen] at hT
  rw [Bool.and_eq_true, hl, hlen]
  constructor
  · cases hL : leftOf ps T with
    | none => rfl
    | some q =>
      have h1 := (key T hT).1
      rw [hL] at h1
      obtain ⟨U, V, hU, hUr, -, -, hUlt, -⟩ :=
        neighbours_mutual c T j hj hT (hnp T q (Or.inl h1))
      rw [hU] at h1
      have hq : U = q := Option.some.inj (Option.some.inj h1)
      subst hq
      have h2 := (key U hUlt).2
      rw [hUr] at h2
      have h3 : rightOf ps U = some T := (Option.some.inj h2).symm
      simp [peerOK, hUlt, h3]
  · cases hR : rightOf ps T with
    | none => rfl
    | some q =>
      have h1 := (key T hT).2
      rw [hR] at h1
      obtain ⟨U, V, -, -, hV, hVl, -, hVlt⟩ :=
        neighbours_mutual c T j hj hT (hnp T q (Or.inr h1))
      rw [hV] at h1
      have hq : V = q := Option.some.inj (Option.some.inj h1)
      subst hq
      have h2 := (key V hVlt).1
      rw [hVl] at h2
      have h3 : leftOf ps V = some T := (Option.some.inj h2).symm
      simp [peerOK, hVlt, h3]

theorem hopLeft_value (c : Config) (D : Nat) :
    ∀ (d fuel nb pd : Nat), nb < c.NTask → d + 1 ≤ c.NTask → d + 1 ≤ fuel →
      (∀ i, 1 ≤ i → i < d + 1 → ringLeft c nb i ≠ D) → ringLeft c nb (d + 1) = D →
      hopLoopLeft c D fuel nb pd
        = some (pd + ∑ i ∈ range (d + 1), occupied c (ringLeft c nb (i + 1))) := by
  intro d
  induction d with
  | zero =>
    intro fuel nb pd hnb hN hf hne hD
    obtain ⟨f, rfl⟩ : ∃ f, fuel = f + 1 := ⟨fuel - 1, by omega⟩
    have h1 : stepLeft c nb = D := by
      rw [← hD]; unfold stepLeft ringLeft; split_ifs <;> omega
    rw [hopLoopLeft, h1, if_neg (by simp), sum_range_one, hD]
    unfold occupied
    split_ifs <;> simp
  | succ d ih =>
    intro fuel nb pd hnb hN hf hne hD
    obtain ⟨f, rfl⟩ : ∃ f, fuel = f + 1 := ⟨fuel - 1, by omega⟩
    have h1 : stepLeft c nb = ringLeft c nb 1 := by
      unfold stepLeft ringLeft; split_ifs <;> omega
    have hstep : ∀ i, i ≤ d + 1 → ringLeft c (stepLeft c nb) i = ringLeft c nb (i + 1) := by
      intro i hi
      unfold stepLeft ringLeft
      split_ifs <;> omega
    have hne1 : D ≠ stepLeft c nb := by
      rw [h1]; exact (hne 1 le_rfl (by omega)).symm
    rw [hopLoopLeft, if_pos hne1]
    rw [ih f (stepLeft c nb) _ (stepLeft_lt c nb hnb) (by omega) (by omega)
      (fun i hi1 hi2 => by rw [hstep i (by omega)]; exact hne (i + 1) (by omega) (by omega))
      (by rw [hstep (d + 1) le_rfl]; exact hD)]
    rw [sum_range_succ' _ (d + 1)]
    have hs : ∑ i ∈ range (d + 1), occupied c (ringLeft c (stepLeft c nb) (i + 1))
        = ∑ i ∈ range (d + 1), occupied c (ringLeft c nb (i + 1 + 1)) :=
      sum_congr rfl fun i hi => by
        rw [hstep (i + 1) (by have := mem_range.mp hi; omega)]
    rw [hs, ← h1]
    congr 1
    unfold occupied
    split_ifs <;> omega

theorem hopRight_value (c : Config) (D : Nat) :
    ∀ (d fuel nb pd : Nat), nb < c.NTask → d + 1 ≤ c.NTask → d + 1 ≤ fuel →
      (∀ i, 1 ≤ i → i < d + 1 → ringRight c nb i ≠ D) → ringRight c nb (d + 1) = D →
      hopLoopRight c D fuel nb pd
        = some (pd + ∑ i ∈ range (d + 1), occupied c (ringRight c nb (i + 1))) := by
  intro d
  induction d with
  | zero =>
    intro fuel nb pd hnb hN hf hne hD
    obtain ⟨f, rfl⟩ : ∃ f, fuel = f + 1 := ⟨fuel - 1, by omega⟩
    have h1 : stepRight c nb = D := by
      rw [← hD]; unfold stepRight ringRight; split_ifs <;> omega
    rw [hopLoopRight, h1, if_neg (by simp), sum_range_one, hD]
    unfold occupied
    split_ifs <;> simp
  | succ d ih =>
    intro fuel nb pd hnb hN hf hne hD
    obtain ⟨f, rfl⟩ : ∃ f, fuel = f + 1 := ⟨fuel - 1, by omega⟩
    have h1 : stepRight c nb = ringRight c nb 1 := by
      unfold stepRight ringRight; split_ifs <;> omega
    have hstep : ∀ i, i ≤ d + 1 → ringRight c (stepRight c nb) i = ringRight c nb (i + 1) := by
      intro i hi
      unfold stepRight ringRight
      split_ifs <;> omega
    have hne1 : D ≠ stepRight c nb := by
      rw [h1]; exact (hne 1 le_rfl (by omega)).symm
    rw [hopLoopRight, if_pos hne1]
    rw [ih f (stepRight c nb) _ (stepRight_lt c nb hnb) (by omega) (by omega)
      (fun i hi1 hi2 => by rw [hstep i (by omega)]; exact hne (i + 1) (by omega) (by omega))
      (by rw [hstep (d + 1) le_rfl]; exact hD)]
    rw [sum_range_succ' _ (d + 1)]
    have hs : ∑ i ∈ range (d + 1), occupied c (ringRight c (stepRight c nb) (i + 1))
        = ∑ i ∈ range (d + 1), occupied c (ringRight c nb (i + 1 + 1)) :=
      sum_congr rfl fun i hi => by
        rw [hstep (i + 1) (by have := mem_range.mp hi; omega)]
    rw [hs, ← h1]
    congr 1
    unfold occupied
    split_ifs <;> omega

/-- The distance from `T` to `D` on the ring, to the right. -/
theorem ring_distance (c : Config) (T D : Nat) (hT : T < c.NTask) (hD : D < c.NTask)
    (hne : D ≠ T) :
    ∃ dR dL, dR + 1 + (dL + 1) = c.NTask ∧
      ringRight c T (dR + 1) = D ∧ (∀ i, 1 ≤ i → i < dR + 1 → ringRight c T i ≠ D) ∧
      ringLeft c T (dL + 1) = D ∧ (∀ i, 1 ≤ i → i < dL + 1 → ringLeft c T i ≠ D) := by
  by_cases h : T < D
  · refine ⟨D - T - 1, T + c.NTask - D - 1, by omega, ?_, ?_, ?_, ?_⟩
    · unfold ringRight; split_ifs <;> omega
    · intro i h1 h2; unfold ringRight; split_ifs <;> omega
    · unfold ringLeft; split_ifs <;> omega
    · intro i h1 h2; unfold ringLeft; split_ifs <;> omega
  · refine ⟨D + c.NTask - T - 1, T - D - 1, by omega, ?_, ?_, ?_, ?_⟩
    · unfold ringRight; split_ifs <;> omega
    · intro i h1 h2; unfold ringRight; split_ifs <;> omega
    · unfold ringLeft; split_ifs <;> omega
    · intro i h1 h2; unfold ringLeft; split_ifs <;> omega

/-- Both hop walks from `T` to another rank `D` stop within `NTask - 1` steps. -/
theorem hop_walks_stop (c : Config) (T D : Nat) (hT : T < c.NTask) (hD : D < c.NTask)
    (hne : D ≠ T) :
    ∃ L R, (∀ fuel, c.NTask - 1 ≤ fuel → hopLoopLeft c D fuel T 0 = some L) ∧
      (∀ fuel, c.NTask - 1 ≤ fuel → hopLoopRight c D fuel T 0 = some R) := by
  obtain ⟨dR, dL, hsum, hR1, hR2, hL1, hL2⟩ := ring_distance c T D hT hD hne
  refine ⟨_, _, fun fuel hf => hopLeft_value c D dL fuel T 0 hT (by omega) (by omega) hL2 hL1,
    fun fuel hf => hopRight_value c D dR fuel T 0 hT (by omega) (by omega) hR2 hR1⟩

theorem sum_rotate (g : Nat → Nat) (n m : Nat) :
    ∑ k ∈ range (n + m), g (if m + k < n + m then m + k else m + k - (n + m))
      = ∑ x ∈ range (m + n), g x := by
  rw [sum_range_add, sum_range_add, add_comm]
  congr 1
  · exact sum_congr rfl fun k hk => by
      rw [if_neg (by omega), show m + (n + k) - (n + m) = k by omega]
  · exact sum_congr rfl fun k hk => by
      rw [if_pos (by have := mem_range.mp hk; omega)]

theorem ring_sum (c : Config) (g : Nat → Nat) (T : Nat) (hT : T < c.NTask) :
    ∑ k ∈ range c.NTask, g (ringRight c T k) = ∑ x ∈ range c.NTask, g x := by
  obtain ⟨n, hn⟩ : ∃ n, c.NTask = n + T := ⟨c.NTask - T, by omega⟩
  unfold ringRight
  rw [hn, sum_rotate g n T, add_comm]

theorem nonEmptyTasks_eq (c : Config) :
    nonEmptyTasks c = ∑ x ∈ range c.NTask, occupied c x := by
  unfold nonEmptyTasks occupied
  rw [card_filter]
  exact sum_congr rfl fun x _ => by split_ifs <;> simp_all

/-- The two hop counts from a non-empty task to another non-empty task add up to the number
of non-empty tasks. -/
theorem hop_sum (c : Config) (T D : Nat) (hT : T < c.NTask) (hD : D < c.NTask) (hne : D ≠ T)
    (hnT : c.Local_np_table T ≠ 0) (hnD : c.Local_np_table D ≠ 0) :
    ∃ L R, procdiff_left c T D = some L ∧ procdiff_right c T D = some R ∧
      L + R = nonEmptyTasks c ∧ 1 ≤ L ∧ 1 ≤ R := by
  obtain ⟨dR, dL, hsum, hR1, hR2, hL1, hL2⟩ := ring_distance c T D hT hD hne
  have hL := hopLeft_value c D dL c.NTask T 0 hT (by omega) (by omega) hL2 hL1
  have hR := hopRight_value c D dR c.NTask T 0 hT (by omega) (by omega) hR2 hR1
  refine ⟨_, _, hL, hR, ?_, ?_, ?_⟩
  · rw [Nat.zero_add, Nat.zero_add, nonEmptyTasks_eq, ← ring_sum c (occupied c) T hT]
    have hoT : occupied c (ringRight c T 0) = 1 := by
      have : ringRight c T 0 = T := by unfold ringRight; split_ifs <;> omega
      rw [this]; unfold occupied; rw [if_neg hnT]
    have hoD : occupied c D = 1 := by unfold occupied; rw [if_neg hnD]
    -- the left walk, read from its end
    have hLr : ∑ i ∈ range (dL + 1), occupied c (ringLeft c T (i + 1))
        = ∑ k ∈ range dL, occupied c (ringRight c T (dR + 1 + 1 + k)) + 1 := by
      rw [sum_range_succ, hL1, hoD]
      congr 1
      rw [← sum_range_reflect]
      apply sum_congr rfl
      intro i hi
      have hi := mem_range.mp hi
      have : ringLeft c T (dL - 1 - i + 1) = ringRight c T (dR + 1 + 1 + i) := by
        unfold ringLeft ringRight; split_ifs <;> omega
      rw [this]
    have hN : c.NTask = (dR + 1 + 1) + dL := by omega
    have hsplit : ∑ k ∈ range c.NTask, occupied c (ringRight c T k)
        = ∑ k ∈ range (dR + 1 + 1), occupied c (ringRight c T k)
          + ∑ k ∈ range dL, occupied c (ringRight c T (dR + 1 + 1 + k)) := by
      conv_lhs => rw [hN]
      rw [sum_range_add]
    rw [hsplit, hLr, sum_range_succ' _ (dR + 1), hoT]
    omega
  · rw [Nat.zero_add, sum_range_succ, hL1]
    unfold occupied; rw [if_neg hnD]; omega
  · rw [Nat.zero_add, sum_range_succ, hR1]
    unfold occupied; rw [if_neg hnD]; omega

/-! ### Claims on the ring walks of `MoveParticles` -/

/-- C32: in a round `j >= 2`, for a task `T` with `Local_np_table[T] > 0` and a destination
`D != T` with `Local_np_table[D] > 0`: when the left ring walk from `T` to `D` gives the hop
count `j`, the left neighbour walk of `T` in round `j` ends at `D`, and `D` names `T` as its
right neighbour of the round, so that the left send buffer of `T` is what `D` receives; and
symmetrically on the right.  Hence a particle for `D` that the classification loop of round
`j` puts into a send buffer of `T` goes to `D`. -/
theorem round_neighbour_is_destination (c : Config) (T D j : Nat) (hj : 2 ≤ j)
    (hTlt : T < c.NTask) (hT : c.Local_np_table T ≠ 0) (hD : c.Local_np_table D ≠ 0)
    (hne : D ≠ T) :
    (procdiff_left c T D = some j →
      neighbour_left c T j = some (some D) ∧ neighbour_right c D j = some (some T)) ∧
    (procdiff_right c T D = some j →
      neighbour_right c T j = some (some D) ∧ neighbour_left c D j = some (some T)) ∧
    (∀ p, destTask c p = D →
      (sendsLeft c T j p → neighbour_left c T j = some (some D)) ∧
      (sendsRight c T j p → neighbour_right c T j = some (some D))) := by
  have _ := hne
  have hj1 : j ≠ 1 := by omega
  have hle : c.NTask ≤ j * c.NTask := Nat.le_mul_of_pos_left _ (by omega)
  have hL : procdiff_left c T D = some j →
      neighbour_left c T j = some (some D) ∧ neighbour_right c D j = some (some T) := by
    intro h
    unfold procdiff_left at h
    have hw := (hopLeft_nbr c D j hD _ _ _ h).2 (j * c.NTask) hle
    obtain ⟨-, -, hback⟩ := nbr_mutual_left c j _ T D (by omega) hTlt hT hw
    constructor
    · unfold neighbour_left Local_np; rw [if_neg hj1, if_neg hT, hw]; rfl
    · unfold neighbour_right Local_np; rw [if_neg hj1, if_neg hD, hback]; rfl
  have hR : procdiff_right c T D = some j →
      neighbour_right c T j = some (some D) ∧ neighbour_left c D j = some (some T) := by
    intro h
    unfold procdiff_right at h
    have hw := (hopRight_nbr c D j hD _ _ _ h).2 (j * c.NTask) hle
    obtain ⟨-, -, hback⟩ := nbr_mutual_right c j _ T D (by omega) hTlt hT hw
    constructor
    · unfold neighbour_right Local_np; rw [if_neg hj1, if_neg hT, hw]; rfl
    · unfold neighbour_left Local_np; rw [if_neg hj1, if_neg hD, hback]; rfl
  refine ⟨hL, hR, ?_⟩
  intro p hp
  constructor
  · rintro ⟨-, pl, pr, hpl, -, -, -, hpj⟩
    rw [hp, hpj] at hpl
    exact (hL hpl).1
  · rintro ⟨-, pl, pr, -, hpr, -, -, hpj⟩
    rw [hp, hpj] at hpr
    exact (hR hpr).1

/-- C32 (witness): on the run `fiveRing` (task 2 is empty) the left walk from task 0 to
task 3 counts `2` and the right walk from task 0 to task 3 counts `2` (task 2 is not
counted); in round 2 task 0 has task 3 as its left and as its right neighbour. -/
theorem round_neighbour_is_destination_witness :
    procdiff_left fiveRing 0 3 = some 2 ∧ procdiff_right fiveRing 0 3 = some 2 ∧
    neighbour_left fiveRing 0 2 = some (some 3) ∧ neighbour_right fiveRing 3 2 = some (some 0) ∧
    neighbour_right fiveRing 0 2 = some (some 3) ∧ neighbour_left fiveRing 3 2 = some (some 0) :=
  have h := round_neighbour_is_destination fiveRing 0 3 2 (by decide) (by decide) (by decide)
    (by decide) (by decide)
  ⟨by decide, by decide, (h.1 (by decide)).1, (h.1 (by decide)).2, (h.2.1 (by decide)).1,
    (h.2.1 (by decide)).2⟩

/-- C33: in a round `j >= 2`, for every task `T` with `Local_np_table[T] > 0` the left and
the right neighbour walk of `T` stop at tasks `U` and `V`; the right neighbour that `U`
computes in the round is `T`, and the left neighbour that `V` computes is `T`.  So on
`NTask` tasks every send of the round is matched by the call of the named peer. -/
theorem neighbour_pairing_mutual (c : Config) (j : Nat) (hj : 2 ≤ j) :
    (∀ T, T < c.NTask → c.Local_np_table T ≠ 0 →
      ∃ U V, neighbour_left c T j = some (some U) ∧ neighbour_right c U j = some (some T) ∧
        neighbour_right c T j = some (some V) ∧ neighbour_left c V j = some (some T)) ∧
    (∀ (ts : List TaskState) (ps : List Posted), ts.length = c.NTask →
      postAll c j 0 ts = .ok ps → paired ps = true) := by
  constructor
  · intro T hT hnp
    obtain ⟨U, V, h1, h2, h3, h4, -, -⟩ := neighbours_mutual c T j hj hT hnp
    exact ⟨U, V, h1, h2, h3, h4⟩
  · intro ts ps hlen h
    exact postAll_paired c j hj ts ps hlen h

/-- C33 (witness): on the run `fiveRing` in round 2, task 1 has the left neighbour 4 and
the right neighbour 4 (task 2 is empty and not counted), and task 4 names task 1 on both
sides. -/
theorem neighbour_pairing_mutual_witness :
    (2 ≤ 2) ∧ neighbour_left fiveRing 1 2 = some (some 4) ∧
    neighbour_right fiveRing 1 2 = some (some 4) ∧
    ∃ U V, neighbour_left fiveRing 1 2 = some (some U) ∧
      neighbour_right fiveRing U 2 = some (some 1) ∧
      neighbour_right fiveRing 1 2 = some (some V) ∧
      neighbour_left fiveRing V 2 = some (some 1) :=
  ⟨by decide, by decide, by decide,
    (neighbour_pairing_mutual fiveRing 2 (by decide)).1 1 (by decide) (by decide)⟩

/-- C34: for a task `T` with `Local_np_table[T] > 0` and a destination `D != T` with
`Local_np_table[D] > 0` both ring walks stop, and their hop counts `L` and `R` add up to the
number of tasks with `Local_np_table > 0`; so `min L R`, the hop count that the
classification loop works with for a particle bound for `D`, is at least `1` and at most half
that number. -/
theorem hop_counts_complementary (c : Config) (T D : Nat) (hT : T < c.NTask)
    (hD : D < c.NTask) (hne : D ≠ T) (hnT : c.Local_np_table T ≠ 0)
    (hnD : c.Local_np_table D ≠ 0) :
    ∃ L R, procdiff_left c T D = some L ∧ procdiff_right c T D = some R ∧
      L + R = nonEmptyTasks c ∧ 1 ≤ min L R ∧ 2 * min L R ≤ nonEmptyTasks c ∧
      ∀ p, destTask c p = D → chosenHop c T p = min L R := by
  obtain ⟨L, R, hL, hR, hsum, h1, h2⟩ := hop_sum c T D hT hD hne hnT hnD
  refine ⟨L, R, hL, hR, hsum, le_min h1 h2, ?_, ?_⟩
  · rcases le_total L R with h | h
    · rw [min_eq_left h]; omega
    · rw [min_eq_right h]; omega
  · intro p hp
    rw [← hp] at hL hR
    rw [chosenHop_eq c T p L R hL hR]
    rcases le_or_lt L R with h | h
    · rw [if_pos h, min_eq_left h]
    · rw [if_neg (not_le.mpr h), min_eq_right (le_of_lt h)]

/-- C34 (witness): on the run `fiveRing` (four non-empty tasks) the walks from task 0 to
task 1 count `L = 3` and `R = 1`. -/
theorem hop_counts_complementary_witness :
    nonEmptyTasks fiveRing = 4 ∧ procdiff_left fiveRing 0 1 = some 3 ∧
    procdiff_right fiveRing 0 1 = some 1 ∧
    ∃ L R, procdiff_left fiveRing 0 1 = some L ∧ procdiff_right fiveRing 0 1 = some R ∧
      L + R = nonEmptyTasks fiveRing ∧ 1 ≤ min L R ∧ 2 * min L R ≤ nonEmptyTasks fiveRing ∧
      ∀ p, destTask fiveRing p = 1 → chosenHop fiveRing 0 p = min L R :=
  ⟨by decide, by decide, by decide,
    hop_counts_complementary fiveRing 0 1 (by decide) (by decide) (by decide) (by decide)
      (by decide)⟩

/-! ### Helper lemmas for the termination of `MoveParticles` -/

/-- With all destinations among the ranks, the classification loop does not run out of
iterations: `NumPart - i` of them are enough, and every ring walk it makes stops. -/
theorem classify_stops (c : Config) (T j : Nat) (hT : T < c.NTask) :
    ∀ (fuel i : Nat) (s : Sel), (∀ p ∈ s.P, destTask c p < c.NTask) →
      s.P.length ≤ i + fuel → classify c T j fuel i s ≠ .error Err.diverges := by
  intro fuel
  induction fuel with
  | zero =>
    intro i s _ hlen
    simp only [classify]
    rw [if_neg (by omega)]
    intro h; cases h
  | succ fuel ih =>
    intro i s hQ hlen
    rw [classify]
    cases hp : s.P.get? i with
    | none => simp only; intro h; cases h
    | some p =>
      simp only
      have hi : i < s.P.length := by
        rw [List.get?_eq_some] at hp; exact hp.1
      have hmem : p ∈ s.P := List.get?_mem hp
      have hrem : ∀ q ∈ swapRemove s.P i, destTask c q < c.NTask :=
        fun q hq => hQ q (mem_swapRemove s.P i p q hp hq)
      have hreml : (swapRemove s.P i).length ≤ i + fuel := by
        have := swapRemove_length s.P i hi; omega
      by_cases hd : destTask c p ≠ T
      · rw [if_pos hd]
        obtain ⟨L, R, hL, hR⟩ := hop_walks_stop c T (destTask c p) hT (hQ p hmem) hd
        have hl : procdiff_left c T (destTask c p) = some L := hL _ (by omega)
        have hr : procdiff_right c T (destTask c p) = some R := hR _ (by omega)
        rw [hl, hr]
        simp only
        by_cases h0 : L ≠ 0 ∨ R ≠ 0
        · rw [if_pos h0]
          by_cases hle : L ≤ R
          · rw [if_pos hle]
            by_cases hj : L = j
            · rw [if_pos hj]
              by_cases hov : ((s.P_send_left ++ [p]).length : Int) ≥ send_count_max c T
              · rw [if_pos hov]; intro h; cases h
              · rw [if_neg hov]
                exact ih _ _ hrem hreml
            · rw [if_neg hj]
              exact ih _ _ hQ (by simp only; omega)
          · rw [if_neg hle]
            by_cases hj : R = j
            · rw [if_pos hj]
              by_cases hov : ((s.P_send_right ++ [p]).length : Int) ≥ send_count_max c T
              · rw [if_pos hov]; intro h; cases h
              · rw [if_neg hov]
                exact ih _ _ hrem hreml
            · rw [if_neg hj]
              exact ih _ _ hQ (by simp only; omega)
        · rw [if_neg h0]
          exact ih _ _ hQ (by omega)
      · rw [if_neg hd]
        exact ih _ _ hQ (by omega)

theorem select_stops (c : Config) (T j : Nat) (t : TaskState) (hT : T < c.NTask)
    (hQ : ∀ p ∈ t.P, destTask c p < c.NTask) : select c T j t ≠ .error Err.diverges := by
  unfold select
  simp only
  split_ifs
  · exact classify_stops c T j hT _ _ _ hQ (by simp)
  · intro h; cases h

theorem neighbour_walks_stop (c : Config) (T j : Nat) (hT : T < c.NTask) (hj : 1 ≤ j) :
    neighbour_left c T j ≠ none ∧ neighbour_right c T j ≠ none := by
  unfold neighbour_left neighbour_right Local_np
  by_cases h1 : j = 1
  · rw [if_pos h1, if_pos h1]; exact ⟨by simp, by simp⟩
  · rw [if_neg h1, if_neg h1]
    by_cases hnp : c.Local_np_table T = 0
    · rw [if_pos hnp, if_pos hnp]; exact ⟨by simp, by simp⟩
    · rw [if_neg hnp, if_neg hnp]
      obtain ⟨U, hU⟩ := nbrLeft_exists c j T hT hnp j 0 (j * c.NTask) (by omega) (by omega) le_rfl
      obtain ⟨V, hV⟩ := nbrRight_exists c j T hT hnp j 0 (j * c.NTask) (by omega) (by omega) le_rfl
      rw [hU, hV]
      exact ⟨by simp, by simp⟩

theorem post_stops (c : Config) (T j : Nat) (t : TaskState) (hT : T < c.NTask) (hj : 1 ≤ j)
    (hQ : ∀ p ∈ t.P, destTask c p < c.NTask) : post c T j t ≠ .error Err.diverges := by
  unfold post
  cases hs : select c T j t with
  | error e =>
    simp only
    intro h
    exact select_stops c T j t hT hQ (by rw [hs, Except.error.inj h])
  | ok s =>
    simp only
    obtain ⟨hl, hr⟩ := neighbour_walks_stop c T j hT hj
    cases hl1 : neighbour_left c T j with
    | none => exact absurd hl1 hl
    | some l =>
      cases hr1 : neighbour_right c T j with
      | none => exact absurd hr1 hr
      | some r => simp only; intro h; cases h

theorem postAll_stops (c : Config) (j : Nat) (hj : 1 ≤ j) :
    ∀ (ts : List TaskState) (T0 : Nat), T0 + ts.length ≤ c.NTask →
      (∀ t ∈ ts, ∀ p ∈ t.P, destTask c p < c.NTask) →
      postAll c j T0 ts ≠ .error Err.diverges := by
  intro ts
  induction ts with
  | nil => intro T0 _ _; simp only [postAll]; intro h; cases h
  | cons t ts ih =>
    intro T0 hlen hQ
    rw [List.length_cons] at hlen
    rw [postAll]
    cases hp : post c T0 j t with
    | error e =>
      simp only
      intro h
      exact post_stops c T0 j t (by omega) hj (hQ t (List.mem_cons_self _ _)) (by rw [hp, Except.error.inj h])
    | ok p =>
      simp only
      cases hps : postAll c j (T0 + 1) ts with
      | error e =>
        simp only
        intro h
        exact ih (T0 + 1) (by omega) (fun t1 ht1 => hQ t1 (List.mem_cons_of_mem _ ht1))
          (by rw [hps, Except.error.inj h])
      | ok ps => simp only; intro h; cases h

theorem receiveAll_stops (c : Config) (ps0 : List Posted) :
    ∀ (ps : List Posted) (T0 : Nat), receiveAll c ps0 T0 ps ≠ .error Err.diverges := by
  intro ps
  induction ps with
  | nil => intro T0; simp only [receiveAll]; intro h; cases h
  | cons p ps ih =>
    intro T0
    rw [receiveAll]
    cases hr : receive c ps0 T0 p with
    | error e =>
      simp only
      intro h
      unfold receive at hr
      split_ifs at hr
      have he := Except.error.inj hr
      subst he
      cases h
    | ok t =>
      simp only
      cases hrs : receiveAll c ps0 (T0 + 1) ps with
      | error e =>
        simp only
        intro h
        exact ih (T0 + 1) (by rw [hrs, Except.error.inj h])
      | ok ts => simp only; intro h; cases h

/-- A round does not diverge, and it keeps all destinations among the ranks. -/
theorem round_stops (c : Config) (j : Nat) (ts : List TaskState) (hj : 1 ≤ j)
    (hlen : ts.length = c.NTask) (hQ : ∀ t ∈ ts, ∀ p ∈ t.P, destTask c p < c.NTask) :
    round c j ts ≠ .error Err.diverges ∧
    ∀ ts1, round c j ts = .ok ts1 →
      ts1.length = c.NTask ∧ ∀ t ∈ ts1, ∀ p ∈ t.P, destTask c p < c.NTask := by
  constructor
  · unfold round
    cases hp : postAll c j 0 ts with
    | error e =>
      simp only
      intro h
      exact postAll_stops c j hj ts 0 (by omega) hQ (by rw [hp, Except.error.inj h])
    | ok ps =>
      simp only
      split_ifs
      · exact receiveAll_stops c ps ps 0
      · intro h; cases h
  · intro ts1 h
    obtain ⟨ps, -, hpl, hlen1, hall⟩ := round_spec c j ts ts1 h
    refine ⟨by omega, ?_⟩
    have hsent : ∀ r q, ps.get? r = some q →
        (∀ x ∈ q.sel.P, destTask c x < c.NTask) ∧
        (∀ x ∈ q.sel.P_send_left, destTask c x < c.NTask) ∧
        (∀ x ∈ q.sel.P_send_right, destTask c x < c.NTask) := by
      intro r q hq
      have hr : r < ts.length := by
        rw [List.get?_eq_some] at hq; obtain ⟨h1, -⟩ := hq; omega
      obtain ⟨t, p, t1, ht, hp, -, hpost, -⟩ := hall r hr
      rw [hq] at hp
      cases hp
      obtain ⟨hsel, -, -⟩ := post_spec c r j t q hpost
      obtain ⟨-, b, cL, cR, -⟩ := select_spec c r j t q.sel hsel
      have htm : t ∈ ts := List.get?_mem ht
      exact ⟨fun x hx => hQ t htm x (b x hx).1, fun x hx => hQ t htm x (cL x hx).1,
        fun x hx => hQ t htm x (cR x hx).1⟩
    intro t1 ht1 x hx
    obtain ⟨T, hT⟩ := List.get?_of_mem ht1
    have hTlt : T < ts.length := by
      rw [List.get?_eq_some] at hT; obtain ⟨h1, -⟩ := hT; omega
    obtain ⟨t, p, t1', ht, hp, ht1', hpost, hrecv⟩ := hall T hTlt
    rw [hT] at ht1'
    cases ht1'
    obtain ⟨hP, -, -⟩ := receive_spec c ps T p t1 hrecv
    rw [hP] at hx
    rcases List.mem_append.mp hx with hx | hx
    · rcases List.mem_append.mp hx with hx | hx
      · exact (hsent T p hp).1 x hx
      · unfold recvRight at hx
        cases hr : p.right with
        | none => rw [hr] at hx; cases hx
        | some r =>
          rw [hr] at hx
          simp only at hx
          cases hq : ps.get? r with
          | none => rw [hq] at hx; cases hx
          | some q => rw [hq] at hx; exact (hsent r q hq).2.1 x hx
    · unfold recvLeft at hx
      cases hl : p.left with
      | none => rw [hl] at hx; cases hx
      | some l =>
        rw [hl] at hx
        simp only at hx
        cases hq : ps.get? l with
        | none => rw [hq] at hx; cases hx
        | some q => rw [hq] at hx; exact (hsent l q hq).2.2 x hx

theorem rounds_stop (c : Config) :
    ∀ (n j : Nat) (ts : List TaskState), 1 ≤ j → ts.length = c.NTask →
      (∀ t ∈ ts, ∀ p ∈ t.P, destTask c p < c.NTask) →
      rounds c n j ts ≠ .error Err.diverges := by
  intro n
  induction n with
  | zero => intro j ts _ _ _; simp only [rounds]; intro h; cases h
  | succ n ih =>
    intro j ts hj hlen hQ
    rw [rounds]
    obtain ⟨h1, h2⟩ := round_stops c j ts hj hlen hQ
    cases hr : round c j ts with
    | error e => simp only; intro h; exact h1 (by rw [hr, Except.error.inj h])
    | ok ts1 =>
      simp only
      obtain ⟨hl1, hQ1⟩ := h2 ts1 hr
      exact ih (j + 1) ts1 (by omega) hl1 hQ1

theorem slabX_floor (c : Config) (p : part_data) (h0 : 0 ≤ ⌊p.Pos.1 * scaleBox c⌋) :
    slabX c p = ⌊p.Pos.1 * scaleBox c⌋ := by
  unfold slabX toInt
  rw [if_pos (Int.floor_nonneg.mp h0)]

/-! ### Claims on the termination of `MoveParticles` -/

/-- C35: for `NTask >= 1` tasks, a table `Slab_to_task` with values in `[0, NTask)` and
particles with `floor(Pos[0]*Nmesh/Box)` in `[0, Nmesh)`, no loop of `MoveParticles` runs
on for ever: the run does not end in `diverges`; each hop-count ring walk to another rank
stops within `NTask - 1` steps (and `procdiff_left`, `procdiff_right` are its result); each
neighbour walk of a round `j >= 1` on a task with `Local_np > 0` stops within `j` laps of the
ring; the classification loop started with `NumPart` passes allowed never needs more; and
the outer loop makes `procdiffmaxglob - 1` further rounds, none of which diverges. -/
theorem MoveParticles_terminates (c : Config) (Ps : List (List part_data))
    (hN : 1 ≤ c.NTask) (hlen : Ps.length = c.NTask)
    (hS : ∀ x < c.Nmesh, c.Slab_to_task x < c.NTask)
    (hX : ∀ P ∈ Ps, ∀ p ∈ P,
      0 ≤ ⌊p.Pos.1 * scaleBox c⌋ ∧ ⌊p.Pos.1 * scaleBox c⌋ < (c.Nmesh : Int)) :
    MoveParticles c Ps ≠ .error Err.diverges ∧
    (∀ T D, T < c.NTask → D < c.NTask → D ≠ T →
      ∃ L R, hopLoopLeft c D (c.NTask - 1) T 0 = some L ∧ procdiff_left c T D = some L ∧
        hopLoopRight c D (c.NTask - 1) T 0 = some R ∧ procdiff_right c T D = some R) ∧
    (∀ T j, T < c.NTask → Local_np c T ≠ 0 → 1 ≤ j →
      ∃ U V, nbrLoopLeft c j (j * c.NTask) T 0 = some U ∧
        nbrLoopRight c j (j * c.NTask) T 0 = some V) ∧
    (∀ T j fuel (s : Sel), T < c.NTask → (∀ p ∈ s.P, destTask c p < c.NTask) →
      s.P.length ≤ fuel → classify c T j fuel 0 s ≠ .error Err.diverges) ∧
    (∀ ts1, round c 1 (initial Ps) = .ok ts1 →
      rounds c (procdiffmaxglob ts1 - 1) 2 ts1 ≠ .error Err.diverges) := by
  have _ := hN
  have hQ0 : ∀ t ∈ initial Ps, ∀ p ∈ t.P, destTask c p < c.NTask := by
    intro t ht p hp
    unfold initial at ht
    obtain ⟨P, hP, rfl⟩ := List.mem_map.mp ht
    obtain ⟨h0, h1⟩ := hX P hP p hp
    unfold destTask
    apply hS
    rw [slabX_floor c p h0]
    omega
  have hlen0 : (initial Ps).length = c.NTask := by
    unfold initial; rw [List.length_map]; exact hlen
  obtain ⟨hr1, hr2⟩ := round_stops c 1 (initial Ps) le_rfl hlen0 hQ0
  refine ⟨?_, ?_, ?_, ?_, ?_⟩
  · unfold MoveParticles
    cases h1 : round c 1 (initial Ps) with
    | error e => simp only; intro h; exact hr1 (by rw [h1, Except.error.inj h])
    | ok ts1 =>
      simp only
      obtain ⟨hl1, hQ1⟩ := hr2 ts1 h1
      cases h2 : rounds c (procdiffmaxglob ts1 - 1) 2 ts1 with
      | error e =>
        simp only
        intro h
        exact rounds_stop c _ 2 ts1 (by omega) hl1 hQ1 (by rw [h2, Except.error.inj h])
      | ok ts => simp only; intro h; cases h
  · intro T D hT hD hne
    obtain ⟨L, R, hL, hR⟩ := hop_walks_stop c T D hT hD hne
    exact ⟨L, R, hL _ le_rfl, hL _ (by omega), hR _ le_rfl, hR _ (by omega)⟩
  · intro T j hT hnp hj
    obtain ⟨U, hU⟩ := nbrLeft_exists c j T hT hnp j 0 (j * c.NTask) (by omega) (by omega) le_rfl
    obtain ⟨V, hV⟩ := nbrRight_exists c j T hT hnp j 0 (j * c.NTask) (by omega) (by omega) le_rfl
    exact ⟨U, V, hU, hV⟩
  · intro T j fuel s hT hQ hf
    exact classify_stops c T j hT fuel 0 s hQ (by omega)
  · intro ts1 h1
    obtain ⟨hl1, hQ1⟩ := hr2 ts1 h1
    exact rounds_stop c _ 2 ts1 (by omega) hl1 hQ1

/-- C35 (witness): two tasks; the particle of task 0 lies in the slab of task 1, and the
run ends with the particle on task 1. -/
theorem MoveParticles_terminates_witness :
    MoveParticles twoTasks [[particleAt (3/4) 0 0], []] = .ok [[], [particleAt (3/4) 0 0]] ∧
    MoveParticles twoTasks [[particleAt (3/4) 0 0], []] ≠ .error Err.diverges :=
  ⟨by decide!,
    (MoveParticles_terminates twoTasks [[particleAt (3/4) 0 0], []] (by decide) (by decide)
      (by decide) (by decide!)).1⟩

/-! ### Helper lemmas for the deposit on one task -/

theorem foldl_addAt_apply {α : Type} (key : α → Nat) (wt : α → ℚ) (ws : List α) (g : Grid)
    (n : Nat) :
    (ws.foldl (fun d w => addAt d (key w) (wt w)) g) n
      = g n + (ws.map fun w => if key w = n then wt w else 0).sum := by
  induction ws generalizing g with
  | nil => simp
  | cons w ws ih =>
    rw [List.foldl_cons, ih, List.map_cons, List.sum_cons]
    unfold addAt
    by_cases h : key w = n
    · rw [if_pos h.symm, if_pos h]; ring
    · rw [if_neg (fun e => h e.symm), if_neg h]; ring

theorem deposit_apply (c : Config) (T : Nat) (g : Grid) (p : part_data) (n : Nat) :
    PtoMesh_deposit c T g p n = g n + (PtoMesh_stencil c T p).addedAt c n := by
  unfold PtoMesh_deposit Stencil.addedAt
  exact foldl_addAt_apply (fun w : (Nat × Nat × Nat) × ℚ => gridIndex c w.1.1 w.1.2.1 w.1.2.2)
    (fun w => w.2) _ g n

theorem local_apply (c : Config) (T : Nat) (P : List part_data) (g : Grid) (n : Nat) :
    (P.foldl (PtoMesh_deposit c T) g) n
      = g n + (P.map fun p => (PtoMesh_stencil c T p).addedAt c n).sum := by
  induction P generalizing g with
  | nil => simp
  | cons p P ih =>
    rw [List.foldl_cons, ih, deposit_apply, List.map_cons, List.sum_cons]
    ring

/-- What a stencil with `Y` and `Z` indices below `Nmesh` adds to the cell `(a, y, z)`: the
product of the shares along the three axes. -/
theorem addedAt_cell (c : Config) (s : Stencil) (a y z : Nat)
    (hy : y < c.Nmesh) (hz : z < c.Nmesh) (h1 : s.IY < c.Nmesh) (h2 : s.IYneigh < c.Nmesh)
    (h3 : s.IZ < c.Nmesh) (h4 : s.IZneigh < c.Nmesh) :
    s.addedAt c (gridIndex c a y z)
      = ((if s.IX = a then s.TX else 0) + (if s.IXneigh = a then s.DX else 0))
        * ((if s.IY = y then s.TY else 0) + (if s.IYneigh = y then s.DY else 0))
        * ((if s.IZ = z then s.TZ else 0) + (if s.IZneigh = z then s.DZ else 0)) := by
  have e : ∀ i j k, j < c.Nmesh → k < c.Nmesh →
      (gridIndex c i j k = gridIndex c a y z ↔ i = a ∧ j = y ∧ k = z) := by
    intro i j k hj hk
    constructor
    · exact fun h => gridIndex_inj c hj hk hy hz h
    · rintro ⟨rfl, rfl, rfl⟩; rfl
  unfold Stencil.addedAt Stencil.writes
  simp only [List.map_cons, List.map_nil, List.sum_cons, List.sum_nil, e _ _ _ h1 h3,
    e _ _ _ h1 h4, e _ _ _ h2 h3, e _ _ _ h2 h4]
  by_cases a1 : s.IX = a <;> by_cases a2 : s.IXneigh = a <;> by_cases b1 : s.IY = y <;>
    by_cases b2 : s.IYneigh = y <;> by_cases c1 : s.IZ = z <;> by_cases c2 : s.IZneigh = z <;>
    simp only [a1, a2, b1, b2, c1, c2, true_and, and_true, and_self, false_and, and_false,
      if_true, if_false] <;> ring

theorem toUInt_lt (c : Config) (u : ℚ) (hBox : 0 < c.Box) (hu : 0 ≤ u ∧ u < c.Box)
    (hN : 0 < c.Nmesh) : toUInt (u * scaleBox c) < c.Nmesh := by
  unfold toUInt scaleBox
  have h0 : 0 ≤ u * ((c.Nmesh : ℚ) / c.Box) :=
    mul_nonneg hu.1 (div_nonneg (Nat.cast_nonneg _) hBox.le)
  have hlt : u * ((c.Nmesh : ℚ) / c.Box) < c.Nmesh := by
    have hN' : (0 : ℚ) < c.Nmesh := by exact_mod_cast hN
    rw [mul_div_assoc', div_lt_iff₀ hBox]
    nlinarith [hu.1, hu.2]
  have hfl : ⌊u * ((c.Nmesh : ℚ) / c.Box)⌋ < (c.Nmesh : Int) := by
    rw [Int.floor_lt]; exact_mod_cast hlt
  have hge : 0 ≤ ⌊u * ((c.Nmesh : ℚ) / c.Box)⌋ := Int.floor_nonneg.mpr h0
  omega

theorem wrap_neigh_mod (N I : Nat) (hI : I < N) :
    (if I + 1 ≥ N then 0 else I + 1) = (I + 1) % N := by
  by_cases h : I + 1 ≥ N
  · rw [if_pos h, show I + 1 = N by omega, Nat.mod_self]
  · rw [if_neg h, Nat.mod_eq_of_lt (by omega)]

/-- The stencil of a particle with coordinates in `[0, Box)` on a single-task run. -/
theorem stencil_single (c : Config) (p : part_data) (hxs : c.Local_x_start 0 = 0)
    (hBox : 0 < c.Box) (hN32 : c.Nmesh < 2 ^ 32) (hN : 0 < c.Nmesh)
    (hp : (0 ≤ p.Pos.1 ∧ p.Pos.1 < c.Box) ∧ (0 ≤ p.Pos.2.1 ∧ p.Pos.2.1 < c.Box) ∧
      (0 ≤ p.Pos.2.2 ∧ p.Pos.2.2 < c.Box)) :
    (PtoMesh_stencil c 0 p).IX = toUInt (p.Pos.1 * scaleBox c) ∧
    (PtoMesh_stencil c 0 p).IXneigh = toUInt (p.Pos.1 * scaleBox c) + 1 ∧
    (PtoMesh_stencil c 0 p).IY = toUInt (p.Pos.2.1 * scaleBox c) ∧
    (PtoMesh_stencil c 0 p).IYneigh = (toUInt (p.Pos.2.1 * scaleBox c) + 1) % c.Nmesh ∧
    (PtoMesh_stencil c 0 p).IZ = toUInt (p.Pos.2.2 * scaleBox c) ∧
    (PtoMesh_stencil c 0 p).IZneigh = (toUInt (p.Pos.2.2 * scaleBox c) + 1) % c.Nmesh := by
  have hx := toUInt_lt c _ hBox hp.1 hN
  have hy := toUInt_lt c _ hBox hp.2.1 hN
  have hz := toUInt_lt c _ hBox hp.2.2 hN
  have e1 : usub32 (toUInt (p.Pos.1 * scaleBox c)) (c.Local_x_start 0)
      = toUInt (p.Pos.1 * scaleBox c) := by
    unfold usub32; rw [hxs, if_pos (Nat.zero_le _)]; rfl
  refine ⟨e1, ?_, ?_, ?_, ?_, ?_⟩
  · show uinc32 (usub32 (toUInt (p.Pos.1 * scaleBox c)) (c.Local_x_start 0)) = _
    rw [e1]; unfold uinc32; rw [if_neg (by omega)]
  · show (if toUInt (p.Pos.2.1 * scaleBox c) ≥ c.Nmesh then 0
      else toUInt (p.Pos.2.1 * scaleBox c)) = _
    rw [if_neg (by omega)]
  · show (if (if toUInt (p.Pos.2.1 * scaleBox c) ≥ c.Nmesh then 0
      else toUInt (p.Pos.2.1 * scaleBox c)) + 1 ≥ c.Nmesh then 0
      else (if toUInt (p.Pos.2.1 * scaleBox c) ≥ c.Nmesh then 0
      else toUInt (p.Pos.2.1 * scaleBox c)) + 1) = _
    rw [if_neg (by omega : ¬ toUInt (p.Pos.2.1 * scaleBox c) ≥ c.Nmesh)]
    exact wrap_neigh_mod _ _ hy
  · show (if toUInt (p.Pos.2.2 * scaleBox c) ≥ c.Nmesh then 0
      else toUInt (p.Pos.2.2 * scaleBox c)) = _
    rw [if_neg (by omega)]
  · show (if (if toUInt (p.Pos.2.2 * scaleBox c) ≥ c.Nmesh then 0
      else toUInt (p.Pos.2.2 * scaleBox c)) + 1 ≥ c.Nmesh then 0
      else (if toUInt (p.Pos.2.2 * scaleBox c) ≥ c.Nmesh then 0
      else toUInt (p.Pos.2.2 * scaleBox c)) + 1) = _
    rw [if_neg (by omega : ¬ toUInt (p.Pos.2.2 * scaleBox c) ≥ c.Nmesh)]
    exact wrap_neigh_mod _ _ hz

theorem periodicCIC_share_eq (N : Nat) (u : ℚ) (a : Nat) :
    periodicCIC_share N u a
      = (if a = toUInt u then 1 - (u - (toUInt u : ℚ)) else 0)
        + (if a = (toUInt u + 1) % N then u - (toUInt u : ℚ) else 0) := rfl

/-- On a single-task run, what a particle adds to the owned cell `(x, y, z)` and, for
`x = 0`, to the halo cell `(Nmesh, y, z)` is its periodic CIC weight at `(x, y, z)`. -/
theorem addedAt_periodic (c : Config) (p : part_data) (x y z : Nat)
    (hxs : c.Local_x_start 0 = 0) (hBox : 0 < c.Box) (hN32 : c.Nmesh < 2 ^ 32)
    (hx : x < c.Nmesh) (hy : y < c.Nmesh) (hz : z < c.Nmesh)
    (hp : (0 ≤ p.Pos.1 ∧ p.Pos.1 < c.Box) ∧ (0 ≤ p.Pos.2.1 ∧ p.Pos.2.1 < c.Box) ∧
      (0 ≤ p.Pos.2.2 ∧ p.Pos.2.2 < c.Box)) :
    (PtoMesh_stencil c 0 p).addedAt c (gridIndex c x y z)
      + (if x = 0 then (PtoMesh_stencil c 0 p).addedAt c (gridIndex c c.Nmesh y z) else 0)
      = periodicCIC_weight c p x y z := by
  have hN : 0 < c.Nmesh := by omega
  have hIx := toUInt_lt c _ hBox hp.1 hN
  have hIy := toUInt_lt c _ hBox hp.2.1 hN
  have hIz := toUInt_lt c _ hBox hp.2.2 hN
  obtain ⟨s1, s2, s3, s4, s5, s6⟩ := stencil_single c p hxs hBox hN32 hN hp
  have hm1 : (toUInt (p.Pos.2.1 * scaleBox c) + 1) % c.Nmesh < c.Nmesh := Nat.mod_lt _ hN
  have hm2 : (toUInt (p.Pos.2.2 * scaleBox c) + 1) % c.Nmesh < c.Nmesh := Nat.mod_lt _ hN
  rw [addedAt_cell c _ x y z hy hz (by rw [s3]; exact hIy) (by rw [s4]; exact hm1)
      (by rw [s5]; exact hIz) (by rw [s6]; exact hm2),
    addedAt_cell c _ c.Nmesh y z hy hz (by rw [s3]; exact hIy) (by rw [s4]; exact hm1)
      (by rw [s5]; exact hIz) (by rw [s6]; exact hm2)]
  rw [s1, s2, s3, s4, s5, s6]
  have hX : ((if toUInt (p.Pos.1 * scaleBox c) = x then (PtoMesh_stencil c 0 p).TX else 0)
        + (if toUInt (p.Pos.1 * scaleBox c) + 1 = x then (PtoMesh_stencil c 0 p).DX else 0))
      + (if x = 0 then
          ((if toUInt (p.Pos.1 * scaleBox c) = c.Nmesh then (PtoMesh_stencil c 0 p).TX else 0)
          + (if toUInt (p.Pos.1 * scaleBox c) + 1 = c.Nmesh then (PtoMesh_stencil c 0 p).DX
              else 0)) else 0)
      = periodicCIC_share c.Nmesh (p.Pos.1 * scaleBox c) x := by
    have hTX : (PtoMesh_stencil c 0 p).TX
        = 1 - (p.Pos.1 * scaleBox c - (toUInt (p.Pos.1 * scaleBox c) : ℚ)) := rfl
    have hDX : (PtoMesh_stencil c 0 p).DX
        = p.Pos.1 * scaleBox c - (toUInt (p.Pos.1 * scaleBox c) : ℚ) := rfl
    rw [hTX, hDX]
    rw [periodicCIC_share_eq, ← wrap_neigh_mod _ _ hIx]
    generalize toUInt (p.Pos.1 * scaleBox c) = I at hIx ⊢
    split_ifs <;> first | (exfalso; omega) | ring
  have hY : ((if toUInt (p.Pos.2.1 * scaleBox c) = y then (PtoMesh_stencil c 0 p).TY else 0)
        + (if (toUInt (p.Pos.2.1 * scaleBox c) + 1) % c.Nmesh = y
            then (PtoMesh_stencil c 0 p).DY else 0))
      = WPAR c * periodicCIC_share c.Nmesh (p.Pos.2.1 * scaleBox c) y := by
    have hTY : (PtoMesh_stencil c 0 p).TY
        = (1 - (p.Pos.2.1 * scaleBox c - (toUInt (p.Pos.2.1 * scaleBox c) : ℚ))) * WPAR c := rfl
    have hDY : (PtoMesh_stencil c 0 p).DY
        = (p.Pos.2.1 * scaleBox c - (toUInt (p.Pos.2.1 * scaleBox c) : ℚ)) * WPAR c := rfl
    rw [hTY, hDY]
    rw [periodicCIC_share_eq]
    generalize toUInt (p.Pos.2.1 * scaleBox c) = I
    generalize (I + 1) % c.Nmesh = J
    split_ifs <;> first | (exfalso; omega) | ring
  have hZ : ((if toUInt (p.Pos.2.2 * scaleBox c) = z then (PtoMesh_stencil c 0 p).TZ else 0)
        + (if (toUInt (p.Pos.2.2 * scaleBox c) + 1) % c.Nmesh = z
            then (PtoMesh_stencil c 0 p).DZ else 0))
      = periodicCIC_share c.Nmesh (p.Pos.2.2 * scaleBox c) z := by
    have hTZ : (PtoMesh_stencil c 0 p).TZ
        = 1 - (p.Pos.2.2 * scaleBox c - (toUInt (p.Pos.2.2 * scaleBox c) : ℚ)) := rfl
    have hDZ : (PtoMesh_stencil c 0 p).DZ
        = p.Pos.2.2 * scaleBox c - (toUInt (p.Pos.2.2 * scaleBox c) : ℚ) := rfl
    rw [hTZ, hDZ]
    rw [periodicCIC_share_eq]
    generalize toUInt (p.Pos.2.2 * scaleBox c) = I
    generalize (I + 1) % c.Nmesh = J
    split_ifs <;> first | (exfalso; omega) | ring
  rw [hY]
  unfold periodicCIC_weight
  rw [← hX, ← hZ]
  by_cases h0 : x = 0
  · simp only [h0, if_true]; ring
  · simp only [h0, if_false]; ring

theorem sum_map_add (P : List part_data) (f g h : part_data → ℚ)
    (H : ∀ p ∈ P, f p + g p = h p) : (P.map f).sum + (P.map g).sum = (P.map h).sum := by
  induction P with
  | nil => simp
  | cons p P ih =>
    rw [List.map_cons, List.map_cons, List.map_cons, List.sum_cons, List.sum_cons,
      List.sum_cons, ← H p (List.mem_cons_self _ _),
      ← ih (fun q hq => H q (List.mem_cons_of_mem _ hq))]
    ring

/-! ### Claims on the deposit on one task -/

/-- C36: on a run with one task (`LeftTask = RightTask = 0`, `Local_x_start = 0`,
`Local_nx = Nmesh`) that holds at least one particle, all with coordinates in `[0, Box)`,
`PtoMesh` leaves in every owned cell `(x, y, z)` with `x, y, z < Nmesh` the value of the
reference deposit `periodicCIC`: `-1` plus the sum over the particles of the periodic CIC
weight, in which the X neighbour is `(IX + 1) mod Nmesh`. -/
theorem PtoMesh_single_task_periodic (c : Config) (Ps : Nat → List part_data)
    (old : Nat → Grid) (hNT : c.NTask = 1) (hL : c.LeftTask 0 = some 0)
    (hR : c.RightTask 0 = some 0) (hxs : c.Local_x_start 0 = 0)
    (hnx : c.Local_nx 0 = c.Nmesh) (hBox : 0 < c.Box) (hN32 : c.Nmesh < 2 ^ 32)
    (hne : Ps 0 ≠ [])
    (hpos : ∀ p ∈ Ps 0, (0 ≤ p.Pos.1 ∧ p.Pos.1 < c.Box) ∧
      (0 ≤ p.Pos.2.1 ∧ p.Pos.2.1 < c.Box) ∧ (0 ≤ p.Pos.2.2 ∧ p.Pos.2.2 < c.Box)) :
    ∀ x y z, x < c.Nmesh → y < c.Nmesh → z < c.Nmesh →
      PtoMesh c Ps old 0 (gridIndex c x y z) = periodicCIC c (Ps 0) x y z := by
  have _ := hNT
  have _ := hR
  intro x y z hx hy hz
  have hlen : (Ps 0).length ≠ 0 := fun h => hne (List.length_eq_zero.mp h)
  have hloc : ∀ a, a ≤ c.Nmesh → PtoMesh_local c 0 (Ps 0) (old 0) (gridIndex c a y z)
      = -1 + ((Ps 0).map fun p => (PtoMesh_stencil c 0 p).addedAt c (gridIndex c a y z)).sum := by
    intro a ha
    unfold PtoMesh_local
    rw [local_apply, if_pos]
    have := gridIndex_lt c (Nat.lt_succ_of_le ha) hy hz
    unfold Total_size
    rw [hnx]
    exact this
  have hsum := sum_map_add (Ps 0)
    (fun p => (PtoMesh_stencil c 0 p).addedAt c (gridIndex c x y z))
    (fun p => if x = 0 then (PtoMesh_stencil c 0 p).addedAt c (gridIndex c c.Nmesh y z) else 0)
    (fun p => periodicCIC_weight c p x y z)
    (fun p hp => addedAt_periodic c p x y z hxs hBox hN32 hx hy hz (hpos p hp))
  unfold periodicCIC
  rw [← hsum]
  unfold PtoMesh PtoMesh_merge temp_density
  rw [if_pos hlen, hL]
  simp only
  by_cases h0 : x = 0
  · subst h0
    have hlt : gridIndex c 0 y z < 2 * alloc_slice c := by
      have := gridIndex_lt c (Nat.zero_lt_one) hy hz
      rw [Nat.one_mul] at this
      exact this
    have hhalo : 2 * last_slice c 0 + gridIndex c 0 y z = gridIndex c c.Nmesh y z := by
      unfold last_slice; rw [hnx]; exact gridIndex_halo c c.Nmesh y z
    rw [if_pos hlt, if_pos hlt, hhalo, hloc 0 (Nat.zero_le _), hloc c.Nmesh le_rfl]
    simp only [if_true]
    ring
  · obtain ⟨x1, rfl⟩ : ∃ x1, x = x1 + 1 := ⟨x - 1, by omega⟩
    have hge := gridIndex_ge c x1 y z
    rw [if_neg (by omega), hloc (x1 + 1) (by omega)]
    simp only [h0, if_false, List.map_const', List.sum_replicate, smul_zero, add_zero]

/-- C36 (witness): the run `oneTask` (`Nmesh = 2`) with one particle at
`(3/4, 1/4, 1/4)`, whose X neighbour cell is the halo slice: the cell `(0, 0, 0)` holds
`-1 + 8 * (1/2 * 1/2 * 1/2) = 0`, the value of the reference deposit. -/
theorem PtoMesh_single_task_periodic_witness :
    PtoMesh oneTask (fun _ => [particleAt (3/4) (1/4) (1/4)]) (fun _ _ => 0) 0
      (gridIndex oneTask 0 0 0) = periodicCIC oneTask [particleAt (3/4) (1/4) (1/4)] 0 0 0 ∧
    periodicCIC oneTask [particleAt (3/4) (1/4) (1/4)] 0 0 0 = 0 ∧
    (PtoMesh_stencil oneTask 0 (particleAt (3/4) (1/4) (1/4))).IXneigh = oneTask.Nmesh :=
  ⟨PtoMesh_single_task_periodic oneTask (fun _ => [particleAt (3/4) (1/4) (1/4)])
      (fun _ _ => 0) (by decide) (by decide) (by decide) (by decide) (by decide) (by decide!)
      (by decide) (by simp) (by
        intro p hp
        rw [List.mem_singleton.mp hp]
        decide!) 0 0 0 (by decide) (by decide) (by decide),
    by decide!, by decide!⟩

end PICOLA
